import Mathlib

/-!
Wavix / WAVM runtime: object registry, garbage collector and module instantiation.

A shallow embedding of `WAVM/Lib/Runtime/ObjectGC.cpp`, `WAVM/Lib/Runtime/Module.cpp`, the
object layouts of `Lib/Runtime/RuntimePrivate.h` and `Floats::asString` of
`WAVM/Include/WAVM/Inline/Floats.h`.

* A pointer is a natural number; `none : Option Ptr` is `nullptr`.
* The process heap is an association list from addresses to objects.  Its key list is
  `GCGlobals::allObjects`; iteration order of the `HashSet` is the order of the list.
* `HashSet` / `HashMap` / `IndexMap` are lists read as sets (maps): `remove` drops every
  occurrence of the key, `add` refuses a key that is present.
* C++ exceptions keep the heap that was built up to the throw, so every fallible operation
  returns an `Outcome` that carries the heap on both branches.
* A float is its bit pattern, a natural number; the bit fields of `FloatComponents` are read
  from it with `/` and `%`.
-/

namespace Wavix

/-! ## Basic types -/

/-- Address of a runtime object. -/
abbrev Ptr := Nat

/-- The largest value of `Uptr` (`UINTPTR_MAX`) on the 64-bit targets WAVM supports. -/
def UINTPTR_MAX : Nat := 2 ^ 64 - 1

/-- Number of bytes of a WebAssembly page (`IR::numBytesPerPage`). -/
def numBytesPerPage : Nat := 65536

/-- Value types of the IR (`IR::ValueType`). -/
inductive ValueType
  | any | i32 | i64 | f32 | f64 | v128 | anyref | anyfunc | nullref
  deriving DecidableEq, Repr, Inhabited

/-- A function signature (`IR::FunctionType`); `IR::FunctionType()` is `() -> ()`. -/
structure FunctionType where
  results : List ValueType := []
  params : List ValueType := []
  deriving DecidableEq, Repr, Inhabited

/-- Size bounds of a table or memory (`IR::SizeConstraints`). -/
structure SizeConstraints where
  min : Nat
  max : Nat
  deriving DecidableEq, Repr, Inhabited

/-- Type of a table (`IR::TableType`). -/
structure TableType where
  elementType : ValueType
  isShared : Bool
  size : SizeConstraints
  deriving DecidableEq, Repr, Inhabited

/-- Type of a memory (`IR::MemoryType`). -/
structure MemoryType where
  isShared : Bool
  size : SizeConstraints
  deriving DecidableEq, Repr, Inhabited

/-- Type of a global (`IR::GlobalType`). -/
structure GlobalType where
  valueType : ValueType
  isMutable : Bool
  deriving DecidableEq, Repr, Inhabited

/-- Type of an exception (`IR::ExceptionType`). -/
structure ExceptionType where
  params : List ValueType
  deriving DecidableEq, Repr, Inhabited

/-- Calling conventions (`IR::CallingConvention`). -/
inductive CallingConvention
  | wasm | intrinsic | c
  deriving DecidableEq, Repr, Inhabited

/-- An untagged value (`IR::UntaggedValue`): the raw bit pattern of the union. -/
abbrev UntaggedValue := Nat

/-- A tagged value (`IR::Value`). -/
structure Value where
  type : ValueType
  bits : UntaggedValue
  deriving DecidableEq, Repr, Inhabited

/-- Reading the `i32` member of the union gives the low 32 bits. -/
def Value.i32 (v : Value) : Nat := v.bits % 2 ^ 32

/-! ## Association lists used for `HashSet`, `HashMap` and `IndexMap` -/

section Assoc

variable {κ : Type} {β : Type} [DecidableEq κ]

/-- Lookup of a key (`HashMap::get`, or dereferencing an address). -/
def assocGet (k : κ) : List (κ × β) → Option β
  | [] => none
  | e :: rest => if e.1 = k then some e.2 else assocGet k rest

/-- In-place update of the value stored under a key. -/
def assocModify (k : κ) (f : β → β) (l : List (κ × β)) : List (κ × β) :=
  l.map (fun e => (e.1, if e.1 = k then f e.2 else e.2))

/-- Removal of a key (`HashMap::remove`). -/
def assocRemove (k : κ) (l : List (κ × β)) : List (κ × β) :=
  l.filter (fun e => decide (e.1 ≠ k))

/-- Fallible insertion (`HashMap::add`): `none` when the key is present. -/
def assocAdd (k : κ) (v : β) (l : List (κ × β)) : Option (List (κ × β)) :=
  if k ∈ l.map Prod.fst then none else some (l ++ [(k, v)])

/-- Fallible insertion into a set (`HashSet::add`): `none` when the element is present. -/
def setAdd (k : κ) (l : List κ) : Option (List κ) :=
  if k ∈ l then none else some (l ++ [k])

/-- Removal from a set (`HashSet::remove`): the set without the element. -/
def setRemove (k : κ) (l : List κ) : List κ :=
  l.filter (fun e => decide (e ≠ k))

/-- Fallible removal from a set (`HashSet::removeOrFail`): `none` when the element is absent. -/
def setRemoveOrFail (k : κ) (l : List κ) : Option (List κ) :=
  if k ∈ l then some (setRemove k l) else none

end Assoc

/-! ## IR of a module (`IR::Module`), as far as `instantiateModule` reads it -/

/-- Initializer expressions (`IR::InitializerExpression`): the type tag with the member of the
union it selects.  `invalid` stands for any tag outside the seven handled by the runtime. -/
inductive InitializerExpression
  | i32_const (i32 : Nat)
  | i64_const (i64 : Nat)
  | f32_const (f32 : Nat)
  | f64_const (f64 : Nat)
  | v128_const (v128 : Nat)
  | get_global (globalIndex : Nat)
  | ref_null
  | invalid
  deriving DecidableEq, Repr, Inhabited

/-- An import of the IR with its declared type. -/
structure Import (τ : Type) where
  type : τ
  moduleName : String := ""
  exportName : String := ""
  deriving DecidableEq, Repr

/-- Index into `IR::Module::types` (`IR::IndexedFunctionType`). -/
structure IndexedFunctionType where
  index : Nat
  deriving DecidableEq, Repr, Inhabited

/-- A function definition (`IR::FunctionDef`); the body is not read by the instantiator. -/
structure FunctionDef where
  type : IndexedFunctionType
  deriving DecidableEq, Repr, Inhabited

/-- A table definition (`IR::TableDef`). -/
structure TableDef where
  type : TableType
  deriving DecidableEq, Repr, Inhabited

/-- A memory definition (`IR::MemoryDef`). -/
structure MemoryDef where
  type : MemoryType
  deriving DecidableEq, Repr, Inhabited

/-- A global definition (`IR::GlobalDef`). -/
structure GlobalDef where
  type : GlobalType
  initializer : InitializerExpression
  deriving DecidableEq, Repr, Inhabited

/-- An exception type definition (`IR::ExceptionTypeDef`). -/
structure ExceptionTypeDef where
  type : ExceptionType
  deriving DecidableEq, Repr, Inhabited

/-- Imports followed by definitions (`IR::IndexSpace`). -/
structure IndexSpace (δ : Type) (τ : Type) where
  imports : List (Import τ) := []
  defs : List δ := []

/-- Kinds of exported objects (`IR::ObjectKind`); `invalid` is any other tag. -/
inductive IRObjectKind
  | function | table | memory | global | exceptionType | invalid
  deriving DecidableEq, Repr, Inhabited

/-- An export (`IR::Export`). -/
structure Export where
  name : String
  kind : IRObjectKind
  index : Nat
  deriving DecidableEq, Repr, Inhabited

/-- A data segment (`IR::DataSegment`). -/
structure DataSegment where
  isActive : Bool
  memoryIndex : Nat
  baseOffset : InitializerExpression
  data : List Nat
  deriving DecidableEq, Repr, Inhabited

/-- An element segment (`IR::TableSegment`). -/
structure TableSegment where
  isActive : Bool
  tableIndex : Nat
  baseOffset : InitializerExpression
  indices : List Nat
  deriving DecidableEq, Repr, Inhabited

/-- The module IR (`IR::Module`).  `startFunctionIndex = UINTPTR_MAX` means no start function. -/
structure IRModule where
  types : List FunctionType := []
  functions : IndexSpace FunctionDef IndexedFunctionType := {}
  tables : IndexSpace TableDef TableType := {}
  memories : IndexSpace MemoryDef MemoryType := {}
  globals : IndexSpace GlobalDef GlobalType := {}
  exceptionTypes : IndexSpace ExceptionTypeDef ExceptionType := {}
  exports : List Export := []
  dataSegments : List DataSegment := []
  tableSegments : List TableSegment := []
  startFunctionIndex : Nat := UINTPTR_MAX

/-! ## Runtime objects (`RuntimePrivate.h`) -/

/-- Layout of `Runtime::FunctionInstance`. -/
structure FunctionInstance where
  moduleInstance : Option Ptr
  type : FunctionType
  nativeFunction : Option Nat
  callingConvention : CallingConvention
  debugName : String

/-- Layout of `Runtime::TableInstance`.  `elements` holds the `numElements` committed slots; a slot
is an object reference, `none` being the out-of-bounds sentinel. -/
structure TableInstance where
  compartment : Option Ptr
  id : Nat
  type : TableType
  elements : List (Option Ptr)

/-- Layout of `Runtime::MemoryInstance`.  `bytes i` is the byte at `baseAddress + i`. -/
structure MemoryInstance where
  compartment : Option Ptr
  id : Nat
  type : MemoryType
  bytes : Nat → Nat
  numPages : Nat

/-- Layout of `Runtime::GlobalInstance`. -/
structure GlobalInstance where
  compartment : Option Ptr
  type : GlobalType
  mutableGlobalId : Nat
  initialValue : UntaggedValue

/-- Layout of `Runtime::ExceptionTypeInstance`. -/
structure ExceptionTypeInstance where
  type : ExceptionType
  debugName : String

/-- Layout of `Runtime::Module`. -/
structure Module where
  ir : IRModule
  objectCode : List Nat := []

/-- Layout of `Runtime::ModuleInstance`. -/
structure ModuleInstance where
  compartment : Option Ptr
  exportMap : List (String × Option Ptr) := []
  functionDefs : List (Option Ptr) := []
  functions : List (Option Ptr)
  tables : List (Option Ptr)
  memories : List (Option Ptr)
  globals : List (Option Ptr)
  exceptionTypes : List (Option Ptr)
  startFunction : Option Ptr := none
  defaultMemory : Option Ptr := none
  defaultTable : Option Ptr := none
  passiveDataSegments : List (Nat × List Nat) := []
  passiveTableSegments : List (Nat × List (Option Ptr)) := []
  jitModule : Option Nat := none
  debugName : String := ""

/-- Layout of `Runtime::Context`. -/
structure Context where
  compartment : Option Ptr
  id : Nat

/-- Layout of `Runtime::Compartment`: the weak indexes and the intrinsics instance. -/
structure Compartment where
  modules : List Ptr := []
  globals : List Ptr := []
  memories : List (Nat × Ptr) := []
  tables : List (Nat × Ptr) := []
  contexts : List (Nat × Ptr) := []
  globalDataAllocationMask : List Nat := []
  initialContextMutableGlobals : List (Nat × UntaggedValue) := []
  wavmIntrinsics : Option Ptr := none

/-- The payload of an object; the constructor is its `ObjectKind`. -/
inductive ObjectData
  | function (function : FunctionInstance)
  | table (table : TableInstance)
  | memory (memory : MemoryInstance)
  | global (global : GlobalInstance)
  | moduleInstance (moduleInstance : ModuleInstance)
  | context (context : Context)
  | compartment (compartment : Compartment)
  | module (module : Module)
  | exceptionTypeInstance (exceptionTypeInstance : ExceptionTypeInstance)

/-- Layout of `Runtime::ObjectImpl`: the root counter in front of the payload. -/
structure ObjectImpl where
  numRootReferences : Nat := 0
  data : ObjectData

/-- The process heap together with the registry (`GCGlobals`). -/
structure RuntimeState where
  objects : List (Ptr × ObjectImpl) := []

namespace RuntimeState

/-- The registry `GCGlobals::allObjects`. -/
def allObjects (s : RuntimeState) : List Ptr := s.objects.map Prod.fst

/-- Dereference an address. -/
def get (s : RuntimeState) (p : Ptr) : Option ObjectImpl := assocGet p s.objects

/-- Update the payload of the object at an address. -/
def modifyData (s : RuntimeState) (p : Ptr) (f : ObjectData → ObjectData) : RuntimeState :=
  { objects := assocModify p (fun o => { o with data := f o.data }) s.objects }

/-- Address returned by `new`: one that no registered object occupies. -/
def fresh (s : RuntimeState) : Ptr := s.allObjects.foldr (fun p acc => max (p + 1) acc) 1

/-- The constructor `ObjectImpl::ObjectImpl`: the object starts with no root reference and is
added to `allObjects`. -/
def construct (s : RuntimeState) (d : ObjectData) : Ptr × RuntimeState :=
  (s.fresh, { objects := s.objects ++ [(s.fresh, { numRootReferences := 0, data := d })] })

/-- The statement `delete object` after `allObjects.removeOrFail(object)`. -/
def delete (s : RuntimeState) (p : Ptr) : RuntimeState :=
  { objects := assocRemove p s.objects }

/-- Typed dereference `asFunction`. -/
def getFunction (s : RuntimeState) (p : Ptr) : Option FunctionInstance :=
  match s.get p with
  | some ⟨_, .function f⟩ => some f
  | _ => none

/-- Typed dereference `asTable`. -/
def getTable (s : RuntimeState) (p : Ptr) : Option TableInstance :=
  match s.get p with
  | some ⟨_, .table t⟩ => some t
  | _ => none

/-- Typed dereference `asMemory`. -/
def getMemory (s : RuntimeState) (p : Ptr) : Option MemoryInstance :=
  match s.get p with
  | some ⟨_, .memory m⟩ => some m
  | _ => none

/-- Typed dereference `asGlobal`. -/
def getGlobal (s : RuntimeState) (p : Ptr) : Option GlobalInstance :=
  match s.get p with
  | some ⟨_, .global g⟩ => some g
  | _ => none

/-- Typed dereference `asModuleInstance`. -/
def getModuleInstance (s : RuntimeState) (p : Ptr) : Option ModuleInstance :=
  match s.get p with
  | some ⟨_, .moduleInstance m⟩ => some m
  | _ => none

/-- Typed dereference `asCompartment`. -/
def getCompartment (s : RuntimeState) (p : Ptr) : Option Compartment :=
  match s.get p with
  | some ⟨_, .compartment c⟩ => some c
  | _ => none

/-- Typed dereference `asExceptionTypeInstance`. -/
def getExceptionTypeInstance (s : RuntimeState) (p : Ptr) : Option ExceptionTypeInstance :=
  match s.get p with
  | some ⟨_, .exceptionTypeInstance e⟩ => some e
  | _ => none

/-- Update of a compartment in place; other kinds are left alone. -/
def modifyCompartment (s : RuntimeState) (p : Ptr) (f : Compartment → Compartment) :
    RuntimeState :=
  s.modifyData p (fun d => match d with
    | .compartment c => .compartment (f c)
    | d => d)

end RuntimeState

/-- Increment of the root counter (`Runtime::addGCRoot`); the counter is a `Uptr`. -/
def addGCRoot (s : RuntimeState) (object : Ptr) : RuntimeState :=
  { objects := assocModify object
      (fun o => { o with numRootReferences := (o.numRootReferences + 1) % 2 ^ 64 }) s.objects }

/-- Decrement of the root counter (`Runtime::removeGCRoot`). -/
def removeGCRoot (s : RuntimeState) (object : Ptr) : RuntimeState :=
  { objects := assocModify object
      (fun o => { o with numRootReferences := (o.numRootReferences + 2 ^ 64 - 1) % 2 ^ 64 })
      s.objects }

/-! ## The collector (`ObjectGC.cpp`) -/

/-- The two collections threaded through the mark phase: the `HashSet` `unreferencedObjects` and
the vector `pendingScanObjects`, used as a stack whose top (`back()`) is the head of the list. -/
structure MarkState where
  unreferencedObjects : List Ptr
  pendingScanObjects : List Ptr

/-- The function `visitReference`: a non-null reference that could be removed from
`unreferencedObjects` is pushed on the stack. -/
def visitReference (st : MarkState) (reference : Option Ptr) : MarkState :=
  match reference with
  | none => st
  | some r =>
    if r ∈ st.unreferencedObjects then
      { unreferencedObjects := setRemove r st.unreferencedObjects,
        pendingScanObjects := r :: st.pendingScanObjects }
    else st

/-- The template `visitReferenceArray`. -/
def visitReferenceArray (st : MarkState) (array : List (Option Ptr)) : MarkState :=
  array.foldl visitReference st

/-- Modelled from the spec: `getTableNumElements` (Table.cpp is not part of the sources) is the
current number of committed elements. -/
def getTableNumElements (table : TableInstance) : Nat := table.elements.length

/-- Modelled from the spec: `getTableElement` (Table.cpp is not part of the sources) reads the
object reference held by a slot, the sentinel reading as null. -/
def getTableElement (table : TableInstance) (elementIndex : Nat) : Option Ptr :=
  table.elements.getD elementIndex none

/-- The body of the `switch(scanObject->kind)` of the mark loop.  Every scanned address comes
out of `allObjects`, so the dereference succeeds; an unmapped address gathers nothing. -/
def scanObject (s : RuntimeState) (st : MarkState) (scanObject : Ptr) : MarkState :=
  match s.get scanObject with
  | none => st
  | some obj =>
    match obj.data with
    | .function function => visitReference st function.moduleInstance
    | .table table =>
      let st := visitReference st table.compartment
      visitReferenceArray st
        ((List.range (getTableNumElements table)).map (getTableElement table))
    | .memory memory => visitReference st memory.compartment
    | .global global => visitReference st global.compartment
    | .moduleInstance moduleInstance =>
      let st := visitReference st moduleInstance.compartment
      let st := visitReferenceArray st moduleInstance.functions
      let st := visitReferenceArray st moduleInstance.tables
      let st := visitReferenceArray st moduleInstance.memories
      let st := visitReferenceArray st moduleInstance.globals
      let st := visitReferenceArray st moduleInstance.exceptionTypes
      moduleInstance.passiveTableSegments.foldl
        (fun st passiveTableSegmentPair => visitReferenceArray st passiveTableSegmentPair.2) st
    | .context context => visitReference st context.compartment
    | .compartment compartment => visitReference st compartment.wavmIntrinsics
    | .module _ => st
    | .exceptionTypeInstance _ => st

/-- The root counter of a registered object. -/
def numRootReferences (s : RuntimeState) (object : Ptr) : Nat :=
  match s.get object with
  | some obj => obj.numRootReferences
  | none => 0

/-- The loop over `allObjects` that moves every rooted object from `unreferencedObjects` to the
stack and counts the roots.  `none` is the fatal error of `removeOrFail`. -/
def rootLoop (s : RuntimeState) : List Ptr → MarkState × Nat → Option (MarkState × Nat)
  | [], acc => some acc
  | object :: rest, (st, numRoots) =>
    if numRootReferences s object > 0 then
      match setRemoveOrFail object st.unreferencedObjects with
      | none => none
      | some unreferencedObjects =>
        rootLoop s rest
          ({ unreferencedObjects := unreferencedObjects,
             pendingScanObjects := object :: st.pendingScanObjects }, numRoots + 1)
    else rootLoop s rest (st, numRoots)

/-- The loop `while(pendingScanObjects.size())`, with a bound on the number of iterations;
`none` means the bound was reached with objects still pending. -/
def markLoop (s : RuntimeState) : Nat → MarkState → Option MarkState
  | fuel, st =>
    match st.pendingScanObjects with
    | [] => some st
    | top :: rest =>
      match fuel with
      | 0 => none
      | fuel + 1 =>
        markLoop s fuel (scanObject s { st with pendingScanObjects := rest } top)

/-- The method `ModuleInstance::finalize`: `compartment->modules.removeOrFail(this)`. -/
def ModuleInstance.finalize (s : RuntimeState) (this : Ptr) (m : ModuleInstance) :
    Option RuntimeState :=
  match m.compartment with
  | none => none
  | some c =>
    match s.getCompartment c with
    | none => none
    | some compartment =>
      match setRemoveOrFail this compartment.modules with
      | none => none
      | some modules => some (s.modifyCompartment c (fun comp => { comp with modules := modules }))

/-- Modelled from the spec: `TableInstance::finalize` (Table.cpp is not part of the sources)
clears the table's slot of the compartment's sparse array. -/
def TableInstance.finalize (s : RuntimeState) (t : TableInstance) : RuntimeState :=
  match t.compartment with
  | none => s
  | some c => s.modifyCompartment c (fun comp => { comp with tables := assocRemove t.id comp.tables })

/-- Modelled from the spec: `MemoryInstance::finalize` (Memory.cpp is not part of the sources)
clears the memory's slot of the compartment's sparse array. -/
def MemoryInstance.finalize (s : RuntimeState) (m : MemoryInstance) : RuntimeState :=
  match m.compartment with
  | none => s
  | some c =>
    s.modifyCompartment c (fun comp => { comp with memories := assocRemove m.id comp.memories })

/-- Modelled from the spec: `GlobalInstance::finalize` (Global.cpp is not part of the sources)
clears the weak reference of the compartment and releases the slot of a mutable global. -/
def GlobalInstance.finalize (s : RuntimeState) (this : Ptr) (g : GlobalInstance) : RuntimeState :=
  match g.compartment with
  | none => s
  | some c =>
    s.modifyCompartment c (fun comp =>
      { comp with
        globals := setRemove this comp.globals,
        globalDataAllocationMask :=
          if g.type.isMutable then setRemove g.mutableGlobalId comp.globalDataAllocationMask
          else comp.globalDataAllocationMask })

/-- Modelled from the spec: `Context::finalize` (Context.cpp is not part of the sources) clears
the context's slot of the compartment's sparse array. -/
def Context.finalize (s : RuntimeState) (x : Context) : RuntimeState :=
  match x.compartment with
  | none => s
  | some c =>
    s.modifyCompartment c (fun comp => { comp with contexts := assocRemove x.id comp.contexts })

/-- The virtual call `object->finalize()`; kinds without an override run `ObjectImpl::finalize`,
which does nothing. -/
def finalizeObject (s : RuntimeState) (object : Ptr) : Option RuntimeState :=
  match s.get object with
  | none => some s
  | some obj =>
    match obj.data with
    | .moduleInstance m => ModuleInstance.finalize s object m
    | .table t => some (TableInstance.finalize s t)
    | .memory m => some (MemoryInstance.finalize s m)
    | .global g => some (GlobalInstance.finalize s object g)
    | .context x => some (Context.finalize s x)
    | .function _ => some s
    | .compartment _ => some s
    | .module _ => some s
    | .exceptionTypeInstance _ => some s

/-- The loop "call finalize on each unreferenced object", with its `contains` check; the second
component records the objects whose finalizer ran, in order. -/
def finalizeLoop (unreferencedObjects : List Ptr) :
    List Ptr → RuntimeState × List Ptr → Option (RuntimeState × List Ptr)
  | [], acc => some acc
  | object :: rest, (s, finalized) =>
    if object ∈ unreferencedObjects then
      match finalizeObject s object with
      | none => none
      | some s' => finalizeLoop unreferencedObjects rest (s', finalized ++ [object])
    else finalizeLoop unreferencedObjects rest (s, finalized)

/-- The loop "delete each unreferenced object": `allObjects.removeOrFail(object)` followed by
`delete object`; the second component records the deleted objects, in order. -/
def deleteLoop : List Ptr → RuntimeState × List Ptr → Option (RuntimeState × List Ptr)
  | [], acc => some acc
  | object :: rest, (s, deleted) =>
    if object ∈ s.allObjects then deleteLoop rest (s.delete object, deleted ++ [object])
    else none

/-- What a run of `collectGarbage` leaves behind: the heap, the figures of the log line and the
objects finalized and deleted, in order. -/
structure GCResult where
  state : RuntimeState
  numRoots : Nat
  garbage : List Ptr
  finalized : List Ptr
  deleted : List Ptr

/-- The function `Runtime::collectGarbage`.  `none` is a fatal error (`removeOrFail`). -/
def collectGarbage (s : RuntimeState) : Option GCResult :=
  match rootLoop s s.allObjects
      ({ unreferencedObjects := s.allObjects, pendingScanObjects := [] }, 0) with
  | none => none
  | some (st, numRoots) =>
    match markLoop s s.allObjects.length st with
    | none => none
    | some st =>
      match finalizeLoop st.unreferencedObjects st.unreferencedObjects (s, []) with
      | none => none
      | some (s, finalized) =>
        match deleteLoop st.unreferencedObjects (s, []) with
        | none => none
        | some (s, deleted) =>
          some { state := s, numRoots := numRoots, garbage := st.unreferencedObjects,
                 finalized := finalized, deleted := deleted }

/-! ## Reachability, as the specification words it -/

/-- The outgoing edges of an object by kind: function -> its module instance; table -> its
compartment and every current element; memory, global, context -> its compartment;
moduleInstance -> its compartment, every function, table, memory, global, exception type and
every object of every passive element segment; compartment -> its intrinsics instance. -/
def outgoingEdges : ObjectData → List (Option Ptr)
  | .function f => [f.moduleInstance]
  | .table t => t.compartment :: t.elements
  | .memory m => [m.compartment]
  | .global g => [g.compartment]
  | .moduleInstance m =>
    m.compartment :: (m.functions ++ m.tables ++ m.memories ++ m.globals ++ m.exceptionTypes
      ++ (m.passiveTableSegments.map Prod.snd).flatten)
  | .context x => [x.compartment]
  | .compartment c => [c.wavmIntrinsics]
  | .module _ => []
  | .exceptionTypeInstance _ => []

/-- An object is a root when it is registered with a non-zero root counter. -/
def IsRoot (s : RuntimeState) (o : Ptr) : Prop :=
  ∃ obj, s.get o = some obj ∧ 0 < obj.numRootReferences

/-- Reachability from a root along the outgoing edges of registered objects. -/
inductive Reachable (s : RuntimeState) : Ptr → Prop
  | root {o : Ptr} : IsRoot s o → Reachable s o
  | edge {a b : Ptr} {obj : ObjectImpl} :
      Reachable s a → s.get a = some obj → some b ∈ outgoingEdges obj.data → Reachable s b

/-! ## Failure signalling -/

/-- The errors of the runtime.  `linkError` is the error of a failed `errorUnless` or `...OrFail`
check; `fatal` is `Errors::unreachable` or a failed `wavmAssert`; `undefined` is behaviour the
C++ code leaves undefined (null or mistyped dereference, vector index out of range). -/
inductive Exception
  | linkError
  | outOfMemory
  | outOfBoundsMemoryAccess (memory : Ptr) (address : Nat)
  | outOfBoundsTableAccess (table : Ptr) (index : Nat)
  | resourceIdExhausted
  | tooManyMutableGlobals
  | fatal
  | undefined
  deriving DecidableEq, Repr, Inhabited

/-- The errors that unwind to the caller (everything except `fatal` and `undefined`). -/
def Exception.isRecoverable : Exception → Bool
  | .fatal => false
  | .undefined => false
  | _ => true

/-- Result of an operation that may throw: the heap is kept on both branches. -/
inductive Outcome (α : Type)
  | ok (value : α) (state : RuntimeState)
  | throw (exception : Exception) (state : RuntimeState)

namespace Outcome

/-- The heap an operation leaves behind. -/
def state {α : Type} : Outcome α → RuntimeState
  | ok _ s => s
  | throw _ s => s

/-- The returned value, if the operation returned. -/
def value? {α : Type} : Outcome α → Option α
  | ok a _ => some a
  | throw _ _ => none

/-- The thrown exception, if the operation threw. -/
def exception? {α : Type} : Outcome α → Option Exception
  | ok _ _ => none
  | throw e _ => some e

/-- Sequencing: an exception skips the rest. -/
def bind {α β : Type} (x : Outcome α) (f : α → RuntimeState → Outcome β) : Outcome β :=
  match x with
  | ok a s => f a s
  | throw e s => throw e s

end Outcome

/-- Modelled from the spec: the macro `errorUnless(condition)` (its header is not part of the
sources) fails with `link-error` when the condition is false. -/
def errorUnless (condition : Bool) (s : RuntimeState) : Outcome Unit :=
  if condition then .ok () s else .throw .linkError s

/-! ## Parameters supplied by the parts of the runtime outside these sources -/

/-- The type of an object as `isA` receives it (`IR::ObjectType`). -/
inductive ObjectType
  | function (type : FunctionType)
  | table (type : TableType)
  | memory (type : MemoryType)
  | global (type : GlobalType)
  | exceptionType (type : ExceptionType)

/-- Names of the name section as `getDisassemblyNames` returns them (`IR::DisassemblyNames`);
the vectors are read as total functions of the index. -/
structure DisassemblyNames where
  functions : Nat → String
  tables : Nat → String
  memories : Nat → String

/-- A function binding of the loader (`LLVMJIT::FunctionBinding`). -/
structure FunctionBinding where
  nativeFunction : Option Nat
  deriving DecidableEq, Repr

/-- A table binding of the loader (`LLVMJIT::TableBinding`). -/
structure TableBinding where
  id : Nat
  deriving DecidableEq, Repr

/-- A memory binding of the loader (`LLVMJIT::MemoryBinding`). -/
structure MemoryBinding where
  id : Nat
  deriving DecidableEq, Repr

/-- The union of `LLVMJIT::GlobalBinding`: a pointer to the `initialValue` member of a global,
written as the address of that global, or the slot index of a mutable global. -/
inductive GlobalBindingValue
  | immutableValuePointer (global : Ptr)
  | mutableGlobalId (id : Nat)
  deriving DecidableEq, Repr

/-- A global binding of the loader (`LLVMJIT::GlobalBinding`). -/
structure GlobalBinding where
  type : GlobalType
  value : GlobalBindingValue
  deriving DecidableEq, Repr

/-- The arguments of `LLVMJIT::loadModule`. -/
structure LoadModuleArgs where
  objectFileBytes : List Nat
  wavmIntrinsicsExportMap : List (String × FunctionBinding)
  types : List FunctionType
  functionImports : List FunctionBinding
  tables : List TableBinding
  memories : List MemoryBinding
  globals : List GlobalBinding
  exceptionTypes : List (Option Ptr)
  defaultMemory : MemoryBinding
  defaultTable : TableBinding
  moduleInstance : Ptr
  tableReferenceBias : Nat
  functionDefInstances : List (Option Ptr)

/-- What `LLVMJIT::loadModule` hands back: the handle of the loaded module and, for every
function definition, the base address of its `JITFunction`. -/
structure LoadedModule where
  handle : Nat
  outFunctionDefs : List Nat

/-- The collaborators of `instantiateModule` whose code is outside these sources, and the build
configuration. -/
structure Host where
  /-- The relation `IR::isSubtype` on value types. -/
  isSubtype : ValueType → ValueType → Bool
  /-- The predicate `Runtime::isA(object, type)`. -/
  isA : RuntimeState → Option Ptr → ObjectType → Bool
  /-- The function `IR::getDisassemblyNames`. -/
  getDisassemblyNames : IRModule → DisassemblyNames
  /-- Whether the host can reserve and commit the region of a new table. -/
  canCreateTable : RuntimeState → TableType → Bool
  /-- Whether the host can reserve and commit the region of a new memory. -/
  canCreateMemory : RuntimeState → MemoryType → Bool
  /-- Capacity of the sparse array of tables of a compartment. -/
  maxTables : Nat
  /-- Capacity of the sparse array of memories of a compartment. -/
  maxMemories : Nat
  /-- Capacity of the mutable-global slots of a compartment (`maxMutableGlobals`). -/
  maxMutableGlobals : Nat
  /-- The function `LLVMJIT::getIntrinsicThunk`. -/
  getIntrinsicThunk : Option Nat → Option Ptr → FunctionType → CallingConvention → Option Nat
  /-- The function `LLVMJIT::loadModule`. -/
  loadModule : LoadModuleArgs → LoadedModule
  /-- The address `getOutOfBoundsAnyFunc()`. -/
  outOfBoundsAnyFunc : Nat
  /-- Whether `wavmAssert` is compiled in (debug builds). -/
  assertsEnabled : Bool

/-- The macro `wavmAssert(condition)`: checked only when assertions are compiled in. -/
def wavmAssert (host : Host) (condition : Bool) (s : RuntimeState) : Outcome Unit :=
  if host.assertsEnabled && !condition then .throw .fatal s else .ok () s

/-! ## Object factories and accessors of the files outside these sources -/

/-- The smallest index that is not in use (`IndexMap::add` with no preferred index). -/
def nextFreeIndex (used : List Nat) : Nat :=
  ((List.range (used.length + 1)).find? (fun i => decide (i ∉ used))).getD used.length

/-- Modelled from the spec: `createTable` (Table.cpp is not part of the sources).  It returns
null when the host cannot reserve or commit the region, fails with `resource-id-exhausted` when
the compartment has no unused table id, and otherwise registers a table with the compartment,
the next unused id, the declared type and `type.size.min` sentinel elements, and records it in
the compartment's sparse array. -/
def createTable (host : Host) (s : RuntimeState) (compartment : Ptr) (type : TableType)
    (_debugName : String) : Outcome (Option Ptr) :=
  match s.getCompartment compartment with
  | none => .throw .undefined s
  | some comp =>
    if !host.canCreateTable s type then .ok none s
    else if host.maxTables ≤ nextFreeIndex (comp.tables.map Prod.fst) then
      .throw .resourceIdExhausted s
    else
      .ok (some s.fresh)
        ((s.construct (.table
          { compartment := some compartment, id := nextFreeIndex (comp.tables.map Prod.fst),
            type := type, elements := List.replicate type.size.min none })).2.modifyCompartment
          compartment
          (fun c => { c with
            tables := c.tables ++ [(nextFreeIndex (comp.tables.map Prod.fst), s.fresh)] }))

/-- Modelled from the spec: `createMemory` (Memory.cpp is not part of the sources).  It returns
null when the host cannot reserve or commit the region, fails with `resource-id-exhausted` when
the compartment has no unused memory id, and otherwise registers a memory with the compartment,
the next unused id, the declared type and `type.size.min` zero-initialized pages, and records it
in the compartment's sparse array. -/
def createMemory (host : Host) (s : RuntimeState) (compartment : Ptr) (type : MemoryType)
    (_debugName : String) : Outcome (Option Ptr) :=
  match s.getCompartment compartment with
  | none => .throw .undefined s
  | some comp =>
    if !host.canCreateMemory s type then .ok none s
    else if host.maxMemories ≤ nextFreeIndex (comp.memories.map Prod.fst) then
      .throw .resourceIdExhausted s
    else
      .ok (some s.fresh)
        ((s.construct (.memory
          { compartment := some compartment, id := nextFreeIndex (comp.memories.map Prod.fst),
            type := type, bytes := fun _ => 0, numPages := type.size.min })).2.modifyCompartment
          compartment
          (fun c => { c with
            memories := c.memories ++ [(nextFreeIndex (comp.memories.map Prod.fst), s.fresh)] }))

/-- Modelled from the spec: `createGlobal` (Global.cpp is not part of the sources).  A mutable
global takes the next unused slot of the compartment (failing with `too-many-mutable-globals`
when none is left), stores the initial value in `initialContextMutableGlobals` at that slot
and keeps the slot index; every global keeps its type and initial value and is recorded in the
compartment's weak set. -/
def createGlobal (host : Host) (s : RuntimeState) (compartment : Ptr) (type : GlobalType)
    (initialValue : Value) : Outcome (Option Ptr) :=
  match s.getCompartment compartment with
  | none => .throw .undefined s
  | some comp =>
    if type.isMutable then
      if host.maxMutableGlobals ≤ nextFreeIndex comp.globalDataAllocationMask then
        .throw .tooManyMutableGlobals s
      else
        .ok (some s.fresh)
          ((s.construct (.global
            { compartment := some compartment, type := type,
              mutableGlobalId := nextFreeIndex comp.globalDataAllocationMask,
              initialValue := initialValue.bits })).2.modifyCompartment compartment
            (fun c => { c with
              globals := c.globals ++ [s.fresh],
              globalDataAllocationMask :=
                c.globalDataAllocationMask ++ [nextFreeIndex comp.globalDataAllocationMask],
              initialContextMutableGlobals :=
                (assocRemove (nextFreeIndex comp.globalDataAllocationMask)
                  c.initialContextMutableGlobals)
                  ++ [(nextFreeIndex comp.globalDataAllocationMask, initialValue.bits)] }))
    else
      .ok (some s.fresh)
        ((s.construct (.global
          { compartment := some compartment, type := type, mutableGlobalId := 2 ^ 32 - 1,
            initialValue := initialValue.bits })).2.modifyCompartment compartment
          (fun c => { c with globals := c.globals ++ [s.fresh] }))

/-- Modelled from the spec: `createExceptionTypeInstance` (Exception.cpp is not part of the
sources) registers an exception type instance with the given signature and debug name. -/
def createExceptionTypeInstance (s : RuntimeState) (type : ExceptionType) (debugName : String) :
    Ptr × RuntimeState :=
  s.construct (.exceptionTypeInstance { type := type, debugName := debugName })

/-- Modelled from the spec: `setTableElement` (Table.cpp is not part of the sources) stores an
object reference in a slot of the table and fails with `out-of-bounds-table-access` when the
index is not below the current number of elements. -/
def setTableElement (s : RuntimeState) (table : Ptr) (elementIndex : Nat) (object : Option Ptr) :
    Outcome Unit :=
  match s.getTable table with
  | none => .throw .undefined s
  | some t =>
    if elementIndex < getTableNumElements t then
      .ok () (s.modifyData table (fun d => match d with
        | .table t => .table { t with elements := t.elements.set elementIndex object }
        | d => d))
    else .throw (.outOfBoundsTableAccess table elementIndex) s

/-- Store of one byte at `baseAddress + address`. -/
def RuntimeState.storeByte (s : RuntimeState) (memory : Ptr) (address : Nat) (byte : Nat) :
    RuntimeState :=
  s.modifyData memory (fun d => match d with
    | .memory m => .memory { m with bytes := fun a => if a = address then byte else m.bytes a }
    | d => d)

/-- Modelled from the spec: `Platform::bytewiseMemCopy` into a memory (the platform layer and
its fault handler are not part of the sources).  Bytes are stored one at a time in increasing
address order; the first `numPages * 65536` bytes are committed, and a store outside them
fails with `out-of-bounds-memory-access` carrying the memory and the address. -/
def bytewiseMemCopy (memory : Ptr) : List Nat → Nat → RuntimeState → Outcome Unit
  | [], _, s => .ok () s
  | byte :: rest, address, s =>
    match s.getMemory memory with
    | none => .throw .undefined s
    | some m =>
      if address < m.numPages * numBytesPerPage then
        bytewiseMemCopy memory rest (address + 1) (s.storeByte memory address byte)
      else .throw (.outOfBoundsMemoryAccess memory address) s

/-! ## Instantiation (`Module.cpp`) -/

/-- The function `evaluateInitializer`.  It reads the heap and leaves it unchanged. -/
def evaluateInitializer (s : RuntimeState) (moduleGlobals : List (Option Ptr)) :
    InitializerExpression → Except Exception Value
  | .i32_const i32 => .ok { type := .i32, bits := i32 }
  | .i64_const i64 => .ok { type := .i64, bits := i64 }
  | .f32_const f32 => .ok { type := .f32, bits := f32 }
  | .f64_const f64 => .ok { type := .f64, bits := f64 }
  | .v128_const v128 => .ok { type := .v128, bits := v128 }
  | .get_global globalIndex =>
    -- Find the import this refers to.
    if globalIndex < moduleGlobals.length then
      match moduleGlobals.getD globalIndex none with
      | none => .error .linkError
      | some global =>
        match s.getGlobal global with
        | none => .error .undefined
        | some globalInstance =>
          if !globalInstance.type.isMutable then
            .ok { type := globalInstance.type.valueType, bits := globalInstance.initialValue }
          else .error .linkError
    else .error .linkError
  | .ref_null => .ok { type := .nullref, bits := 0 }
  | .invalid => .error .fatal

/-- The argument `ImportBindings` of `instantiateModule`. -/
structure ImportBindings where
  functions : List (Option Ptr) := []
  tables : List (Option Ptr) := []
  memories : List (Option Ptr) := []
  globals : List (Option Ptr) := []
  exceptionTypes : List (Option Ptr) := []

/-- Replace the module instance stored at an address by its updated value. -/
def RuntimeState.setModuleInstance (s : RuntimeState) (p : Ptr) (m : ModuleInstance) :
    RuntimeState :=
  s.modifyData p (fun _ => .moduleInstance m)

/-- Store the base address of the machine code in a function instance. -/
def RuntimeState.setNativeFunction (s : RuntimeState) (p : Ptr) (nativeFunction : Option Nat) :
    RuntimeState :=
  s.modifyData p (fun d => match d with
    | .function f => .function { f with nativeFunction := nativeFunction }
    | d => d)

/-- The loop `errorUnless(isA(objects[importIndex], type))` over the declared imports of a
kind whose import type is stored in the import itself. -/
def checkImportTypes (host : Host) (objects : List (Option Ptr)) :
    List ObjectType → Nat → RuntimeState → Outcome Unit
  | [], _, s => .ok () s
  | type :: rest, importIndex, s =>
    (errorUnless (host.isA s (objects.getD importIndex none) type) s).bind fun _ s =>
      checkImportTypes host objects rest (importIndex + 1) s

/-- The loop over the function imports, whose type is looked up in `ir.types`. -/
def checkFunctionImportTypes (host : Host) (types : List FunctionType)
    (objects : List (Option Ptr)) :
    List (Import IndexedFunctionType) → Nat → RuntimeState → Outcome Unit
  | [], _, s => .ok () s
  | functionImport :: rest, importIndex, s =>
    match types[functionImport.type.index]? with
    | none => .throw .undefined s
    | some type =>
      (errorUnless (host.isA s (objects.getD importIndex none) (.function type)) s).bind
        fun _ s => checkFunctionImportTypes host types objects rest (importIndex + 1) s

/-- The phase "check the type of the ModuleInstance's imports". -/
def checkImports (host : Host) (ir : IRModule) (inst : ModuleInstance) (s : RuntimeState) :
    Outcome Unit :=
  (errorUnless (inst.functions.length == ir.functions.imports.length) s).bind fun _ s =>
  (checkFunctionImportTypes host ir.types inst.functions ir.functions.imports 0 s).bind fun _ s =>
  (errorUnless (inst.tables.length == ir.tables.imports.length) s).bind fun _ s =>
  (checkImportTypes host inst.tables
    (ir.tables.imports.map (fun i => ObjectType.table i.type)) 0 s).bind fun _ s =>
  (errorUnless (inst.memories.length == ir.memories.imports.length) s).bind fun _ s =>
  (checkImportTypes host inst.memories
    (ir.memories.imports.map (fun i => ObjectType.memory i.type)) 0 s).bind fun _ s =>
  (errorUnless (inst.globals.length == ir.globals.imports.length) s).bind fun _ s =>
  (checkImportTypes host inst.globals
    (ir.globals.imports.map (fun i => ObjectType.global i.type)) 0 s).bind fun _ s =>
  (errorUnless (inst.exceptionTypes.length == ir.exceptionTypes.imports.length) s).bind
    fun _ s =>
  checkImportTypes host inst.exceptionTypes
    (ir.exceptionTypes.imports.map (fun i => ObjectType.exceptionType i.type)) 0 s

/-- The loop that instantiates the table definitions. -/
def instantiateTableDefs (host : Host) (names : DisassemblyNames)
    (compartment moduleInstance : Ptr) (numImports : Nat) :
    List TableDef → Nat → ModuleInstance → RuntimeState → Outcome ModuleInstance
  | [], _, inst, s => .ok inst s
  | tableDef :: rest, tableDefIndex, inst, s =>
    (createTable host s compartment tableDef.type
      (names.tables (numImports + tableDefIndex))).bind fun table s =>
      match table with
      | none => .throw .outOfMemory s
      | some table =>
        instantiateTableDefs host names compartment moduleInstance numImports rest
          (tableDefIndex + 1) { inst with tables := inst.tables ++ [some table] }
          (s.setModuleInstance moduleInstance
            { inst with tables := inst.tables ++ [some table] })

/-- The loop that instantiates the memory definitions. -/
def instantiateMemoryDefs (host : Host) (names : DisassemblyNames)
    (compartment moduleInstance : Ptr) (numImports : Nat) :
    List MemoryDef → Nat → ModuleInstance → RuntimeState → Outcome ModuleInstance
  | [], _, inst, s => .ok inst s
  | memoryDef :: rest, memoryDefIndex, inst, s =>
    (createMemory host s compartment memoryDef.type
      (names.memories (numImports + memoryDefIndex))).bind fun memory s =>
      match memory with
      | none => .throw .outOfMemory s
      | some memory =>
        instantiateMemoryDefs host names compartment moduleInstance numImports rest
          (memoryDefIndex + 1) { inst with memories := inst.memories ++ [some memory] }
          (s.setModuleInstance moduleInstance
            { inst with memories := inst.memories ++ [some memory] })

/-- The phase "find the default memory and table for the module". -/
def selectDefaults (host : Host) (moduleInstance : Ptr) (inst : ModuleInstance)
    (s : RuntimeState) : Outcome ModuleInstance :=
  (if inst.memories.length != 0 then
      (wavmAssert host (inst.memories.length == 1) s).bind fun _ s =>
        .ok { inst with defaultMemory := inst.memories.getD 0 none }
          (s.setModuleInstance moduleInstance
            { inst with defaultMemory := inst.memories.getD 0 none })
    else .ok inst s).bind fun inst s =>
  if inst.tables.length != 0 then
    .ok { inst with defaultTable := inst.tables.getD 0 none }
      (s.setModuleInstance moduleInstance { inst with defaultTable := inst.tables.getD 0 none })
  else .ok inst s

/-- The loop that instantiates the global definitions. -/
def instantiateGlobalDefs (host : Host) (compartment moduleInstance : Ptr) :
    List GlobalDef → ModuleInstance → RuntimeState → Outcome ModuleInstance
  | [], inst, s => .ok inst s
  | globalDef :: rest, inst, s =>
    match evaluateInitializer s inst.globals globalDef.initializer with
    | .error e => .throw e s
    | .ok initialValue =>
      (errorUnless (host.isSubtype initialValue.type globalDef.type.valueType) s).bind
        fun _ s =>
      (createGlobal host s compartment globalDef.type initialValue).bind fun global s =>
        instantiateGlobalDefs host compartment moduleInstance rest
          { inst with globals := inst.globals ++ [global] }
          (s.setModuleInstance moduleInstance { inst with globals := inst.globals ++ [global] })

/-- The loop that instantiates the exception type definitions. -/
def instantiateExceptionTypeDefs (moduleInstance : Ptr) :
    List ExceptionTypeDef → ModuleInstance → RuntimeState → Outcome ModuleInstance
  | [], inst, s => .ok inst s
  | exceptionTypeDef :: rest, inst, s =>
    instantiateExceptionTypeDefs moduleInstance rest
      { inst with
        exceptionTypes := inst.exceptionTypes
          ++ [some (createExceptionTypeInstance s exceptionTypeDef.type "wasmException").1] }
      ((createExceptionTypeInstance s exceptionTypeDef.type "wasmException").2.setModuleInstance
        moduleInstance
        { inst with
          exceptionTypes := inst.exceptionTypes
            ++ [some (createExceptionTypeInstance s exceptionTypeDef.type "wasmException").1] })

/-- The debug name of a defined function. -/
def functionDebugName (names : DisassemblyNames) (numImports functionDefIndex : Nat) : String :=
  if (names.functions (numImports + functionDefIndex)).length = 0 then
    "<function #" ++ toString functionDefIndex ++ ">"
  else names.functions (numImports + functionDefIndex)

/-- The loop that instantiates the defined functions. -/
def instantiateFunctionDefs (names : DisassemblyNames) (types : List FunctionType)
    (moduleInstance : Ptr) (numImports : Nat) :
    List FunctionDef → Nat → ModuleInstance → RuntimeState → Outcome ModuleInstance
  | [], _, inst, s => .ok inst s
  | functionDef :: rest, functionDefIndex, inst, s =>
    match types[functionDef.type.index]? with
    | none => .throw .undefined s
    | some type =>
      instantiateFunctionDefs names types moduleInstance numImports rest (functionDefIndex + 1)
        { inst with
          functionDefs := inst.functionDefs ++ [some s.fresh],
          functions := inst.functions ++ [some s.fresh] }
        ((s.construct (.function
          { moduleInstance := some moduleInstance, type := type, nativeFunction := none,
            callingConvention := .wasm,
            debugName := functionDebugName names numImports functionDefIndex })).2.setModuleInstance
          moduleInstance
          { inst with
            functionDefs := inst.functionDefs ++ [some s.fresh],
            functions := inst.functions ++ [some s.fresh] })

/-- The loop that copies the exports of the compartment's intrinsics instance into the map
handed to the loader. -/
def buildIntrinsicsExportMap (host : Host) (s : RuntimeState) :
    List (String × Option Ptr) → List (String × FunctionBinding) →
      Outcome (List (String × FunctionBinding))
  | [], acc => .ok acc s
  | intrinsicExport :: rest, acc =>
    match intrinsicExport.2.bind s.getFunction with
    | none => if host.assertsEnabled then .throw .fatal s else .throw .undefined s
    | some intrinsicFunction =>
      if host.assertsEnabled && !decide (intrinsicFunction.callingConvention = .intrinsic) then
        .throw .fatal s
      else
        match assocAdd intrinsicExport.1 { nativeFunction := intrinsicFunction.nativeFunction }
            acc with
        | none => .throw .linkError s
        | some acc => buildIntrinsicsExportMap host s rest acc

/-- The loop that builds `jitFunctionImports`; `none` is a dereference the C++ code leaves
undefined. -/
def buildJitFunctionImports (host : Host) (s : RuntimeState) (functions : List (Option Ptr)) :
    List Nat → Option (List FunctionBinding)
  | [] => some []
  | importIndex :: rest =>
    match (functions.getD importIndex none).bind s.getFunction with
    | none => none
    | some functionImport =>
      (buildJitFunctionImports host s functions rest).map fun bindings =>
        { nativeFunction :=
            if functionImport.callingConvention ≠ .wasm then
              host.getIntrinsicThunk functionImport.nativeFunction
                (functions.getD importIndex none) functionImport.type
                functionImport.callingConvention
            else functionImport.nativeFunction } :: bindings

/-- The loop that builds `jitTables`. -/
def buildJitTables (s : RuntimeState) : List (Option Ptr) → Option (List TableBinding)
  | [] => some []
  | table :: rest =>
    match table.bind s.getTable with
    | none => none
    | some t => (buildJitTables s rest).map fun bindings => { id := t.id } :: bindings

/-- The loop that builds `jitMemories`. -/
def buildJitMemories (s : RuntimeState) : List (Option Ptr) → Option (List MemoryBinding)
  | [] => some []
  | memory :: rest =>
    match memory.bind s.getMemory with
    | none => none
    | some m => (buildJitMemories s rest).map fun bindings => { id := m.id } :: bindings

/-- The loop that builds `jitGlobals`. -/
def buildJitGlobals (s : RuntimeState) : List (Option Ptr) → Option (List GlobalBinding)
  | [] => some []
  | global :: rest =>
    match global, global.bind s.getGlobal with
    | some p, some g =>
      (buildJitGlobals s rest).map fun bindings =>
        { type := g.type,
          value := if g.type.isMutable then .mutableGlobalId g.mutableGlobalId
            else .immutableValuePointer p } :: bindings
    | _, _ => none

/-- The binding of the default memory: its id, or `UINTPTR_MAX` when there is none. -/
def jitDefaultMemory (s : RuntimeState) (inst : ModuleInstance) : Option MemoryBinding :=
  match inst.defaultMemory with
  | none => some { id := UINTPTR_MAX }
  | some p => (s.getMemory p).map fun m => { id := m.id }

/-- The binding of the default table: its id, or `UINTPTR_MAX` when there is none. -/
def jitDefaultTable (s : RuntimeState) (inst : ModuleInstance) : Option TableBinding :=
  match inst.defaultTable with
  | none => some { id := UINTPTR_MAX }
  | some p => (s.getTable p).map fun t => { id := t.id }

/-- The arguments handed to `LLVMJIT::loadModule`; `none` is a dereference the C++ code leaves
undefined. -/
def buildLoadModuleArgs (host : Host) (s : RuntimeState) (moduleInstance : Ptr)
    (module : Module) (inst : ModuleInstance)
    (wavmIntrinsicsExportMap : List (String × FunctionBinding)) : Option LoadModuleArgs :=
  match jitDefaultMemory s inst, jitDefaultTable s inst,
    buildJitFunctionImports host s inst.functions
      (List.range module.ir.functions.imports.length),
    buildJitTables s inst.tables, buildJitMemories s inst.memories,
    buildJitGlobals s inst.globals with
  | some jitDefaultMemory, some jitDefaultTable, some jitFunctionImports, some jitTables,
    some jitMemories, some jitGlobals =>
    some
      { objectFileBytes := module.objectCode
        wavmIntrinsicsExportMap := wavmIntrinsicsExportMap
        types := module.ir.types
        functionImports := jitFunctionImports
        tables := jitTables
        memories := jitMemories
        globals := jitGlobals
        exceptionTypes := inst.exceptionTypes
        defaultMemory := jitDefaultMemory
        defaultTable := jitDefaultTable
        moduleInstance := moduleInstance
        tableReferenceBias := host.outOfBoundsAnyFunc
        functionDefInstances := inst.functionDefs }
  | _, _, _, _, _, _ => none

/-- The loop that stores the base address of every `JITFunction` in the `nativeFunction` member
of the corresponding function definition.  (The `JITFunction` records, which the loop also tags,
belong to the loader.) -/
def linkFunctionDefs (functionDefs : List (Option Ptr)) (jitFunctionDefs : List Nat) :
    List Nat → RuntimeState → Outcome Unit
  | [], s => .ok () s
  | functionDefIndex :: rest, s =>
    match jitFunctionDefs[functionDefIndex]?, functionDefs.getD functionDefIndex none with
    | some baseAddress, some functionInstance =>
      match s.getFunction functionInstance with
      | none => .throw .undefined s
      | some _ =>
        linkFunctionDefs functionDefs jitFunctionDefs rest
          (s.setNativeFunction functionInstance (some baseAddress))
    | _, _ => .throw .undefined s

/-- The phase that builds the bindings, loads the object code and links the function
definitions to their machine code. -/
def loadAndLink (host : Host) (compartment moduleInstance : Ptr) (module : Module)
    (inst : ModuleInstance) (s : RuntimeState) : Outcome ModuleInstance :=
  match ((s.getCompartment compartment).bind (fun c => c.wavmIntrinsics)).bind
      s.getModuleInstance with
  | none => .throw .undefined s
  | some wavmIntrinsics =>
    (buildIntrinsicsExportMap host s wavmIntrinsics.exportMap []).bind
      fun wavmIntrinsicsExportMap s =>
    match buildLoadModuleArgs host s moduleInstance module inst wavmIntrinsicsExportMap with
    | none => .throw .undefined s
    | some args =>
      (linkFunctionDefs inst.functionDefs (host.loadModule args).outFunctionDefs
        (List.range module.ir.functions.defs.length)
        (s.setModuleInstance moduleInstance
          { inst with jitModule := some (host.loadModule args).handle })).bind
        fun _ s => .ok { inst with jitModule := some (host.loadModule args).handle } s

/-- The object an export designates: the `switch(exportIt.kind)`.  The error `undefined` is a
vector index out of range, `fatal` is the default case. -/
def exportedObject (inst : ModuleInstance) (exportIt : Export) :
    Except Exception (Option Ptr) :=
  match exportIt.kind with
  | .function =>
    match inst.functions[exportIt.index]? with | some o => .ok o | none => .error .undefined
  | .table =>
    match inst.tables[exportIt.index]? with | some o => .ok o | none => .error .undefined
  | .memory =>
    match inst.memories[exportIt.index]? with | some o => .ok o | none => .error .undefined
  | .global =>
    match inst.globals[exportIt.index]? with | some o => .ok o | none => .error .undefined
  | .exceptionType =>
    match inst.exceptionTypes[exportIt.index]? with | some o => .ok o | none => .error .undefined
  | .invalid => .error .fatal

/-- Modelled from the spec: `HashMap::addOrFail` on the export map (the container headers are
not part of the sources).  A name that is already in the map fails with `link-error`; a new
name is added with its object. -/
def exportMapAddOrFail (name : String) (object : Option Ptr)
    (exportMap : List (String × Option Ptr)) : Except Exception (List (String × Option Ptr)) :=
  match assocAdd name object exportMap with
  | none => .error .linkError
  | some exportMap => .ok exportMap

/-- The loop "set up the instance's exports". -/
def publishExports (moduleInstance : Ptr) :
    List Export → ModuleInstance → RuntimeState → Outcome ModuleInstance
  | [], inst, s => .ok inst s
  | exportIt :: rest, inst, s =>
    match exportedObject inst exportIt with
    | .error e => .throw e s
    | .ok exportedObject =>
      match exportMapAddOrFail exportIt.name exportedObject inst.exportMap with
      | .error e => .throw e s
      | .ok exportMap =>
        publishExports moduleInstance rest { inst with exportMap := exportMap }
          (s.setModuleInstance moduleInstance { inst with exportMap := exportMap })

/-- The body of the loop over the data segments, for one segment. -/
def copyDataSegment (inst : ModuleInstance) (dataSegment : DataSegment) (s : RuntimeState) :
    Outcome Unit :=
  if dataSegment.isActive then
    match inst.memories[dataSegment.memoryIndex]? with
    | none => .throw .undefined s
    | some memory =>
      match evaluateInitializer s inst.globals dataSegment.baseOffset with
      | .error e => .throw e s
      | .ok baseOffsetValue =>
        if baseOffsetValue.type = .i32 then
          if dataSegment.data.length ≠ 0 then
            match memory with
            | none => .throw .undefined s
            | some memoryPtr =>
              bytewiseMemCopy memoryPtr dataSegment.data baseOffsetValue.i32 s
          else
            match memory, memory.bind s.getMemory with
            | some memoryPtr, some m =>
              if baseOffsetValue.i32 > (m.numPages * numBytesPerPage) % 2 ^ 64 then
                .throw (.outOfBoundsMemoryAccess memoryPtr baseOffsetValue.i32) s
              else .ok () s
            | _, _ => .throw .undefined s
        else .throw .linkError s
  else .ok () s

/-- The loop "copy the module's data segments into the module's default memory". -/
def copyDataSegments (inst : ModuleInstance) : List DataSegment → RuntimeState → Outcome Unit
  | [], s => .ok () s
  | dataSegment :: rest, s =>
    (copyDataSegment inst dataSegment s).bind fun _ s => copyDataSegments inst rest s

/-- The inner loop of an active element segment: element `index` of the segment goes to slot
`baseOffset + index` of the table. -/
def copyTableSegmentElements (host : Host) (inst : ModuleInstance) (table : Ptr)
    (baseOffset : Nat) : List Nat → Nat → RuntimeState → Outcome Unit
  | [], _, s => .ok () s
  | functionIndex :: rest, index, s =>
    (wavmAssert host (decide (functionIndex < inst.functions.length)) s).bind fun _ s =>
      match inst.functions[functionIndex]? with
      | none => .throw .undefined s
      | some anyFunc =>
        (setTableElement s table ((baseOffset + index) % 2 ^ 64) anyFunc).bind fun _ s =>
          copyTableSegmentElements host inst table baseOffset rest (index + 1) s

/-- The body of the loop over the element segments, for one segment. -/
def copyTableSegment (host : Host) (inst : ModuleInstance) (tableSegment : TableSegment)
    (s : RuntimeState) : Outcome Unit :=
  if tableSegment.isActive then
    match inst.tables[tableSegment.tableIndex]? with
    | none => .throw .undefined s
    | some table =>
      match evaluateInitializer s inst.globals tableSegment.baseOffset with
      | .error e => .throw e s
      | .ok baseOffsetValue =>
        if baseOffsetValue.type = .i32 then
          if tableSegment.indices.length ≠ 0 then
            match table with
            | none => .throw .undefined s
            | some tablePtr =>
              copyTableSegmentElements host inst tablePtr baseOffsetValue.i32
                tableSegment.indices 0 s
          else
            match table, table.bind s.getTable with
            | some tablePtr, some t =>
              if baseOffsetValue.i32 > getTableNumElements t then
                .throw (.outOfBoundsTableAccess tablePtr baseOffsetValue.i32) s
              else .ok () s
            | _, _ => .throw .undefined s
        else .throw .linkError s
  else .ok () s

/-- The loop "copy the module's table segments into the module's default table". -/
def copyTableSegments (host : Host) (inst : ModuleInstance) :
    List TableSegment → RuntimeState → Outcome Unit
  | [], s => .ok () s
  | tableSegment :: rest, s =>
    (copyTableSegment host inst tableSegment s).bind fun _ s =>
      copyTableSegments host inst rest s

/-- The method `HashMap::add` when the result is ignored: an existing key keeps its value. -/
def assocAddIfAbsent {β : Type} (k : Nat) (v : β) (l : List (Nat × β)) : List (Nat × β) :=
  match assocAdd k v l with
  | some l' => l'
  | none => l

/-- The loop that retains the passive data segments, keyed by segment index. -/
def retainPassiveDataSegments :
    List DataSegment → Nat → List (Nat × List Nat) → List (Nat × List Nat)
  | [], _, acc => acc
  | dataSegment :: rest, segmentIndex, acc =>
    retainPassiveDataSegments rest (segmentIndex + 1)
      (if !dataSegment.isActive then assocAddIfAbsent segmentIndex dataSegment.data acc else acc)

/-- The objects of a passive element segment: `functions[functionIndex]` for each index;
`none` is an index outside the vector. -/
def passiveTableSegmentObjects (functions : List (Option Ptr)) :
    List Nat → Option (List (Option Ptr))
  | [] => some []
  | functionIndex :: rest =>
    match functions[functionIndex]? with
    | none => none
    | some object => (passiveTableSegmentObjects functions rest).map fun objects =>
        object :: objects

/-- The loop that retains the passive element segments, keyed by segment index. -/
def retainPassiveTableSegments (functions : List (Option Ptr)) :
    List TableSegment → Nat → List (Nat × List (Option Ptr)) →
      Option (List (Nat × List (Option Ptr)))
  | [], _, acc => some acc
  | tableSegment :: rest, segmentIndex, acc =>
    if !tableSegment.isActive then
      match passiveTableSegmentObjects functions tableSegment.indices with
      | none => none
      | some objects =>
        retainPassiveTableSegments functions rest (segmentIndex + 1)
          (assocAddIfAbsent segmentIndex objects acc)
    else retainPassiveTableSegments functions rest (segmentIndex + 1) acc

/-- The phase "copy the module's passive data and table segments into the ModuleInstance". -/
def retainPassiveSegments (ir : IRModule) (moduleInstance : Ptr) (inst : ModuleInstance)
    (s : RuntimeState) : Outcome ModuleInstance :=
  match retainPassiveTableSegments inst.functions ir.tableSegments 0
      inst.passiveTableSegments with
  | none =>
    .throw .undefined
      (s.setModuleInstance moduleInstance
        { inst with
          passiveDataSegments :=
            retainPassiveDataSegments ir.dataSegments 0 inst.passiveDataSegments })
  | some passiveTableSegments =>
    .ok { inst with
          passiveDataSegments :=
            retainPassiveDataSegments ir.dataSegments 0 inst.passiveDataSegments,
          passiveTableSegments := passiveTableSegments }
      (s.setModuleInstance moduleInstance
        { inst with
          passiveDataSegments :=
            retainPassiveDataSegments ir.dataSegments 0 inst.passiveDataSegments,
          passiveTableSegments := passiveTableSegments })

/-- The phase "look up the module's start function". -/
def selectStartFunction (host : Host) (ir : IRModule) (moduleInstance : Ptr)
    (inst : ModuleInstance) (s : RuntimeState) : Outcome ModuleInstance :=
  if ir.startFunctionIndex ≠ UINTPTR_MAX then
    match inst.functions[ir.startFunctionIndex]? with
    | none => .throw .undefined s
    | some startFunction =>
      if host.assertsEnabled then
        match startFunction.bind s.getFunction with
        | none =>
          .throw .undefined
            (s.setModuleInstance moduleInstance { inst with startFunction := startFunction })
        | some f =>
          if f.type = ({} : FunctionType) then
            .ok { inst with startFunction := startFunction }
              (s.setModuleInstance moduleInstance { inst with startFunction := startFunction })
          else
            .throw .fatal
              (s.setModuleInstance moduleInstance { inst with startFunction := startFunction })
      else
        .ok { inst with startFunction := startFunction }
          (s.setModuleInstance moduleInstance { inst with startFunction := startFunction })
  else .ok inst s

/-- The module instance `new ModuleInstance(compartment, imports..., moduleDebugName)`. -/
def newModuleInstance (compartment : Ptr) (imports : ImportBindings)
    (moduleDebugName : String) : ModuleInstance :=
  { compartment := some compartment
    functions := imports.functions
    tables := imports.tables
    memories := imports.memories
    globals := imports.globals
    exceptionTypes := imports.exceptionTypes
    debugName := moduleDebugName }

/-- The phases of `instantiateModule` from the import checks to the publication of the
exports. -/
def instantiateDefinitions (host : Host) (compartment moduleInstance : Ptr) (module : Module)
    (inst : ModuleInstance) (s : RuntimeState) : Outcome ModuleInstance :=
  (checkImports host module.ir inst s).bind fun _ s =>
  (instantiateTableDefs host (host.getDisassemblyNames module.ir) compartment moduleInstance
    module.ir.tables.imports.length module.ir.tables.defs 0 inst s).bind fun inst s =>
  (instantiateMemoryDefs host (host.getDisassemblyNames module.ir) compartment
    moduleInstance module.ir.memories.imports.length module.ir.memories.defs 0 inst s).bind
    fun inst s =>
  (selectDefaults host moduleInstance inst s).bind fun inst s =>
  (instantiateGlobalDefs host compartment moduleInstance module.ir.globals.defs inst s).bind
    fun inst s =>
  (instantiateExceptionTypeDefs moduleInstance module.ir.exceptionTypes.defs inst s).bind
    fun inst s =>
  (instantiateFunctionDefs (host.getDisassemblyNames module.ir) module.ir.types
    moduleInstance module.ir.functions.imports.length module.ir.functions.defs 0 inst s).bind
    fun inst s =>
  (loadAndLink host compartment moduleInstance module inst s).bind fun inst s =>
  publishExports moduleInstance module.ir.exports inst s

/-- The phases of `instantiateModule` from the active data segments to the start function. -/
def instantiateSegments (host : Host) (moduleInstance : Ptr) (module : Module)
    (inst : ModuleInstance) (s : RuntimeState) : Outcome ModuleInstance :=
  (copyDataSegments inst module.ir.dataSegments s).bind fun _ s =>
  (copyTableSegments host inst module.ir.tableSegments s).bind fun _ s =>
  (retainPassiveSegments module.ir moduleInstance inst s).bind fun inst s =>
  selectStartFunction host module.ir moduleInstance inst s

/-- The phases of `instantiateModule` that follow the registration of the new instance in
the compartment. -/
def instantiatePhases (host : Host) (compartment moduleInstance : Ptr) (module : Module)
    (inst : ModuleInstance) (s : RuntimeState) : Outcome ModuleInstance :=
  (instantiateDefinitions host compartment moduleInstance module inst s).bind fun inst s =>
  instantiateSegments host moduleInstance module inst s

/-- The function `Runtime::instantiateModule`.  The value `inst` threaded through the phases is
the content of the object at `moduleInstance`; every change of it is written to the heap. -/
def instantiateModule (host : Host) (s : RuntimeState) (compartment : Ptr) (module : Module)
    (imports : ImportBindings) (moduleDebugName : String) : Outcome Ptr :=
  -- Create the ModuleInstance and add it to the compartment's modules list.
  match s.getCompartment compartment with
  | none =>
    .throw .undefined
      (s.construct (.moduleInstance (newModuleInstance compartment imports moduleDebugName))).2
  | some comp =>
    match setAdd s.fresh comp.modules with
    | none =>
      .throw .linkError
        (s.construct (.moduleInstance (newModuleInstance compartment imports moduleDebugName))).2
    | some modules =>
      (instantiatePhases host compartment s.fresh module
        (newModuleInstance compartment imports moduleDebugName)
        ((s.construct (.moduleInstance
          (newModuleInstance compartment imports moduleDebugName))).2.modifyCompartment
          compartment (fun c => { c with modules := modules }))).bind
        fun _ s' => .ok s.fresh s'

/-- The function `Runtime::getStartFunction`. -/
def getStartFunction (moduleInstance : ModuleInstance) : Option Ptr :=
  moduleInstance.startFunction

/-- The function `Runtime::getDefaultMemory`. -/
def getDefaultMemory (moduleInstance : ModuleInstance) : Option Ptr :=
  moduleInstance.defaultMemory

/-- The function `Runtime::getDefaultTable`. -/
def getDefaultTable (moduleInstance : ModuleInstance) : Option Ptr :=
  moduleInstance.defaultTable

/-- The function `Runtime::getInstanceExport`: the exported object, or null when the name is
not in the export map. -/
def getInstanceExport (moduleInstance : ModuleInstance) (name : String) : Option Ptr :=
  match assocGet name moduleInstance.exportMap with
  | some exportedObject => exportedObject
  | none => none

/-! ## Relations used to state what instantiation leaves unchanged -/

/-- The part of an object that instantiation never changes.  Erased are: the `nativeFunction`
of a function; the elements of a table when `e` is set; the bytes of a memory when `b` is set;
the weak indexes of a compartment other than `modules`; and, when `own` is set, everything of a
module instance except its compartment. -/
def ObjectData.frozen (own b e : Bool) : ObjectData → ObjectData
  | .function f => .function { f with nativeFunction := none }
  | .table t => .table { t with elements := if e then [] else t.elements }
  | .memory m => .memory { m with bytes := if b then (fun _ => 0) else m.bytes }
  | .moduleInstance m =>
    if own then
      .moduleInstance
        { compartment := m.compartment, functions := [], tables := [], memories := [],
          globals := [], exceptionTypes := [] }
    else .moduleInstance m
  | .compartment c =>
    .compartment { modules := c.modules, wavmIntrinsics := c.wavmIntrinsics }
  | .global g => .global g
  | .context x => .context x
  | .module m => .module m
  | .exceptionTypeInstance x => .exceptionTypeInstance x

/-- The heap `s'` extends the heap `s`: every object of `s` is still there with the same root
counter and the same frozen part (the instance under construction at `mi` being compared only
by its compartment), and every object that is new in `s'` has no root reference and is no
compartment. -/
def Frame (mi : Ptr) (b e : Bool) (s s' : RuntimeState) : Prop :=
  (∀ p obj, s.get p = some obj → ∃ obj', s'.get p = some obj' ∧
      obj'.numRootReferences = obj.numRootReferences ∧
      obj'.data.frozen (decide (p = mi)) b e = obj.data.frozen (decide (p = mi)) b e) ∧
  (∀ p obj', s'.get p = some obj' → s.get p = none →
    obj'.numRootReferences = 0 ∧ ∀ x, obj'.data ≠ .compartment x)

/-- The object at `mi` is the module instance `inst`. -/
def Sync (s : RuntimeState) (mi : Ptr) (inst : ModuleInstance) : Prop :=
  ∃ n, s.get mi = some { numRootReferences := n, data := .moduleInstance inst }

/-- What the phases that follow the registration of the instance guarantee: the heap they
leave extends the heap they found and, when they return, the object at `mi` is the returned
instance value and `Q` holds. -/
structure PhaseSpec (mi : Ptr) (b e : Bool) (s : RuntimeState)
    (x : Outcome ModuleInstance) (Q : ModuleInstance → RuntimeState → Prop) : Prop where
  frame : Frame mi b e s x.state
  ok : ∀ inst' s', x = .ok inst' s' → Sync s' mi inst' ∧ Q inst' s'

/-- The object at `p` is a table of the given type. -/
def IsTable (s : RuntimeState) (p : Ptr) (type : TableType) : Prop :=
  ∃ t, s.getTable p = some t ∧ t.type = type

/-- The object at `p` is a memory of the given type. -/
def IsMemory (s : RuntimeState) (p : Ptr) (type : MemoryType) : Prop :=
  ∃ m, s.getMemory p = some m ∧ m.type = type

/-- The object at `p` is a global of the given type and initial value. -/
def IsGlobal (s : RuntimeState) (p : Ptr) (type : GlobalType) (initialValue : UntaggedValue) :
    Prop :=
  ∃ g, s.getGlobal p = some g ∧ g.type = type ∧ g.initialValue = initialValue

/-- The object at `p` is an exception type instance of the given type. -/
def IsExceptionType (s : RuntimeState) (p : Ptr) (type : ExceptionType) : Prop :=
  ∃ x, s.getExceptionTypeInstance p = some x ∧ x.type = type

/-- The object at `p` is a function of the given module instance, type and calling
convention. -/
def IsFunction (s : RuntimeState) (p : Ptr) (moduleInstance : Option Ptr) (type : FunctionType)
    (callingConvention : CallingConvention) : Prop :=
  ∃ f, s.getFunction p = some f ∧ f.moduleInstance = moduleInstance ∧ f.type = type ∧
    f.callingConvention = callingConvention

/-- Whether some active data segment has bytes to copy. -/
def hasActiveData (segments : List DataSegment) : Bool :=
  segments.any (fun d => d.isActive && decide (d.data.length ≠ 0))

/-- Whether some active element segment has elements to install. -/
def hasActiveElements (segments : List TableSegment) : Bool :=
  segments.any (fun t => t.isActive && decide (t.indices.length ≠ 0))

/-- The instance `inst` at the end of a successful run of the phases, started with the
instance value `inst0` (the import vectors) on the heap `pre`: the objects created for the
definitions are `newF`, `newT`, `newM`, `newG`, `newE`, in declaration order. -/
structure Instantiated (host : Host) (ir : IRModule) (mi : Ptr) (pre : RuntimeState)
    (inst0 inst : ModuleInstance) (s' : RuntimeState) (newF newT newM newG newE : List Ptr) :
    Prop where
  importFunctions : inst0.functions.length = ir.functions.imports.length
  importTables : inst0.tables.length = ir.tables.imports.length
  importMemories : inst0.memories.length = ir.memories.imports.length
  importGlobals : inst0.globals.length = ir.globals.imports.length
  importExceptionTypes : inst0.exceptionTypes.length = ir.exceptionTypes.imports.length
  compartment : inst.compartment = inst0.compartment
  functions : inst.functions = inst0.functions ++ newF.map some
  functionDefs : inst.functionDefs = inst0.functionDefs ++ newF.map some
  tables : inst.tables = inst0.tables ++ newT.map some
  memories : inst.memories = inst0.memories ++ newM.map some
  globals : inst.globals = inst0.globals ++ newG.map some
  exceptionTypes : inst.exceptionTypes = inst0.exceptionTypes ++ newE.map some
  newFunctions : List.Forall₂ (fun p (d : FunctionDef) => pre.get p = none ∧
    ∃ type, ir.types[d.type.index]? = some type ∧ IsFunction s' p (some mi) type .wasm)
    newF ir.functions.defs
  newTables : List.Forall₂ (fun p (d : TableDef) => pre.get p = none ∧ IsTable s' p d.type)
    newT ir.tables.defs
  newMemories : List.Forall₂ (fun p (d : MemoryDef) => pre.get p = none ∧ IsMemory s' p d.type)
    newM ir.memories.defs
  newGlobals : List.Forall₂ (fun p (d : GlobalDef) => pre.get p = none ∧
    ∃ v, evaluateInitializer s' inst.globals d.initializer = .ok v ∧
      host.isSubtype v.type d.type.valueType = true ∧ IsGlobal s' p d.type v.bits)
    newG ir.globals.defs
  newExceptionTypes : List.Forall₂ (fun p (d : ExceptionTypeDef) => pre.get p = none ∧
    IsExceptionType s' p d.type) newE ir.exceptionTypes.defs
  exported : ∀ x, x ∈ ir.exports →
    ∃ o, exportedObject inst x = .ok o ∧ assocGet x.name inst.exportMap = some o
  notExported : ∀ name, name ∉ ir.exports.map Export.name →
    assocGet name inst.exportMap = assocGet name inst0.exportMap
  defaultMemory : inst.defaultMemory =
    if inst.memories.length ≠ 0 then inst.memories.getD 0 none else inst0.defaultMemory
  defaultTable : inst.defaultTable =
    if inst.tables.length ≠ 0 then inst.tables.getD 0 none else inst0.defaultTable
  memoriesAssert : host.assertsEnabled = true → inst.memories.length ≠ 0 →
    inst.memories.length = 1
  startFunction : (ir.startFunctionIndex = UINTPTR_MAX ∧
      inst.startFunction = inst0.startFunction) ∨
    (ir.startFunctionIndex ≠ UINTPTR_MAX ∧
      inst.functions[ir.startFunctionIndex]? = some inst.startFunction)
  passiveDataSegments : inst.passiveDataSegments =
    retainPassiveDataSegments ir.dataSegments 0 inst0.passiveDataSegments
  passiveTableSegments : retainPassiveTableSegments inst.functions ir.tableSegments 0
    inst0.passiveTableSegments = some inst.passiveTableSegments

/-- The vector of an instance that holds the objects of a kind. -/
def instanceVector (inst : ModuleInstance) : IRObjectKind → List (Option Ptr)
  | .function => inst.functions
  | .table => inst.tables
  | .memory => inst.memories
  | .global => inst.globals
  | .exceptionType => inst.exceptionTypes
  | .invalid => []

/-- The heap on which the phases of `instantiateModule` start: the new instance is registered
and recorded in the `modules` of the compartment. -/
def registeredState (s : RuntimeState) (compartment : Ptr) (imports : ImportBindings)
    (moduleDebugName : String) (modules : List Ptr) : RuntimeState :=
  (s.construct (.moduleInstance
    (newModuleInstance compartment imports moduleDebugName))).2.modifyCompartment
    compartment (fun c => { c with modules := modules })

/-- A host: `isA` compares types for equality, resources never run out, the loader puts the
code of definition `i` at `4096 + 16 * i`, assertions are compiled in. -/
def demoHost : Host :=
  { isSubtype := fun a b => decide (a = b)
    isA := fun s o t =>
      match o, t with
      | some p, .function ft => (s.getFunction p).any (fun f => decide (f.type = ft))
      | some p, .table tt => (s.getTable p).any (fun x => decide (x.type = tt))
      | some p, .memory mt => (s.getMemory p).any (fun x => decide (x.type = mt))
      | some p, .global gt => (s.getGlobal p).any (fun x => decide (x.type = gt))
      | some p, .exceptionType et =>
        (s.getExceptionTypeInstance p).any (fun x => decide (x.type = et))
      | none, _ => false
    getDisassemblyNames := fun _ =>
      { functions := fun _ => "", tables := fun _ => "", memories := fun _ => "" }
    canCreateTable := fun _ _ => true
    canCreateMemory := fun _ _ => true
    maxTables := 8
    maxMemories := 8
    maxMutableGlobals := 8
    getIntrinsicThunk := fun nativeFunction _ _ _ => nativeFunction
    loadModule := fun args =>
      { handle := 1
        outFunctionDefs :=
          (List.range args.functionDefInstances.length).map (fun i => 4096 + 16 * i) }
    outOfBoundsAnyFunc := 0
    assertsEnabled := true }

/-- A heap with a rooted compartment (1), its intrinsics instance (2) and a rooted immutable
`i32` global of value 7 (3). -/
def heapA : RuntimeState :=
  { objects := [
      (1, { numRootReferences := 1,
            data := .compartment { modules := [2], globals := [3], wavmIntrinsics := some 2 } }),
      (2, { data := .moduleInstance
              { compartment := some 1, functions := [], tables := [], memories := [],
                globals := [], exceptionTypes := [] } }),
      (3, { numRootReferences := 1,
            data := .global
              { compartment := some 1, type := { valueType := .i32, isMutable := false },
                mutableGlobalId := 2 ^ 32 - 1, initialValue := 7 } })] }

/-- A module that imports an immutable `i32` global, defines a table, a memory, a global
initialized by `get_global 0`, an exception type and a function, and exports three of them. -/
def moduleA : Module :=
  { ir :=
      { types := [{}]
        functions := { defs := [{ type := { index := 0 } }] }
        tables := { defs := [{ type := { elementType := .anyfunc, isShared := false,
                                         size := { min := 2, max := 2 } } }] }
        memories := { defs := [{ type := { isShared := false, size := { min := 1, max := 1 } } }] }
        globals :=
          { imports := [{ type := { valueType := .i32, isMutable := false } }]
            defs := [{ type := { valueType := .i32, isMutable := false },
                       initializer := .get_global 0 }] }
        exceptionTypes := { defs := [{ type := { params := [.i32] } }] }
        exports := [{ name := "main", kind := .function, index := 0 },
                    { name := "g", kind := .global, index := 1 },
                    { name := "mem", kind := .memory, index := 0 }] } }

/-- The import bindings for `moduleA` on `heapA`. -/
def importsA : ImportBindings := { globals := [some 3] }

/-- The heap after instantiating `moduleA` on `heapA`. -/
def heapAInstantiated : RuntimeState :=
  (instantiateModule demoHost heapA 1 moduleA importsA "a").state

/-- A heap with a rooted compartment (1) and its intrinsics instance (2). -/
def heapB : RuntimeState :=
  { objects := [
      (1, { numRootReferences := 1,
            data := .compartment { modules := [2], wavmIntrinsics := some 2 } }),
      (2, { data := .moduleInstance
              { compartment := some 1, functions := [], tables := [], memories := [],
                globals := [], exceptionTypes := [] } })] }

/-- A module with a memory of one page and an active data segment with the given base offset
and bytes. -/
def moduleB (baseOffset : Nat) (data : List Nat) : Module :=
  { ir :=
      { memories := { defs := [{ type := { isShared := false, size := { min := 1, max := 1 } } }] }
        dataSegments := [{ isActive := true, memoryIndex := 0,
                           baseOffset := .i32_const baseOffset, data := data }] } }

/-- The instance value of `moduleB` when the data segments are reached. -/
def instB : ModuleInstance :=
  { compartment := some 1, functions := [], tables := [], memories := [some 4], globals := [],
    exceptionTypes := [], defaultMemory := some 4, jitModule := some 1, debugName := "b" }

/-- The heap of `moduleB` when the data segments are reached. -/
def heapBDefined : RuntimeState :=
  (instantiateDefinitions demoHost 1 3 (moduleB 0 []) (newModuleInstance 1 {} "b")
    (registeredState heapB 1 {} "b" [2, 3])).state

/-- The memory created for `moduleB`: one zero-initialized page. -/
def memoryB : MemoryInstance :=
  { compartment := some 1, id := 0, type := { isShared := false, size := { min := 1, max := 1 } },
    bytes := fun _ => 0, numPages := 1 }

/-- A module without imports whose second global is initialized from its first global, which
is defined by the module itself. -/
def moduleC : Module :=
  { ir :=
      { globals :=
          { defs := [{ type := { valueType := .i32, isMutable := false },
                       initializer := .i32_const 5 },
                     { type := { valueType := .i32, isMutable := false },
                       initializer := .get_global 0 }] } } }

/-- A heap with a rooted compartment (1), its intrinsics instance (2) and a rooted table of
two empty slots (3). -/
def heapT : RuntimeState :=
  { objects := [
      (1, { numRootReferences := 1,
            data := .compartment { modules := [2], tables := [(0, 3)],
                                   wavmIntrinsics := some 2 } }),
      (2, { data := .moduleInstance
              { compartment := some 1, functions := [], tables := [], memories := [],
                globals := [], exceptionTypes := [] } }),
      (3, { numRootReferences := 1,
            data := .table
              { compartment := some 1, id := 0,
                type := { elementType := .anyfunc, isShared := false,
                          size := { min := 2, max := 2 } },
                elements := [none, none] } })] }

/-- A module that imports a table and defines a function; its first active element segment
installs the function in slot 0, its second one is empty with base offset 5. -/
def moduleD : Module :=
  { ir :=
      { types := [{}]
        functions := { defs := [{ type := { index := 0 } }] }
        tables := { imports := [{ type := { elementType := .anyfunc, isShared := false,
                                            size := { min := 2, max := 2 } } }] }
        tableSegments :=
          [{ isActive := true, tableIndex := 0, baseOffset := .i32_const 0, indices := [0] },
           { isActive := true, tableIndex := 0, baseOffset := .i32_const 5, indices := [] }] } }

/-- The import bindings for `moduleD` on `heapT`. -/
def importsD : ImportBindings := { tables := [some 3] }

/-- The heap after the failed instantiation of `moduleD` on `heapT`. -/
def heapTFailed : RuntimeState :=
  (instantiateModule demoHost heapT 1 moduleD importsD "d").state

/-- A heap with a rooted compartment (1), its intrinsics instance (2) and a rooted memory of
one zero-initialized page (3). -/
def heapM : RuntimeState :=
  { objects := [
      (1, { numRootReferences := 1,
            data := .compartment { modules := [2], memories := [(0, 3)],
                                   wavmIntrinsics := some 2 } }),
      (2, { data := .moduleInstance
              { compartment := some 1, functions := [], tables := [], memories := [],
                globals := [], exceptionTypes := [] } }),
      (3, { numRootReferences := 1,
            data := .memory
              { compartment := some 1, id := 0,
                type := { isShared := false, size := { min := 1, max := 1 } },
                bytes := fun _ => 0, numPages := 1 } })] }

/-- A module that imports a memory; its first active data segment writes the byte 42 at
address 0, its second one is empty with base offset 65537. -/
def moduleE : Module :=
  { ir :=
      { memories := { imports := [{ type := { isShared := false,
                                              size := { min := 1, max := 1 } } }] }
        dataSegments :=
          [{ isActive := true, memoryIndex := 0, baseOffset := .i32_const 0, data := [42] },
           { isActive := true, memoryIndex := 0, baseOffset := .i32_const 65537,
             data := [] }] } }

/-- The import bindings for `moduleE` on `heapM`. -/
def importsE : ImportBindings := { memories := [some 3] }

/-- The heap after the failed instantiation of `moduleE` on `heapM`. -/
def heapMFailed : RuntimeState :=
  (instantiateModule demoHost heapM 1 moduleE importsE "e").state

/-! ## Relations and example heaps used by the proofs -/

/-- Objects only move from `unreferencedObjects` to the stack, and only objects satisfying `P`
move. -/
structure Moves (P : Ptr → Prop) (st st' : MarkState) : Prop where
  unref_sub : ∀ x, x ∈ st'.unreferencedObjects → x ∈ st.unreferencedObjects
  pending_sub : ∀ x, x ∈ st.pendingScanObjects → x ∈ st'.pendingScanObjects
  moved : ∀ x, x ∈ st.unreferencedObjects → x ∉ st'.unreferencedObjects →
    x ∈ st'.pendingScanObjects ∧ P x
  pushed : ∀ x, x ∈ st'.pendingScanObjects → x ∈ st.pendingScanObjects ∨
    (x ∈ st.unreferencedObjects ∧ x ∉ st'.unreferencedObjects ∧ P x)

/-- Invariant of the mark phase: the marked objects (registered, not in `unreferencedObjects`)
contain the roots, are reachable, and are closed under outgoing edges except for the objects
still on the stack. -/
structure MarkInv (s : RuntimeState) (st : MarkState) : Prop where
  unref_registered : ∀ x, x ∈ st.unreferencedObjects → x ∈ s.allObjects
  pending_marked : ∀ x, x ∈ st.pendingScanObjects →
    x ∈ s.allObjects ∧ x ∉ st.unreferencedObjects
  roots_marked : ∀ o, IsRoot s o → o ∉ st.unreferencedObjects
  closed : ∀ a obj, s.get a = some obj → a ∉ st.unreferencedObjects →
    a ∉ st.pendingScanObjects → ∀ b, some b ∈ outgoingEdges obj.data →
    b ∉ st.unreferencedObjects
  sound : ∀ a, a ∈ s.allObjects → a ∉ st.unreferencedObjects → Reachable s a

/-- What the collector reads of an object: its root counter and its outgoing edges. -/
def ObjectImpl.view (o : ObjectImpl) : Nat × List (Option Ptr) :=
  (o.numRootReferences, outgoingEdges o.data)

/-- Two heaps with the same registry whose objects have the same root counters and edges. -/
def SameGraph (s s' : RuntimeState) : Prop :=
  s'.allObjects = s.allObjects ∧ ∀ p, (s'.get p).map ObjectImpl.view = (s.get p).map ObjectImpl.view

/-- The effect of a finalizer on the heap: module instances are left alone and no compartment
gains a member of `modules`. -/
structure Shrinks (s s' : RuntimeState) : Prop where
  instances : ∀ p, s'.getModuleInstance p = s.getModuleInstance p
  modules : ∀ c comp', s'.getCompartment c = some comp' →
    ∃ comp, s.getCompartment c = some comp ∧ ∀ y, y ∈ comp'.modules → y ∈ comp.modules

/-- The invariant of a registry under which no `removeOrFail` of the collector fails:
`allObjects` is a set, and every module instance is recorded in the `modules` of its
compartment. -/
def consistent (s : RuntimeState) : Bool :=
  decide s.allObjects.Nodup && s.objects.all (fun e =>
    match e.2.data with
    | .moduleInstance inst =>
      match inst.compartment.bind s.getCompartment with
      | some comp => decide (e.1 ∈ comp.modules)
      | none => false
    | _ => true)

/-- Every module instance among `l` is recorded in the `modules` of its compartment. -/
def ModulesRecorded (s : RuntimeState) (l : List Ptr) : Prop :=
  ∀ m, m ∈ l → ∀ inst, s.getModuleInstance m = some inst →
    ∃ c comp, inst.compartment = some c ∧ s.getCompartment c = some comp ∧ m ∈ comp.modules

/-- The number of objects the mark phase may still have to scan. -/
def MarkState.measure (st : MarkState) : Nat :=
  st.pendingScanObjects.length + st.unreferencedObjects.length

def gcHeapA : RuntimeState :=
  { objects := [
      (1, { numRootReferences := 1,
            data := .compartment { modules := [2], wavmIntrinsics := some 2 } }),
      (2, { data := .moduleInstance
              { compartment := some 1, functions := [some 3], tables := [], memories := [],
                globals := [], exceptionTypes := [some 4] } }),
      (3, { data := .function
              { moduleInstance := some 2, type := {}, nativeFunction := none,
                callingConvention := .intrinsic, debugName := "grow" } }),
      (4, { data := .exceptionTypeInstance { type := { params := [] }, debugName := "e" } }),
      (5, { data := .exceptionTypeInstance { type := { params := [] }, debugName := "dead" } })] }

def gcHeapACollected : GCResult :=
  { state := { objects := gcHeapA.objects.take 4 }
    numRoots := 1, garbage := [5], finalized := [5], deleted := [5] }

def gcHeapB : RuntimeState :=
  { objects := [
      (1, { numRootReferences := 1, data := .compartment { modules := [2], tables := [(0, 4)] } }),
      (2, { data := .moduleInstance
              { compartment := some 1, functions := [some 3], tables := [some 4], memories := [],
                globals := [], exceptionTypes := [] } }),
      (3, { data := .function
              { moduleInstance := some 2, type := {}, nativeFunction := none,
                callingConvention := .wasm, debugName := "f" } }),
      (4, { data := .table
              { compartment := some 1, id := 0,
                type := { elementType := .anyfunc, isShared := false, size := ⟨2, 2⟩ },
                elements := [some 3, none] } })] }

def gcHeapBCollected : GCResult :=
  { state := { objects := [(1, { numRootReferences := 1, data := .compartment {} })] }
    numRoots := 1, garbage := [2, 3, 4], finalized := [2, 3, 4], deleted := [2, 3, 4] }

/-- The supplied objects of one kind match the declared import types: as many objects as
declared imports, and `isA` holds at every position. -/
def KindMatches (host : Host) (s : RuntimeState) (objects : List (Option Ptr))
    (types : List ObjectType) : Prop :=
  objects.length = types.length ∧
    ∀ i (h : i < types.length), host.isA s (objects.getD i none) types[i] = true

/-- The supplied function imports match the declared ones; the declared type of an import is
`ir.types[import.type.index]`. -/
def FunctionsMatch (host : Host) (s : RuntimeState) (types : List FunctionType)
    (objects : List (Option Ptr)) (imports : List (Import IndexedFunctionType)) : Prop :=
  objects.length = imports.length ∧
    ∀ i (h : i < imports.length),
      ((types[imports[i].type.index]?).any fun type =>
        host.isA s (objects.getD i none) (.function type)) = true

/-- The import bindings match the imports the module IR declares, kind by kind. -/
def ImportsMatch (host : Host) (ir : IRModule) (s : RuntimeState) (imports : ImportBindings) :
    Prop :=
  FunctionsMatch host s ir.types imports.functions ir.functions.imports ∧
  KindMatches host s imports.tables (ir.tables.imports.map (fun i => ObjectType.table i.type)) ∧
  KindMatches host s imports.memories
    (ir.memories.imports.map (fun i => ObjectType.memory i.type)) ∧
  KindMatches host s imports.globals
    (ir.globals.imports.map (fun i => ObjectType.global i.type)) ∧
  KindMatches host s imports.exceptionTypes
    (ir.exceptionTypes.imports.map (fun i => ObjectType.exceptionType i.type))

/-- The module `moduleA` with its first export repeated under the same name. -/
def moduleDup : Module :=
  { ir := { moduleA.ir with
      exports := [{ name := "main", kind := .function, index := 0 },
                  { name := "main", kind := .global, index := 1 }] } }

/-- A module without imports that defines a function of type `() -> ()`, a table of two slots
and a memory of one page; its data segments are a passive one and an active one, its element
segments an active one and a passive one, and its start function is the defined function. -/
def moduleP : Module :=
  { ir :=
      { types := [{}]
        functions := { defs := [{ type := { index := 0 } }] }
        tables := { defs := [{ type := { elementType := .anyfunc, isShared := false,
                                         size := { min := 2, max := 2 } } }] }
        memories := { defs := [{ type := { isShared := false, size := { min := 1, max := 1 } } }] }
        dataSegments :=
          [{ isActive := false, memoryIndex := 0, baseOffset := .i32_const 0, data := [1, 2, 3] },
           { isActive := true, memoryIndex := 0, baseOffset := .i32_const 8, data := [7, 9] }]
        tableSegments :=
          [{ isActive := true, tableIndex := 0, baseOffset := .i32_const 1, indices := [0] },
           { isActive := false, tableIndex := 0, baseOffset := .i32_const 0,
             indices := [0, 0] }]
        startFunctionIndex := 0 } }

/-- The heap after instantiating `moduleP` on `heapB`. -/
def heapPInstantiated : RuntimeState :=
  (instantiateModule demoHost heapB 1 moduleP {} "p").state

/-- The instance value of `moduleP` on `heapB` when the loader is about to be invoked. -/
def instPBeforeLoad : ModuleInstance :=
  { compartment := some 1, functionDefs := [some 6], functions := [some 6], tables := [some 4],
    memories := [some 5], globals := [], exceptionTypes := [], defaultMemory := some 5,
    defaultTable := some 4, debugName := "p" }

/-- The instance value of `moduleP` on `heapB` when the segments are reached. -/
def instPDefined : ModuleInstance := { instPBeforeLoad with jitModule := some 1 }

/-- The heap of `moduleP` on `heapB` when the data segments are reached. -/
def heapPDefined : RuntimeState :=
  (instantiateDefinitions demoHost 1 3 moduleP (newModuleInstance 1 {} "p")
    (registeredState heapB 1 {} "p" [2, 3])).state

/-- The heap of `moduleP` on `heapB` when the element segments are reached. -/
def heapPData : RuntimeState :=
  (copyDataSegments instPDefined moduleP.ir.dataSegments heapPDefined).state

/-- The table created for `moduleP`: two empty slots. -/
def tableP : TableInstance :=
  { compartment := some 1, id := 0,
    type := { elementType := .anyfunc, isShared := false, size := { min := 2, max := 2 } },
    elements := [none, none] }

/-- The phases of `instantiateModule` that precede the construction of the loader's bindings:
from the import checks to the creation of the defined functions. -/
def instantiateBeforeLoad (host : Host) (compartment moduleInstance : Ptr) (module : Module)
    (inst : ModuleInstance) (s : RuntimeState) : Outcome ModuleInstance :=
  (checkImports host module.ir inst s).bind fun _ s =>
  (instantiateTableDefs host (host.getDisassemblyNames module.ir) compartment moduleInstance
    module.ir.tables.imports.length module.ir.tables.defs 0 inst s).bind fun inst s =>
  (instantiateMemoryDefs host (host.getDisassemblyNames module.ir) compartment
    moduleInstance module.ir.memories.imports.length module.ir.memories.defs 0 inst s).bind
    fun inst s =>
  (selectDefaults host moduleInstance inst s).bind fun inst s =>
  (instantiateGlobalDefs host compartment moduleInstance module.ir.globals.defs inst s).bind
    fun inst s =>
  (instantiateExceptionTypeDefs moduleInstance module.ir.exceptionTypes.defs inst s).bind
    fun inst s =>
  instantiateFunctionDefs (host.getDisassemblyNames module.ir) module.ir.types
    moduleInstance module.ir.functions.imports.length module.ir.functions.defs 0 inst s

/-- The heap of `moduleP` on `heapB` when the loader is about to be invoked. -/
def heapPBeforeLoad : RuntimeState :=
  (instantiateBeforeLoad demoHost 1 3 moduleP (newModuleInstance 1 {} "p")
    (registeredState heapB 1 {} "p" [2, 3])).state

/-- The arguments with which `instantiateModule` invokes `LLVMJIT::loadModule`, as the load
phase builds them from the instance and the heap; `none` when the phase fails before the
loader is invoked. -/
def loadModuleArguments (host : Host) (compartment moduleInstance : Ptr) (module : Module)
    (inst : ModuleInstance) (s : RuntimeState) : Option LoadModuleArgs :=
  match ((s.getCompartment compartment).bind (fun c => c.wavmIntrinsics)).bind
      s.getModuleInstance with
  | none => none
  | some wavmIntrinsics =>
    match buildIntrinsicsExportMap host s wavmIntrinsics.exportMap [] with
    | .throw _ _ => none
    | .ok wavmIntrinsicsExportMap s =>
      buildLoadModuleArgs host s moduleInstance module inst wavmIntrinsicsExportMap

/-- What the loader reads through `immutableValuePointer`: the `initialValue` member of the
global the binding points into. -/
def GlobalBinding.readImmutableValue (s : RuntimeState) (b : GlobalBinding) :
    Option UntaggedValue :=
  match b.value with
  | .immutableValuePointer global => (s.getGlobal global).map fun g => g.initialValue
  | .mutableGlobalId _ => none

/-- The host `demoHost` with a thunk generator that puts the thunk of an intrinsic one
address after the intrinsic itself. -/
def thunkHost : Host :=
  { demoHost with getIntrinsicThunk := fun nativeFunction _ _ _ => nativeFunction.map (· + 1) }

/-- A heap with a rooted compartment (1), its intrinsics instance (2), an intrinsic function
(3), an immutable `i32` global of value 7 (4), a mutable `i32` global in slot 0 with value 9
(5) and a function with the wasm calling convention (6). -/
def heapF : RuntimeState :=
  { objects := [
      (1, { numRootReferences := 1,
            data := .compartment
              { modules := [2], globals := [4, 5], globalDataAllocationMask := [0],
                initialContextMutableGlobals := [(0, 9)], wavmIntrinsics := some 2 } }),
      (2, { data := .moduleInstance
              { compartment := some 1, functions := [some 3, some 6], tables := [],
                memories := [], globals := [some 4, some 5], exceptionTypes := [] } }),
      (3, { data := .function
              { moduleInstance := some 2, type := {}, nativeFunction := some 500,
                callingConvention := .intrinsic, debugName := "intrinsic" } }),
      (4, { numRootReferences := 1,
            data := .global
              { compartment := some 1, type := { valueType := .i32, isMutable := false },
                mutableGlobalId := 2 ^ 32 - 1, initialValue := 7 } }),
      (5, { numRootReferences := 1,
            data := .global
              { compartment := some 1, type := { valueType := .i32, isMutable := true },
                mutableGlobalId := 0, initialValue := 9 } }),
      (6, { data := .function
              { moduleInstance := some 2, type := {}, nativeFunction := some 600,
                callingConvention := .wasm, debugName := "f" } })] }

/-- A module that imports two functions of type `() -> ()`, an immutable and a mutable `i32`
global, and defines an immutable `i32` global. -/
def moduleF : Module :=
  { ir :=
      { types := [{}]
        functions := { imports := [{ type := { index := 0 } }, { type := { index := 0 } }] }
        globals :=
          { imports := [{ type := { valueType := .i32, isMutable := false } },
                        { type := { valueType := .i32, isMutable := true } }]
            defs := [{ type := { valueType := .i32, isMutable := false },
                       initializer := .i32_const 11 }] } } }

/-- The import bindings for `moduleF` on `heapF`. -/
def importsF : ImportBindings := { functions := [some 3, some 6], globals := [some 4, some 5] }

/-- The instance value of `moduleF` on `heapF` when the loader is about to be invoked. -/
def instFBeforeLoad : ModuleInstance :=
  { compartment := some 1, functions := [some 3, some 6], tables := [], memories := [],
    globals := [some 4, some 5, some 8], exceptionTypes := [], debugName := "f" }

/-- The heap of `moduleF` on `heapF` when the loader is about to be invoked. -/
def heapFBeforeLoad : RuntimeState :=
  (instantiateBeforeLoad thunkHost 1 7 moduleF (newModuleInstance 1 importsF "f")
    (registeredState heapF 1 importsF "f" [2, 7])).state

/-- The elements of a table after the objects `objects` were stored, one after the other, in
the consecutive slots that start at `start`. -/
def installElements (elements : List (Option Ptr)) (start : Nat) :
    List (Option Ptr) → List (Option Ptr)
  | [] => elements
  | object :: rest => installElements (elements.set start object) (start + 1) rest

/-- The byte that one data segment stores at address `a` of the memory `memory`, if any: a
passive segment, a segment of another memory and a segment whose byte range does not contain
`a` store nothing there. -/
def segmentByte (s : RuntimeState) (inst : ModuleInstance) (memory : Ptr) (a : Nat)
    (d : DataSegment) : Option Nat :=
  if d.isActive = true ∧ inst.memories[d.memoryIndex]? = some (some memory) then
    match evaluateInitializer s inst.globals d.baseOffset with
    | .ok v => if v.i32 ≤ a then d.data[a - v.i32]? else none
    | .error _ => none
  else none

/-- The byte that the data segments store at address `a` of the memory `memory`, if any, in
the words of the specification: the byte of the last segment in declaration order that is
active, targets the memory and covers the address. -/
def dataSegmentByte (s : RuntimeState) (inst : ModuleInstance) (memory : Ptr) (a : Nat) :
    List DataSegment → Option Nat
  | [] => none
  | d :: rest =>
    match dataSegmentByte s inst memory a rest with
    | some byte => some byte
    | none => segmentByte s inst memory a d

/-- A module that imports a memory, with two overlapping active data segments and a passive
one between them. -/
def moduleO : Module :=
  { ir :=
      { memories := { imports := [{ type := { isShared := false,
                                              size := { min := 1, max := 1 } } }] }
        dataSegments :=
          [{ isActive := true, memoryIndex := 0, baseOffset := .i32_const 4, data := [1, 2, 3] },
           { isActive := false, memoryIndex := 0, baseOffset := .i32_const 0, data := [9, 9] },
           { isActive := true, memoryIndex := 0, baseOffset := .i32_const 5, data := [7, 8] }] } }

/-- The heap after the instantiation of `moduleO` on `heapM` with the memory 3. -/
def heapOInstantiated : RuntimeState :=
  (instantiateModule demoHost heapM 1 moduleO importsE "o").state

/-- What a successful step of the loop over the data segments does to the heap, `byte mp a`
being the byte it stores at address `a` of the memory `mp`, if any. -/
def DataStep (s s' : RuntimeState) (byte : Ptr → Nat → Option Nat) : Prop :=
  (∀ g, s'.getGlobal g = s.getGlobal g) ∧
  (∀ mp, s.getMemory mp = none → s'.getMemory mp = none) ∧
  (∀ mp m, s.getMemory mp = some m → ∃ m', s'.getMemory mp = some m' ∧
    m'.numPages = m.numPages ∧ ∀ a, m'.bytes a = (byte mp a).getD (m.bytes a))

/-- An active data segment lies within its memory. -/
def SegmentFits (s : RuntimeState) (inst : ModuleInstance) (d : DataSegment) : Prop :=
  ∃ (mp : Ptr) (m : MemoryInstance) (v : Value),
    inst.memories[d.memoryIndex]? = some (some mp) ∧ s.getMemory mp = some m ∧
    evaluateInitializer s inst.globals d.baseOffset = .ok v ∧ v.type = .i32 ∧
    v.i32 + d.data.length ≤ m.numPages * numBytesPerPage

/-! ## Traces of the collector, the weak index `modules` and further example heaps -/

/-- The objects popped and scanned by `markLoop`, in the order of the iterations: the loop of
`markLoop` with the scanned object recorded at each iteration. -/
def markScanned (s : RuntimeState) : Nat → MarkState → List Ptr
  | fuel, st =>
    match st.pendingScanObjects with
    | [] => []
    | top :: rest =>
      match fuel with
      | 0 => []
      | fuel + 1 =>
        top :: markScanned s fuel (scanObject s { st with pendingScanObjects := rest } top)

/-- The objects on the stack and the objects `seen` so far are pairwise distinct and none of
them is in `unreferencedObjects`. -/
def MarkedOnce (st : MarkState) (seen : List Ptr) : Prop :=
  (st.pendingScanObjects ++ seen).Nodup ∧
  ∀ x, x ∈ st.pendingScanObjects ++ seen → x ∉ st.unreferencedObjects

/-- A heap whose objects refer to each other in cycles: the rooted compartment 1 and its
intrinsics instance 2 refer to each other, the instance 2 and its function 3 refer to each
other, and the table 4 holds itself, the function 3 twice and its compartment. -/
def gcHeapC : RuntimeState :=
  { objects := [
      (1, { numRootReferences := 1,
            data := .compartment { modules := [2], wavmIntrinsics := some 2 } }),
      (2, { data := .moduleInstance
              { compartment := some 1, functions := [some 3, some 3], tables := [some 4],
                memories := [], globals := [], exceptionTypes := [] } }),
      (3, { data := .function
              { moduleInstance := some 2, type := {}, nativeFunction := none,
                callingConvention := .intrinsic, debugName := "f" } }),
      (4, { numRootReferences := 2,
            data := .table
              { compartment := some 1, id := 0,
                type := { elementType := .anyfunc, isShared := false, size := ⟨3, 3⟩ },
                elements := [some 4, some 3, some 3] } }),
      (5, { data := .exceptionTypeInstance { type := { params := [] }, debugName := "dead" } })] }

/-- The loop "call finalize on each unreferenced object" as the specification words it:
the loop of `collectGarbage` without its `contains` check. -/
def finalizeLoopUnchecked : List Ptr → RuntimeState × List Ptr → Option (RuntimeState × List Ptr)
  | [], acc => some acc
  | object :: rest, (s, finalized) =>
    match finalizeObject s object with
    | none => none
    | some s' => finalizeLoopUnchecked rest (s', finalized ++ [object])

/-- Every member of the `modules` set of a compartment is a registered object. -/
def ModulesRegistered (s : RuntimeState) : Prop :=
  ∀ c comp, s.getCompartment c = some comp → ∀ m, m ∈ comp.modules → m ∈ s.allObjects

/-- Every member of the `modules` set of a compartment is a module instance of that
compartment. -/
def ModulesIndexed (s : RuntimeState) : Prop :=
  ∀ c comp, s.getCompartment c = some comp → ∀ m, m ∈ comp.modules →
    ∃ inst, s.getModuleInstance m = some inst ∧ inst.compartment = some c

/-- The five vectors of an instance whose entries the collector visits. -/
def ModuleInstance.tracedVectors (m : ModuleInstance) : List (Option Ptr) :=
  m.functions ++ m.tables ++ m.memories ++ m.globals ++ m.exceptionTypes

/-- The object references an instance holds outside its five vectors: the function
definitions, the start function, the default memory and table, the values of the export map
and the objects of the passive element segments. -/
def ModuleInstance.otherReferences (m : ModuleInstance) : List (Option Ptr) :=
  m.functionDefs ++ [m.startFunction, m.defaultMemory, m.defaultTable]
    ++ m.exportMap.map Prod.snd ++ (m.passiveTableSegments.map Prod.snd).flatten

/-! ## Text form of floats (`Floats.h`) -/

/-- The constants of `Floats::FloatComponents<Float>` that `asString` reads, and the widths
of the bit fields `significand` and `exponent` (the field `sign` is one bit wide). -/
structure FloatComponents where
  numSignificandBits : Nat
  numExponentBits : Nat
  numSignificandHexits : Nat
  maxExponentBits : Nat
  deriving DecidableEq, Repr

/-- The specialization `FloatComponents<F64>`. -/
def FloatComponents.F64 : FloatComponents :=
  { numSignificandBits := 52, numExponentBits := 11, numSignificandHexits := 13,
    maxExponentBits := 0x7ff }

/-- The specialization `FloatComponents<F32>`. -/
def FloatComponents.F32 : FloatComponents :=
  { numSignificandBits := 23, numExponentBits := 8, numSignificandHexits := 6,
    maxExponentBits := 0xff }

/-- The bit field `bits.significand` of a float with the bit pattern `bitcastInt`: the
lowest `numSignificandBits` bits. -/
def FloatComponents.significand (fc : FloatComponents) (bitcastInt : Nat) : Nat :=
  bitcastInt % 2 ^ fc.numSignificandBits

/-- The bit field `bits.exponent`: the `numExponentBits` bits above the significand. -/
def FloatComponents.exponent (fc : FloatComponents) (bitcastInt : Nat) : Nat :=
  (bitcastInt / 2 ^ fc.numSignificandBits) % 2 ^ fc.numExponentBits

/-- The bit field `bits.sign`: the bit above the exponent. -/
def FloatComponents.sign (fc : FloatComponents) (bitcastInt : Nat) : Nat :=
  (bitcastInt / 2 ^ (fc.numSignificandBits + fc.numExponentBits)) % 2

/-- The character stored for one hexit:
`hexitValue >= 10 ? ('a' + hexitValue - 10) : ('0' + hexitValue)`. -/
def Floats.hexitChar (hexitValue : Nat) : Char :=
  if hexitValue ≥ 10 then Char.ofNat ('a'.toNat + hexitValue - 10)
  else Char.ofNat ('0'.toNat + hexitValue)

/-- The loop of `asString` that fills `significandString`: hexit `hexitIndex` is
`(significand >> ((numSignificandHexits - hexitIndex - 1) * 4)) & 0xf`. -/
def Floats.significandString (fc : FloatComponents) (significand : Nat) : List Char :=
  (List.range fc.numSignificandHexits).map fun hexitIndex =>
    Floats.hexitChar ((significand >>> ((fc.numSignificandHexits - hexitIndex - 1) * 4)) &&& 0xf)

/-- The function `Floats::asString` on the bit pattern of its argument.  `sprintf` is the C
library function, given the format and the float; `none` is the fatal error
"not enough space in Floats::asString buffer". -/
def Floats.asString (fc : FloatComponents) (sprintf : String → Nat → String) (bitcastInt : Nat) :
    Option String :=
  let sign := if fc.sign bitcastInt ≠ 0 then "-" else "+"
  if fc.exponent bitcastInt = fc.maxExponentBits then
    -- Handle infinity.
    if fc.significand bitcastInt = 0 then some (sign ++ "inf")
    else
      -- Handle NaN.
      some (sign ++ "nan:0x" ++ String.mk (Floats.significandString fc (fc.significand bitcastInt))
        ++ "")
  else
    let buffer := sprintf (if fc.numSignificandHexits = 6 then "%.6a" else "%.13a") bitcastInt
    if buffer.length + 1 > 32 then none else some buffer

/-- The value of a lowercase hexadecimal digit, as the specification reads the digits. -/
def Floats.hexDigitValue (c : Char) : Nat :=
  if '0' ≤ c ∧ c ≤ '9' then c.toNat - '0'.toNat
  else if 'a' ≤ c ∧ c ≤ 'f' then c.toNat - 'a'.toNat + 10
  else 0

/-- The value of a string of hexadecimal digits read as a base-16 number. -/
def Floats.hexValue (digits : List Char) : Nat :=
  digits.foldl (fun acc c => 16 * acc + Floats.hexDigitValue c) 0

/-! ## The stores of the active segments, in the order of the copy -/

/-- The byte stores that the body of the loop over the data segments makes into the memory
`memory` for one segment, in the order of the copy
`bytewiseMemCopy(memory->baseAddress + baseOffset, data)`: the pairs (address, byte), byte
`i` of the segment at address `baseOffset + i`.  A passive segment, a segment of another
memory and a segment whose base offset is no `i32` value store nothing there. -/
def dataSegmentWrites (s : RuntimeState) (inst : ModuleInstance) (memory : Ptr)
    (d : DataSegment) : List (Nat × Nat) :=
  if d.isActive = true ∧ inst.memories[d.memoryIndex]? = some (some memory) then
    match evaluateInitializer s inst.globals d.baseOffset with
    | .ok v => if v.type = .i32 then d.data.enumFrom v.i32 else []
    | .error _ => []
  else []

/-- The bytes of a memory after a list of byte stores, applied in order: a later store to
an address replaces an earlier one, an address without a store keeps its byte. -/
def applyByteWrites (bytes : Nat → Nat) : List (Nat × Nat) → Nat → Nat
  | [] => bytes
  | w :: rest => applyByteWrites (fun a => if a = w.1 then w.2 else bytes a) rest

/-- The heap `s'` is the heap `s` after the byte stores `writes p` into each memory `p`:
nothing but the bytes of memories differs. -/
def WritesBytes (s s' : RuntimeState) (writes : Ptr → List (Nat × Nat)) : Prop :=
  (∀ q, s.getMemory q = none → s'.get q = s.get q) ∧
  (∀ p m, s.getMemory p = some m →
    s'.getMemory p = some { m with bytes := applyByteWrites m.bytes (writes p) })

/-- The element stores of the inner loop of an element segment, in the order of the copy
`setTableElement(table, baseOffset + index, functions[functionIndex])`: the pairs
(slot, object); element `index` of the segment goes to slot `baseOffset + index`. -/
def elementWrites (inst : ModuleInstance) (baseOffset : Nat) :
    List Nat → Nat → List (Nat × Option Ptr)
  | [], _ => []
  | functionIndex :: rest, index =>
    ((baseOffset + index) % 2 ^ 64, inst.functions.getD functionIndex none)
      :: elementWrites inst baseOffset rest (index + 1)

/-- The element stores that the body of the loop over the element segments makes into the
table `table` for one segment, in the order of the copy.  A passive segment, a segment of
another table and a segment whose base offset is no `i32` value store nothing there. -/
def tableSegmentWrites (s : RuntimeState) (inst : ModuleInstance) (table : Ptr)
    (seg : TableSegment) : List (Nat × Option Ptr) :=
  if seg.isActive = true ∧ inst.tables[seg.tableIndex]? = some (some table) then
    match evaluateInitializer s inst.globals seg.baseOffset with
    | .ok v => if v.type = .i32 then elementWrites inst v.i32 seg.indices 0 else []
    | .error _ => []
  else []

/-- The elements of a table after a list of element stores, applied in order: a later
store to a slot replaces an earlier one, a slot without a store keeps its element. -/
def applyElementWrites (elements : List (Option Ptr)) :
    List (Nat × Option Ptr) → List (Option Ptr)
  | [] => elements
  | w :: rest => applyElementWrites (elements.set w.1 w.2) rest

/-- The heap `s'` is the heap `s` after the element stores `writes p` into each table `p`:
nothing but the elements of tables differs. -/
def WritesElements (s s' : RuntimeState) (writes : Ptr → List (Nat × Option Ptr)) : Prop :=
  (∀ q, s.getTable q = none → s'.get q = s.get q) ∧
  (∀ p t, s.getTable p = some t →
    s'.getTable p = some { t with elements := applyElementWrites t.elements (writes p) })

/-! ## The heaps of the failed instantiations of `moduleE` and `moduleD` -/

/-- The instance value of `moduleE` with the imports `importsE` when the data segments are
reached. -/
def instE : ModuleInstance :=
  { compartment := some 1, functions := [], tables := [], memories := [some 3], globals := [],
    exceptionTypes := [], defaultMemory := some 3, jitModule := some 1, debugName := "e" }

/-- The heap of `moduleE` on `heapM` when the data segments are reached. -/
def heapEDefined : RuntimeState :=
  (instantiateDefinitions demoHost 1 4 moduleE (newModuleInstance 1 importsE "e")
    (registeredState heapM 1 importsE "e" [2, 4])).state

/-- The memory of `heapM`: one zero-initialized page. -/
def memoryM : MemoryInstance :=
  { compartment := some 1, id := 0, type := { isShared := false, size := { min := 1, max := 1 } },
    bytes := fun _ => 0, numPages := 1 }

/-- The heap after the failed instantiation of `moduleE` on `heapM` without its import. -/
def heapMUnlinked : RuntimeState :=
  (instantiateModule demoHost heapM 1 moduleE {} "e").state

/-- The instance value of `moduleD` with the imports `importsD` when the data segments are
reached. -/
def instD : ModuleInstance :=
  { compartment := some 1, functionDefs := [some 5], functions := [some 5], tables := [some 3],
    memories := [], globals := [], exceptionTypes := [], defaultTable := some 3,
    jitModule := some 1, debugName := "d" }

/-- The heap of `moduleD` on `heapT` when the data segments are reached. -/
def heapDDefined : RuntimeState :=
  (instantiateDefinitions demoHost 1 4 moduleD (newModuleInstance 1 importsD "d")
    (registeredState heapT 1 importsD "d" [2, 4])).state

/-- The table of `heapT`: two empty slots. -/
def tableT : TableInstance :=
  { compartment := some 1, id := 0,
    type := { elementType := .anyfunc, isShared := false, size := { min := 2, max := 2 } },
    elements := [none, none] }

/-! # Theorems -/

/-! ## Lemmas on association lists -/

section AssocLemmas

variable {κ : Type} {β : Type} [DecidableEq κ]

theorem mem_setRemove {k x : κ} {l : List κ} : x ∈ setRemove k l ↔ x ∈ l ∧ x ≠ k := by
  simp [setRemove]

theorem length_setRemove_lt {k : κ} {l : List κ} (h : k ∈ l) :
    (setRemove k l).length < l.length := by
  induction l with
  | nil => simp at h
  | cons a t ih =>
    by_cases hak : a = k
    · subst hak
      have : (setRemove a (a :: t)) = setRemove a t := by simp [setRemove]
      rw [this]
      have := List.length_filter_le (fun e => decide (e ≠ a)) t
      simp only [setRemove, List.length_cons]
      omega
    · have hk : k ∈ t := by
        rcases List.mem_cons.1 h with h | h
        · exact absurd h.symm hak
        · exact h
      have : (setRemove k (a :: t)) = a :: setRemove k t := by simp [setRemove, hak]
      rw [this]
      simpa using ih hk

theorem assocGet_eq_none {k : κ} {l : List (κ × β)} :
    assocGet k l = none ↔ k ∉ l.map Prod.fst := by
  induction l with
  | nil => simp [assocGet]
  | cons a t ih =>
    obtain ⟨q, v⟩ := a
    by_cases h : q = k
    · simp [assocGet, h]
    · simp only [assocGet, h, if_false, ih, List.map_cons, List.mem_cons, not_or]
      constructor
      · intro h2; exact ⟨fun e => h e.symm, h2⟩
      · intro h2; exact h2.2

theorem assocGet_isSome {k : κ} {l : List (κ × β)} :
    (∃ v, assocGet k l = some v) ↔ k ∈ l.map Prod.fst := by
  rw [← not_iff_not, ← assocGet_eq_none]
  cases assocGet k l <;> simp

theorem assocGet_modify {k k' : κ} {f : β → β} {l : List (κ × β)} :
    assocGet k' (assocModify k f l) = if k' = k then (assocGet k' l).map f else assocGet k' l := by
  induction l with
  | nil => simp [assocGet, assocModify]
  | cons a t ih =>
    simp only [assocModify, List.map_cons, assocGet] at ih ⊢
    by_cases hq : a.1 = k'
    · by_cases hk : k' = k
      · simp [hq, hk]
      · have : ¬ a.1 = k := fun e => hk (hq ▸ e)
        simp [hq, hk]
    · simp only [hq, if_false, ih]

theorem keys_assocModify {k : κ} {f : β → β} {l : List (κ × β)} :
    (assocModify k f l).map Prod.fst = l.map Prod.fst := by
  simp [assocModify, Function.comp_def]

theorem assocGet_remove {k k' : κ} {l : List (κ × β)} :
    assocGet k' (assocRemove k l) = if k' = k then none else assocGet k' l := by
  induction l with
  | nil => simp [assocGet, assocRemove]
  | cons a t ih =>
    obtain ⟨q, v⟩ := a
    simp only [assocRemove] at ih ⊢
    by_cases hq : q = k
    · subst hq
      simp only [List.filter_cons, ne_eq, not_true_eq_false, decide_False, Bool.false_eq_true,
        if_false, ih]
      by_cases hk : k' = q
      · simp [hk]
      · have : ¬ q = k' := fun e => hk e.symm
        simp [hk, assocGet, this]
    · simp only [List.filter_cons, ne_eq, hq, not_false_eq_true, decide_True, if_true, assocGet, ih]
      by_cases hk : k' = k
      · subst hk; simp [hq]
      · simp [hk]

theorem keys_assocRemove {k : κ} {l : List (κ × β)} :
    (assocRemove k l).map Prod.fst = setRemove k (l.map Prod.fst) := by
  simp [assocRemove, setRemove, List.filter_map, Function.comp_def]

theorem assocGet_append {k : κ} {l l' : List (κ × β)} :
    assocGet k (l ++ l') = (assocGet k l).orElse (fun _ => assocGet k l') := by
  induction l with
  | nil => simp [assocGet]
  | cons a t ih =>
    obtain ⟨q, v⟩ := a
    by_cases h : q = k <;> simp [assocGet, h, ih]

end AssocLemmas

/-! ## The mark phase -/

theorem Moves.movesRefl (P : Ptr → Prop) (st : MarkState) : Moves P st st :=
  ⟨fun _ h => h, fun _ h => h, fun _ h h' => absurd h h', fun _ h => Or.inl h⟩

theorem Moves.movesTrans {P : Ptr → Prop} {a b c : MarkState} (h1 : Moves P a b) (h2 : Moves P b c) :
    Moves P a c := by
  refine ⟨fun x h => h1.unref_sub x (h2.unref_sub x h),
    fun x h => h2.pending_sub x (h1.pending_sub x h), ?_, ?_⟩
  · intro x hx hx'
    by_cases hb : x ∈ b.unreferencedObjects
    · exact h2.moved x hb hx'
    · have := h1.moved x hx hb
      exact ⟨h2.pending_sub x this.1, this.2⟩
  · intro x hx
    rcases h2.pushed x hx with h | ⟨hb, hc, hp⟩
    · rcases h1.pushed x h with h | ⟨ha, hb, hp⟩
      · exact Or.inl h
      · exact Or.inr ⟨ha, fun hc => hb (h2.unref_sub x hc), hp⟩
    · exact Or.inr ⟨h1.unref_sub x hb, hc, hp⟩

theorem Moves.mono {P Q : Ptr → Prop} {a b : MarkState} (h : Moves P a b)
    (hPQ : ∀ x, P x → Q x) : Moves Q a b :=
  ⟨h.unref_sub, h.pending_sub, fun x hx hx' => ⟨(h.moved x hx hx').1, hPQ x (h.moved x hx hx').2⟩,
    fun x hx => (h.pushed x hx).imp id (fun ⟨a, b, c⟩ => ⟨a, b, hPQ x c⟩)⟩

theorem visitReference_moves (st : MarkState) (reference : Option Ptr) :
    Moves (fun x => some x = reference) st (visitReference st reference) := by
  cases reference with
  | none => exact Moves.movesRefl _ _
  | some r =>
    by_cases h : r ∈ st.unreferencedObjects
    · simp only [visitReference, h, if_true]
      refine ⟨?_, ?_, ?_, ?_⟩
      · intro x hx; exact (mem_setRemove.1 hx).1
      · intro x hx; exact List.mem_cons_of_mem _ hx
      · intro x hx hx'
        have : x = r := by
          by_contra hne
          exact hx' (mem_setRemove.2 ⟨hx, hne⟩)
        subst this
        exact ⟨List.mem_cons_self _ _, rfl⟩
      · intro x hx
        rcases List.mem_cons.1 hx with h1 | h1
        · subst h1
          exact Or.inr ⟨h, fun h2 => (mem_setRemove.1 h2).2 rfl, rfl⟩
        · exact Or.inl h1
    · simp only [visitReference, h, if_false]
      exact Moves.movesRefl _ _

theorem visitReference_not_mem (st : MarkState) (r : Ptr) :
    r ∉ (visitReference st (some r)).unreferencedObjects := by
  by_cases h : r ∈ st.unreferencedObjects
  · simp only [visitReference, h, if_true]
    intro h2
    exact (mem_setRemove.1 h2).2 rfl
  · simp [visitReference, h]

theorem visitReferenceArray_moves (array : List (Option Ptr)) (st : MarkState) :
    Moves (fun x => some x ∈ array) st (visitReferenceArray st array) := by
  induction array generalizing st with
  | nil => exact Moves.movesRefl _ _
  | cons r t ih =>
    have h1 := (visitReference_moves st r).mono (Q := fun x => some x ∈ r :: t)
      (fun x hx => by simp [hx])
    have h2 := (ih (visitReference st r)).mono (Q := fun x => some x ∈ r :: t)
      (fun x hx => List.mem_cons_of_mem _ hx)
    exact h1.movesTrans h2

theorem visitReferenceArray_not_mem (array : List (Option Ptr)) (st : MarkState) (r : Ptr)
    (h : some r ∈ array) : r ∉ (visitReferenceArray st array).unreferencedObjects := by
  induction array generalizing st with
  | nil => simp at h
  | cons a t ih =>
    rcases List.mem_cons.1 h with h1 | h1
    · subst h1
      intro h2
      exact visitReference_not_mem st r
        ((visitReferenceArray_moves t (visitReference st (some r))).unref_sub r h2)
    · exact ih (visitReference st a) h1

theorem visitReferenceArray_append (st : MarkState) (a b : List (Option Ptr)) :
    visitReferenceArray st (a ++ b) = visitReferenceArray (visitReferenceArray st a) b := by
  simp [visitReferenceArray, List.foldl_append]

theorem foldl_visitReferenceArray (l : List (Nat × List (Option Ptr))) (st : MarkState) :
    l.foldl (fun st pair => visitReferenceArray st pair.2) st
      = visitReferenceArray st (l.map Prod.snd).flatten := by
  induction l generalizing st with
  | nil => rfl
  | cons a t ih =>
    simp only [List.foldl_cons, List.map_cons, List.flatten_cons, visitReferenceArray_append, ih]

theorem range_map_getTableElement (t : TableInstance) :
    (List.range (getTableNumElements t)).map (getTableElement t) = t.elements := by
  apply List.ext_getElem
  · simp [getTableNumElements]
  · intro i h1 h2
    simp [getTableElement, List.getD, h2]

/-- The switch of the mark loop visits exactly the outgoing edges of the scanned object. -/
theorem scanObject_eq (s : RuntimeState) (st : MarkState) (o : Ptr) (obj : ObjectImpl)
    (h : s.get o = some obj) :
    scanObject s st o = visitReferenceArray st (outgoingEdges obj.data) := by
  unfold scanObject
  rw [h]
  obtain ⟨n, d⟩ := obj
  cases d with
  | function f => simp [outgoingEdges, visitReferenceArray]
  | table t =>
    simp only [outgoingEdges, range_map_getTableElement]
    rfl
  | memory m => simp [outgoingEdges, visitReferenceArray]
  | global g => simp [outgoingEdges, visitReferenceArray]
  | moduleInstance m =>
    simp only [outgoingEdges, foldl_visitReferenceArray]
    simp [visitReferenceArray, List.foldl_append]
  | context x => simp [outgoingEdges, visitReferenceArray]
  | compartment c => simp [outgoingEdges, visitReferenceArray]
  | module m => simp [outgoingEdges, visitReferenceArray]
  | exceptionTypeInstance e => simp [outgoingEdges, visitReferenceArray]

theorem mem_allObjects_iff {s : RuntimeState} {p : Ptr} :
    p ∈ s.allObjects ↔ ∃ obj, s.get p = some obj := by
  unfold RuntimeState.allObjects RuntimeState.get
  exact assocGet_isSome.symm

theorem isRoot_iff {s : RuntimeState} {o : Ptr} : IsRoot s o ↔ numRootReferences s o > 0 := by
  unfold IsRoot numRootReferences
  cases h : s.get o with
  | none => simp
  | some obj => simp

theorem IsRoot.registered {s : RuntimeState} {o : Ptr} (h : IsRoot s o) : o ∈ s.allObjects := by
  obtain ⟨obj, h1, _⟩ := h
  exact mem_allObjects_iff.2 ⟨obj, h1⟩

theorem rootLoop_moves (s : RuntimeState) (l : List Ptr) (st : MarkState) (n : Nat)
    (st' : MarkState) (n' : Nat) (h : rootLoop s l (st, n) = some (st', n')) :
    Moves (fun x => x ∈ l ∧ IsRoot s x) st st' ∧
      ∀ x, x ∈ l → IsRoot s x → x ∉ st'.unreferencedObjects := by
  induction l generalizing st n with
  | nil =>
    simp only [rootLoop, Option.some.injEq, Prod.mk.injEq] at h
    obtain ⟨rfl, rfl⟩ := h
    exact ⟨Moves.movesRefl _ _, fun x hx => by simp at hx⟩
  | cons o rest ih =>
    unfold rootLoop at h
    by_cases hroot : numRootReferences s o > 0
    · simp only [hroot, if_true] at h
      by_cases hmem : o ∈ st.unreferencedObjects
      · simp only [setRemoveOrFail, hmem, if_true] at h
        obtain ⟨hm, hr⟩ := ih _ _ h
        have step : Moves (fun x => x ∈ o :: rest ∧ IsRoot s x) st
            { unreferencedObjects := setRemove o st.unreferencedObjects,
              pendingScanObjects := o :: st.pendingScanObjects } := by
          refine ⟨fun x hx => (mem_setRemove.1 hx).1, fun x hx => List.mem_cons_of_mem _ hx, ?_, ?_⟩
          · intro x hx hx'
            have : x = o := by
              by_contra hne
              exact hx' (mem_setRemove.2 ⟨hx, hne⟩)
            subst this
            exact ⟨List.mem_cons_self _ _, List.mem_cons_self _ _, isRoot_iff.2 hroot⟩
          · intro x hx
            rcases List.mem_cons.1 hx with h1 | h1
            · subst h1
              exact Or.inr ⟨hmem, fun h2 => (mem_setRemove.1 h2).2 rfl,
                List.mem_cons_self _ _, isRoot_iff.2 hroot⟩
            · exact Or.inl h1
        refine ⟨step.movesTrans (hm.mono (fun x hx => ⟨List.mem_cons_of_mem _ hx.1, hx.2⟩)), ?_⟩
        intro x hx hxr
        rcases List.mem_cons.1 hx with h1 | h1
        · subst h1
          intro h2
          exact (mem_setRemove.1 (hm.unref_sub x h2)).2 rfl
        · exact hr x h1 hxr
      · simp [setRemoveOrFail, hmem] at h
    · simp only [hroot, if_false] at h
      obtain ⟨hm, hr⟩ := ih _ _ h
      refine ⟨hm.mono (fun x hx => ⟨List.mem_cons_of_mem _ hx.1, hx.2⟩), ?_⟩
      intro x hx hxr
      rcases List.mem_cons.1 hx with h1 | h1
      · subst h1
        exact absurd (isRoot_iff.1 hxr) hroot
      · exact hr x h1 hxr

theorem rootLoop_inv (s : RuntimeState) (st' : MarkState) (n' : Nat)
    (h : rootLoop s s.allObjects
      ({ unreferencedObjects := s.allObjects, pendingScanObjects := [] }, 0) = some (st', n')) :
    MarkInv s st' := by
  obtain ⟨hm, hr⟩ := rootLoop_moves s _ _ _ _ _ h
  refine ⟨fun x hx => hm.unref_sub x hx, ?_, ?_, ?_, ?_⟩
  · intro x hx
    rcases hm.pushed x hx with h1 | ⟨h1, h2, _⟩
    · simp at h1
    · exact ⟨h1, h2⟩
  · intro o ho
    exact hr o ho.registered ho
  · intro a obj ha hau hap
    have : a ∈ s.allObjects := mem_allObjects_iff.2 ⟨obj, ha⟩
    exact absurd (hm.moved a this hau).1 hap
  · intro a ha hau
    exact Reachable.root (hm.moved a ha hau).2.2

theorem scanObject_inv (s : RuntimeState) (st : MarkState) (top : Ptr) (rest : List Ptr)
    (hp : st.pendingScanObjects = top :: rest) (inv : MarkInv s st) :
    MarkInv s (scanObject s { st with pendingScanObjects := rest } top) := by
  have htop := inv.pending_marked top (by rw [hp]; exact List.mem_cons_self _ _)
  obtain ⟨obj, hobj⟩ := mem_allObjects_iff.1 htop.1
  rw [scanObject_eq s _ top obj hobj]
  have hm := visitReferenceArray_moves (outgoingEdges obj.data)
    { st with pendingScanObjects := rest }
  refine ⟨fun x hx => inv.unref_registered x (hm.unref_sub x hx), ?_, ?_, ?_, ?_⟩
  · intro x hx
    rcases hm.pushed x hx with h1 | ⟨h1, h2, _⟩
    · have := inv.pending_marked x (by rw [hp]; exact List.mem_cons_of_mem _ h1)
      exact ⟨this.1, fun h3 => this.2 (hm.unref_sub x h3)⟩
    · exact ⟨inv.unref_registered x h1, h2⟩
  · intro o ho h2
    exact inv.roots_marked o ho (hm.unref_sub o h2)
  · intro a obj' ha hau hap b hb
    by_cases hat : a = top
    · subst hat
      rw [hobj] at ha
      cases ha
      exact visitReferenceArray_not_mem _ _ b hb
    · have hau' : a ∉ st.unreferencedObjects := fun h1 => hap (hm.moved a h1 hau).1
      have hap' : a ∉ st.pendingScanObjects := by
        rw [hp]
        intro h1
        rcases List.mem_cons.1 h1 with h2 | h2
        · exact hat h2
        · exact hap (hm.pending_sub a h2)
      exact fun h1 => inv.closed a obj' ha hau' hap' b hb (hm.unref_sub b h1)
  · intro a ha hau
    by_cases h1 : a ∈ st.unreferencedObjects
    · have := (hm.moved a h1 hau).2
      exact Reachable.edge (inv.sound top htop.1 htop.2) hobj this
    · exact inv.sound a ha h1

theorem markLoop_inv (s : RuntimeState) (fuel : Nat) (st st' : MarkState)
    (h : markLoop s fuel st = some st') (inv : MarkInv s st) :
    MarkInv s st' ∧ st'.pendingScanObjects = [] := by
  induction fuel generalizing st with
  | zero =>
    unfold markLoop at h
    cases hp : st.pendingScanObjects with
    | nil =>
      simp only [hp, Option.some.injEq] at h
      subst h
      exact ⟨inv, hp⟩
    | cons top rest => simp [hp] at h
  | succ fuel ih =>
    unfold markLoop at h
    cases hp : st.pendingScanObjects with
    | nil =>
      simp only [hp, Option.some.injEq] at h
      subst h
      exact ⟨inv, hp⟩
    | cons top rest =>
      simp only [hp] at h
      exact ih _ h (scanObject_inv s st top rest hp inv)

/-- When the mark phase ends, the unreferenced set is the set of registered objects that are
not reachable from a root. -/
theorem markInv_final (s : RuntimeState) (st : MarkState) (inv : MarkInv s st)
    (hp : st.pendingScanObjects = []) (o : Ptr) :
    o ∈ st.unreferencedObjects ↔ o ∈ s.allObjects ∧ ¬ Reachable s o := by
  have key : ∀ x, Reachable s x → x ∉ st.unreferencedObjects := by
    intro x hx
    induction hx with
    | root hr => exact inv.roots_marked _ hr
    | edge _ hget hedge ih =>
      exact inv.closed _ _ hget ih (by rw [hp]; simp) _ hedge
  constructor
  · intro h
    exact ⟨inv.unref_registered o h, fun hr => key o hr h⟩
  · intro ⟨h1, h2⟩
    by_contra h3
    exact h2 (inv.sound o h1 h3)

/-! ## Finalize and delete phases -/

theorem SameGraph.sameRefl (s : RuntimeState) : SameGraph s s := ⟨rfl, fun _ => rfl⟩

theorem SameGraph.sameTrans {a b c : RuntimeState} (h1 : SameGraph a b) (h2 : SameGraph b c) :
    SameGraph a c :=
  ⟨h2.1.trans h1.1, fun p => (h2.2 p).trans (h1.2 p)⟩

theorem get_modifyData (s : RuntimeState) (p q : Ptr) (f : ObjectData → ObjectData) :
    (s.modifyData p f).get q
      = if q = p then (s.get q).map (fun o => { o with data := f o.data }) else s.get q := by
  simp [RuntimeState.modifyData, RuntimeState.get, assocGet_modify]

theorem allObjects_modifyData (s : RuntimeState) (p : Ptr) (f : ObjectData → ObjectData) :
    (s.modifyData p f).allObjects = s.allObjects := by
  simp [RuntimeState.modifyData, RuntimeState.allObjects, keys_assocModify]

theorem modifyData_sameGraph (s : RuntimeState) (p : Ptr) (f : ObjectData → ObjectData)
    (hf : ∀ d, outgoingEdges (f d) = outgoingEdges d) : SameGraph s (s.modifyData p f) := by
  refine ⟨allObjects_modifyData s p f, fun q => ?_⟩
  rw [get_modifyData]
  by_cases h : q = p
  · simp only [h, if_true]
    cases s.get p with
    | none => rfl
    | some o => simp [ObjectImpl.view, hf]
  · simp [h]

theorem modifyCompartment_sameGraph (s : RuntimeState) (p : Ptr) (f : Compartment → Compartment)
    (hf : ∀ c, (f c).wavmIntrinsics = c.wavmIntrinsics) :
    SameGraph s (s.modifyCompartment p f) := by
  apply modifyData_sameGraph
  intro d
  cases d <;> simp [outgoingEdges, hf]

theorem finalizeObject_sameGraph (s s' : RuntimeState) (o : Ptr)
    (h : finalizeObject s o = some s') : SameGraph s s' := by
  unfold finalizeObject at h
  cases hg : s.get o with
  | none =>
    simp only [hg, Option.some.injEq] at h
    subst h
    exact SameGraph.sameRefl s
  | some obj =>
    obtain ⟨n, d⟩ := obj
    simp only [hg] at h
    cases d with
    | moduleInstance m =>
      simp only [ModuleInstance.finalize] at h
      cases hc : m.compartment with
      | none => simp [hc] at h
      | some c =>
        simp only [hc] at h
        cases hcomp : s.getCompartment c with
        | none => simp [hcomp] at h
        | some comp =>
          simp only [hcomp] at h
          cases hr : setRemoveOrFail o comp.modules with
          | none => simp [hr] at h
          | some modules =>
            simp only [hr, Option.some.injEq] at h
            subst h
            exact modifyCompartment_sameGraph _ _ _ (fun _ => rfl)
    | table t =>
      simp only [Option.some.injEq] at h
      subst h
      unfold TableInstance.finalize
      cases t.compartment with
      | none => exact SameGraph.sameRefl s
      | some c => exact modifyCompartment_sameGraph _ _ _ (fun _ => rfl)
    | memory t =>
      simp only [Option.some.injEq] at h
      subst h
      unfold MemoryInstance.finalize
      cases t.compartment with
      | none => exact SameGraph.sameRefl s
      | some c => exact modifyCompartment_sameGraph _ _ _ (fun _ => rfl)
    | global t =>
      simp only [Option.some.injEq] at h
      subst h
      unfold GlobalInstance.finalize
      cases t.compartment with
      | none => exact SameGraph.sameRefl s
      | some c => exact modifyCompartment_sameGraph _ _ _ (fun _ => rfl)
    | context t =>
      simp only [Option.some.injEq] at h
      subst h
      unfold Context.finalize
      cases t.compartment with
      | none => exact SameGraph.sameRefl s
      | some c => exact modifyCompartment_sameGraph _ _ _ (fun _ => rfl)
    | function _ => simp only [Option.some.injEq] at h; subst h; exact SameGraph.sameRefl s
    | compartment _ => simp only [Option.some.injEq] at h; subst h; exact SameGraph.sameRefl s
    | module _ => simp only [Option.some.injEq] at h; subst h; exact SameGraph.sameRefl s
    | exceptionTypeInstance _ =>
      simp only [Option.some.injEq] at h; subst h; exact SameGraph.sameRefl s

theorem finalizeLoop_spec (u l : List Ptr) (s : RuntimeState) (fin : List Ptr)
    (s' : RuntimeState) (fin' : List Ptr) (h : finalizeLoop u l (s, fin) = some (s', fin')) :
    SameGraph s s' ∧ fin' = fin ++ l.filter (fun x => decide (x ∈ u)) := by
  induction l generalizing s fin with
  | nil =>
    simp only [finalizeLoop, Option.some.injEq, Prod.mk.injEq] at h
    obtain ⟨rfl, rfl⟩ := h
    exact ⟨SameGraph.sameRefl _, by simp⟩
  | cons o rest ih =>
    unfold finalizeLoop at h
    by_cases hm : o ∈ u
    · simp only [hm, if_true] at h
      cases hf : finalizeObject s o with
      | none => simp [hf] at h
      | some s1 =>
        simp only [hf] at h
        obtain ⟨h1, h2⟩ := ih _ _ h
        refine ⟨(finalizeObject_sameGraph s s1 o hf).sameTrans h1, ?_⟩
        simp [h2, hm]
    · simp only [hm, if_false] at h
      obtain ⟨h1, h2⟩ := ih _ _ h
      exact ⟨h1, by simp [h2, hm]⟩

theorem get_delete (s : RuntimeState) (p q : Ptr) :
    (s.delete p).get q = if q = p then none else s.get q := by
  simp [RuntimeState.delete, RuntimeState.get, assocGet_remove]

theorem mem_allObjects_delete (s : RuntimeState) (p q : Ptr) :
    q ∈ (s.delete p).allObjects ↔ q ∈ s.allObjects ∧ q ≠ p := by
  simp only [RuntimeState.delete, RuntimeState.allObjects, keys_assocRemove]
  exact mem_setRemove

theorem deleteLoop_spec (l : List Ptr) (s : RuntimeState) (del : List Ptr)
    (s' : RuntimeState) (del' : List Ptr) (h : deleteLoop l (s, del) = some (s', del')) :
    del' = del ++ l ∧ (∀ p, s'.get p = if p ∈ l then none else s.get p) ∧
      (∀ p, p ∈ s'.allObjects ↔ p ∈ s.allObjects ∧ p ∉ l) := by
  induction l generalizing s del with
  | nil =>
    simp only [deleteLoop, Option.some.injEq, Prod.mk.injEq] at h
    obtain ⟨rfl, rfl⟩ := h
    simp
  | cons o rest ih =>
    unfold deleteLoop at h
    by_cases hm : o ∈ s.allObjects
    · simp only [hm, if_true] at h
      obtain ⟨h1, h2, h3⟩ := ih _ _ h
      refine ⟨by simp [h1], ?_, ?_⟩
      · intro p
        rw [h2 p, get_delete]
        by_cases hp : p = o
        · simp [hp]
        · by_cases hr : p ∈ rest <;> simp [hp, hr]
      · intro p
        rw [h3 p, mem_allObjects_delete]
        simp only [List.mem_cons, not_or]
        tauto
    · simp [hm] at h

/-- The collector, summarised: the garbage is the set of registered unreachable objects; exactly
the garbage is finalized and then deleted; the survivors keep their root counters and edges. -/
theorem collectGarbage_spec (s : RuntimeState) (r : GCResult) (h : collectGarbage s = some r) :
    r.finalized = r.garbage ∧ r.deleted = r.garbage ∧
    (∀ o, o ∈ r.garbage ↔ o ∈ s.allObjects ∧ ¬ Reachable s o) ∧
    (∀ o, o ∈ r.state.allObjects ↔ o ∈ s.allObjects ∧ o ∉ r.garbage) ∧
    (∀ p, p ∉ r.garbage → (r.state.get p).map ObjectImpl.view = (s.get p).map ObjectImpl.view) := by
  unfold collectGarbage at h
  cases h1 : rootLoop s s.allObjects
      ({ unreferencedObjects := s.allObjects, pendingScanObjects := [] }, 0) with
  | none => simp [h1] at h
  | some a =>
    obtain ⟨st1, numRoots⟩ := a
    simp only [h1] at h
    cases h2 : markLoop s s.allObjects.length st1 with
    | none => simp [h2] at h
    | some st2 =>
      simp only [h2] at h
      cases h3 : finalizeLoop st2.unreferencedObjects st2.unreferencedObjects (s, []) with
      | none => simp [h3] at h
      | some b =>
        obtain ⟨s3, finalized⟩ := b
        simp only [h3] at h
        cases h4 : deleteLoop st2.unreferencedObjects (s3, []) with
        | none => simp [h4] at h
        | some c =>
          obtain ⟨s4, deleted⟩ := c
          simp only [h4, Option.some.injEq] at h
          subst h
          obtain ⟨inv, hp⟩ := markLoop_inv s _ _ _ h2 (rootLoop_inv s st1 numRoots h1)
          obtain ⟨hsg, hfin⟩ := finalizeLoop_spec _ _ _ _ _ _ h3
          obtain ⟨hdel, hget, hall⟩ := deleteLoop_spec _ _ _ _ _ h4
          refine ⟨?_, ?_, ?_, ?_, ?_⟩
          · simp only [hfin, List.nil_append]
            exact List.filter_eq_self.2 (fun x hx => by simpa using hx)
          · simpa using hdel
          · exact fun o => markInv_final s st2 inv hp o
          · intro o
            simp only
            rw [hall o, hsg.1]
          · intro p hp'
            simp only at hp' ⊢
            rw [hget p, if_neg hp', hsg.2 p]

/-! ## Lemmas on outcomes -/

theorem Outcome.bind_eq_ok {α β : Type} {x : Outcome α} {f : α → RuntimeState → Outcome β}
    {b : β} {s' : RuntimeState} :
    x.bind f = .ok b s' ↔ ∃ a s1, x = .ok a s1 ∧ f a s1 = .ok b s' := by
  cases x with
  | ok a s1 =>
    simp only [Outcome.bind]
    constructor
    · intro h; exact ⟨a, s1, rfl, h⟩
    · rintro ⟨a', s1', h1, h2⟩
      cases h1
      exact h2
  | throw e s1 => simp [Outcome.bind]

theorem Outcome.bind_eq_throw {α β : Type} {x : Outcome α} {f : α → RuntimeState → Outcome β}
    {e : Exception} {s' : RuntimeState} :
    x.bind f = .throw e s' ↔ x = .throw e s' ∨ ∃ a s1, x = .ok a s1 ∧ f a s1 = .throw e s' := by
  cases x with
  | ok a s1 =>
    simp only [Outcome.bind]
    constructor
    · intro h; exact Or.inr ⟨a, s1, rfl, h⟩
    · rintro (h | ⟨a', s1', h1, h2⟩)
      · cases h
      · cases h1
        exact h2
  | throw e1 s1 => simp [Outcome.bind]

theorem Outcome.bind_assoc {α β γ : Type} (x : Outcome α) (f : α → RuntimeState → Outcome β)
    (g : β → RuntimeState → Outcome γ) :
    (x.bind f).bind g = x.bind (fun a s => (f a s).bind g) := by
  cases x <;> rfl

theorem Outcome.state_bind {α β : Type} (x : Outcome α) (f : α → RuntimeState → Outcome β)
    (R : RuntimeState → Prop) (hx : ∀ e s1, x = .throw e s1 → R s1)
    (hf : ∀ a s1, x = .ok a s1 → R (f a s1).state) : R (x.bind f).state := by
  cases x with
  | ok a s1 => exact hf a s1 rfl
  | throw e s1 => exact hx e s1 rfl

theorem errorUnless_eq_ok {c : Bool} {s s' : RuntimeState} {u : Unit} :
    errorUnless c s = .ok u s' ↔ c = true ∧ s' = s := by
  cases c <;> simp [errorUnless, eq_comm]

theorem errorUnless_state (c : Bool) (s : RuntimeState) : (errorUnless c s).state = s := by
  cases c <;> rfl

theorem wavmAssert_state (host : Host) (c : Bool) (s : RuntimeState) :
    (wavmAssert host c s).state = s := by
  unfold wavmAssert
  split <;> rfl

theorem wavmAssert_eq_ok {host : Host} {c : Bool} {s s' : RuntimeState} {u : Unit} :
    wavmAssert host c s = .ok u s' ↔ (host.assertsEnabled = true → c = true) ∧ s' = s := by
  unfold wavmAssert
  cases host.assertsEnabled <;> cases c <;> simp [eq_comm]

/-! ## Lemmas on the heap -/

theorem lt_foldr_max (l : List Nat) (p : Nat) (h : p ∈ l) :
    p < l.foldr (fun p acc => max (p + 1) acc) 1 := by
  induction l with
  | nil => simp at h
  | cons a t ih =>
    simp only [List.foldr_cons]
    rcases List.mem_cons.1 h with h1 | h1
    · subst h1; omega
    · have := ih h1
      omega

theorem lt_fresh (s : RuntimeState) (p : Ptr) (h : p ∈ s.allObjects) : p < s.fresh :=
  lt_foldr_max _ p h

theorem fresh_not_mem (s : RuntimeState) : s.fresh ∉ s.allObjects :=
  fun h => Nat.lt_irrefl _ (lt_fresh s _ h)

theorem get_fresh (s : RuntimeState) : s.get s.fresh = none := by
  cases h : s.get s.fresh with
  | none => rfl
  | some obj => exact absurd (mem_allObjects_iff.2 ⟨obj, h⟩) (fresh_not_mem s)

theorem get_construct (s : RuntimeState) (d : ObjectData) (p : Ptr) :
    (s.construct d).2.get p
      = if p = s.fresh then some { numRootReferences := 0, data := d } else s.get p := by
  simp only [RuntimeState.construct, RuntimeState.get, assocGet_append]
  by_cases h : p = s.fresh
  · subst h
    have := get_fresh s
    simp only [RuntimeState.get] at this
    simp [this, assocGet]
  · have h' : ¬ s.fresh = p := fun e => h e.symm
    simp only [h, if_false]
    cases assocGet p s.objects <;> simp [assocGet, h']

theorem get_construct_of_get (s : RuntimeState) (d : ObjectData) (p : Ptr) (obj : ObjectImpl)
    (h : s.get p = some obj) : (s.construct d).2.get p = some obj := by
  rw [get_construct]
  have : p ≠ s.fresh := by
    intro e
    rw [e, get_fresh] at h
    cases h
  simp [this, h]

theorem allObjects_construct (s : RuntimeState) (d : ObjectData) :
    (s.construct d).2.allObjects = s.allObjects ++ [s.fresh] := by
  simp [RuntimeState.construct, RuntimeState.allObjects]

theorem get_modifyData_ne (s : RuntimeState) (p q : Ptr) (f : ObjectData → ObjectData)
    (h : q ≠ p) : (s.modifyData p f).get q = s.get q := by
  rw [get_modifyData]
  simp [h]

theorem get_modifyData_self (s : RuntimeState) (p : Ptr) (f : ObjectData → ObjectData) :
    (s.modifyData p f).get p = (s.get p).map (fun o => { o with data := f o.data }) := by
  rw [get_modifyData]
  simp

/-! ## The frame relation -/

theorem Frame.frameRefl (mi : Ptr) (b e : Bool) (s : RuntimeState) : Frame mi b e s s :=
  ⟨fun _ obj h => ⟨obj, h, rfl, rfl⟩, fun p obj' h h' => by rw [h] at h'; cases h'⟩

theorem Frame.frameTrans {mi : Ptr} {b e : Bool} {s1 s2 s3 : RuntimeState}
    (h12 : Frame mi b e s1 s2) (h23 : Frame mi b e s2 s3) : Frame mi b e s1 s3 := by
  refine ⟨?_, ?_⟩
  · intro p obj h
    obtain ⟨o2, g2, n2, f2⟩ := h12.1 p obj h
    obtain ⟨o3, g3, n3, f3⟩ := h23.1 p o2 g2
    exact ⟨o3, g3, n3.trans n2, f3.trans f2⟩
  · intro p obj' h h'
    cases h2 : s2.get p with
    | none => exact h23.2 p obj' h h2
    | some o2 =>
      obtain ⟨o3, g3, n3, f3⟩ := h23.1 p o2 h2
      rw [h] at g3
      cases g3
      rw [n3]
      refine ⟨(h12.2 p o2 h2 h').1, fun x hx => ?_⟩
      rw [hx] at f3
      have hne := (h12.2 p o2 h2 h').2
      cases hd : o2.data <;> rw [hd] at f3 <;>
        first
        | exact hne _ hd
        | (cases hdec : decide (p = mi) <;> rw [hdec] at f3 <;>
            simp [ObjectData.frozen] at f3)

theorem frozen_frozen (own b e : Bool) (d : ObjectData) :
    (d.frozen own false false).frozen own b e = d.frozen own b e := by
  cases d <;> cases own <;> simp [ObjectData.frozen]

theorem frozen_weaken {own b e : Bool} {d d' : ObjectData}
    (h : d'.frozen own false false = d.frozen own false false) :
    d'.frozen own b e = d.frozen own b e := by
  rw [← frozen_frozen own b e d', ← frozen_frozen own b e d, h]

theorem Frame.weaken {mi : Ptr} {s s' : RuntimeState} (b e : Bool)
    (h : Frame mi false false s s') : Frame mi b e s s' := by
  refine ⟨fun p obj hp => ?_, h.2⟩
  obtain ⟨obj', h1, h2, h3⟩ := h.1 p obj hp
  exact ⟨obj', h1, h2, frozen_weaken h3⟩

theorem frozen_bytes {own e : Bool} {d d' : ObjectData}
    (h : d'.frozen own false e = d.frozen own false e) :
    d'.frozen own true e = d.frozen own true e := by
  have key : ∀ x : ObjectData, (x.frozen own false e).frozen own true e = x.frozen own true e := by
    intro x
    cases x <;> cases own <;> cases e <;> simp [ObjectData.frozen]
  rw [← key d', ← key d, h]

theorem frozen_elements {own b : Bool} {d d' : ObjectData}
    (h : d'.frozen own b false = d.frozen own b false) :
    d'.frozen own b true = d.frozen own b true := by
  have key : ∀ x : ObjectData, (x.frozen own b false).frozen own b true = x.frozen own b true := by
    intro x
    cases x <;> cases own <;> cases b <;> simp [ObjectData.frozen]
  rw [← key d', ← key d, h]

theorem Frame.frameConstruct (mi : Ptr) (b e : Bool) (s : RuntimeState) (d : ObjectData)
    (hd : ∀ x, d ≠ .compartment x) : Frame mi b e s (s.construct d).2 := by
  refine ⟨fun p obj hp => ⟨obj, get_construct_of_get s d p obj hp, rfl, rfl⟩, ?_⟩
  intro p obj' h h'
  rw [get_construct] at h
  by_cases hp : p = s.fresh
  · simp only [hp, if_true, Option.some.injEq] at h
    subst h
    exact ⟨rfl, hd⟩
  · simp only [hp, if_false] at h
    rw [h] at h'
    cases h'

theorem Frame.frameModifyData (mi : Ptr) (b e : Bool) (s : RuntimeState) (p : Ptr)
    (f : ObjectData → ObjectData)
    (hf : ∀ obj, s.get p = some obj →
      (f obj.data).frozen (decide (p = mi)) b e = obj.data.frozen (decide (p = mi)) b e) :
    Frame mi b e s (s.modifyData p f) := by
  refine ⟨?_, ?_⟩
  · intro q obj hq
    by_cases hqp : q = p
    · subst hqp
      refine ⟨{ obj with data := f obj.data }, ?_, rfl, hf obj hq⟩
      rw [get_modifyData_self, hq]
      rfl
    · exact ⟨obj, by rw [get_modifyData_ne _ _ _ _ hqp]; exact hq, rfl, rfl⟩
  · intro q obj' h h'
    rw [get_modifyData] at h
    by_cases hqp : q = p
    · simp only [hqp, if_true] at h
      rw [hqp] at h'
      rw [h'] at h
      cases h
    · simp only [hqp, if_false] at h
      rw [h] at h'
      cases h'

theorem getCompartment_eq {s : RuntimeState} {p : Ptr} {c : Compartment}
    (h : s.getCompartment p = some c) :
    ∃ n, s.get p = some { numRootReferences := n, data := .compartment c } := by
  unfold RuntimeState.getCompartment at h
  split at h
  · next n c' heq =>
    cases h
    exact ⟨_, heq⟩
  · cases h

theorem Sync.ne_compartment {s : RuntimeState} {mi c : Ptr} {inst : ModuleInstance}
    {comp : Compartment} (h : Sync s mi inst) (hc : s.getCompartment c = some comp) :
    c ≠ mi := by
  obtain ⟨n, hn⟩ := h
  obtain ⟨n', hn'⟩ := getCompartment_eq hc
  intro e
  rw [e, hn] at hn'
  cases hn'

/-- Updating the weak indexes of a compartment other than `modules` is within the frame. -/
theorem Frame.frameModifyCompartment (mi : Ptr) (b e : Bool) (s : RuntimeState) (c : Ptr)
    (f : Compartment → Compartment)
    (hf : ∀ x, (f x).modules = x.modules ∧ (f x).wavmIntrinsics = x.wavmIntrinsics) :
    Frame mi b e s (s.modifyCompartment c f) := by
  apply Frame.frameModifyData
  intro obj _
  cases obj.data <;> simp [ObjectData.frozen, (hf _).1, (hf _).2]

theorem Sync.frame_set {s : RuntimeState} {mi : Ptr} {inst : ModuleInstance} (b e : Bool)
    (h : Sync s mi inst) (inst' : ModuleInstance) (hc : inst'.compartment = inst.compartment) :
    Frame mi b e s (s.setModuleInstance mi inst') ∧ Sync (s.setModuleInstance mi inst') mi inst' := by
  obtain ⟨n, hn⟩ := h
  constructor
  · apply Frame.frameModifyData
    intro obj hobj
    rw [hn] at hobj
    cases hobj
    simp [ObjectData.frozen, hc]
  · refine ⟨n, ?_⟩
    unfold RuntimeState.setModuleInstance
    rw [get_modifyData_self, hn]
    rfl

theorem Sync.syncConstruct {s : RuntimeState} {mi : Ptr} {inst : ModuleInstance} (h : Sync s mi inst)
    (d : ObjectData) : Sync (s.construct d).2 mi inst := by
  obtain ⟨n, hn⟩ := h
  exact ⟨n, get_construct_of_get s d mi _ hn⟩

theorem Sync.syncModifyData {s : RuntimeState} {mi : Ptr} {inst : ModuleInstance} (h : Sync s mi inst)
    (p : Ptr) (f : ObjectData → ObjectData) (hp : p ≠ mi) : Sync (s.modifyData p f) mi inst := by
  obtain ⟨n, hn⟩ := h
  exact ⟨n, by rw [get_modifyData_ne _ _ _ _ (Ne.symm hp)]; exact hn⟩

theorem Sync.frame {s s' : RuntimeState} {mi : Ptr} {b e : Bool} {inst : ModuleInstance}
    (h : Sync s mi inst) (hf : Frame mi b e s s') :
    ∃ inst', Sync s' mi inst' ∧ inst'.compartment = inst.compartment := by
  obtain ⟨n, hn⟩ := h
  obtain ⟨obj', h1, h2, h3⟩ := hf.1 mi _ hn
  obtain ⟨n', d'⟩ := obj'
  cases d' <;> simp [ObjectData.frozen] at h3
  rename_i m
  exact ⟨m, ⟨n', h1⟩, h3⟩

theorem Sync.getModuleInstance {s : RuntimeState} {mi : Ptr} {inst : ModuleInstance}
    (h : Sync s mi inst) : s.getModuleInstance mi = some inst := by
  obtain ⟨n, hn⟩ := h
  simp [RuntimeState.getModuleInstance, hn]

/-! ## Import checking leaves the heap alone -/

theorem checkImportTypes_spec (host : Host) (objects : List (Option Ptr))
    (types : List ObjectType) (i : Nat) (s : RuntimeState) :
    (checkImportTypes host objects types i s).state = s := by
  induction types generalizing i with
  | nil => rfl
  | cons t rest ih =>
    unfold checkImportTypes
    cases h : host.isA s (objects.getD i none) t
    · simp [errorUnless, Outcome.bind, Outcome.state]
    · simp only [errorUnless, Outcome.bind, if_true]
      exact ih (i + 1)

theorem checkFunctionImportTypes_spec (host : Host) (types : List FunctionType)
    (objects : List (Option Ptr)) (imports : List (Import IndexedFunctionType)) (i : Nat)
    (s : RuntimeState) :
    (checkFunctionImportTypes host types objects imports i s).state = s := by
  induction imports generalizing i with
  | nil => rfl
  | cons t rest ih =>
    unfold checkFunctionImportTypes
    cases types[t.type.index]? with
    | none => rfl
    | some ty =>
      simp only
      cases h : host.isA s (objects.getD i none) (.function ty)
      · simp [errorUnless, Outcome.bind, Outcome.state]
      · simp only [errorUnless, Outcome.bind, if_true]
        exact ih (i + 1)

theorem Outcome.eq_of_state {α : Type} {x : Outcome α} {a : α} {s s' : RuntimeState}
    (h : x = .ok a s') (hs : x.state = s) : s' = s := by
  subst h
  exact hs

theorem Outcome.state_bind_eq {α β : Type} (x : Outcome α) (f : α → RuntimeState → Outcome β)
    (s : RuntimeState) (hx : x.state = s) (hf : ∀ a, (f a s).state = s) :
    (x.bind f).state = s := by
  cases x with
  | ok a s1 =>
    have : s1 = s := hx
    subst this
    exact hf a
  | throw e s1 => exact hx

theorem checkImports_state (host : Host) (ir : IRModule) (inst : ModuleInstance)
    (s : RuntimeState) : (checkImports host ir inst s).state = s := by
  unfold checkImports
  refine Outcome.state_bind_eq _ _ s (errorUnless_state _ _) (fun _ => ?_)
  refine Outcome.state_bind_eq _ _ s (checkFunctionImportTypes_spec _ _ _ _ _ _) (fun _ => ?_)
  refine Outcome.state_bind_eq _ _ s (errorUnless_state _ _) (fun _ => ?_)
  refine Outcome.state_bind_eq _ _ s (checkImportTypes_spec _ _ _ _ _) (fun _ => ?_)
  refine Outcome.state_bind_eq _ _ s (errorUnless_state _ _) (fun _ => ?_)
  refine Outcome.state_bind_eq _ _ s (checkImportTypes_spec _ _ _ _ _) (fun _ => ?_)
  refine Outcome.state_bind_eq _ _ s (errorUnless_state _ _) (fun _ => ?_)
  refine Outcome.state_bind_eq _ _ s (checkImportTypes_spec _ _ _ _ _) (fun _ => ?_)
  refine Outcome.state_bind_eq _ _ s (errorUnless_state _ _) (fun _ => ?_)
  exact checkImportTypes_spec _ _ _ _ _

/-- Import checking succeeds only when every import vector has the declared length. -/
theorem checkImports_lengths (host : Host) (ir : IRModule) (inst : ModuleInstance)
    (s s' : RuntimeState) (u : Unit) (h : checkImports host ir inst s = .ok u s') :
    inst.functions.length = ir.functions.imports.length ∧
    inst.tables.length = ir.tables.imports.length ∧
    inst.memories.length = ir.memories.imports.length ∧
    inst.globals.length = ir.globals.imports.length ∧
    inst.exceptionTypes.length = ir.exceptionTypes.imports.length := by
  unfold checkImports at h
  obtain ⟨_, s1, h1, h⟩ := Outcome.bind_eq_ok.1 h
  obtain ⟨_, s2, h2, h⟩ := Outcome.bind_eq_ok.1 h
  obtain ⟨_, s3, h3, h⟩ := Outcome.bind_eq_ok.1 h
  obtain ⟨_, s4, h4, h⟩ := Outcome.bind_eq_ok.1 h
  obtain ⟨_, s5, h5, h⟩ := Outcome.bind_eq_ok.1 h
  obtain ⟨_, s6, h6, h⟩ := Outcome.bind_eq_ok.1 h
  obtain ⟨_, s7, h7, h⟩ := Outcome.bind_eq_ok.1 h
  obtain ⟨_, s8, h8, h⟩ := Outcome.bind_eq_ok.1 h
  obtain ⟨_, s9, h9, h⟩ := Outcome.bind_eq_ok.1 h
  have e1 := (errorUnless_eq_ok.1 h1).1
  have e3 := (errorUnless_eq_ok.1 h3).1
  have e5 := (errorUnless_eq_ok.1 h5).1
  have e7 := (errorUnless_eq_ok.1 h7).1
  have e9 := (errorUnless_eq_ok.1 h9).1
  simp only [beq_iff_eq] at e1 e3 e5 e7 e9
  exact ⟨e1, e3, e5, e7, e9⟩

/-! ## Object factories -/

/-- Registering a fresh object and recording it in a weak index of the compartment. -/
theorem construct_register (mi c : Ptr) (s : RuntimeState) (inst : ModuleInstance)
    (comp : Compartment) (d : ObjectData) (f : Compartment → Compartment)
    (hs : Sync s mi inst) (hc : s.getCompartment c = some comp)
    (hf : ∀ x, (f x).modules = x.modules ∧ (f x).wavmIntrinsics = x.wavmIntrinsics)
    (hd : ∀ x, d ≠ .compartment x) :
    Frame mi false false s ((s.construct d).2.modifyCompartment c f) ∧
    Sync ((s.construct d).2.modifyCompartment c f) mi inst ∧
    ((s.construct d).2.modifyCompartment c f).get s.fresh
      = some { numRootReferences := 0, data := d } ∧
    s.get s.fresh = none := by
  have hne : c ≠ mi := hs.ne_compartment hc
  refine ⟨(Frame.frameConstruct mi _ _ s d hd).frameTrans
      (Frame.frameModifyCompartment mi _ _ _ c f hf),
    (hs.syncConstruct d).syncModifyData c _ hne, ?_, get_fresh s⟩
  unfold RuntimeState.modifyCompartment
  rw [get_modifyData, get_construct]
  have h : s.fresh ≠ c := by
    intro e
    obtain ⟨n, hn⟩ := getCompartment_eq hc
    rw [← e, get_fresh] at hn
    cases hn
  simp [h]

/-! ## Typed dereference and the frame -/

theorem getTable_eq {s : RuntimeState} {p : Ptr} {t : TableInstance} :
    s.getTable p = some t ↔ ∃ n, s.get p = some { numRootReferences := n, data := .table t } := by
  unfold RuntimeState.getTable
  constructor
  · intro h
    split at h
    · next n t' heq => cases h; exact ⟨_, heq⟩
    · cases h
  · rintro ⟨n, hn⟩
    rw [hn]

theorem getMemory_eq {s : RuntimeState} {p : Ptr} {t : MemoryInstance} :
    s.getMemory p = some t ↔ ∃ n, s.get p = some { numRootReferences := n, data := .memory t } := by
  unfold RuntimeState.getMemory
  constructor
  · intro h
    split at h
    · next n t' heq => cases h; exact ⟨_, heq⟩
    · cases h
  · rintro ⟨n, hn⟩
    rw [hn]

theorem getGlobal_eq {s : RuntimeState} {p : Ptr} {t : GlobalInstance} :
    s.getGlobal p = some t ↔ ∃ n, s.get p = some { numRootReferences := n, data := .global t } := by
  unfold RuntimeState.getGlobal
  constructor
  · intro h
    split at h
    · next n t' heq => cases h; exact ⟨_, heq⟩
    · cases h
  · rintro ⟨n, hn⟩
    rw [hn]

theorem getFunction_eq {s : RuntimeState} {p : Ptr} {t : FunctionInstance} :
    s.getFunction p = some t ↔
      ∃ n, s.get p = some { numRootReferences := n, data := .function t } := by
  unfold RuntimeState.getFunction
  constructor
  · intro h
    split at h
    · next n t' heq => cases h; exact ⟨_, heq⟩
    · cases h
  · rintro ⟨n, hn⟩
    rw [hn]

theorem getExceptionTypeInstance_eq {s : RuntimeState} {p : Ptr} {t : ExceptionTypeInstance} :
    s.getExceptionTypeInstance p = some t ↔
      ∃ n, s.get p = some { numRootReferences := n, data := .exceptionTypeInstance t } := by
  unfold RuntimeState.getExceptionTypeInstance
  constructor
  · intro h
    split at h
    · next n t' heq => cases h; exact ⟨_, heq⟩
    · cases h
  · rintro ⟨n, hn⟩
    rw [hn]

theorem getModuleInstance_eq {s : RuntimeState} {p : Ptr} {t : ModuleInstance} :
    s.getModuleInstance p = some t ↔ Sync s p t := by
  unfold RuntimeState.getModuleInstance Sync
  constructor
  · intro h
    split at h
    · next n t' heq => cases h; exact ⟨_, heq⟩
    · cases h
  · rintro ⟨n, hn⟩
    rw [hn]

theorem getCompartment_iff {s : RuntimeState} {p : Ptr} {t : Compartment} :
    s.getCompartment p = some t ↔
      ∃ n, s.get p = some { numRootReferences := n, data := .compartment t } := by
  constructor
  · exact getCompartment_eq
  · rintro ⟨n, hn⟩
    unfold RuntimeState.getCompartment
    rw [hn]

/-- The frozen part with everything erasable erased is kept by every frame. -/
theorem Frame.get_frozen {mi : Ptr} {b e : Bool} {s s' : RuntimeState} (h : Frame mi b e s s')
    {p : Ptr} {obj : ObjectImpl} (hp : s.get p = some obj) :
    ∃ obj', s'.get p = some obj' ∧ obj'.numRootReferences = obj.numRootReferences ∧
      obj'.data.frozen true true true = obj.data.frozen true true true := by
  obtain ⟨obj', h1, h2, h3⟩ := h.1 p obj hp
  refine ⟨obj', h1, h2, ?_⟩
  have key : ∀ (o : Bool) (x : ObjectData),
      (x.frozen o b e).frozen true true true = x.frozen true true true := by
    intro o x
    cases x <;> cases o <;> cases b <;> cases e <;> simp [ObjectData.frozen]
  rw [← key (decide (p = mi)) obj'.data, ← key (decide (p = mi)) obj.data, h3]

theorem Frame.isTable {mi : Ptr} {b e : Bool} {s s' : RuntimeState} (h : Frame mi b e s s')
    {p : Ptr} {type : TableType} (hp : IsTable s p type) : IsTable s' p type := by
  obtain ⟨t, h1, h2⟩ := hp
  obtain ⟨n, hn⟩ := getTable_eq.1 h1
  obtain ⟨⟨n', d'⟩, g1, _, g3⟩ := h.get_frozen hn
  cases d' with
  | table t' =>
    simp [ObjectData.frozen] at g3
    exact ⟨t', getTable_eq.2 ⟨n', g1⟩, by rw [← h2]; exact g3.2.2⟩
  | _ => simp [ObjectData.frozen] at g3

theorem Frame.isMemory {mi : Ptr} {b e : Bool} {s s' : RuntimeState} (h : Frame mi b e s s')
    {p : Ptr} {type : MemoryType} (hp : IsMemory s p type) : IsMemory s' p type := by
  obtain ⟨t, h1, h2⟩ := hp
  obtain ⟨n, hn⟩ := getMemory_eq.1 h1
  obtain ⟨⟨n', d'⟩, g1, _, g3⟩ := h.get_frozen hn
  cases d' with
  | memory t' =>
    simp [ObjectData.frozen] at g3
    exact ⟨t', getMemory_eq.2 ⟨n', g1⟩, by rw [← h2]; exact g3.2.2.1⟩
  | _ => simp [ObjectData.frozen] at g3

theorem Frame.isGlobal {mi : Ptr} {b e : Bool} {s s' : RuntimeState} (h : Frame mi b e s s')
    {p : Ptr} {type : GlobalType} {v : UntaggedValue} (hp : IsGlobal s p type v) :
    IsGlobal s' p type v := by
  obtain ⟨t, h1, h2⟩ := hp
  obtain ⟨n, hn⟩ := getGlobal_eq.1 h1
  obtain ⟨⟨n', d'⟩, g1, _, g3⟩ := h.get_frozen hn
  cases d' with
  | global t' =>
    simp [ObjectData.frozen] at g3
    subst g3
    exact ⟨t', getGlobal_eq.2 ⟨n', g1⟩, h2⟩
  | _ => simp [ObjectData.frozen] at g3

theorem Frame.getGlobal {mi : Ptr} {b e : Bool} {s s' : RuntimeState} (h : Frame mi b e s s')
    {p : Ptr} {g : GlobalInstance} (hp : s.getGlobal p = some g) : s'.getGlobal p = some g := by
  obtain ⟨n, hn⟩ := getGlobal_eq.1 hp
  obtain ⟨⟨n', d'⟩, g1, _, g3⟩ := h.get_frozen hn
  cases d' with
  | global t' =>
    simp [ObjectData.frozen] at g3
    subst g3
    exact getGlobal_eq.2 ⟨n', g1⟩
  | _ => simp [ObjectData.frozen] at g3

theorem Frame.isExceptionType {mi : Ptr} {b e : Bool} {s s' : RuntimeState}
    (h : Frame mi b e s s') {p : Ptr} {type : ExceptionType} (hp : IsExceptionType s p type) :
    IsExceptionType s' p type := by
  obtain ⟨t, h1, h2⟩ := hp
  obtain ⟨n, hn⟩ := getExceptionTypeInstance_eq.1 h1
  obtain ⟨⟨n', d'⟩, g1, _, g3⟩ := h.get_frozen hn
  cases d' with
  | exceptionTypeInstance t' =>
    simp [ObjectData.frozen] at g3
    subst g3
    exact ⟨t', getExceptionTypeInstance_eq.2 ⟨n', g1⟩, h2⟩
  | _ => simp [ObjectData.frozen] at g3

theorem Frame.isFunction {mi : Ptr} {b e : Bool} {s s' : RuntimeState} (h : Frame mi b e s s')
    {p : Ptr} {m : Option Ptr} {type : FunctionType} {cc : CallingConvention}
    (hp : IsFunction s p m type cc) : IsFunction s' p m type cc := by
  obtain ⟨t, h1, h2, h3, h4⟩ := hp
  obtain ⟨n, hn⟩ := getFunction_eq.1 h1
  obtain ⟨⟨n', d'⟩, g1, _, g3⟩ := h.get_frozen hn
  cases d' with
  | function t' =>
    simp [ObjectData.frozen] at g3
    exact ⟨t', getFunction_eq.2 ⟨n', g1⟩, by rw [← h2]; exact g3.1, by rw [← h3]; exact g3.2.1,
      by rw [← h4]; exact g3.2.2.1⟩
  | _ => simp [ObjectData.frozen] at g3

theorem Frame.get_none {mi : Ptr} {b e : Bool} {s s' : RuntimeState} (h : Frame mi b e s s')
    {p : Ptr} (hp : s'.get p = none) : s.get p = none := by
  cases hs : s.get p with
  | none => rfl
  | some obj =>
    obtain ⟨obj', h1, _⟩ := h.1 p obj hs
    rw [hp] at h1
    cases h1

theorem Frame.getCompartment {mi : Ptr} {b e : Bool} {s s' : RuntimeState}
    (h : Frame mi b e s s') {p : Ptr} {c : Compartment} (hp : s.getCompartment p = some c) :
    ∃ c', s'.getCompartment p = some c' ∧ c'.modules = c.modules ∧
      c'.wavmIntrinsics = c.wavmIntrinsics := by
  obtain ⟨n, hn⟩ := getCompartment_eq hp
  obtain ⟨⟨n', d'⟩, g1, _, g3⟩ := h.get_frozen hn
  cases d' with
  | compartment c' =>
    simp [ObjectData.frozen] at g3
    exact ⟨c', getCompartment_iff.2 ⟨n', g1⟩, g3.1, g3.2⟩
  | _ => simp [ObjectData.frozen] at g3

/-! ## Finalizers and the weak set `modules` -/

theorem getCompartment_modifyCompartment (s : RuntimeState) (c c' : Ptr)
    (f : Compartment → Compartment) :
    (s.modifyCompartment c' f).getCompartment c
      = if c = c' then (s.getCompartment c).map f else s.getCompartment c := by
  unfold RuntimeState.modifyCompartment RuntimeState.getCompartment
  rw [get_modifyData]
  by_cases h : c = c'
  · simp only [h, if_true]
    cases hg : s.get c' with
    | none => rfl
    | some obj =>
      obtain ⟨n, d⟩ := obj
      cases d <;> rfl
  · simp only [h, if_false]

theorem getModuleInstance_modifyCompartment (s : RuntimeState) (p c' : Ptr)
    (f : Compartment → Compartment) :
    (s.modifyCompartment c' f).getModuleInstance p = s.getModuleInstance p := by
  unfold RuntimeState.modifyCompartment RuntimeState.getModuleInstance
  rw [get_modifyData]
  by_cases h : p = c'
  · simp only [h, if_true]
    cases hg : s.get c' with
    | none => rfl
    | some obj =>
      obtain ⟨n, d⟩ := obj
      cases d <;> rfl
  · simp only [h, if_false]

theorem Shrinks.shrinksRefl (s : RuntimeState) : Shrinks s s :=
  ⟨fun _ => rfl, fun _ comp' h => ⟨comp', h, fun _ hy => hy⟩⟩

theorem Shrinks.shrinksTrans {a b c : RuntimeState} (h1 : Shrinks a b) (h2 : Shrinks b c) :
    Shrinks a c := by
  refine ⟨fun p => (h2.instances p).trans (h1.instances p), fun x comp' hx => ?_⟩
  obtain ⟨comp1, g1, g2⟩ := h2.modules x comp' hx
  obtain ⟨comp0, g3, g4⟩ := h1.modules x comp1 g1
  exact ⟨comp0, g3, fun y hy => g4 y (g2 y hy)⟩

theorem Shrinks.shrinksModifyCompartment (s : RuntimeState) (c' : Ptr) (f : Compartment → Compartment)
    (hf : ∀ x y, y ∈ (f x).modules → y ∈ x.modules) : Shrinks s (s.modifyCompartment c' f) := by
  refine ⟨fun p => getModuleInstance_modifyCompartment s p c' f, fun c comp' hcomp => ?_⟩
  rw [getCompartment_modifyCompartment] at hcomp
  by_cases hc : c = c'
  · simp only [hc, if_true] at hcomp
    cases hg : s.getCompartment c' with
    | none => simp [hg] at hcomp
    | some x =>
      simp only [hg, Option.map_some', Option.some.injEq] at hcomp
      subst hcomp
      exact ⟨x, by rw [hc]; exact hg, hf x⟩
  · simp only [hc, if_false] at hcomp
    exact ⟨comp', hcomp, fun _ hy => hy⟩

theorem finalizeObject_shrinks (s s' : RuntimeState) (o : Ptr)
    (h : finalizeObject s o = some s') :
    Shrinks s s' ∧ ∀ inst c, s.getModuleInstance o = some inst → inst.compartment = some c →
      ∀ comp', s'.getCompartment c = some comp' → o ∉ comp'.modules := by
  have other : ∀ d, s.get o = some d → (∀ inst, d.data ≠ .moduleInstance inst) →
      ∀ inst c, s.getModuleInstance o = some inst → inst.compartment = some c →
        ∀ comp', s'.getCompartment c = some comp' → o ∉ comp'.modules := by
    intro d hd hne inst c hi
    obtain ⟨n, hn⟩ := getModuleInstance_eq.1 hi
    rw [hn] at hd
    cases hd
    exact absurd rfl (hne inst)
  unfold finalizeObject at h
  cases hg : s.get o with
  | none =>
    simp only [hg, Option.some.injEq] at h
    subst h
    refine ⟨Shrinks.shrinksRefl s, fun inst c hi => ?_⟩
    obtain ⟨n, hn⟩ := getModuleInstance_eq.1 hi
    rw [hn] at hg
    cases hg
  | some obj =>
    obtain ⟨n, d⟩ := obj
    simp only [hg] at h
    cases d with
    | moduleInstance m =>
      simp only [ModuleInstance.finalize] at h
      cases hc : m.compartment with
      | none => simp [hc] at h
      | some c =>
        simp only [hc] at h
        cases hcomp : s.getCompartment c with
        | none => simp [hcomp] at h
        | some comp =>
          simp only [hcomp] at h
          cases hr : setRemoveOrFail o comp.modules with
          | none => simp [hr] at h
          | some modules =>
            simp only [hr, Option.some.injEq] at h
            have hmod : modules = setRemove o comp.modules := by
              unfold setRemoveOrFail at hr
              split at hr
              · cases hr; rfl
              · cases hr
            subst h
            constructor
            · refine ⟨fun p => getModuleInstance_modifyCompartment s p c _,
                fun x comp' hx => ?_⟩
              rw [getCompartment_modifyCompartment] at hx
              by_cases hxc : x = c
              · subst hxc
                simp only [if_true, hcomp, Option.map_some', Option.some.injEq] at hx
                subst hx
                refine ⟨comp, hcomp, fun y hy => ?_⟩
                simp only [hmod] at hy
                exact (mem_setRemove.1 hy).1
              · simp only [hxc, if_false] at hx
                exact ⟨comp', hx, fun _ hy => hy⟩
            · intro inst c2 hi hc2 comp' hcomp'
              obtain ⟨n2, hn2⟩ := getModuleInstance_eq.1 hi
              rw [hn2] at hg
              cases hg
              rw [hc] at hc2
              cases hc2
              rw [getCompartment_modifyCompartment] at hcomp'
              simp only [if_true, hcomp, Option.map_some', Option.some.injEq] at hcomp'
              subst hcomp'
              simp only [hmod]
              exact fun hx => (mem_setRemove.1 hx).2 rfl
    | table t =>
      simp only [Option.some.injEq] at h
      subst h
      refine ⟨?_, other _ hg (fun _ e => by cases e)⟩
      unfold TableInstance.finalize
      cases t.compartment with
      | none => exact Shrinks.shrinksRefl s
      | some c => exact Shrinks.shrinksModifyCompartment s c _ (fun _ _ hy => hy)
    | memory t =>
      simp only [Option.some.injEq] at h
      subst h
      refine ⟨?_, other _ hg (fun _ e => by cases e)⟩
      unfold MemoryInstance.finalize
      cases t.compartment with
      | none => exact Shrinks.shrinksRefl s
      | some c => exact Shrinks.shrinksModifyCompartment s c _ (fun _ _ hy => hy)
    | global t =>
      simp only [Option.some.injEq] at h
      subst h
      refine ⟨?_, other _ hg (fun _ e => by cases e)⟩
      unfold GlobalInstance.finalize
      cases t.compartment with
      | none => exact Shrinks.shrinksRefl s
      | some c => exact Shrinks.shrinksModifyCompartment s c _ (fun _ _ hy => hy)
    | context t =>
      simp only [Option.some.injEq] at h
      subst h
      refine ⟨?_, other _ hg (fun _ e => by cases e)⟩
      unfold Context.finalize
      cases t.compartment with
      | none => exact Shrinks.shrinksRefl s
      | some c => exact Shrinks.shrinksModifyCompartment s c _ (fun _ _ hy => hy)
    | function _ =>
      simp only [Option.some.injEq] at h
      subst h
      exact ⟨Shrinks.shrinksRefl s, other _ hg (fun _ e => by cases e)⟩
    | compartment _ =>
      simp only [Option.some.injEq] at h
      subst h
      exact ⟨Shrinks.shrinksRefl s, other _ hg (fun _ e => by cases e)⟩
    | module _ =>
      simp only [Option.some.injEq] at h
      subst h
      exact ⟨Shrinks.shrinksRefl s, other _ hg (fun _ e => by cases e)⟩
    | exceptionTypeInstance _ =>
      simp only [Option.some.injEq] at h
      subst h
      exact ⟨Shrinks.shrinksRefl s, other _ hg (fun _ e => by cases e)⟩

theorem finalizeLoop_shrinks (u l : List Ptr) (s : RuntimeState) (fin : List Ptr)
    (s' : RuntimeState) (fin' : List Ptr) (h : finalizeLoop u l (s, fin) = some (s', fin')) :
    Shrinks s s' ∧ ∀ m inst c, m ∈ l → m ∈ u → s.getModuleInstance m = some inst →
      inst.compartment = some c → ∀ comp', s'.getCompartment c = some comp' →
      m ∉ comp'.modules := by
  induction l generalizing s fin with
  | nil =>
    simp only [finalizeLoop, Option.some.injEq, Prod.mk.injEq] at h
    obtain ⟨rfl, rfl⟩ := h
    exact ⟨Shrinks.shrinksRefl _, fun m _ _ hm => by simp at hm⟩
  | cons o rest ih =>
    unfold finalizeLoop at h
    by_cases hm : o ∈ u
    · simp only [hm, if_true] at h
      cases hf : finalizeObject s o with
      | none => simp [hf] at h
      | some s1 =>
        simp only [hf] at h
        obtain ⟨h1, h2⟩ := finalizeObject_shrinks s s1 o hf
        obtain ⟨h3, h4⟩ := ih _ _ h
        refine ⟨h1.shrinksTrans h3, fun m inst c hml hmu hinst hcomp comp' hcomp' => ?_⟩
        rcases List.mem_cons.1 hml with e | hrest
        · subst e
          obtain ⟨comp1, g1, g2⟩ := h3.modules c comp' hcomp'
          exact fun hx => h2 inst c hinst hcomp comp1 g1 (g2 m hx)
        · exact h4 m inst c hrest hmu (by rw [h1.instances]; exact hinst) hcomp comp' hcomp'
    · simp only [hm, if_false] at h
      obtain ⟨h3, h4⟩ := ih _ _ h
      refine ⟨h3, fun m inst c hml hmu hinst hcomp comp' hcomp' => ?_⟩
      rcases List.mem_cons.1 hml with e | hrest
      · subst e
        exact absurd hmu hm
      · exact h4 m inst c hrest hmu hinst hcomp comp' hcomp'

/-- A collected module instance is no longer in the `modules` of its compartment (if the
compartment survives the collection). -/
theorem collectGarbage_removes_module (s : RuntimeState) (r : GCResult)
    (h : collectGarbage s = some r) (m c : Ptr) (inst : ModuleInstance)
    (hm : m ∈ r.garbage) (hinst : s.getModuleInstance m = some inst)
    (hc : inst.compartment = some c) (comp' : Compartment)
    (hcomp : r.state.getCompartment c = some comp') : m ∉ comp'.modules := by
  unfold collectGarbage at h
  cases h1 : rootLoop s s.allObjects
      ({ unreferencedObjects := s.allObjects, pendingScanObjects := [] }, 0) with
  | none => simp [h1] at h
  | some a =>
    obtain ⟨st1, numRoots⟩ := a
    simp only [h1] at h
    cases h2 : markLoop s s.allObjects.length st1 with
    | none => simp [h2] at h
    | some st2 =>
      simp only [h2] at h
      cases h3 : finalizeLoop st2.unreferencedObjects st2.unreferencedObjects (s, []) with
      | none => simp [h3] at h
      | some b =>
        obtain ⟨s3, finalized⟩ := b
        simp only [h3] at h
        cases h4 : deleteLoop st2.unreferencedObjects (s3, []) with
        | none => simp [h4] at h
        | some d =>
          obtain ⟨s4, deleted⟩ := d
          simp only [h4, Option.some.injEq] at h
          subst h
          simp only at hm hcomp
          obtain ⟨_, hfin⟩ := finalizeLoop_shrinks _ _ _ _ _ _ h3
          obtain ⟨_, hget, _⟩ := deleteLoop_spec _ _ _ _ _ h4
          have hcomp3 : s3.getCompartment c = some comp' := by
            obtain ⟨n, hn⟩ := getCompartment_eq hcomp
            rw [hget c] at hn
            split at hn
            · cases hn
            · exact getCompartment_iff.2 ⟨n, hn⟩
          exact hfin m inst c hm hm hinst hc comp' hcomp3

/-! ## The collector returns -/

theorem assocGet_mem {κ α : Type} [DecidableEq κ] {k : κ} {v : α} {l : List (κ × α)}
    (h : assocGet k l = some v) : (k, v) ∈ l := by
  induction l with
  | nil => simp [assocGet] at h
  | cons e t ih =>
    simp only [assocGet] at h
    by_cases he : e.1 = k
    · simp only [he, if_true, Option.some.injEq] at h
      obtain ⟨a, b⟩ := e
      simp only at he h
      subst he h
      exact List.mem_cons_self _ _
    · simp only [he, if_false] at h
      exact List.mem_cons_of_mem _ (ih h)

theorem consistent_nodup {s : RuntimeState} (h : consistent s = true) : s.allObjects.Nodup := by
  unfold consistent at h
  simp only [Bool.and_eq_true, decide_eq_true_eq] at h
  exact h.1

theorem consistent_recorded {s : RuntimeState} (h : consistent s = true) (l : List Ptr) :
    ModulesRecorded s l := by
  unfold consistent at h
  simp only [Bool.and_eq_true, List.all_eq_true] at h
  intro m _ inst hi
  obtain ⟨n, hn⟩ := getModuleInstance_eq.1 hi
  have := h.2 _ (assocGet_mem hn)
  simp only at this
  cases hc : inst.compartment with
  | none => simp [hc] at this
  | some c =>
    cases hg : s.getCompartment c with
    | none => simp [hc, hg] at this
    | some comp =>
      simp only [hc, Option.some_bind, hg, decide_eq_true_eq] at this
      exact ⟨c, comp, rfl, hg, this⟩

theorem visitReference_measure (st : MarkState) (r : Option Ptr) :
    (visitReference st r).measure ≤ st.measure ∧
      (visitReference st r).unreferencedObjects.Sublist st.unreferencedObjects := by
  cases r with
  | none => exact ⟨le_refl _, List.Sublist.refl _⟩
  | some r =>
    by_cases h : r ∈ st.unreferencedObjects
    · simp only [visitReference, h, if_true, MarkState.measure, List.length_cons]
      have := length_setRemove_lt h
      exact ⟨by omega, List.filter_sublist _⟩
    · simp only [visitReference, h, if_false]
      exact ⟨le_refl _, List.Sublist.refl _⟩

theorem visitReferenceArray_measure (array : List (Option Ptr)) (st : MarkState) :
    (visitReferenceArray st array).measure ≤ st.measure ∧
      (visitReferenceArray st array).unreferencedObjects.Sublist st.unreferencedObjects := by
  induction array generalizing st with
  | nil => exact ⟨le_refl _, List.Sublist.refl _⟩
  | cons r t ih =>
    have h1 := visitReference_measure st r
    have h2 := ih (visitReference st r)
    exact ⟨le_trans h2.1 h1.1, h2.2.trans h1.2⟩

theorem scanObject_measure (s : RuntimeState) (st : MarkState) (o : Ptr) :
    (scanObject s st o).measure ≤ st.measure ∧
      (scanObject s st o).unreferencedObjects.Sublist st.unreferencedObjects := by
  cases h : s.get o with
  | none =>
    unfold scanObject
    rw [h]
    exact ⟨le_refl _, List.Sublist.refl _⟩
  | some obj =>
    rw [scanObject_eq s st o obj h]
    exact visitReferenceArray_measure _ st

theorem rootLoop_total (s : RuntimeState) (l : List Ptr) (st : MarkState) (n : Nat)
    (hnd : l.Nodup) (hmem : ∀ x, x ∈ l → x ∈ st.unreferencedObjects) :
    ∃ st' n', rootLoop s l (st, n) = some (st', n') ∧ st'.measure ≤ st.measure ∧
      st'.unreferencedObjects.Sublist st.unreferencedObjects := by
  induction l generalizing st n with
  | nil => exact ⟨st, n, rfl, le_refl _, List.Sublist.refl _⟩
  | cons o t ih =>
    obtain ⟨ho, ht⟩ := List.nodup_cons.1 hnd
    unfold rootLoop
    by_cases hr : numRootReferences s o > 0
    · simp only [hr, if_true, setRemoveOrFail, hmem o (List.mem_cons_self _ _)]
      obtain ⟨st', n', h1, h2, h3⟩ := ih
        { unreferencedObjects := setRemove o st.unreferencedObjects,
          pendingScanObjects := o :: st.pendingScanObjects } (n + 1) ht
        (fun x hx => mem_setRemove.2
          ⟨hmem x (List.mem_cons_of_mem _ hx), fun e => ho (e ▸ hx)⟩)
      refine ⟨st', n', h1, ?_, h3.trans (List.filter_sublist _)⟩
      have := length_setRemove_lt (hmem o (List.mem_cons_self _ _))
      simp only [MarkState.measure, List.length_cons] at h2 ⊢
      omega
    · simp only [hr, if_false]
      exact ih st n ht (fun x hx => hmem x (List.mem_cons_of_mem _ hx))

theorem markLoop_total (s : RuntimeState) (fuel : Nat) (st : MarkState)
    (h : st.measure ≤ fuel) :
    ∃ st', markLoop s fuel st = some st' ∧
      st'.unreferencedObjects.Sublist st.unreferencedObjects := by
  induction fuel generalizing st with
  | zero =>
    unfold markLoop
    cases hp : st.pendingScanObjects with
    | nil => exact ⟨st, rfl, List.Sublist.refl _⟩
    | cons top rest =>
      simp [MarkState.measure, hp] at h
  | succ f ih =>
    unfold markLoop
    cases hp : st.pendingScanObjects with
    | nil => exact ⟨st, rfl, List.Sublist.refl _⟩
    | cons top rest =>
      simp only
      have h1 := scanObject_measure s { st with pendingScanObjects := rest } top
      obtain ⟨st', g1, g2⟩ := ih (scanObject s { st with pendingScanObjects := rest } top) (by
        have := h1.1
        simp only [MarkState.measure, hp, List.length_cons] at h this ⊢
        omega)
      exact ⟨st', g1, g2.trans h1.2⟩

theorem ModulesRecorded.recordedModifyCompartment {s : RuntimeState} {l : List Ptr}
    (h : ModulesRecorded s l) (c' : Ptr) (f : Compartment → Compartment)
    (hf : ∀ comp, s.getCompartment c' = some comp → ∀ y, y ∈ l → y ∈ comp.modules →
      y ∈ (f comp).modules) :
    ModulesRecorded (s.modifyCompartment c' f) l := by
  intro m hm inst hi
  rw [getModuleInstance_modifyCompartment] at hi
  obtain ⟨c, comp, h1, h2, h3⟩ := h m hm inst hi
  by_cases hc : c = c'
  · subst hc
    exact ⟨c, f comp, h1, by rw [getCompartment_modifyCompartment]; simp [h2],
      hf comp h2 m hm h3⟩
  · exact ⟨c, comp, h1, by rw [getCompartment_modifyCompartment]; simp [hc, h2], h3⟩

theorem ModulesRecorded.tail {s : RuntimeState} {x : Ptr} {l : List Ptr}
    (h : ModulesRecorded s (x :: l)) : ModulesRecorded s l :=
  fun m hm => h m (List.mem_cons_of_mem _ hm)

theorem finalizeObject_total (s : RuntimeState) (x : Ptr) (rest : List Ptr)
    (h : ModulesRecorded s (x :: rest)) (hx : x ∉ rest) :
    ∃ s', finalizeObject s x = some s' ∧ ModulesRecorded s' rest := by
  unfold finalizeObject
  cases hg : s.get x with
  | none => exact ⟨s, rfl, h.tail⟩
  | some obj =>
    obtain ⟨n, d⟩ := obj
    cases d with
    | moduleInstance m =>
      obtain ⟨c, comp, h1, h2, h3⟩ :=
        h x (List.mem_cons_self _ _) m (getModuleInstance_eq.2 ⟨n, hg⟩)
      simp only [ModuleInstance.finalize, h1, h2, setRemoveOrFail, h3, if_true]
      refine ⟨_, rfl, h.tail.recordedModifyCompartment c _ ?_⟩
      intro comp0 h0 y hy hy'
      rw [h2] at h0
      cases h0
      exact mem_setRemove.2 ⟨hy', fun e => hx (e ▸ hy)⟩
    | table t =>
      refine ⟨_, rfl, ?_⟩
      unfold TableInstance.finalize
      cases t.compartment with
      | none => exact h.tail
      | some c => exact h.tail.recordedModifyCompartment c _ (fun _ _ _ _ hy => hy)
    | memory t =>
      refine ⟨_, rfl, ?_⟩
      unfold MemoryInstance.finalize
      cases t.compartment with
      | none => exact h.tail
      | some c => exact h.tail.recordedModifyCompartment c _ (fun _ _ _ _ hy => hy)
    | global t =>
      refine ⟨_, rfl, ?_⟩
      unfold GlobalInstance.finalize
      cases t.compartment with
      | none => exact h.tail
      | some c => exact h.tail.recordedModifyCompartment c _ (fun _ _ _ _ hy => hy)
    | context t =>
      refine ⟨_, rfl, ?_⟩
      unfold Context.finalize
      cases t.compartment with
      | none => exact h.tail
      | some c => exact h.tail.recordedModifyCompartment c _ (fun _ _ _ _ hy => hy)
    | function _ => exact ⟨s, rfl, h.tail⟩
    | compartment _ => exact ⟨s, rfl, h.tail⟩
    | module _ => exact ⟨s, rfl, h.tail⟩
    | exceptionTypeInstance _ => exact ⟨s, rfl, h.tail⟩

theorem finalizeLoop_total (u l : List Ptr) (s : RuntimeState) (fin : List Ptr)
    (hnd : l.Nodup) (h : ModulesRecorded s l) :
    ∃ r, finalizeLoop u l (s, fin) = some r := by
  induction l generalizing s fin with
  | nil => exact ⟨_, rfl⟩
  | cons x t ih =>
    obtain ⟨hx, ht⟩ := List.nodup_cons.1 hnd
    unfold finalizeLoop
    by_cases hu : x ∈ u
    · simp only [hu, if_true]
      obtain ⟨s', h1, h2⟩ := finalizeObject_total s x t h hx
      rw [h1]
      exact ih s' _ ht h2
    · simp only [hu, if_false]
      exact ih s fin ht h.tail

theorem deleteLoop_total (l : List Ptr) (s : RuntimeState) (del : List Ptr)
    (hnd : l.Nodup) (h : ∀ x, x ∈ l → x ∈ s.allObjects) :
    ∃ r, deleteLoop l (s, del) = some r := by
  induction l generalizing s del with
  | nil => exact ⟨_, rfl⟩
  | cons x t ih =>
    obtain ⟨hx, ht⟩ := List.nodup_cons.1 hnd
    unfold deleteLoop
    simp only [h x (List.mem_cons_self _ _), if_true]
    exact ih _ _ ht (fun y hy => (mem_allObjects_delete s x y).2
      ⟨h y (List.mem_cons_of_mem _ hy), fun e => hx (e ▸ hy)⟩)

/-- On a consistent registry `collectGarbage` returns: the bound on the mark loop is never
reached and no `removeOrFail` fails. -/
theorem collectGarbage_total (s : RuntimeState) (h : consistent s = true) :
    ∃ r, collectGarbage s = some r := by
  have hnd := consistent_nodup h
  obtain ⟨st1, n1, h1, m1, u1⟩ := rootLoop_total s s.allObjects
    { unreferencedObjects := s.allObjects, pendingScanObjects := [] } 0 hnd (fun _ hx => hx)
  obtain ⟨st2, h2, u2⟩ := markLoop_total s s.allObjects.length st1 (by
    simpa [MarkState.measure] using m1)
  have hsub : st2.unreferencedObjects.Sublist s.allObjects := u2.trans u1
  have hnd2 : st2.unreferencedObjects.Nodup := hnd.sublist hsub
  obtain ⟨⟨s3, fin⟩, h3⟩ := finalizeLoop_total st2.unreferencedObjects st2.unreferencedObjects
    s [] hnd2 (consistent_recorded h _)
  have hsame := (finalizeLoop_spec _ _ s [] s3 fin h3).1
  obtain ⟨⟨s4, del⟩, h4⟩ := deleteLoop_total st2.unreferencedObjects s3 [] hnd2
    (fun x hx => hsame.1 ▸ hsub.subset hx)
  unfold collectGarbage
  simp only [h1, h2, h3, h4]
  exact ⟨_, rfl⟩

theorem reachable_after (s : RuntimeState) (r : GCResult) (h : collectGarbage s = some r)
    (o : Ptr) (ho : Reachable s o) : Reachable r.state o := by
  obtain ⟨_, _, hg, _, hview⟩ := collectGarbage_spec s r h
  have keep : ∀ a obj, s.get a = some obj → Reachable s a →
      ∃ obj', r.state.get a = some obj' ∧ obj'.view = obj.view := by
    intro a obj ha hra
    have hng : a ∉ r.garbage := fun hmem => ((hg a).1 hmem).2 hra
    have := hview a hng
    rw [ha] at this
    cases hr : r.state.get a with
    | none => simp [hr] at this
    | some obj' =>
      rw [hr] at this
      exact ⟨obj', rfl, by simpa using this⟩
  induction ho with
  | root hroot =>
    obtain ⟨obj, h1, h2⟩ := hroot
    obtain ⟨obj', h3, h4⟩ := keep _ obj h1 (Reachable.root ⟨obj, h1, h2⟩)
    refine Reachable.root ⟨obj', h3, ?_⟩
    have : obj'.numRootReferences = obj.numRootReferences := congrArg Prod.fst h4
    omega
  | edge hra hget hedge ih =>
    obtain ⟨obj', h3, h4⟩ := keep _ _ hget hra
    have : outgoingEdges obj'.data = outgoingEdges _ := congrArg Prod.snd h4
    exact Reachable.edge ih h3 (this ▸ hedge)

/-- C1: every registered object that is rooted when `collectGarbage` starts, or reachable from
a rooted object along the per-kind outgoing edges, is neither finalized nor deleted and is
still in `allObjects` when `collectGarbage` returns; and `collectGarbage` does return on every
consistent registry. -/
theorem collectGarbage_keeps_reachable (s : RuntimeState) (o : Ptr) (ho : o ∈ s.allObjects)
    (hr : Reachable s o) :
    (consistent s = true → ∃ r, collectGarbage s = some r) ∧
      ∀ r, collectGarbage s = some r →
        o ∈ r.state.allObjects ∧ o ∉ r.finalized ∧ o ∉ r.deleted := by
  refine ⟨collectGarbage_total s, fun r h => ?_⟩
  obtain ⟨hf, hd, hg, ha, _⟩ := collectGarbage_spec s r h
  have hng : o ∉ r.garbage := fun hmem => ((hg o).1 hmem).2 hr
  exact ⟨(ha o).2 ⟨ho, hng⟩, hf ▸ hng, hd ▸ hng⟩

theorem gcHeapA_reachable_3 : Reachable gcHeapA 3 :=
  Reachable.edge (b := 3)
    (Reachable.edge (a := 1) (b := 2) (Reachable.root ⟨_, rfl, by decide⟩) rfl (by decide))
    rfl (by decide)

theorem collectGarbage_keeps_reachable_witness :
    consistent gcHeapA = true ∧ collectGarbage gcHeapA = some gcHeapACollected ∧
      3 ∈ gcHeapA.allObjects ∧ Reachable gcHeapA 3 ∧
      (3 ∈ gcHeapACollected.state.allObjects ∧ 3 ∉ gcHeapACollected.finalized ∧
        3 ∉ gcHeapACollected.deleted) ∧
      5 ∉ gcHeapACollected.state.allObjects :=
  ⟨by decide, rfl, by decide, gcHeapA_reachable_3,
    (collectGarbage_keeps_reachable gcHeapA 3 (by decide) gcHeapA_reachable_3).2
      gcHeapACollected rfl, by decide⟩

/-- C2: when `collectGarbage` returns, every object remaining in `allObjects` is reachable from
a rooted object along the per-kind outgoing edges, and every object that was not reachable
from a root (such as the members of an unrooted reference cycle) has left the registry; and
`collectGarbage` does return on every consistent registry. -/
theorem collectGarbage_survivors_reachable (s : RuntimeState) (o : Ptr) :
    (consistent s = true → ∃ r, collectGarbage s = some r) ∧
      ∀ r, collectGarbage s = some r →
        (o ∈ r.state.allObjects → Reachable r.state o) ∧
        (¬ Reachable s o → o ∉ r.state.allObjects) := by
  refine ⟨collectGarbage_total s, fun r h => ?_⟩
  obtain ⟨_, _, hg, ha, _⟩ := collectGarbage_spec s r h
  constructor
  · intro ho
    obtain ⟨h1, h2⟩ := (ha o).1 ho
    have : Reachable s o := by
      by_contra hn
      exact h2 ((hg o).2 ⟨h1, hn⟩)
    exact reachable_after s r h o this
  · intro hn ho
    obtain ⟨h1, h2⟩ := (ha o).1 ho
    exact h2 ((hg o).2 ⟨h1, hn⟩)

theorem gcHeapB_reachable (x : Ptr) (h : Reachable gcHeapB x) : x = 1 := by
  induction h with
  | root hr =>
    rename_i o
    obtain ⟨obj, h1, h2⟩ := hr
    have hmem : o ∈ gcHeapB.allObjects := mem_allObjects_iff.2 ⟨obj, h1⟩
    simp only [gcHeapB, RuntimeState.allObjects, List.map, List.mem_cons, List.mem_nil_iff,
      or_false] at hmem
    rcases hmem with rfl | rfl | rfl | rfl
    · rfl
    all_goals
      simp [gcHeapB, RuntimeState.get, assocGet] at h1
      subst h1
      simp at h2
  | edge _ hget hedge ih =>
    subst ih
    simp [gcHeapB, RuntimeState.get, assocGet] at hget
    subst hget
    simp [outgoingEdges] at hedge

theorem collectGarbage_survivors_reachable_witness :
    consistent gcHeapB = true ∧ collectGarbage gcHeapB = some gcHeapBCollected ∧
      ¬ Reachable gcHeapB 2 ∧ ¬ Reachable gcHeapB 3 ∧ ¬ Reachable gcHeapB 4 ∧
      2 ∉ gcHeapBCollected.state.allObjects ∧ gcHeapBCollected.state.allObjects = [1] ∧
      Reachable gcHeapBCollected.state 1 :=
  ⟨by decide, rfl,
    fun h => absurd (gcHeapB_reachable 2 h) (by decide),
    fun h => absurd (gcHeapB_reachable 3 h) (by decide),
    fun h => absurd (gcHeapB_reachable 4 h) (by decide),
    ((collectGarbage_survivors_reachable gcHeapB 2).2 gcHeapBCollected rfl).2
      (fun h => absurd (gcHeapB_reachable 2 h) (by decide)),
    rfl,
    ((collectGarbage_survivors_reachable gcHeapB 1).2 gcHeapBCollected rfl).1 (by decide)⟩

theorem createTable_spec (host : Host) (mi c : Ptr) (s : RuntimeState) (inst : ModuleInstance)
    (type : TableType) (name : String) (hs : Sync s mi inst) :
    Frame mi false false s (createTable host s c type name).state ∧
    ∀ r s', createTable host s c type name = .ok r s' → Sync s' mi inst ∧
      ∀ t, r = some t → s.get t = none ∧ IsTable s' t type := by
  unfold createTable
  cases hc : s.getCompartment c with
  | none => exact ⟨Frame.frameRefl _ _ _ _, fun r s' h => by cases h⟩
  | some comp =>
    simp only
    split_ifs with h1 h2
    · refine ⟨Frame.frameRefl _ _ _ _, fun r s' h => ?_⟩
      cases h
      exact ⟨hs, fun t ht => by cases ht⟩
    · exact ⟨Frame.frameRefl _ _ _ _, fun r s' h => by cases h⟩
    · obtain ⟨hf, hsync, hget, hnone⟩ := construct_register mi c s inst comp
        (.table { compartment := some c, id := nextFreeIndex (comp.tables.map Prod.fst),
                  type := type, elements := List.replicate type.size.min none })
        (fun x => { x with
          tables := x.tables ++ [(nextFreeIndex (comp.tables.map Prod.fst), s.fresh)] })
        hs hc (fun _ => ⟨rfl, rfl⟩) (fun _ hx => by cases hx)
      refine ⟨hf, fun r s' h => ?_⟩
      cases h
      refine ⟨hsync, fun t ht => ?_⟩
      cases ht
      exact ⟨hnone, _, getTable_eq.2 ⟨_, hget⟩, rfl⟩

theorem createMemory_spec (host : Host) (mi c : Ptr) (s : RuntimeState) (inst : ModuleInstance)
    (type : MemoryType) (name : String) (hs : Sync s mi inst) :
    Frame mi false false s (createMemory host s c type name).state ∧
    ∀ r s', createMemory host s c type name = .ok r s' → Sync s' mi inst ∧
      ∀ t, r = some t → s.get t = none ∧ IsMemory s' t type := by
  unfold createMemory
  cases hc : s.getCompartment c with
  | none => exact ⟨Frame.frameRefl _ _ _ _, fun r s' h => by cases h⟩
  | some comp =>
    simp only
    split_ifs with h1 h2
    · refine ⟨Frame.frameRefl _ _ _ _, fun r s' h => ?_⟩
      cases h
      exact ⟨hs, fun t ht => by cases ht⟩
    · exact ⟨Frame.frameRefl _ _ _ _, fun r s' h => by cases h⟩
    · obtain ⟨hf, hsync, hget, hnone⟩ := construct_register mi c s inst comp
        (.memory { compartment := some c, id := nextFreeIndex (comp.memories.map Prod.fst),
                   type := type, bytes := fun _ => 0, numPages := type.size.min })
        (fun x => { x with
          memories := x.memories ++ [(nextFreeIndex (comp.memories.map Prod.fst), s.fresh)] })
        hs hc (fun _ => ⟨rfl, rfl⟩) (fun _ hx => by cases hx)
      refine ⟨hf, fun r s' h => ?_⟩
      cases h
      refine ⟨hsync, fun t ht => ?_⟩
      cases ht
      exact ⟨hnone, _, getMemory_eq.2 ⟨_, hget⟩, rfl⟩

theorem createGlobal_spec (host : Host) (mi c : Ptr) (s : RuntimeState) (inst : ModuleInstance)
    (type : GlobalType) (v : Value) (hs : Sync s mi inst) :
    Frame mi false false s (createGlobal host s c type v).state ∧
    ∀ r s', createGlobal host s c type v = .ok r s' → Sync s' mi inst ∧
      ∃ t, r = some t ∧ s.get t = none ∧ IsGlobal s' t type v.bits := by
  unfold createGlobal
  cases hc : s.getCompartment c with
  | none => exact ⟨Frame.frameRefl _ _ _ _, fun r s' h => by cases h⟩
  | some comp =>
    simp only
    split_ifs with h1 h2
    · exact ⟨Frame.frameRefl _ _ _ _, fun r s' h => by cases h⟩
    · obtain ⟨hf, hsync, hget, hnone⟩ := construct_register mi c s inst comp
        (.global { compartment := some c, type := type,
                   mutableGlobalId := nextFreeIndex comp.globalDataAllocationMask,
                   initialValue := v.bits })
        (fun x => { x with
          globals := x.globals ++ [s.fresh],
          globalDataAllocationMask :=
            x.globalDataAllocationMask ++ [nextFreeIndex comp.globalDataAllocationMask],
          initialContextMutableGlobals :=
            (assocRemove (nextFreeIndex comp.globalDataAllocationMask)
              x.initialContextMutableGlobals)
              ++ [(nextFreeIndex comp.globalDataAllocationMask, v.bits)] })
        hs hc (fun _ => ⟨rfl, rfl⟩) (fun _ hx => by cases hx)
      refine ⟨hf, fun r s' h => ?_⟩
      cases h
      exact ⟨hsync, _, rfl, hnone, _, getGlobal_eq.2 ⟨_, hget⟩, rfl, rfl⟩
    · obtain ⟨hf, hsync, hget, hnone⟩ := construct_register mi c s inst comp
        (.global { compartment := some c, type := type, mutableGlobalId := 2 ^ 32 - 1,
                   initialValue := v.bits })
        (fun x => { x with globals := x.globals ++ [s.fresh] })
        hs hc (fun _ => ⟨rfl, rfl⟩) (fun _ hx => by cases hx)
      refine ⟨hf, fun r s' h => ?_⟩
      cases h
      exact ⟨hsync, _, rfl, hnone, _, getGlobal_eq.2 ⟨_, hget⟩, rfl, rfl⟩

theorem get_setModuleInstance_ne (s : RuntimeState) (mi p : Ptr) (m : ModuleInstance)
    (h : p ≠ mi) : (s.setModuleInstance mi m).get p = s.get p :=
  get_modifyData_ne _ _ _ _ h

/-- The loop over the table definitions appends one new table per definition, in order. -/
theorem instantiateTableDefs_spec (host : Host) (names : DisassemblyNames) (c mi : Ptr)
    (numImports : Nat) (defs : List TableDef) (idx : Nat) (inst : ModuleInstance)
    (s : RuntimeState) (hs : Sync s mi inst) :
    PhaseSpec mi false false s
      (instantiateTableDefs host names c mi numImports defs idx inst s)
      (fun inst' s' => ∃ new : List Ptr,
        inst' = { inst with tables := inst.tables ++ new.map some } ∧
        List.Forall₂ (fun p (d : TableDef) => s.get p = none ∧ IsTable s' p d.type) new defs) := by
  induction defs generalizing idx inst s with
  | nil =>
    refine ⟨Frame.frameRefl _ _ _ _, fun inst' s' h => ?_⟩
    cases h
    exact ⟨hs, [], by simp, List.Forall₂.nil⟩
  | cons d rest ih =>
    unfold instantiateTableDefs
    obtain ⟨hf, hok⟩ := createTable_spec host mi c s inst d.type
      (names.tables (numImports + idx)) hs
    cases hx : createTable host s c d.type (names.tables (numImports + idx)) with
    | throw e s1 =>
      rw [hx] at hf
      exact ⟨hf, fun inst' s' h => by cases h⟩
    | ok r s1 =>
      rw [hx] at hf
      obtain ⟨hsync, hr⟩ := hok r s1 hx
      cases r with
      | none => exact ⟨hf, fun inst' s' h => by cases h⟩
      | some t =>
        obtain ⟨hnone, htab⟩ := hr t rfl
        simp only [Outcome.bind]
        obtain ⟨hf2, hs2⟩ := hsync.frame_set false false
          { inst with tables := inst.tables ++ [some t] } rfl
        have ih' := ih (idx + 1) _ _ hs2
        refine ⟨(hf.frameTrans hf2).frameTrans ih'.frame, fun inst' s' h => ?_⟩
        obtain ⟨hs', new, hinst, hall⟩ := ih'.ok inst' s' h
        have hfr := ih'.frame
        rw [h] at hfr
        refine ⟨hs', t :: new, ?_, List.Forall₂.cons ⟨hnone, ?_⟩ ?_⟩
        · rw [hinst]
          simp
        · exact hfr.isTable (hf2.isTable htab)
        · exact hall.imp (fun _ _ hp => ⟨(hf.frameTrans hf2).get_none hp.1, hp.2⟩)

/-- The loop over the memory definitions appends one new memory per definition, in order. -/
theorem instantiateMemoryDefs_spec (host : Host) (names : DisassemblyNames) (c mi : Ptr)
    (numImports : Nat) (defs : List MemoryDef) (idx : Nat) (inst : ModuleInstance)
    (s : RuntimeState) (hs : Sync s mi inst) :
    PhaseSpec mi false false s
      (instantiateMemoryDefs host names c mi numImports defs idx inst s)
      (fun inst' s' => ∃ new : List Ptr,
        inst' = { inst with memories := inst.memories ++ new.map some } ∧
        List.Forall₂ (fun p (d : MemoryDef) => s.get p = none ∧ IsMemory s' p d.type)
          new defs) := by
  induction defs generalizing idx inst s with
  | nil =>
    refine ⟨Frame.frameRefl _ _ _ _, fun inst' s' h => ?_⟩
    cases h
    exact ⟨hs, [], by simp, List.Forall₂.nil⟩
  | cons d rest ih =>
    unfold instantiateMemoryDefs
    obtain ⟨hf, hok⟩ := createMemory_spec host mi c s inst d.type
      (names.memories (numImports + idx)) hs
    cases hx : createMemory host s c d.type (names.memories (numImports + idx)) with
    | throw e s1 =>
      rw [hx] at hf
      exact ⟨hf, fun inst' s' h => by cases h⟩
    | ok r s1 =>
      rw [hx] at hf
      obtain ⟨hsync, hr⟩ := hok r s1 hx
      cases r with
      | none => exact ⟨hf, fun inst' s' h => by cases h⟩
      | some t =>
        obtain ⟨hnone, htab⟩ := hr t rfl
        simp only [Outcome.bind]
        obtain ⟨hf2, hs2⟩ := hsync.frame_set false false
          { inst with memories := inst.memories ++ [some t] } rfl
        have ih' := ih (idx + 1) _ _ hs2
        refine ⟨(hf.frameTrans hf2).frameTrans ih'.frame, fun inst' s' h => ?_⟩
        obtain ⟨hs', new, hinst, hall⟩ := ih'.ok inst' s' h
        have hfr := ih'.frame
        rw [h] at hfr
        refine ⟨hs', t :: new, ?_, List.Forall₂.cons ⟨hnone, ?_⟩ ?_⟩
        · rw [hinst]
          simp
        · exact hfr.isMemory (hf2.isMemory htab)
        · exact hall.imp (fun _ _ hp => ⟨(hf.frameTrans hf2).get_none hp.1, hp.2⟩)

theorem selectDefaults_spec (host : Host) (mi : Ptr) (inst : ModuleInstance) (s : RuntimeState)
    (hs : Sync s mi inst) :
    PhaseSpec mi false false s (selectDefaults host mi inst s)
      (fun inst' _ => inst' =
        { inst with
          defaultMemory :=
            if inst.memories.length ≠ 0 then inst.memories.getD 0 none else inst.defaultMemory,
          defaultTable :=
            if inst.tables.length ≠ 0 then inst.tables.getD 0 none else inst.defaultTable } ∧
        (host.assertsEnabled = true → inst.memories.length ≠ 0 → inst.memories.length = 1)) := by
  unfold selectDefaults
  by_cases hm : inst.memories.length = 0
  · simp only [hm, bne_self_eq_false, Bool.false_eq_true, if_false, Outcome.bind, ne_eq,
      not_true_eq_false]
    by_cases ht : inst.tables.length = 0
    · simp only [ht, bne_self_eq_false, Bool.false_eq_true, if_false, ne_eq, not_true_eq_false]
      refine ⟨Frame.frameRefl _ _ _ _, fun inst' s' h => ?_⟩
      cases h
      exact ⟨hs, rfl, fun _ h => h.elim⟩
    · have ht' : (inst.tables.length != 0) = true := by simpa using ht
      simp only [ht', if_true, ne_eq, ht, not_false_eq_true]
      obtain ⟨hf, hs2⟩ := hs.frame_set false false
        { inst with defaultTable := inst.tables.getD 0 none } rfl
      refine ⟨hf, fun inst' s' h => ?_⟩
      cases h
      exact ⟨hs2, rfl, fun _ h => h.elim⟩
  · have hm' : (inst.memories.length != 0) = true := by simpa using hm
    simp only [hm', if_true, ne_eq, hm, not_false_eq_true]
    cases ha : wavmAssert host (inst.memories.length == 1) s with
    | throw e s1 =>
      have := wavmAssert_state host (inst.memories.length == 1) s
      rw [ha] at this
      simp only [Outcome.state] at this
      subst this
      exact ⟨Frame.frameRefl _ _ _ _, fun inst' s' h => by cases h⟩
    | ok u s1 =>
      obtain ⟨hassert, rfl⟩ := wavmAssert_eq_ok.1 ha
      simp only [Outcome.bind]
      obtain ⟨hf, hs2⟩ := hs.frame_set false false
        { inst with defaultMemory := inst.memories.getD 0 none } rfl
      by_cases ht : inst.tables.length = 0
      · simp only [ht, bne_self_eq_false, Bool.false_eq_true, if_false, ne_eq,
          not_true_eq_false]
        refine ⟨hf, fun inst' s' h => ?_⟩
        cases h
        exact ⟨hs2, rfl, fun h1 _ => by simpa using hassert h1⟩
      · have ht' : (inst.tables.length != 0) = true := by simpa using ht
        simp only [ht', if_true, ne_eq, ht, not_false_eq_true]
        obtain ⟨hf3, hs3⟩ := hs2.frame_set false false
          { inst with defaultMemory := inst.memories.getD 0 none,
                      defaultTable := inst.tables.getD 0 none } rfl
        refine ⟨hf.frameTrans hf3, fun inst' s' h => ?_⟩
        cases h
        exact ⟨hs3, rfl, fun h1 _ => by simpa using hassert h1⟩

/-- An initializer that evaluates keeps its value when the heap is extended and globals are
appended to the vector. -/
theorem evaluateInitializer_mono {mi : Ptr} {b e : Bool} {s s' : RuntimeState}
    (hf : Frame mi b e s s') (gs extra : List (Option Ptr)) (x : InitializerExpression)
    (v : Value) (h : evaluateInitializer s gs x = .ok v) :
    evaluateInitializer s' (gs ++ extra) x = .ok v := by
  cases x with
  | get_global i =>
    simp only [evaluateInitializer] at h ⊢
    by_cases hi : i < gs.length
    · have hi' : i < (gs ++ extra).length := by simp; omega
      simp only [hi, hi', if_true] at h ⊢
      have hget : (gs ++ extra).getD i none = gs.getD i none := by
        simp [List.getD, List.getElem?_append_left hi]
      rw [hget]
      generalize gs.getD i none = og at h ⊢
      cases og with
      | none => exact h
      | some g =>
        simp only at h ⊢
        cases hgi : s.getGlobal g with
        | none =>
          rw [hgi] at h
          cases h
        | some gi =>
          rw [hf.getGlobal hgi]
          rw [hgi] at h
          exact h
    · simp [hi] at h
  | _ => simp only [evaluateInitializer] at h ⊢; exact h

/-- The loop over the global definitions appends one new global per definition, in order; each
has the declared type and the value of its initializer. -/
theorem instantiateGlobalDefs_spec (host : Host) (c mi : Ptr) (defs : List GlobalDef)
    (inst : ModuleInstance) (s : RuntimeState) (hs : Sync s mi inst) :
    PhaseSpec mi false false s (instantiateGlobalDefs host c mi defs inst s)
      (fun inst' s' => ∃ new : List Ptr,
        inst' = { inst with globals := inst.globals ++ new.map some } ∧
        List.Forall₂ (fun p (d : GlobalDef) => s.get p = none ∧
          ∃ v, evaluateInitializer s' inst'.globals d.initializer = .ok v ∧
            host.isSubtype v.type d.type.valueType = true ∧ IsGlobal s' p d.type v.bits)
          new defs) := by
  induction defs generalizing inst s with
  | nil =>
    refine ⟨Frame.frameRefl _ _ _ _, fun inst' s' h => ?_⟩
    cases h
    exact ⟨hs, [], by simp, List.Forall₂.nil⟩
  | cons d rest ih =>
    unfold instantiateGlobalDefs
    cases hv : evaluateInitializer s inst.globals d.initializer with
    | error err => exact ⟨Frame.frameRefl _ _ _ _, fun inst' s' h => by cases h⟩
    | ok v =>
      simp only
      cases hsub : host.isSubtype v.type d.type.valueType with
      | false =>
        simp only [errorUnless, Bool.false_eq_true, if_false, Outcome.bind]
        exact ⟨Frame.frameRefl _ _ _ _, fun inst' s' h => by cases h⟩
      | true =>
        simp only [errorUnless, if_true, Outcome.bind]
        obtain ⟨hf, hok⟩ := createGlobal_spec host mi c s inst d.type v hs
        cases hx : createGlobal host s c d.type v with
        | throw e s1 =>
          rw [hx] at hf
          exact ⟨hf, fun inst' s' h => by cases h⟩
        | ok r s1 =>
          rw [hx] at hf
          obtain ⟨hsync, t, rfl, hnone, hglob⟩ := hok r s1 hx
          simp only
          obtain ⟨hf2, hs2⟩ := hsync.frame_set false false
            { inst with globals := inst.globals ++ [some t] } rfl
          have ih' := ih _ _ hs2
          refine ⟨(hf.frameTrans hf2).frameTrans ih'.frame, fun inst' s' h => ?_⟩
          obtain ⟨hs', new, hinst, hall⟩ := ih'.ok inst' s' h
          have hfr := ih'.frame
          rw [h] at hfr
          have hg : inst'.globals = inst.globals ++ ([some t] ++ new.map some) := by
            rw [hinst]; simp
          refine ⟨hs', t :: new, ?_, List.Forall₂.cons ⟨hnone, v, ?_, hsub, ?_⟩ ?_⟩
          · rw [hinst]
            simp
          · rw [hg]
            exact evaluateInitializer_mono ((hf.frameTrans hf2).frameTrans hfr) _ _ _ _ hv
          · exact hfr.isGlobal (hf2.isGlobal hglob)
          · exact hall.imp (fun _ _ hp => ⟨(hf.frameTrans hf2).get_none hp.1, hp.2⟩)

/-- The loop over the exception type definitions appends one new instance per definition. -/
theorem instantiateExceptionTypeDefs_spec (mi : Ptr) (defs : List ExceptionTypeDef)
    (inst : ModuleInstance) (s : RuntimeState) (hs : Sync s mi inst) :
    PhaseSpec mi false false s (instantiateExceptionTypeDefs mi defs inst s)
      (fun inst' s' => ∃ new : List Ptr,
        inst' = { inst with exceptionTypes := inst.exceptionTypes ++ new.map some } ∧
        List.Forall₂ (fun p (d : ExceptionTypeDef) => s.get p = none ∧
          IsExceptionType s' p d.type) new defs) := by
  induction defs generalizing inst s with
  | nil =>
    refine ⟨Frame.frameRefl _ _ _ _, fun inst' s' h => ?_⟩
    cases h
    exact ⟨hs, [], by simp, List.Forall₂.nil⟩
  | cons d rest ih =>
    unfold instantiateExceptionTypeDefs
    have hf : Frame mi false false s
        (createExceptionTypeInstance s d.type "wasmException").2 := Frame.frameConstruct _ _ _ _ _ (fun _ hx => by cases hx)
    have hsync : Sync (createExceptionTypeInstance s d.type "wasmException").2 mi inst :=
      hs.syncConstruct _
    have hex : IsExceptionType (createExceptionTypeInstance s d.type "wasmException").2
        s.fresh d.type :=
      ⟨{ type := d.type, debugName := "wasmException" },
        getExceptionTypeInstance_eq.2 ⟨0, by
          unfold createExceptionTypeInstance
          rw [get_construct]; simp⟩, rfl⟩
    have hfst : (createExceptionTypeInstance s d.type "wasmException").1 = s.fresh := rfl
    rw [hfst]
    obtain ⟨hf2, hs2⟩ := hsync.frame_set false false
      { inst with exceptionTypes := inst.exceptionTypes ++ [some s.fresh] } rfl
    have ih' := ih _ _ hs2
    refine ⟨(hf.frameTrans hf2).frameTrans ih'.frame, fun inst' s' h => ?_⟩
    obtain ⟨hs', new, hinst, hall⟩ := ih'.ok inst' s' h
    have hfr := ih'.frame
    rw [h] at hfr
    refine ⟨hs', s.fresh :: new, ?_, List.Forall₂.cons ⟨get_fresh s, ?_⟩ ?_⟩
    · rw [hinst]
      simp
    · exact hfr.isExceptionType (hf2.isExceptionType hex)
    · exact hall.imp (fun _ _ hp => ⟨(hf.frameTrans hf2).get_none hp.1, hp.2⟩)

/-- The loop over the function definitions appends one new function per definition, in order,
to both `functions` and `functionDefs`. -/
theorem instantiateFunctionDefs_spec (names : DisassemblyNames) (types : List FunctionType)
    (mi : Ptr) (numImports : Nat) (defs : List FunctionDef) (idx : Nat) (inst : ModuleInstance)
    (s : RuntimeState) (hs : Sync s mi inst) :
    PhaseSpec mi false false s
      (instantiateFunctionDefs names types mi numImports defs idx inst s)
      (fun inst' s' => ∃ new : List Ptr,
        inst' = { inst with functionDefs := inst.functionDefs ++ new.map some,
                            functions := inst.functions ++ new.map some } ∧
        List.Forall₂ (fun p (d : FunctionDef) => s.get p = none ∧
          ∃ type, types[d.type.index]? = some type ∧ IsFunction s' p (some mi) type .wasm)
          new defs) := by
  induction defs generalizing idx inst s with
  | nil =>
    refine ⟨Frame.frameRefl _ _ _ _, fun inst' s' h => ?_⟩
    cases h
    exact ⟨hs, [], by simp, List.Forall₂.nil⟩
  | cons d rest ih =>
    unfold instantiateFunctionDefs
    cases hty : types[d.type.index]? with
    | none => exact ⟨Frame.frameRefl _ _ _ _, fun inst' s' h => by cases h⟩
    | some type =>
      simp only
      have hf : Frame mi false false s (s.construct (.function
          { moduleInstance := some mi, type := type, nativeFunction := none,
            callingConvention := .wasm,
            debugName := functionDebugName names numImports idx })).2 :=
        Frame.frameConstruct _ _ _ _ _ (fun _ hx => by cases hx)
      have hsync := hs.syncConstruct (.function
          { moduleInstance := some mi, type := type, nativeFunction := none,
            callingConvention := .wasm,
            debugName := functionDebugName names numImports idx })
      have hfun : IsFunction (s.construct (.function
          { moduleInstance := some mi, type := type, nativeFunction := none,
            callingConvention := .wasm,
            debugName := functionDebugName names numImports idx })).2 s.fresh (some mi) type
            .wasm :=
        ⟨{ moduleInstance := some mi, type := type, nativeFunction := none,
           callingConvention := .wasm,
           debugName := functionDebugName names numImports idx },
          getFunction_eq.2 ⟨0, by rw [get_construct]; simp⟩, rfl, rfl, rfl⟩
      obtain ⟨hf2, hs2⟩ := hsync.frame_set false false
        { inst with functionDefs := inst.functionDefs ++ [some s.fresh],
                    functions := inst.functions ++ [some s.fresh] } rfl
      have ih' := ih (idx + 1) _ _ hs2
      refine ⟨(hf.frameTrans hf2).frameTrans ih'.frame, fun inst' s' h => ?_⟩
      obtain ⟨hs', new, hinst, hall⟩ := ih'.ok inst' s' h
      have hfr := ih'.frame
      rw [h] at hfr
      refine ⟨hs', s.fresh :: new, ?_, List.Forall₂.cons ⟨get_fresh s, type, hty, ?_⟩ ?_⟩
      · rw [hinst]
        simp
      · exact hfr.isFunction (hf2.isFunction hfun)
      · exact hall.imp (fun _ _ hp => ⟨(hf.frameTrans hf2).get_none hp.1, hp.2⟩)

theorem Frame.bytes {mi : Ptr} {b e : Bool} {s s' : RuntimeState} (h : Frame mi b e s s') :
    Frame mi true e s s' := by
  cases b with
  | true => exact h
  | false =>
    refine ⟨fun p obj hp => ?_, h.2⟩
    obtain ⟨obj', h1, h2, h3⟩ := h.1 p obj hp
    exact ⟨obj', h1, h2, frozen_bytes h3⟩

theorem Frame.elements {mi : Ptr} {b e : Bool} {s s' : RuntimeState} (h : Frame mi b e s s') :
    Frame mi b true s s' := by
  cases e with
  | true => exact h
  | false =>
    refine ⟨fun p obj hp => ?_, h.2⟩
    obtain ⟨obj', h1, h2, h3⟩ := h.1 p obj hp
    exact ⟨obj', h1, h2, frozen_elements h3⟩

theorem Sync.modifyData_fix {s : RuntimeState} {mi : Ptr} {inst : ModuleInstance}
    (h : Sync s mi inst) (p : Ptr) (f : ObjectData → ObjectData)
    (hf : f (.moduleInstance inst) = .moduleInstance inst) : Sync (s.modifyData p f) mi inst := by
  obtain ⟨n, hn⟩ := h
  refine ⟨n, ?_⟩
  rw [get_modifyData, hn]
  by_cases hp : mi = p
  · simp [hp, hf]
  · simp [hp]

theorem buildIntrinsicsExportMap_state (host : Host) (s : RuntimeState)
    (l : List (String × Option Ptr)) (acc : List (String × FunctionBinding)) :
    (buildIntrinsicsExportMap host s l acc).state = s := by
  induction l generalizing acc with
  | nil => rfl
  | cons x rest ih =>
    unfold buildIntrinsicsExportMap
    cases x.2.bind s.getFunction with
    | none => simp only; split <;> rfl
    | some f =>
      simp only
      split
      · rfl
      · cases assocAdd x.1 ({ nativeFunction := f.nativeFunction } : FunctionBinding) acc with
        | none => rfl
        | some acc' => exact ih acc'

theorem linkFunctionDefs_spec (mi : Ptr) (inst : ModuleInstance) (defs : List (Option Ptr))
    (jit : List Nat) (idxs : List Nat) (s : RuntimeState) (hs : Sync s mi inst) :
    Frame mi false false s (linkFunctionDefs defs jit idxs s).state ∧
    ∀ u s', linkFunctionDefs defs jit idxs s = .ok u s' → Sync s' mi inst := by
  induction idxs generalizing s with
  | nil =>
    refine ⟨Frame.frameRefl _ _ _ _, fun u s' h => ?_⟩
    cases h
    exact hs
  | cons i rest ih =>
    unfold linkFunctionDefs
    cases h1 : jit[i]? with
    | none => exact ⟨Frame.frameRefl _ _ _ _, fun u s' h => by cases h⟩
    | some base =>
      cases h2 : defs.getD i none with
      | none => exact ⟨Frame.frameRefl _ _ _ _, fun u s' h => by cases h⟩
      | some fp =>
        simp only
        cases h3 : s.getFunction fp with
        | none => exact ⟨Frame.frameRefl _ _ _ _, fun u s' h => by cases h⟩
        | some f =>
          simp only
          have hf : Frame mi false false s (s.setNativeFunction fp (some base)) := by
            apply Frame.frameModifyData
            intro obj _
            cases obj.data <;> simp [ObjectData.frozen]
          have hs2 : Sync (s.setNativeFunction fp (some base)) mi inst :=
            hs.modifyData_fix _ _ rfl
          obtain ⟨ih1, ih2⟩ := ih _ hs2
          exact ⟨hf.frameTrans ih1, ih2⟩

theorem loadAndLink_spec (host : Host) (c mi : Ptr) (module : Module) (inst : ModuleInstance)
    (s : RuntimeState) (hs : Sync s mi inst) :
    PhaseSpec mi false false s (loadAndLink host c mi module inst s)
      (fun inst' _ => ∃ h, inst' = { inst with jitModule := some h }) := by
  unfold loadAndLink
  cases ((s.getCompartment c).bind (fun c => c.wavmIntrinsics)).bind s.getModuleInstance with
  | none => exact ⟨Frame.frameRefl _ _ _ _, fun inst' s' h => by cases h⟩
  | some w =>
    simp only
    have hst := buildIntrinsicsExportMap_state host s w.exportMap []
    cases hb : buildIntrinsicsExportMap host s w.exportMap [] with
    | throw e s1 =>
      rw [hb] at hst
      simp only [Outcome.state] at hst
      subst hst
      exact ⟨Frame.frameRefl _ _ _ _, fun inst' s' h => by cases h⟩
    | ok em s1 =>
      rw [hb] at hst
      simp only [Outcome.state] at hst
      subst hst
      simp only [Outcome.bind]
      cases buildLoadModuleArgs host s1 mi module inst em with
      | none => exact ⟨Frame.frameRefl _ _ _ _, fun inst' s' h => by cases h⟩
      | some args =>
        simp only
        obtain ⟨hf2, hs2⟩ := hs.frame_set false false
          { inst with jitModule := some (host.loadModule args).handle } rfl
        obtain ⟨hf3, hok⟩ := linkFunctionDefs_spec mi _ inst.functionDefs
          (host.loadModule args).outFunctionDefs (List.range module.ir.functions.defs.length)
          _ hs2
        cases hl : linkFunctionDefs inst.functionDefs (host.loadModule args).outFunctionDefs
            (List.range module.ir.functions.defs.length)
            (s1.setModuleInstance mi
              { inst with jitModule := some (host.loadModule args).handle }) with
        | throw e s2 =>
          rw [hl] at hf3
          exact ⟨hf2.frameTrans hf3, fun inst' s' h => by cases h⟩
        | ok u s2 =>
          rw [hl] at hf3
          refine ⟨hf2.frameTrans hf3, fun inst' s' h => ?_⟩
          cases h
          exact ⟨hok u s2 hl, _, rfl⟩

theorem exportedObject_exportMap (inst : ModuleInstance) (em : List (String × Option Ptr))
    (x : Export) : exportedObject { inst with exportMap := em } x = exportedObject inst x := rfl

theorem assocGet_append_of_some {κ β : Type} [DecidableEq κ] (k : κ) (l l' : List (κ × β))
    (v : β) (h : assocGet k l = some v) : assocGet k (l ++ l') = some v := by
  rw [assocGet_append, h]
  rfl

theorem assocAdd_eq_some {κ β : Type} [DecidableEq κ] {k : κ} {v : β} {l l' : List (κ × β)}
    (h : assocAdd k v l = some l') : k ∉ l.map Prod.fst ∧ l' = l ++ [(k, v)] := by
  unfold assocAdd at h
  split at h
  · cases h
  · next hk =>
    cases h
    exact ⟨hk, rfl⟩

theorem assocGet_append_single {κ β : Type} [DecidableEq κ] (k k' : κ) (v : β)
    (l : List (κ × β)) :
    assocGet k' (l ++ [(k, v)])
      = match assocGet k' l with
        | some x => some x
        | none => if k = k' then some v else none := by
  rw [assocGet_append]
  cases assocGet k' l <;> simp [assocGet]

/-- The export loop adds one entry per export, which holds the designated object. -/
theorem publishExports_spec (mi : Ptr) (exports : List Export) (inst : ModuleInstance)
    (s : RuntimeState) (hs : Sync s mi inst) :
    PhaseSpec mi false false s (publishExports mi exports inst s)
      (fun inst' _ => ∃ em, inst' = { inst with exportMap := em } ∧
        (∀ x, x ∈ exports → ∃ o, exportedObject inst x = .ok o ∧ assocGet x.name em = some o) ∧
        (∀ name, name ∉ exports.map Export.name →
          assocGet name em = assocGet name inst.exportMap) ∧
        (∀ name v, assocGet name inst.exportMap = some v → assocGet name em = some v)) := by
  induction exports generalizing inst s with
  | nil =>
    refine ⟨Frame.frameRefl _ _ _ _, fun inst' s' h => ?_⟩
    cases h
    exact ⟨hs, inst.exportMap, rfl, fun x hx => by simp at hx, fun _ _ => rfl, fun _ _ h => h⟩
  | cons x rest ih =>
    unfold publishExports
    cases ho : exportedObject inst x with
    | error e => exact ⟨Frame.frameRefl _ _ _ _, fun inst' s' h => by cases h⟩
    | ok o =>
      simp only
      unfold exportMapAddOrFail
      cases ha : assocAdd x.name o inst.exportMap with
      | none => exact ⟨Frame.frameRefl _ _ _ _, fun inst' s' h => by cases h⟩
      | some em1 =>
        simp only
        obtain ⟨hnew, hem1⟩ := assocAdd_eq_some ha
        obtain ⟨hf2, hs2⟩ := hs.frame_set false false { inst with exportMap := em1 } rfl
        have ih' := ih _ _ hs2
        refine ⟨hf2.frameTrans ih'.frame, fun inst' s' h => ?_⟩
        obtain ⟨hs', em, hinst, hall, hother, hkeep⟩ := ih'.ok inst' s' h
        have hx : assocGet x.name em1 = some o := by
          rw [hem1, assocGet_append_single, assocGet_eq_none.2 hnew]
          simp
        refine ⟨hs', em, by rw [hinst], ?_, ?_, ?_⟩
        · intro y hy
          rcases List.mem_cons.1 hy with h1 | h1
          · subst h1
            exact ⟨o, ho, hkeep _ _ hx⟩
          · exact hall y h1
        · intro name hname
          simp only [List.map_cons, List.mem_cons, not_or] at hname
          rw [hother name hname.2]
          simp only [hem1]
          rw [assocGet_append_single]
          have : ¬ x.name = name := fun e => hname.1 e.symm
          cases assocGet name inst.exportMap <;> simp [this]
        · intro name v hv
          apply hkeep
          simp only [hem1]
          exact assocGet_append_of_some _ _ _ _ hv

/-! ## Active segments -/

theorem storeByte_frame (mi : Ptr) (e : Bool) (s : RuntimeState) (m : Ptr) (a v : Nat) :
    Frame mi true e s (s.storeByte m a v) := by
  apply Frame.frameModifyData
  intro obj _
  cases obj.data <;> simp [ObjectData.frozen]

theorem bytewiseMemCopy_spec (mi : Ptr) (inst : ModuleInstance) (m : Ptr) (data : List Nat)
    (a : Nat) (s : RuntimeState) (hs : Sync s mi inst) :
    Frame mi true false s (bytewiseMemCopy m data a s).state ∧
    ∀ u s', bytewiseMemCopy m data a s = .ok u s' → Sync s' mi inst := by
  induction data generalizing a s with
  | nil =>
    refine ⟨Frame.frameRefl _ _ _ _, fun u s' h => ?_⟩
    cases h
    exact hs
  | cons x rest ih =>
    unfold bytewiseMemCopy
    cases s.getMemory m with
    | none => exact ⟨Frame.frameRefl _ _ _ _, fun u s' h => by cases h⟩
    | some mem =>
      simp only
      split
      · obtain ⟨h1, h2⟩ := ih (a + 1) (s.storeByte m a x) (hs.modifyData_fix _ _ rfl)
        exact ⟨(storeByte_frame mi false s m a x).frameTrans h1, h2⟩
      · exact ⟨Frame.frameRefl _ _ _ _, fun u s' h => by cases h⟩

theorem copyDataSegment_spec (mi : Ptr) (inst inst0 : ModuleInstance) (d : DataSegment)
    (s : RuntimeState) (hs : Sync s mi inst0) :
    Frame mi (d.isActive && decide (d.data.length ≠ 0)) false s
      (copyDataSegment inst d s).state ∧
    ∀ u s', copyDataSegment inst d s = .ok u s' → Sync s' mi inst0 := by
  unfold copyDataSegment
  cases hact : d.isActive with
  | false =>
    simp only [Bool.false_eq_true, if_false, Bool.false_and]
    refine ⟨Frame.frameRefl _ _ _ _, fun u s' h => ?_⟩
    cases h
    exact hs
  | true =>
    simp only [if_true, Bool.true_and]
    cases inst.memories[d.memoryIndex]? with
    | none => exact ⟨Frame.frameRefl _ _ _ _, fun u s' h => by cases h⟩
    | some memory =>
      simp only
      cases evaluateInitializer s inst.globals d.baseOffset with
      | error e => exact ⟨Frame.frameRefl _ _ _ _, fun u s' h => by cases h⟩
      | ok v =>
        simp only
        split
        · by_cases hlen : d.data.length = 0
          · simp only [hlen, ne_eq, not_true_eq_false, if_false, decide_False]
            split
            · split
              · exact ⟨Frame.frameRefl _ _ _ _, fun u s' h => by cases h⟩
              · refine ⟨Frame.frameRefl _ _ _ _, fun u s' h => ?_⟩
                cases h
                exact hs
            · exact ⟨Frame.frameRefl _ _ _ _, fun u s' h => by cases h⟩
          · simp only [ne_eq, hlen, not_false_eq_true, if_true, decide_True]
            cases memory with
            | none => exact ⟨Frame.frameRefl _ _ _ _, fun u s' h => by cases h⟩
            | some mp => exact bytewiseMemCopy_spec mi inst0 mp d.data v.i32 s hs
        · exact ⟨Frame.frameRefl _ _ _ _, fun u s' h => by cases h⟩

theorem Frame.of_imp {mi : Ptr} {b b' e e' : Bool} {s s' : RuntimeState}
    (h : Frame mi b e s s') (hb : b = true → b' = true) (he : e = true → e' = true) :
    Frame mi b' e' s s' := by
  cases b <;> cases b' <;> cases e <;> cases e' <;> simp at hb he <;>
    first
    | exact h
    | exact h.bytes
    | exact h.elements
    | exact h.bytes.elements

theorem copyDataSegments_spec (mi : Ptr) (inst inst0 : ModuleInstance)
    (segments : List DataSegment) (s : RuntimeState) (hs : Sync s mi inst0) :
    Frame mi (hasActiveData segments) false s (copyDataSegments inst segments s).state ∧
    ∀ u s', copyDataSegments inst segments s = .ok u s' → Sync s' mi inst0 := by
  induction segments generalizing s with
  | nil =>
    refine ⟨Frame.frameRefl _ _ _ _, fun u s' h => ?_⟩
    cases h
    exact hs
  | cons d rest ih =>
    unfold copyDataSegments
    obtain ⟨h1, h2⟩ := copyDataSegment_spec mi inst inst0 d s hs
    have h1' : Frame mi (hasActiveData (d :: rest)) false s (copyDataSegment inst d s).state :=
      h1.of_imp (fun hb => by simp [hasActiveData] at hb ⊢; exact Or.inl hb) id
    cases hx : copyDataSegment inst d s with
    | throw e s1 =>
      rw [hx] at h1'
      exact ⟨h1', fun u s' h => by cases h⟩
    | ok u s1 =>
      rw [hx] at h1'
      simp only [Outcome.bind]
      obtain ⟨h3, h4⟩ := ih s1 (h2 u s1 hx)
      have h3' : Frame mi (hasActiveData (d :: rest)) false s1
          (copyDataSegments inst rest s1).state :=
        h3.of_imp (fun hb => by simp [hasActiveData] at hb ⊢; exact Or.inr hb) id
      exact ⟨h1'.frameTrans h3', h4⟩

theorem setTableElement_spec (mi : Ptr) (inst : ModuleInstance) (b : Bool) (s : RuntimeState)
    (t : Ptr) (i : Nat) (o : Option Ptr) (hs : Sync s mi inst) :
    Frame mi b true s (setTableElement s t i o).state ∧
    ∀ u s', setTableElement s t i o = .ok u s' → Sync s' mi inst := by
  unfold setTableElement
  cases s.getTable t with
  | none => exact ⟨Frame.frameRefl _ _ _ _, fun u s' h => by cases h⟩
  | some tab =>
    simp only
    split
    · refine ⟨?_, fun u s' h => ?_⟩
      · simp only [Outcome.state]
        apply Frame.frameModifyData
        intro obj _
        cases obj.data <;> simp [ObjectData.frozen]
      · cases h
        exact hs.modifyData_fix _ _ rfl
    · exact ⟨Frame.frameRefl _ _ _ _, fun u s' h => by cases h⟩

theorem copyTableSegmentElements_spec (host : Host) (mi : Ptr) (inst inst0 : ModuleInstance)
    (t : Ptr) (base : Nat) (indices : List Nat) (i : Nat) (s : RuntimeState)
    (hs : Sync s mi inst0) :
    Frame mi false true s (copyTableSegmentElements host inst t base indices i s).state ∧
    ∀ u s', copyTableSegmentElements host inst t base indices i s = .ok u s' →
      Sync s' mi inst0 := by
  induction indices generalizing i s with
  | nil =>
    refine ⟨Frame.frameRefl _ _ _ _, fun u s' h => ?_⟩
    cases h
    exact hs
  | cons x rest ih =>
    unfold copyTableSegmentElements
    cases ha : wavmAssert host (decide (x < inst.functions.length)) s with
    | throw e s1 =>
      have := wavmAssert_state host (decide (x < inst.functions.length)) s
      rw [ha] at this
      simp only [Outcome.state] at this
      subst this
      exact ⟨Frame.frameRefl _ _ _ _, fun u s' h => by cases h⟩
    | ok u s1 =>
      obtain ⟨_, rfl⟩ := wavmAssert_eq_ok.1 ha
      simp only [Outcome.bind]
      cases inst.functions[x]? with
      | none => exact ⟨Frame.frameRefl _ _ _ _, fun u s' h => by cases h⟩
      | some f =>
        simp only
        obtain ⟨h1, h2⟩ := setTableElement_spec mi inst0 false s1 t ((base + i) % 2 ^ 64) f hs
        cases hx : setTableElement s1 t ((base + i) % 2 ^ 64) f with
        | throw e s2 =>
          rw [hx] at h1
          exact ⟨h1, fun u s' h => by cases h⟩
        | ok u2 s2 =>
          rw [hx] at h1
          simp only
          obtain ⟨h3, h4⟩ := ih (i + 1) s2 (h2 u2 s2 hx)
          exact ⟨h1.frameTrans h3, h4⟩

theorem copyTableSegment_spec (host : Host) (mi : Ptr) (inst inst0 : ModuleInstance)
    (d : TableSegment) (s : RuntimeState) (hs : Sync s mi inst0) :
    Frame mi false (d.isActive && decide (d.indices.length ≠ 0)) s
      (copyTableSegment host inst d s).state ∧
    ∀ u s', copyTableSegment host inst d s = .ok u s' → Sync s' mi inst0 := by
  unfold copyTableSegment
  cases hact : d.isActive with
  | false =>
    simp only [Bool.false_eq_true, if_false, Bool.false_and]
    refine ⟨Frame.frameRefl _ _ _ _, fun u s' h => ?_⟩
    cases h
    exact hs
  | true =>
    simp only [if_true, Bool.true_and]
    cases inst.tables[d.tableIndex]? with
    | none => exact ⟨Frame.frameRefl _ _ _ _, fun u s' h => by cases h⟩
    | some table =>
      simp only
      cases evaluateInitializer s inst.globals d.baseOffset with
      | error e => exact ⟨Frame.frameRefl _ _ _ _, fun u s' h => by cases h⟩
      | ok v =>
        simp only
        split
        · by_cases hlen : d.indices.length = 0
          · simp only [hlen, ne_eq, not_true_eq_false, if_false, decide_False]
            split
            · split
              · exact ⟨Frame.frameRefl _ _ _ _, fun u s' h => by cases h⟩
              · refine ⟨Frame.frameRefl _ _ _ _, fun u s' h => ?_⟩
                cases h
                exact hs
            · exact ⟨Frame.frameRefl _ _ _ _, fun u s' h => by cases h⟩
          · simp only [ne_eq, hlen, not_false_eq_true, if_true, decide_True]
            cases table with
            | none => exact ⟨Frame.frameRefl _ _ _ _, fun u s' h => by cases h⟩
            | some tp =>
              exact copyTableSegmentElements_spec host mi inst inst0 tp v.i32 d.indices 0 s hs
        · exact ⟨Frame.frameRefl _ _ _ _, fun u s' h => by cases h⟩

theorem copyTableSegments_spec (host : Host) (mi : Ptr) (inst inst0 : ModuleInstance)
    (segments : List TableSegment) (s : RuntimeState) (hs : Sync s mi inst0) :
    Frame mi false (hasActiveElements segments) s
      (copyTableSegments host inst segments s).state ∧
    ∀ u s', copyTableSegments host inst segments s = .ok u s' → Sync s' mi inst0 := by
  induction segments generalizing s with
  | nil =>
    refine ⟨Frame.frameRefl _ _ _ _, fun u s' h => ?_⟩
    cases h
    exact hs
  | cons d rest ih =>
    unfold copyTableSegments
    obtain ⟨h1, h2⟩ := copyTableSegment_spec host mi inst inst0 d s hs
    have h1' : Frame mi false (hasActiveElements (d :: rest)) s
        (copyTableSegment host inst d s).state :=
      h1.of_imp id (fun hb => by simp [hasActiveElements] at hb ⊢; exact Or.inl hb)
    cases hx : copyTableSegment host inst d s with
    | throw e s1 =>
      rw [hx] at h1'
      exact ⟨h1', fun u s' h => by cases h⟩
    | ok u s1 =>
      rw [hx] at h1'
      simp only [Outcome.bind]
      obtain ⟨h3, h4⟩ := ih s1 (h2 u s1 hx)
      have h3' : Frame mi false (hasActiveElements (d :: rest)) s1
          (copyTableSegments host inst rest s1).state :=
        h3.of_imp id (fun hb => by simp [hasActiveElements] at hb ⊢; exact Or.inr hb)
      exact ⟨h1'.frameTrans h3', h4⟩

/-! ## Passive segments and the start function -/

theorem retainPassiveSegments_spec (ir : IRModule) (mi : Ptr) (inst : ModuleInstance)
    (s : RuntimeState) (hs : Sync s mi inst) :
    PhaseSpec mi false false s (retainPassiveSegments ir mi inst s)
      (fun inst' _ => ∃ pts,
        retainPassiveTableSegments inst.functions ir.tableSegments 0
          inst.passiveTableSegments = some pts ∧
        inst' = { inst with
          passiveDataSegments :=
            retainPassiveDataSegments ir.dataSegments 0 inst.passiveDataSegments,
          passiveTableSegments := pts }) := by
  unfold retainPassiveSegments
  cases hp : retainPassiveTableSegments inst.functions ir.tableSegments 0
      inst.passiveTableSegments with
  | none =>
    simp only
    exact ⟨(hs.frame_set false false
      { inst with
        passiveDataSegments :=
          retainPassiveDataSegments ir.dataSegments 0 inst.passiveDataSegments } rfl).1,
      fun inst' s' h => by cases h⟩
  | some pts =>
    simp only
    obtain ⟨h1, h2⟩ := hs.frame_set false false
      { inst with
        passiveDataSegments :=
          retainPassiveDataSegments ir.dataSegments 0 inst.passiveDataSegments,
        passiveTableSegments := pts } rfl
    refine ⟨h1, fun inst' s' h => ?_⟩
    cases h
    exact ⟨h2, pts, rfl, rfl⟩

theorem selectStartFunction_spec (host : Host) (ir : IRModule) (mi : Ptr)
    (inst : ModuleInstance) (s : RuntimeState) (hs : Sync s mi inst) :
    PhaseSpec mi false false s (selectStartFunction host ir mi inst s)
      (fun inst' _ =>
        (ir.startFunctionIndex = UINTPTR_MAX ∧ inst' = inst) ∨
        (ir.startFunctionIndex ≠ UINTPTR_MAX ∧ ∃ f,
          inst.functions[ir.startFunctionIndex]? = some f ∧
          inst' = { inst with startFunction := f })) := by
  unfold selectStartFunction
  by_cases h0 : ir.startFunctionIndex = UINTPTR_MAX
  · rw [if_neg (not_not.2 h0)]
    refine ⟨Frame.frameRefl _ _ _ _, fun inst' s' h => ?_⟩
    cases h
    exact ⟨hs, Or.inl ⟨h0, rfl⟩⟩
  · rw [if_pos h0]
    cases hf : inst.functions[ir.startFunctionIndex]? with
    | none => exact ⟨Frame.frameRefl _ _ _ _, fun inst' s' h => by cases h⟩
    | some f =>
      simp only
      obtain ⟨h1, h2⟩ := hs.frame_set false false { inst with startFunction := f } rfl
      split
      · split
        · exact ⟨h1, fun inst' s' h => by cases h⟩
        · split
          · refine ⟨h1, fun inst' s' h => ?_⟩
            cases h
            exact ⟨h2, Or.inr ⟨h0, f, rfl, rfl⟩⟩
          · exact ⟨h1, fun inst' s' h => by cases h⟩
      · refine ⟨h1, fun inst' s' h => ?_⟩
        cases h
        exact ⟨h2, Or.inr ⟨h0, f, rfl, rfl⟩⟩

/-! ## The phases in sequence -/

theorem PhaseSpec.frame_bind {β : Type} {mi : Ptr} {b e : Bool} {s : RuntimeState}
    {x : Outcome ModuleInstance} {Q : ModuleInstance → RuntimeState → Prop}
    (hx : PhaseSpec mi false false s x Q) (f : ModuleInstance → RuntimeState → Outcome β)
    (hf : ∀ inst1 s1, x = .ok inst1 s1 → Sync s1 mi inst1 → Frame mi b e s1 (f inst1 s1).state) :
    Frame mi b e s (x.bind f).state := by
  have hfr : Frame mi b e s x.state := hx.frame.of_imp (by simp) (by simp)
  cases x with
  | throw err s1 => exact hfr
  | ok inst1 s1 => exact hfr.frameTrans (hf inst1 s1 rfl (hx.ok inst1 s1 rfl).1)

theorem frame_bind_unit {β : Type} {mi : Ptr} {b e b' e' : Bool} {s : RuntimeState}
    {inst : ModuleInstance} {x : Outcome Unit}
    (hx : Frame mi b' e' s x.state ∧ ∀ u s', x = .ok u s' → Sync s' mi inst)
    (hb : b' = true → b = true) (he : e' = true → e = true)
    (f : Unit → RuntimeState → Outcome β)
    (hf : ∀ u s1, x = .ok u s1 → Sync s1 mi inst → Frame mi b e s1 (f u s1).state) :
    Frame mi b e s (x.bind f).state := by
  have hfr : Frame mi b e s x.state := hx.1.of_imp hb he
  cases x with
  | throw err s1 => exact hfr
  | ok u s1 => exact hfr.frameTrans (hf u s1 rfl (hx.2 u s1 rfl))

theorem checkImports_spec (host : Host) (ir : IRModule) (mi : Ptr) (inst : ModuleInstance)
    (s : RuntimeState) (hs : Sync s mi inst) :
    Frame mi false false s (checkImports host ir inst s).state ∧
    ∀ u s', checkImports host ir inst s = .ok u s' → Sync s' mi inst := by
  have h := checkImports_state host ir inst s
  refine ⟨by rw [h]; exact Frame.frameRefl _ _ _ _, fun u s' hx => ?_⟩
  rw [hx] at h
  simp only [Outcome.state] at h
  subst h
  exact hs

/-- Whatever the outcome of the phases, the heap they leave extends the heap they found; the
bytes of memories are kept when no active data segment has bytes, and the elements of tables
are kept when no active element segment has elements. -/
theorem instantiatePhases_frame (host : Host) (c mi : Ptr) (module : Module)
    (inst : ModuleInstance) (s : RuntimeState) (hs : Sync s mi inst) :
    Frame mi (hasActiveData module.ir.dataSegments) (hasActiveElements module.ir.tableSegments)
      s (instantiatePhases host c mi module inst s).state := by
  unfold instantiatePhases instantiateDefinitions
  simp only [Outcome.bind_assoc]
  unfold instantiateSegments
  refine frame_bind_unit (checkImports_spec host module.ir mi inst s hs) (by simp) (by simp) _
    (fun _ s1 _ hs1 => ?_)
  refine (instantiateTableDefs_spec host _ c mi _ _ 0 inst s1 hs1).frame_bind _
    (fun i2 s2 _ hs2 => ?_)
  refine (instantiateMemoryDefs_spec host _ c mi _ _ 0 i2 s2 hs2).frame_bind _
    (fun i3 s3 _ hs3 => ?_)
  refine (selectDefaults_spec host mi i3 s3 hs3).frame_bind _ (fun i4 s4 _ hs4 => ?_)
  refine (instantiateGlobalDefs_spec host c mi _ i4 s4 hs4).frame_bind _
    (fun i5 s5 _ hs5 => ?_)
  refine (instantiateExceptionTypeDefs_spec mi _ i5 s5 hs5).frame_bind _
    (fun i6 s6 _ hs6 => ?_)
  refine (instantiateFunctionDefs_spec _ _ mi _ _ 0 i6 s6 hs6).frame_bind _
    (fun i7 s7 _ hs7 => ?_)
  refine (loadAndLink_spec host c mi module i7 s7 hs7).frame_bind _ (fun i8 s8 _ hs8 => ?_)
  refine (publishExports_spec mi _ i8 s8 hs8).frame_bind _ (fun i9 s9 _ hs9 => ?_)
  refine frame_bind_unit (copyDataSegments_spec mi i9 i9 _ s9 hs9) id (by simp) _
    (fun _ s10 _ hs10 => ?_)
  refine frame_bind_unit (copyTableSegments_spec host mi i9 i9 _ s10 hs10) (by simp) id _
    (fun _ s11 _ hs11 => ?_)
  refine (retainPassiveSegments_spec module.ir mi i9 s11 hs11).frame_bind _
    (fun i12 s12 _ hs12 => ?_)
  exact (selectStartFunction_spec host module.ir mi i12 s12 hs12).frame.of_imp (by simp)
    (by simp)

/-- A successful run of the phases, phase by phase. -/
theorem instantiatePhases_trace (host : Host) (c mi : Ptr) (module : Module)
    (inst inst' : ModuleInstance) (s s' : RuntimeState)
    (h : instantiatePhases host c mi module inst s = .ok inst' s') :
    ∃ i2 s2 i3 s3 i4 s4 i5 s5 i6 s6 i7 s7 i8 s8 i9 s9 s10 s11 i12 s12,
      checkImports host module.ir inst s = .ok () s ∧
      instantiateTableDefs host (host.getDisassemblyNames module.ir) c mi
        module.ir.tables.imports.length module.ir.tables.defs 0 inst s = .ok i2 s2 ∧
      instantiateMemoryDefs host (host.getDisassemblyNames module.ir) c mi
        module.ir.memories.imports.length module.ir.memories.defs 0 i2 s2 = .ok i3 s3 ∧
      selectDefaults host mi i3 s3 = .ok i4 s4 ∧
      instantiateGlobalDefs host c mi module.ir.globals.defs i4 s4 = .ok i5 s5 ∧
      instantiateExceptionTypeDefs mi module.ir.exceptionTypes.defs i5 s5 = .ok i6 s6 ∧
      instantiateFunctionDefs (host.getDisassemblyNames module.ir) module.ir.types mi
        module.ir.functions.imports.length module.ir.functions.defs 0 i6 s6 = .ok i7 s7 ∧
      loadAndLink host c mi module i7 s7 = .ok i8 s8 ∧
      publishExports mi module.ir.exports i8 s8 = .ok i9 s9 ∧
      copyDataSegments i9 module.ir.dataSegments s9 = .ok () s10 ∧
      copyTableSegments host i9 module.ir.tableSegments s10 = .ok () s11 ∧
      retainPassiveSegments module.ir mi i9 s11 = .ok i12 s12 ∧
      selectStartFunction host module.ir mi i12 s12 = .ok inst' s' := by
  unfold instantiatePhases instantiateDefinitions at h
  simp only [Outcome.bind_assoc] at h
  unfold instantiateSegments at h
  obtain ⟨_, s1, h1, r1⟩ := Outcome.bind_eq_ok.1 h
  obtain ⟨i2, s2, h2, r2⟩ := Outcome.bind_eq_ok.1 r1
  obtain ⟨i3, s3, h3, r3⟩ := Outcome.bind_eq_ok.1 r2
  obtain ⟨i4, s4, h4, r4⟩ := Outcome.bind_eq_ok.1 r3
  obtain ⟨i5, s5, h5, r5⟩ := Outcome.bind_eq_ok.1 r4
  obtain ⟨i6, s6, h6, r6⟩ := Outcome.bind_eq_ok.1 r5
  obtain ⟨i7, s7, h7, r7⟩ := Outcome.bind_eq_ok.1 r6
  obtain ⟨i8, s8, h8, r8⟩ := Outcome.bind_eq_ok.1 r7
  obtain ⟨i9, s9, h9, r9⟩ := Outcome.bind_eq_ok.1 r8
  obtain ⟨_, s10, h10, r10⟩ := Outcome.bind_eq_ok.1 r9
  obtain ⟨_, s11, h11, r11⟩ := Outcome.bind_eq_ok.1 r10
  obtain ⟨i12, s12, h12, r12⟩ := Outcome.bind_eq_ok.1 r11
  have e1 : s1 = s := Outcome.eq_of_state h1 (checkImports_state _ _ _ _)
  rw [e1] at h1 h2
  exact ⟨i2, s2, i3, s3, i4, s4, i5, s5, i6, s6, i7, s7, i8, s8, i9, s9, s10, s11, i12, s12,
    h1, h2, h3, h4, h5, h6, h7, h8, h9, h10, h11, h12, r12⟩

theorem PhaseSpec.frame_ok {mi : Ptr} {b e : Bool} {s s1 : RuntimeState}
    {x : Outcome ModuleInstance} {Q : ModuleInstance → RuntimeState → Prop} {i1 : ModuleInstance}
    (hx : PhaseSpec mi b e s x Q) (h : x = .ok i1 s1) : Frame mi true true s s1 := by
  have := hx.frame
  rw [h] at this
  exact this.bytes.elements

theorem frame_ok_unit {mi : Ptr} {b e : Bool} {s s1 : RuntimeState} {x : Outcome Unit}
    {u : Unit} (hx : Frame mi b e s x.state) (h : x = .ok u s1) : Frame mi true true s s1 := by
  rw [h] at hx
  exact hx.bytes.elements

/-- The postcondition of a successful run of the phases. -/
theorem instantiatePhases_post (host : Host) (c mi : Ptr) (module : Module)
    (inst inst' : ModuleInstance) (s s' : RuntimeState) (hs : Sync s mi inst)
    (h : instantiatePhases host c mi module inst s = .ok inst' s') :
    Sync s' mi inst' ∧ ∃ newF newT newM newG newE,
      Instantiated host module.ir mi s inst inst' s' newF newT newM newG newE := by
  obtain ⟨i2, s2, i3, s3, i4, s4, i5, s5, i6, s6, i7, s7, i8, s8, i9, s9, s10, s11, i12, s12,
    h1, h2, h3, h4, h5, h6, h7, h8, h9, h10, h11, h12, h13⟩ :=
    instantiatePhases_trace host c mi module inst inst' s s' h
  obtain ⟨l1, l2, l3, l4, l5⟩ := checkImports_lengths host module.ir inst s s () h1
  have T := instantiateTableDefs_spec host (host.getDisassemblyNames module.ir) c mi
    module.ir.tables.imports.length module.ir.tables.defs 0 inst s hs
  obtain ⟨hs2, newT, e2, fT⟩ := T.ok i2 s2 h2
  have M := instantiateMemoryDefs_spec host (host.getDisassemblyNames module.ir) c mi
    module.ir.memories.imports.length module.ir.memories.defs 0 i2 s2 hs2
  obtain ⟨hs3, newM, e3, fM⟩ := M.ok i3 s3 h3
  have D := selectDefaults_spec host mi i3 s3 hs3
  obtain ⟨hs4, e4, a4⟩ := D.ok i4 s4 h4
  have G := instantiateGlobalDefs_spec host c mi module.ir.globals.defs i4 s4 hs4
  obtain ⟨hs5, newG, e5, fG⟩ := G.ok i5 s5 h5
  have E := instantiateExceptionTypeDefs_spec mi module.ir.exceptionTypes.defs i5 s5 hs5
  obtain ⟨hs6, newE, e6, fE⟩ := E.ok i6 s6 h6
  have F := instantiateFunctionDefs_spec (host.getDisassemblyNames module.ir) module.ir.types
    mi module.ir.functions.imports.length module.ir.functions.defs 0 i6 s6 hs6
  obtain ⟨hs7, newF, e7, fF⟩ := F.ok i7 s7 h7
  have L := loadAndLink_spec host c mi module i7 s7 hs7
  obtain ⟨hs8, jh, e8⟩ := L.ok i8 s8 h8
  have X := publishExports_spec mi module.ir.exports i8 s8 hs8
  obtain ⟨hs9, em, e9, x1, x2, _⟩ := X.ok i9 s9 h9
  have DS := copyDataSegments_spec mi i9 i9 module.ir.dataSegments s9 hs9
  have hs10 := DS.2 () s10 h10
  have TS := copyTableSegments_spec host mi i9 i9 module.ir.tableSegments s10 hs10
  have hs11 := TS.2 () s11 h11
  have P := retainPassiveSegments_spec module.ir mi i9 s11 hs11
  obtain ⟨hs12, pts, p1, e12⟩ := P.ok i12 s12 h12
  have S := selectStartFunction_spec host module.ir mi i12 s12 hs12
  obtain ⟨hs13, st⟩ := S.ok inst' s' h13
  -- frames towards the final heap
  have f13 : Frame mi true true s12 s' := S.frame_ok h13
  have f12 : Frame mi true true s11 s' := (P.frame_ok h12).frameTrans f13
  have f11 : Frame mi true true s10 s' := (frame_ok_unit TS.1 h11).frameTrans f12
  have f10 : Frame mi true true s9 s' := (frame_ok_unit DS.1 h10).frameTrans f11
  have f9 : Frame mi true true s8 s' := (X.frame_ok h9).frameTrans f10
  have f8 : Frame mi true true s7 s' := (L.frame_ok h8).frameTrans f9
  have f7 : Frame mi true true s6 s' := (F.frame_ok h7).frameTrans f8
  have f6 : Frame mi true true s5 s' := (E.frame_ok h6).frameTrans f7
  have f5 : Frame mi true true s4 s' := (G.frame_ok h5).frameTrans f6
  have f4 : Frame mi true true s3 s' := (D.frame_ok h4).frameTrans f5
  have f3 : Frame mi true true s2 s' := (M.frame_ok h3).frameTrans f4
  have g2 : Frame mi true true s s2 := T.frame_ok h2
  have g3 : Frame mi true true s s3 := g2.frameTrans (M.frame_ok h3)
  have g4 : Frame mi true true s s4 := g3.frameTrans (D.frame_ok h4)
  have g5' : Frame mi true true s s5 := g4.frameTrans (G.frame_ok h5)
  have g6 : Frame mi true true s s6 := g5'.frameTrans (E.frame_ok h6)
  -- the final instance value
  have hfinal : ∃ sf, inst' = { i12 with startFunction := sf } ∧
      ((module.ir.startFunctionIndex = UINTPTR_MAX ∧ sf = i12.startFunction) ∨
        (module.ir.startFunctionIndex ≠ UINTPTR_MAX ∧
          i12.functions[module.ir.startFunctionIndex]? = some sf)) := by
    rcases st with ⟨h0, rfl⟩ | ⟨h0, f, hf, rfl⟩
    · exact ⟨inst'.startFunction, rfl, Or.inl ⟨h0, rfl⟩⟩
    · exact ⟨f, rfl, Or.inr ⟨h0, hf⟩⟩
  obtain ⟨sf, efinal, hsf⟩ := hfinal
  have c1 : inst'.compartment = inst.compartment := by
    simp only [efinal, e12, e9, e8, e7, e6, e5, e4, e3, e2]
  have c2 : inst'.functions = inst.functions ++ newF.map some := by
    simp only [efinal, e12, e9, e8, e7, e6, e5, e4, e3, e2]
  have c3 : inst'.functionDefs = inst.functionDefs ++ newF.map some := by
    simp only [efinal, e12, e9, e8, e7, e6, e5, e4, e3, e2]
  have c4 : inst'.tables = inst.tables ++ newT.map some := by
    simp only [efinal, e12, e9, e8, e7, e6, e5, e4, e3, e2]
  have c5 : inst'.memories = inst.memories ++ newM.map some := by
    simp only [efinal, e12, e9, e8, e7, e6, e5, e4, e3, e2]
  have c6 : inst'.globals = inst.globals ++ newG.map some := by
    simp only [efinal, e12, e9, e8, e7, e6, e5, e4, e3, e2]
  have c7 : inst'.exceptionTypes = inst.exceptionTypes ++ newE.map some := by
    simp only [efinal, e12, e9, e8, e7, e6, e5, e4, e3, e2]
  have c8 : inst'.exportMap = em := by
    simp only [efinal, e12, e9]
  have d2 : i8.functions = inst'.functions := by simp only [efinal, e12, e9]
  have d4 : i8.tables = inst'.tables := by simp only [efinal, e12, e9]
  have d5 : i8.memories = inst'.memories := by simp only [efinal, e12, e9]
  have d6 : i8.globals = inst'.globals := by simp only [efinal, e12, e9]
  have d7 : i8.exceptionTypes = inst'.exceptionTypes := by simp only [efinal, e12, e9]
  have d8 : i8.exportMap = inst.exportMap := by simp only [e8, e7, e6, e5, e4, e3, e2]
  have g5 : i5.globals = inst'.globals := by simp only [efinal, e12, e9, e8, e7, e6]
  have m3 : i3.memories = inst'.memories := by
    simp only [efinal, e12, e9, e8, e7, e6, e5, e4]
  have m4 : i3.tables = inst'.tables := by
    simp only [efinal, e12, e9, e8, e7, e6, e5, e4]
  have m5 : i3.defaultMemory = inst.defaultMemory := by simp only [e3, e2]
  have m6 : i3.defaultTable = inst.defaultTable := by simp only [e3, e2]
  have m7 : inst'.defaultMemory = i4.defaultMemory := by
    simp only [efinal, e12, e9, e8, e7, e6, e5]
  have m8 : inst'.defaultTable = i4.defaultTable := by
    simp only [efinal, e12, e9, e8, e7, e6, e5]
  have p2 : i9.functions = inst'.functions := by simp only [efinal, e12]
  have p3 : i9.passiveDataSegments = inst.passiveDataSegments := by
    simp only [e9, e8, e7, e6, e5, e4, e3, e2]
  have p4 : i9.passiveTableSegments = inst.passiveTableSegments := by
    simp only [e9, e8, e7, e6, e5, e4, e3, e2]
  have p5 : inst'.passiveDataSegments =
      retainPassiveDataSegments module.ir.dataSegments 0 i9.passiveDataSegments := by
    simp only [efinal, e12]
  have p6 : inst'.passiveTableSegments = pts := by simp only [efinal, e12]
  have q1 : inst'.startFunction = sf := by simp only [efinal]
  have q2 : i12.functions = inst'.functions := by simp only [efinal]
  have q3 : i12.startFunction = inst.startFunction := by
    simp only [e12, e9, e8, e7, e6, e5, e4, e3, e2]
  refine ⟨hs13, newF, newT, newM, newG, newE, ?_⟩
  refine
    { importFunctions := l1, importTables := l2, importMemories := l3, importGlobals := l4,
      importExceptionTypes := l5, compartment := c1, functions := c2, functionDefs := c3,
      tables := c4, memories := c5, globals := c6, exceptionTypes := c7,
      newFunctions := ?_, newTables := ?_, newMemories := ?_, newGlobals := ?_,
      newExceptionTypes := ?_, exported := ?_, notExported := ?_, defaultMemory := ?_,
      defaultTable := ?_, memoriesAssert := ?_, startFunction := ?_,
      passiveDataSegments := ?_, passiveTableSegments := ?_ }
  · exact fF.imp (fun _ _ hp =>
      ⟨g6.get_none hp.1, hp.2.imp (fun _ ht => ⟨ht.1, f8.isFunction ht.2⟩)⟩)
  · exact fT.imp (fun _ _ hp => ⟨hp.1, f3.isTable hp.2⟩)
  · exact fM.imp (fun _ _ hp => ⟨g2.get_none hp.1, f4.isMemory hp.2⟩)
  · refine fG.imp (fun _ d hp => ⟨g4.get_none hp.1, ?_⟩)
    obtain ⟨v, hv1, hv2, hv3⟩ := hp.2
    refine ⟨v, ?_, hv2, f6.isGlobal hv3⟩
    have := evaluateInitializer_mono f6 _ [] _ _ hv1
    rw [List.append_nil, g5] at this
    exact this
  · exact fE.imp (fun _ _ hp => ⟨g5'.get_none hp.1, f7.isExceptionType hp.2⟩)
  · intro x hx
    obtain ⟨o, ho1, ho2⟩ := x1 x hx
    refine ⟨o, ?_, by rw [c8]; exact ho2⟩
    rw [← ho1]
    unfold exportedObject
    rw [d2, d4, d5, d6, d7]
  · intro name hname
    rw [c8, x2 name hname, d8]
  · rw [m7, e4]
    simp only
    rw [m3, m5]
  · rw [m8, e4]
    simp only
    rw [m4, m6]
  · intro h1 h2
    rw [← m3] at h2 ⊢
    exact a4 h1 h2
  · rcases hsf with ⟨h0, h1⟩ | ⟨h0, hf⟩
    · exact Or.inl ⟨h0, by rw [q1, h1, q3]⟩
    · exact Or.inr ⟨h0, by rw [q1, ← q2]; exact hf⟩
  · rw [p5, p3]
  · rw [p6, ← p2, ← p4]
    exact p1

/-! ## The whole of `instantiateModule` -/

theorem instantiateModule_eq (host : Host) (s : RuntimeState) (c : Ptr) (module : Module)
    (imports : ImportBindings) (name : String) (comp : Compartment) (modules : List Ptr)
    (hc : s.getCompartment c = some comp) (hm : setAdd s.fresh comp.modules = some modules) :
    instantiateModule host s c module imports name =
      (instantiatePhases host c s.fresh module (newModuleInstance c imports name)
        (registeredState s c imports name modules)).bind fun _ s' => .ok s.fresh s' := by
  unfold instantiateModule
  rw [hc]
  simp only [hm]
  rfl

theorem registeredState_get (s : RuntimeState) (c : Ptr) (imports : ImportBindings)
    (name : String) (modules : List Ptr) (p : Ptr) (hp : p ≠ c) :
    (registeredState s c imports name modules).get p =
      if p = s.fresh then
        some { numRootReferences := 0,
               data := .moduleInstance (newModuleInstance c imports name) }
      else s.get p := by
  unfold registeredState RuntimeState.modifyCompartment
  rw [get_modifyData_ne _ _ _ _ hp, get_construct]

theorem registeredState_sync (s : RuntimeState) (c : Ptr) (imports : ImportBindings)
    (name : String) (modules : List Ptr) (comp : Compartment)
    (hc : s.getCompartment c = some comp) :
    Sync (registeredState s c imports name modules) s.fresh
      (newModuleInstance c imports name) := by
  have hne : s.fresh ≠ c := by
    intro e
    obtain ⟨n, hn⟩ := getCompartment_eq hc
    rw [← e, get_fresh] at hn
    cases hn
  exact ⟨0, by rw [registeredState_get _ _ _ _ _ _ hne]; simp⟩

theorem registeredState_get_none (s : RuntimeState) (c : Ptr) (imports : ImportBindings)
    (name : String) (modules : List Ptr) (p : Ptr)
    (h : (registeredState s c imports name modules).get p = none) : s.get p = none := by
  unfold registeredState RuntimeState.modifyCompartment at h
  rw [get_modifyData, get_construct] at h
  by_cases h1 : p = s.fresh
  · rw [h1]
    exact get_fresh s
  · by_cases h2 : p = c
    · simp only [h2, if_true, Option.map_eq_none'] at h
      rw [← h2] at h
      simpa [h1] using h
    · simpa [h1, h2] using h

theorem registeredState_getGlobal (s : RuntimeState) (c : Ptr) (imports : ImportBindings)
    (name : String) (modules : List Ptr) (p : Ptr) (g : GlobalInstance)
    (h : s.getGlobal p = some g) :
    (registeredState s c imports name modules).getGlobal p = some g := by
  obtain ⟨n, hn⟩ := getGlobal_eq.1 h
  apply getGlobal_eq.2
  refine ⟨n, ?_⟩
  unfold registeredState RuntimeState.modifyCompartment
  rw [get_modifyData, get_construct_of_get _ _ _ _ hn]
  by_cases h2 : p = c <;> simp [h2]

/-- A successful call of `instantiateModule` returns the address of the new instance, whose
final value satisfies the postcondition of the phases. -/
theorem instantiateModule_ok (host : Host) (s : RuntimeState) (c : Ptr) (module : Module)
    (imports : ImportBindings) (name : String) (mi : Ptr) (s' : RuntimeState)
    (h : instantiateModule host s c module imports name = .ok mi s') :
    mi = s.fresh ∧ ∃ comp modules inst newF newT newM newG newE,
      s.getCompartment c = some comp ∧ setAdd s.fresh comp.modules = some modules ∧
      Sync s' mi inst ∧
      Frame mi true true (registeredState s c imports name modules) s' ∧
      Instantiated host module.ir mi s (newModuleInstance c imports name) inst s'
        newF newT newM newG newE := by
  cases hc : s.getCompartment c with
  | none =>
    unfold instantiateModule at h
    rw [hc] at h
    cases h
  | some comp =>
    cases hm : setAdd s.fresh comp.modules with
    | none =>
      unfold instantiateModule at h
      rw [hc] at h
      simp only [hm] at h
      cases h
    | some modules =>
      rw [instantiateModule_eq host s c module imports name comp modules hc hm] at h
      obtain ⟨inst, s1, h1, h2⟩ := Outcome.bind_eq_ok.1 h
      cases h2
      have hs := registeredState_sync s c imports name modules comp hc
      obtain ⟨hsync, newF, newT, newM, newG, newE, hI⟩ :=
        instantiatePhases_post host c s.fresh module _ inst _ s' hs h1
      have hfr := instantiatePhases_frame host c s.fresh module
        (newModuleInstance c imports name) (registeredState s c imports name modules) hs
      rw [h1] at hfr
      refine ⟨rfl, comp, modules, inst, newF, newT, newM, newG, newE, rfl, hm, hsync,
        hfr.bytes.elements, ?_⟩
      have hn : ∀ p, (registeredState s c imports name modules).get p = none →
          s.get p = none := registeredState_get_none s c imports name modules
      exact
        { importFunctions := hI.importFunctions, importTables := hI.importTables,
          importMemories := hI.importMemories, importGlobals := hI.importGlobals,
          importExceptionTypes := hI.importExceptionTypes, compartment := hI.compartment,
          functions := hI.functions, functionDefs := hI.functionDefs, tables := hI.tables,
          memories := hI.memories, globals := hI.globals, exceptionTypes := hI.exceptionTypes,
          newFunctions := hI.newFunctions.imp (fun _ _ hp => ⟨hn _ hp.1, hp.2⟩),
          newTables := hI.newTables.imp (fun _ _ hp => ⟨hn _ hp.1, hp.2⟩),
          newMemories := hI.newMemories.imp (fun _ _ hp => ⟨hn _ hp.1, hp.2⟩),
          newGlobals := hI.newGlobals.imp (fun _ _ hp => ⟨hn _ hp.1, hp.2⟩),
          newExceptionTypes := hI.newExceptionTypes.imp (fun _ _ hp => ⟨hn _ hp.1, hp.2⟩),
          exported := hI.exported, notExported := hI.notExported,
          defaultMemory := hI.defaultMemory, defaultTable := hI.defaultTable,
          memoriesAssert := hI.memoriesAssert, startFunction := hI.startFunction,
          passiveDataSegments := hI.passiveDataSegments,
          passiveTableSegments := hI.passiveTableSegments }

theorem forall₂_getElem {α β : Type} {R : α → β → Prop} {l1 : List α} {l2 : List β}
    (h : List.Forall₂ R l1 l2) (j : Nat) (b : β) (hb : l2[j]? = some b) :
    ∃ a, l1[j]? = some a ∧ R a b := by
  induction h generalizing j with
  | nil => simp at hb
  | cons hab _ ih =>
    cases j with
    | zero =>
      simp only [List.getElem?_cons_zero, Option.some.injEq] at hb
      subst hb
      exact ⟨_, by simp, hab⟩
    | succ j =>
      simp only [List.getElem?_cons_succ] at hb
      obtain ⟨a, h1, h2⟩ := ih j hb
      exact ⟨a, by simpa using h1, h2⟩

theorem exportedObject_eq_ok {inst : ModuleInstance} {x : Export} {o : Option Ptr}
    (h : exportedObject inst x = .ok o) : (instanceVector inst x.kind)[x.index]? = some o := by
  unfold exportedObject at h
  cases hk : x.kind <;> simp only [hk] at h <;> simp only [instanceVector]
  · cases hv : inst.functions[x.index]? with
    | none => simp [hv] at h
    | some v => simp only [hv, Except.ok.injEq] at h; rw [h]
  · cases hv : inst.tables[x.index]? with
    | none => simp [hv] at h
    | some v => simp only [hv, Except.ok.injEq] at h; rw [h]
  · cases hv : inst.memories[x.index]? with
    | none => simp [hv] at h
    | some v => simp only [hv, Except.ok.injEq] at h; rw [h]
  · cases hv : inst.globals[x.index]? with
    | none => simp [hv] at h
    | some v => simp only [hv, Except.ok.injEq] at h; rw [h]
  · cases hv : inst.exceptionTypes[x.index]? with
    | none => simp [hv] at h
    | some v => simp only [hv, Except.ok.injEq] at h; rw [h]
  · cases h

/-- C3: after a successful `instantiateModule`, each of the five vectors of the instance is
the supplied import vector followed by one new object per definition in declaration order
(each created by this call and of the type its definition declares), so its length is the
number of imports plus the number of definitions of the module IR. -/
theorem instantiateModule_vectors (host : Host) (s : RuntimeState) (c : Ptr) (module : Module)
    (imports : ImportBindings) (name : String) (mi : Ptr) (s' : RuntimeState)
    (h : instantiateModule host s c module imports name = .ok mi s') :
    ∃ inst newF newT newM newG newE,
      s'.getModuleInstance mi = some inst ∧
      (inst.functions.length =
          module.ir.functions.imports.length + module.ir.functions.defs.length ∧
        inst.tables.length = module.ir.tables.imports.length + module.ir.tables.defs.length ∧
        inst.memories.length =
          module.ir.memories.imports.length + module.ir.memories.defs.length ∧
        inst.globals.length = module.ir.globals.imports.length + module.ir.globals.defs.length ∧
        inst.exceptionTypes.length =
          module.ir.exceptionTypes.imports.length + module.ir.exceptionTypes.defs.length) ∧
      (inst.functions = imports.functions ++ newF.map some ∧
        inst.tables = imports.tables ++ newT.map some ∧
        inst.memories = imports.memories ++ newM.map some ∧
        inst.globals = imports.globals ++ newG.map some ∧
        inst.exceptionTypes = imports.exceptionTypes ++ newE.map some) ∧
      List.Forall₂ (fun p (d : FunctionDef) => s.get p = none ∧
        ∃ type, module.ir.types[d.type.index]? = some type ∧
          IsFunction s' p (some mi) type .wasm) newF module.ir.functions.defs ∧
      List.Forall₂ (fun p (d : TableDef) => s.get p = none ∧ IsTable s' p d.type)
        newT module.ir.tables.defs ∧
      List.Forall₂ (fun p (d : MemoryDef) => s.get p = none ∧ IsMemory s' p d.type)
        newM module.ir.memories.defs ∧
      List.Forall₂ (fun p (d : GlobalDef) => s.get p = none ∧ ∃ v, IsGlobal s' p d.type v)
        newG module.ir.globals.defs ∧
      List.Forall₂ (fun p (d : ExceptionTypeDef) => s.get p = none ∧
        IsExceptionType s' p d.type) newE module.ir.exceptionTypes.defs := by
  obtain ⟨_, comp, modules, inst, newF, newT, newM, newG, newE, _, _, hsync, _, hI⟩ :=
    instantiateModule_ok host s c module imports name mi s' h
  refine ⟨inst, newF, newT, newM, newG, newE, hsync.getModuleInstance, ⟨?_, ?_, ?_, ?_, ?_⟩,
    ⟨hI.functions, hI.tables, hI.memories, hI.globals, hI.exceptionTypes⟩,
    hI.newFunctions, hI.newTables, hI.newMemories,
    hI.newGlobals.imp (fun _ _ hp => ⟨hp.1, hp.2.elim (fun v hv => ⟨v.bits, hv.2.2⟩)⟩),
    hI.newExceptionTypes⟩
  · rw [hI.functions, List.length_append, List.length_map, hI.importFunctions,
      hI.newFunctions.length_eq]
  · rw [hI.tables, List.length_append, List.length_map, hI.importTables,
      hI.newTables.length_eq]
  · rw [hI.memories, List.length_append, List.length_map, hI.importMemories,
      hI.newMemories.length_eq]
  · rw [hI.globals, List.length_append, List.length_map, hI.importGlobals,
      hI.newGlobals.length_eq]
  · rw [hI.exceptionTypes, List.length_append, List.length_map, hI.importExceptionTypes,
      hI.newExceptionTypes.length_eq]

theorem instantiateModule_vectors_witness :
    instantiateModule demoHost heapA 1 moduleA importsA "a" = .ok 4 heapAInstantiated ∧
    ∃ inst newF newT newM newG newE,
      heapAInstantiated.getModuleInstance 4 = some inst ∧
      (inst.functions.length =
          moduleA.ir.functions.imports.length + moduleA.ir.functions.defs.length ∧
        inst.tables.length = moduleA.ir.tables.imports.length + moduleA.ir.tables.defs.length ∧
        inst.memories.length =
          moduleA.ir.memories.imports.length + moduleA.ir.memories.defs.length ∧
        inst.globals.length =
          moduleA.ir.globals.imports.length + moduleA.ir.globals.defs.length ∧
        inst.exceptionTypes.length =
          moduleA.ir.exceptionTypes.imports.length + moduleA.ir.exceptionTypes.defs.length) ∧
      (inst.functions = importsA.functions ++ newF.map some ∧
        inst.tables = importsA.tables ++ newT.map some ∧
        inst.memories = importsA.memories ++ newM.map some ∧
        inst.globals = importsA.globals ++ newG.map some ∧
        inst.exceptionTypes = importsA.exceptionTypes ++ newE.map some) ∧
      List.Forall₂ (fun p (d : FunctionDef) => heapA.get p = none ∧
        ∃ type, moduleA.ir.types[d.type.index]? = some type ∧
          IsFunction heapAInstantiated p (some 4) type .wasm) newF moduleA.ir.functions.defs ∧
      List.Forall₂ (fun p (d : TableDef) => heapA.get p = none ∧
        IsTable heapAInstantiated p d.type) newT moduleA.ir.tables.defs ∧
      List.Forall₂ (fun p (d : MemoryDef) => heapA.get p = none ∧
        IsMemory heapAInstantiated p d.type) newM moduleA.ir.memories.defs ∧
      List.Forall₂ (fun p (d : GlobalDef) => heapA.get p = none ∧
        ∃ v, IsGlobal heapAInstantiated p d.type v) newG moduleA.ir.globals.defs ∧
      List.Forall₂ (fun p (d : ExceptionTypeDef) => heapA.get p = none ∧
        IsExceptionType heapAInstantiated p d.type) newE moduleA.ir.exceptionTypes.defs :=
  ⟨rfl, instantiateModule_vectors demoHost heapA 1 moduleA importsA "a" 4 heapAInstantiated rfl⟩

/-- C4: after a successful `instantiateModule`, `getInstanceExport` returns for every export
`(name, kind, index)` of the module IR the object at position `index` of the instance vector
of that kind, and returns null for every name the module does not export. -/
theorem getInstanceExport_designated (host : Host) (s : RuntimeState) (c : Ptr)
    (module : Module) (imports : ImportBindings) (name : String) (mi : Ptr) (s' : RuntimeState)
    (h : instantiateModule host s c module imports name = .ok mi s') :
    ∃ inst, s'.getModuleInstance mi = some inst ∧
      (∀ x, x ∈ module.ir.exports →
        (instanceVector inst x.kind)[x.index]? = some (getInstanceExport inst x.name)) ∧
      (∀ n, n ∉ module.ir.exports.map Export.name → getInstanceExport inst n = none) := by
  obtain ⟨_, comp, modules, inst, newF, newT, newM, newG, newE, _, _, hsync, _, hI⟩ :=
    instantiateModule_ok host s c module imports name mi s' h
  refine ⟨inst, hsync.getModuleInstance, ?_, ?_⟩
  · intro x hx
    obtain ⟨o, ho1, ho2⟩ := hI.exported x hx
    have : getInstanceExport inst x.name = o := by
      unfold getInstanceExport
      rw [ho2]
    rw [this]
    exact exportedObject_eq_ok ho1
  · intro n hn
    unfold getInstanceExport
    rw [hI.notExported n hn]
    rfl

theorem getInstanceExport_designated_witness :
    instantiateModule demoHost heapA 1 moduleA importsA "a" = .ok 4 heapAInstantiated ∧
    ∃ inst, heapAInstantiated.getModuleInstance 4 = some inst ∧
      (∀ x, x ∈ moduleA.ir.exports →
        (instanceVector inst x.kind)[x.index]? = some (getInstanceExport inst x.name)) ∧
      (∀ n, n ∉ moduleA.ir.exports.map Export.name → getInstanceExport inst n = none) :=
  ⟨rfl, getInstanceExport_designated demoHost heapA 1 moduleA importsA "a" 4
    heapAInstantiated rfl⟩

/-- C9: when a defined global is initialized by `get_global i`, `i` is the index of an imported
global and the supplied import is a global of value type `t` and initial value `v`, a
successful instantiation creates the defined global with initial value `v`, and
`evaluateInitializer` returns the value `(t, v)` for that initializer. -/
theorem instantiateModule_global_from_import (host : Host) (s : RuntimeState) (c : Ptr)
    (module : Module) (imports : ImportBindings) (name : String) (mi : Ptr) (s' : RuntimeState)
    (h : instantiateModule host s c module imports name = .ok mi s')
    (i j : Nat) (t : ValueType) (v : UntaggedValue) (d : GlobalDef) (gp : Ptr)
    (g : GlobalInstance) (hi : i < module.ir.globals.imports.length)
    (hd : module.ir.globals.defs[j]? = some d) (hinit : d.initializer = .get_global i)
    (hgp : imports.globals[i]? = some (some gp)) (hg : s.getGlobal gp = some g)
    (ht : g.type.valueType = t) (hv : g.initialValue = v) :
    ∃ inst p, s'.getModuleInstance mi = some inst ∧
      inst.globals[module.ir.globals.imports.length + j]? = some (some p) ∧
      s.get p = none ∧ IsGlobal s' p d.type v ∧
      evaluateInitializer s' inst.globals (.get_global i) = .ok { type := t, bits := v } := by
  obtain ⟨_, comp, modules, inst, newF, newT, newM, newG, newE, _, _, hsync, hfr, hI⟩ :=
    instantiateModule_ok host s c module imports name mi s' h
  obtain ⟨p, hp1, hp2, val, hval, _, hglob⟩ := forall₂_getElem hI.newGlobals j d hd
  have hlen : imports.globals.length = module.ir.globals.imports.length := hI.importGlobals
  have hglobals : inst.globals = imports.globals ++ newG.map some := hI.globals
  have hg' : s'.getGlobal gp = some g :=
    hfr.getGlobal (registeredState_getGlobal s c imports name modules gp g hg)
  have hi' : i < imports.globals.length := by omega
  have heval : evaluateInitializer s' inst.globals (.get_global i)
      = if !g.type.isMutable then .ok { type := g.type.valueType, bits := g.initialValue }
        else .error .linkError := by
    have hlt : i < inst.globals.length := by
      rw [hglobals, List.length_append]
      omega
    have hgetD : inst.globals.getD i none = some gp := by
      rw [hglobals, List.getD_eq_getElem?_getD, List.getElem?_append_left hi', hgp]
      rfl
    simp only [evaluateInitializer, hlt, if_true, hgetD, hg']
  rw [hinit, heval] at hval
  cases hmut : g.type.isMutable with
  | true => simp [hmut] at hval
  | false =>
    simp only [hmut, Bool.not_false, if_true, Except.ok.injEq] at hval
    refine ⟨inst, p, hsync.getModuleInstance, ?_, hp2, ?_, ?_⟩
    · rw [hglobals, ← hlen, List.getElem?_append_right (Nat.le_add_right _ _)]
      simp [hp1]
    · rw [← hval] at hglob
      simpa [hv] using hglob
    · rw [heval]
      simp [hmut, ht, hv]

theorem instantiateModule_global_from_import_witness :
    instantiateModule demoHost heapA 1 moduleA importsA "a" = .ok 4 heapAInstantiated ∧
    ∃ inst p, heapAInstantiated.getModuleInstance 4 = some inst ∧
      inst.globals[moduleA.ir.globals.imports.length + 0]? = some (some p) ∧
      heapA.get p = none ∧
      IsGlobal heapAInstantiated p { valueType := .i32, isMutable := false } 7 ∧
      evaluateInitializer heapAInstantiated inst.globals (.get_global 0)
        = .ok { type := .i32, bits := 7 } :=
  ⟨rfl, instantiateModule_global_from_import demoHost heapA 1 moduleA importsA "a" 4
    heapAInstantiated rfl 0 0 .i32 7
    { type := { valueType := .i32, isMutable := false }, initializer := .get_global 0 } 3
    { compartment := some 1, type := { valueType := .i32, isMutable := false },
      mutableGlobalId := 2 ^ 32 - 1, initialValue := 7 }
    (by decide) rfl rfl rfl rfl rfl rfl⟩

/-! ## Active data segments -/

theorem copyDataSegments_append (inst : ModuleInstance) (pre rest : List DataSegment)
    (s : RuntimeState) :
    copyDataSegments inst (pre ++ rest) s
      = (copyDataSegments inst pre s).bind (fun _ s1 => copyDataSegments inst rest s1) := by
  induction pre generalizing s with
  | nil => rfl
  | cons d t ih =>
    simp only [List.cons_append, copyDataSegments, Outcome.bind_assoc]
    congr 1
    funext _ s1
    exact ih s1

theorem instantiateModule_throw_of_dataSegments (host : Host) (s0 : RuntimeState) (c : Ptr)
    (module : Module) (imports : ImportBindings) (name : String) (comp : Compartment)
    (modules : List Ptr) (inst : ModuleInstance) (s sf : RuntimeState) (e : Exception)
    (hc : s0.getCompartment c = some comp) (hm : setAdd s0.fresh comp.modules = some modules)
    (hdefs : instantiateDefinitions host c s0.fresh module (newModuleInstance c imports name)
      (registeredState s0 c imports name modules) = .ok inst s)
    (hthrow : copyDataSegments inst module.ir.dataSegments s = .throw e sf) :
    instantiateModule host s0 c module imports name = .throw e sf := by
  rw [instantiateModule_eq host s0 c module imports name comp modules hc hm]
  unfold instantiatePhases
  rw [hdefs]
  simp only [Outcome.bind]
  unfold instantiateSegments
  rw [hthrow]
  rfl

theorem copyDataSegment_empty (inst : ModuleInstance) (seg : DataSegment) (s : RuntimeState)
    (mp : Ptr) (m : MemoryInstance) (v : Value) (hact : seg.isActive = true)
    (hdata : seg.data = []) (hmem : inst.memories[seg.memoryIndex]? = some (some mp))
    (hm : s.getMemory mp = some m)
    (hv : evaluateInitializer s inst.globals seg.baseOffset = .ok v) (hty : v.type = .i32)
    (hpages : m.numPages * 65536 < 2 ^ 64) :
    copyDataSegment inst seg s =
      if v.i32 > m.numPages * 65536 then .throw (.outOfBoundsMemoryAccess mp v.i32) s
      else .ok () s := by
  unfold copyDataSegment
  simp only [hact, if_true, hmem, hv, hty, hdata, List.length_nil, ne_eq, not_true_eq_false,
    if_false, numBytesPerPage]
  rw [show (some mp).bind s.getMemory = some m from hm]
  simp only [Nat.mod_eq_of_lt hpages]

/-- C5: when `instantiateModule` has reached the active data segments and meets an active
segment without data, it fails with `out-of-bounds-memory-access` carrying the memory and the
base offset if the 32-bit base offset is greater than `numPages * 65536`, and otherwise the
segment causes no failure: the loop goes on with the segments after it (the base offset
`numPages * 65536` itself is accepted). -/
theorem instantiateModule_empty_data_segment (host : Host) (s0 : RuntimeState) (c : Ptr)
    (module : Module) (imports : ImportBindings) (name : String) (comp : Compartment)
    (modules : List Ptr) (inst : ModuleInstance) (s s1 : RuntimeState)
    (pre post : List DataSegment) (seg : DataSegment) (mp : Ptr) (m : MemoryInstance)
    (v : Value)
    (hc : s0.getCompartment c = some comp) (hm : setAdd s0.fresh comp.modules = some modules)
    (hdefs : instantiateDefinitions host c s0.fresh module (newModuleInstance c imports name)
      (registeredState s0 c imports name modules) = .ok inst s)
    (hsegs : module.ir.dataSegments = pre ++ seg :: post)
    (hpre : copyDataSegments inst pre s = .ok () s1)
    (hact : seg.isActive = true) (hdata : seg.data = [])
    (hmem : inst.memories[seg.memoryIndex]? = some (some mp))
    (hmp : s1.getMemory mp = some m)
    (hv : evaluateInitializer s1 inst.globals seg.baseOffset = .ok v) (hty : v.type = .i32)
    (hpages : m.numPages * 65536 < 2 ^ 64) :
    (v.i32 > m.numPages * 65536 →
      instantiateModule host s0 c module imports name
        = .throw (.outOfBoundsMemoryAccess mp v.i32) s1) ∧
    (v.i32 ≤ m.numPages * 65536 →
      copyDataSegments inst module.ir.dataSegments s = copyDataSegments inst post s1) := by
  have hseg := copyDataSegment_empty inst seg s1 mp m v hact hdata hmem hmp hv hty hpages
  have hloop : copyDataSegments inst module.ir.dataSegments s
      = (copyDataSegment inst seg s1).bind (fun _ s2 => copyDataSegments inst post s2) := by
    rw [hsegs, copyDataSegments_append, hpre]
    rfl
  constructor
  · intro hgt
    apply instantiateModule_throw_of_dataSegments host s0 c module imports name comp modules
      inst s s1 _ hc hm hdefs
    rw [hloop, hseg, if_pos hgt]
    rfl
  · intro hle
    rw [hloop, hseg, if_neg (Nat.not_lt.2 hle)]
    rfl

theorem instantiateModule_empty_data_segment_witness :
    (Value.i32 { type := .i32, bits := 65537 } > memoryB.numPages * 65536 →
      instantiateModule demoHost heapB 1 (moduleB 65537 []) {} "b"
        = .throw (.outOfBoundsMemoryAccess 4 (Value.i32 { type := .i32, bits := 65537 }))
          heapBDefined) ∧
    (Value.i32 { type := .i32, bits := 65536 } ≤ memoryB.numPages * 65536 →
      copyDataSegments instB (moduleB 65536 []).ir.dataSegments heapBDefined
        = copyDataSegments instB [] heapBDefined) ∧
    Value.i32 { type := .i32, bits := 65537 } = 65537 ∧ memoryB.numPages * 65536 = 65536 :=
  ⟨(instantiateModule_empty_data_segment demoHost heapB 1 (moduleB 65537 []) {} "b"
      { modules := [2], wavmIntrinsics := some 2 } [2, 3] instB heapBDefined heapBDefined [] []
      { isActive := true, memoryIndex := 0, baseOffset := .i32_const 65537, data := [] }
      4 memoryB { type := .i32, bits := 65537 } rfl rfl rfl rfl rfl rfl rfl rfl rfl rfl rfl
      (by decide)).1,
    (instantiateModule_empty_data_segment demoHost heapB 1 (moduleB 65536 []) {} "b"
      { modules := [2], wavmIntrinsics := some 2 } [2, 3] instB heapBDefined heapBDefined [] []
      { isActive := true, memoryIndex := 0, baseOffset := .i32_const 65536, data := [] }
      4 memoryB { type := .i32, bits := 65536 } rfl rfl rfl rfl rfl rfl rfl rfl rfl rfl rfl
      (by decide)).2,
    by decide, by decide⟩

theorem getMemory_storeByte (s : RuntimeState) (mp : Ptr) (m : MemoryInstance) (a x : Nat)
    (h : s.getMemory mp = some m) :
    (s.storeByte mp a x).getMemory mp
      = some { m with bytes := fun i => if i = a then x else m.bytes i } := by
  obtain ⟨n, hn⟩ := getMemory_eq.1 h
  apply getMemory_eq.2
  refine ⟨n, ?_⟩
  unfold RuntimeState.storeByte
  rw [get_modifyData_self, hn]
  rfl

/-- A copy that does not fit in the committed pages stops with an out-of-bounds error at the
first address outside them. -/
theorem bytewiseMemCopy_out_of_bounds (mp : Ptr) (data : List Nat) (a : Nat) (s : RuntimeState)
    (m : MemoryInstance) (hm : s.getMemory mp = some m) (hne : data ≠ [])
    (h : a + data.length > m.numPages * 65536) :
    ∃ sf, bytewiseMemCopy mp data a s
        = .throw (.outOfBoundsMemoryAccess mp (max a (m.numPages * 65536))) sf ∧
      (m.numPages * 65536 ≤ a → sf = s) := by
  induction data generalizing a s m with
  | nil => exact absurd rfl hne
  | cons x rest ih =>
    unfold bytewiseMemCopy
    rw [hm]
    simp only [numBytesPerPage]
    by_cases hlt : a < m.numPages * 65536
    · rw [if_pos hlt]
      have h' : (a + 1) + rest.length > m.numPages * 65536 := by
        simp only [List.length_cons] at h
        omega
      have hrest : rest ≠ [] := by
        intro e
        rw [e] at h'
        simp only [List.length_nil] at h'
        omega
      obtain ⟨sf, h1, _⟩ := ih (a + 1) (s.storeByte mp a x)
        { m with bytes := fun i => if i = a then x else m.bytes i }
        (getMemory_storeByte s mp m a x hm) hrest h'
      refine ⟨sf, ?_, fun hle => by omega⟩
      rw [h1]
      have e1 : max (a + 1) (m.numPages * 65536) = m.numPages * 65536 := by omega
      have e2 : max a (m.numPages * 65536) = m.numPages * 65536 := by omega
      simp only [e1, e2]
    · rw [if_neg hlt]
      have e2 : max a (m.numPages * 65536) = a := by omega
      exact ⟨s, by rw [e2], fun _ => rfl⟩

/-- C6: when `instantiateModule` has reached the active data segments and meets an active
segment with data whose byte range `[baseOffset, baseOffset + data.size)` is not contained in
the first `numPages * 65536` bytes of its memory, it fails with `out-of-bounds-memory-access`
carrying the memory and the first address outside the committed pages; when the base offset
itself is out of range this is the same exception, on the same heap, as for an empty
segment. -/
theorem instantiateModule_data_segment_out_of_bounds (host : Host) (s0 : RuntimeState)
    (c : Ptr) (module : Module) (imports : ImportBindings) (name : String) (comp : Compartment)
    (modules : List Ptr) (inst : ModuleInstance) (s s1 : RuntimeState)
    (pre post : List DataSegment) (seg : DataSegment) (mp : Ptr) (m : MemoryInstance)
    (v : Value)
    (hc : s0.getCompartment c = some comp) (hm : setAdd s0.fresh comp.modules = some modules)
    (hdefs : instantiateDefinitions host c s0.fresh module (newModuleInstance c imports name)
      (registeredState s0 c imports name modules) = .ok inst s)
    (hsegs : module.ir.dataSegments = pre ++ seg :: post)
    (hpre : copyDataSegments inst pre s = .ok () s1)
    (hact : seg.isActive = true) (hdata : seg.data ≠ [])
    (hmem : inst.memories[seg.memoryIndex]? = some (some mp))
    (hmp : s1.getMemory mp = some m)
    (hv : evaluateInitializer s1 inst.globals seg.baseOffset = .ok v) (hty : v.type = .i32)
    (hrange : v.i32 + seg.data.length > m.numPages * 65536) :
    ∃ sf, instantiateModule host s0 c module imports name
        = .throw (.outOfBoundsMemoryAccess mp (max v.i32 (m.numPages * 65536))) sf ∧
      (m.numPages * 65536 < v.i32 →
        instantiateModule host s0 c module imports name
          = .throw (.outOfBoundsMemoryAccess mp v.i32) s1) := by
  obtain ⟨sf, hcopy, hsame⟩ := bytewiseMemCopy_out_of_bounds mp seg.data v.i32 s1 m hmp hdata hrange
  have hlen : seg.data.length ≠ 0 := by
    intro h0
    exact hdata (List.length_eq_zero.1 h0)
  have hseg : copyDataSegment inst seg s1
      = .throw (.outOfBoundsMemoryAccess mp (max v.i32 (m.numPages * 65536))) sf := by
    unfold copyDataSegment
    simp only [hact, if_true, hmem, hv, hty, ne_eq, hlen, not_false_eq_true, hcopy]
  have hloop : copyDataSegments inst module.ir.dataSegments s
      = (copyDataSegment inst seg s1).bind (fun _ s2 => copyDataSegments inst post s2) := by
    rw [hsegs, copyDataSegments_append, hpre]
    rfl
  have hthrow : instantiateModule host s0 c module imports name
      = .throw (.outOfBoundsMemoryAccess mp (max v.i32 (m.numPages * 65536))) sf := by
    apply instantiateModule_throw_of_dataSegments host s0 c module imports name comp modules
      inst s sf _ hc hm hdefs
    rw [hloop, hseg]
    rfl
  refine ⟨sf, hthrow, fun hgt => ?_⟩
  have e1 : max v.i32 (m.numPages * 65536) = v.i32 := by omega
  have e2 : sf = s1 := hsame (by omega)
  rw [hthrow, e1, e2]

theorem instantiateModule_data_segment_out_of_bounds_witness :
    ∃ sf, instantiateModule demoHost heapB 1 (moduleB 65535 [1, 2]) {} "b"
        = .throw (.outOfBoundsMemoryAccess 4
            (max (Value.i32 { type := .i32, bits := 65535 }) (memoryB.numPages * 65536))) sf ∧
      (memoryB.numPages * 65536 < Value.i32 { type := .i32, bits := 65535 } →
        instantiateModule demoHost heapB 1 (moduleB 65535 [1, 2]) {} "b"
          = .throw (.outOfBoundsMemoryAccess 4 (Value.i32 { type := .i32, bits := 65535 }))
            heapBDefined) :=
  instantiateModule_data_segment_out_of_bounds demoHost heapB 1 (moduleB 65535 [1, 2]) {} "b"
    { modules := [2], wavmIntrinsics := some 2 } [2, 3] instB heapBDefined heapBDefined [] []
    { isActive := true, memoryIndex := 0, baseOffset := .i32_const 65535, data := [1, 2] }
    4 memoryB { type := .i32, bits := 65535 } rfl rfl rfl rfl rfl rfl (by decide) rfl rfl rfl
    rfl (by decide)

/-- C10 (failing input): a module without global imports whose second defined global is
initialized by `get_global 0`, the index of its first defined (immutable) global, is
instantiated without error, and the second global gets the value 5 of the first. -/
theorem instantiateModule_accepts_defined_global :
    moduleC.ir.globals.imports.length = 0 ∧
    (instantiateModule demoHost heapB 1 moduleC {} "c").value? = some 3 ∧
    (((instantiateModule demoHost heapB 1 moduleC {} "c").state.getModuleInstance 3).map
      (fun inst => inst.globals)) = some [some 4, some 5] ∧
    (((instantiateModule demoHost heapB 1 moduleC {} "c").state.getGlobal 5).map
      (fun g => g.initialValue)) = some 5 := by
  decide

/-! ## A failed instantiation and the next collection -/

theorem registeredState_old (s : RuntimeState) (c : Ptr) (imports : ImportBindings)
    (name : String) (modules : List Ptr) (p : Ptr) (obj : ObjectImpl)
    (h : s.get p = some obj) :
    ∃ obj0, (registeredState s c imports name modules).get p = some obj0 ∧
      obj0.numRootReferences = obj.numRootReferences ∧
      (obj0.data = obj.data ∨
        ∃ x, obj.data = .compartment x ∧ obj0.data = .compartment { x with modules := modules }) := by
  unfold registeredState RuntimeState.modifyCompartment
  rw [get_modifyData, get_construct_of_get _ _ _ _ h]
  by_cases hp : p = c
  · simp only [hp, if_true, Option.map_some']
    refine ⟨_, rfl, rfl, ?_⟩
    obtain ⟨n, d⟩ := obj
    cases d <;> first | exact Or.inl rfl | exact Or.inr ⟨_, rfl, rfl⟩
  · simp only [hp, if_false]
    exact ⟨obj, rfl, rfl, Or.inl rfl⟩

theorem registeredState_getCompartment (s : RuntimeState) (c : Ptr) (imports : ImportBindings)
    (name : String) (modules : List Ptr) (comp : Compartment)
    (hc : s.getCompartment c = some comp) :
    (registeredState s c imports name modules).getCompartment c
      = some { comp with modules := modules } := by
  obtain ⟨n, hn⟩ := getCompartment_eq hc
  unfold registeredState
  rw [getCompartment_modifyCompartment]
  simp only [if_true]
  rw [getCompartment_iff.2 ⟨n, get_construct_of_get s _ c _ hn⟩]
  rfl

/-- C8, counterexample: `moduleE` imports the memory 3; its first active data segment writes
the byte 42 at address 0, its second one fails with the recoverable error
`out-of-bounds-memory-access`.  After the failure byte 0 of the imported memory is 42 instead
of 0, and the `modules` of the compartment hold the failed instance (4). -/
theorem instantiateModule_failure_leaves_writes :
    (instantiateModule demoHost heapM 1 moduleE importsE "e").exception?
        = some (.outOfBoundsMemoryAccess 3 65537) ∧
      (Exception.outOfBoundsMemoryAccess 3 65537).isRecoverable = true ∧
      (heapM.getMemory 3).map (fun m => m.bytes 0) = some 0 ∧
      (heapMFailed.getMemory 3).map (fun m => m.bytes 0) = some 42 ∧
      (heapM.getCompartment 1).map Compartment.modules = some [2] ∧
      (heapMFailed.getCompartment 1).map Compartment.modules = some [2, 4] :=
  ⟨by decide, by decide, by decide, by decide, by decide, by decide⟩

/-- When a call of `instantiateModule` on a compartment fails, the `modules` of the
compartment are the ones before the call together with the failed instance; the bytes of
every memory that existed before the call are unchanged when no active data segment of the
module has bytes to copy, and the elements of every table that existed before the call are
unchanged when no active element segment of the module has elements to install. -/
theorem instantiateModule_failure_inert (host : Host) (s : RuntimeState) (c : Ptr)
    (module : Module) (imports : ImportBindings) (name : String) (e : Exception)
    (sf : RuntimeState) (h : instantiateModule host s c module imports name = .throw e sf)
    (comp : Compartment) (hc : s.getCompartment c = some comp) :
    (∃ comp', sf.getCompartment c = some comp' ∧
      ∀ y, y ∈ comp'.modules ↔ y ∈ comp.modules ∨ y = s.fresh) ∧
    (hasActiveData module.ir.dataSegments = false →
      ∀ p m, s.getMemory p = some m → ∃ m', sf.getMemory p = some m' ∧ m'.bytes = m.bytes) ∧
    (hasActiveElements module.ir.tableSegments = false →
      ∀ p t, s.getTable p = some t →
        ∃ t', sf.getTable p = some t' ∧ t'.elements = t.elements) := by
  cases hm : setAdd s.fresh comp.modules with
  | none =>
    unfold instantiateModule at h
    rw [hc] at h
    simp only [hm] at h
    cases h
    have hin : s.fresh ∈ comp.modules := by
      unfold setAdd at hm
      by_contra hn
      simp [hn] at hm
    obtain ⟨n, hn⟩ := getCompartment_eq hc
    refine ⟨⟨comp, getCompartment_iff.2 ⟨n, get_construct_of_get s _ c _ hn⟩, fun y =>
      ⟨Or.inl, fun hy => hy.elim id (fun e => e ▸ hin)⟩⟩, fun _ p m hp => ?_, fun _ p t hp => ?_⟩
    · obtain ⟨k, hk⟩ := getMemory_eq.1 hp
      exact ⟨m, getMemory_eq.2 ⟨k, get_construct_of_get s _ p _ hk⟩, rfl⟩
    · obtain ⟨k, hk⟩ := getTable_eq.1 hp
      exact ⟨t, getTable_eq.2 ⟨k, get_construct_of_get s _ p _ hk⟩, rfl⟩
  | some modules =>
    rw [instantiateModule_eq host s c module imports name comp modules hc hm] at h
    have hs := registeredState_sync s c imports name modules comp hc
    have hfr := instantiatePhases_frame host c s.fresh module
      (newModuleInstance c imports name) (registeredState s c imports name modules) hs
    have hthrow : (instantiatePhases host c s.fresh module (newModuleInstance c imports name)
        (registeredState s c imports name modules)).state = sf := by
      rcases Outcome.bind_eq_throw.1 h with h1 | ⟨a, s1, _, h2⟩
      · rw [h1]
        rfl
      · cases h2
    rw [hthrow] at hfr
    have hmod : modules = comp.modules ++ [s.fresh] := by
      unfold setAdd at hm
      by_cases hin : s.fresh ∈ comp.modules
      · simp [hin] at hm
      · simp only [hin, if_false, Option.some.injEq] at hm
        exact hm.symm
    have hold : ∀ p obj, s.get p = some obj → (∀ x, obj.data ≠ .compartment x) →
        ∃ obj', sf.get p = some obj' ∧
          obj'.data.frozen false (hasActiveData module.ir.dataSegments)
              (hasActiveElements module.ir.tableSegments)
            = obj.data.frozen false (hasActiveData module.ir.dataSegments)
              (hasActiveElements module.ir.tableSegments) := by
      intro p obj hp hx
      obtain ⟨obj0, h0, _, t0⟩ := registeredState_old s c imports name modules p obj hp
      have hd : obj0.data = obj.data := t0.elim id (fun ⟨x, hx', _⟩ => absurd hx' (hx x))
      obtain ⟨obj', h1, _, f1⟩ := hfr.1 p obj0 h0
      have hne : p ≠ s.fresh := by
        intro e
        rw [e, get_fresh] at hp
        cases hp
      simp only [hne, decide_False] at f1
      exact ⟨obj', h1, hd ▸ f1⟩
    refine ⟨?_, fun hb p m hp => ?_, fun he p t hp => ?_⟩
    · obtain ⟨comp', g1, g2, _⟩ :=
        hfr.getCompartment (registeredState_getCompartment s c imports name modules comp hc)
      refine ⟨comp', g1, fun y => ?_⟩
      rw [g2]
      simp only [hmod, List.mem_append, List.mem_singleton]
    · obtain ⟨k, hk⟩ := getMemory_eq.1 hp
      obtain ⟨⟨k', d'⟩, g1, g2⟩ := hold p _ hk (fun x hx => by cases hx)
      rw [hb] at g2
      cases d' with
      | memory m' =>
        simp only [ObjectData.frozen, ObjectData.memory.injEq] at g2
        have g3 := congrArg MemoryInstance.bytes g2
        simp only [Bool.false_eq_true, if_false] at g3
        exact ⟨m', getMemory_eq.2 ⟨k', g1⟩, g3⟩
      | _ => simp [ObjectData.frozen] at g2
    · obtain ⟨k, hk⟩ := getTable_eq.1 hp
      obtain ⟨⟨k', d'⟩, g1, g2⟩ := hold p _ hk (fun x hx => by cases hx)
      rw [he] at g2
      cases d' with
      | table t' =>
        simp only [ObjectData.frozen, ObjectData.table.injEq] at g2
        have g3 := congrArg TableInstance.elements g2
        simp only [Bool.false_eq_true, if_false] at g3
        exact ⟨t', getTable_eq.2 ⟨k', g1⟩, g3⟩
      | _ => simp [ObjectData.frozen] at g2

/-! ## Import checking -/

theorem checkImportTypes_eq (host : Host) (objects : List (Option Ptr))
    (types : List ObjectType) (i : Nat) (s : RuntimeState) :
    ((∀ j (h : j < types.length), host.isA s (objects.getD (i + j) none) types[j] = true) →
      checkImportTypes host objects types i s = .ok () s) ∧
    ((¬ ∀ j (h : j < types.length), host.isA s (objects.getD (i + j) none) types[j] = true) →
      checkImportTypes host objects types i s = .throw .linkError s) := by
  induction types generalizing i with
  | nil => exact ⟨fun _ => rfl, fun h => (h (fun j hj => by simp at hj)).elim⟩
  | cons t rest ih =>
    unfold checkImportTypes
    cases h0 : host.isA s (objects.getD i none) t with
    | false =>
      refine ⟨fun h => ?_, fun _ => by simp [errorUnless, Outcome.bind]⟩
      have := h 0 (by simp)
      simp only [Nat.add_zero, List.getElem_cons_zero, h0] at this
      cases this
    | true =>
      simp only [errorUnless, if_true, Outcome.bind]
      obtain ⟨ih1, ih2⟩ := ih (i + 1)
      constructor
      · intro h
        apply ih1
        intro j hj
        have := h (j + 1) (by simpa using hj)
        simpa [Nat.add_assoc, Nat.add_comm 1 j] using this
      · intro h
        apply ih2
        intro h'
        apply h
        intro j hj
        cases j with
        | zero => simpa using h0
        | succ k =>
          have := h' k (by simpa using hj)
          simpa [Nat.add_assoc, Nat.add_comm 1 k] using this

theorem checkFunctionImportTypes_eq (host : Host) (types : List FunctionType)
    (objects : List (Option Ptr)) (imports : List (Import IndexedFunctionType)) (i : Nat)
    (s : RuntimeState) :
    ((∀ j (h : j < imports.length), ((types[imports[j].type.index]?).any fun type =>
        host.isA s (objects.getD (i + j) none) (.function type)) = true) →
      checkFunctionImportTypes host types objects imports i s = .ok () s) ∧
    ((¬ ∀ j (h : j < imports.length), ((types[imports[j].type.index]?).any fun type =>
        host.isA s (objects.getD (i + j) none) (.function type)) = true) →
      ∃ e, checkFunctionImportTypes host types objects imports i s = .throw e s ∧
        ((∀ x, x ∈ imports → x.type.index < types.length) → e = .linkError)) := by
  induction imports generalizing i with
  | nil => exact ⟨fun _ => rfl, fun h => (h (fun j hj => by simp at hj)).elim⟩
  | cons t rest ih =>
    unfold checkFunctionImportTypes
    cases hty : types[t.type.index]? with
    | none =>
      refine ⟨fun h => ?_, fun _ => ⟨.undefined, rfl, fun hall => ?_⟩⟩
      · have := h 0 (by simp)
        simp [hty] at this
      · have := hall t (List.mem_cons_self _ _)
        rw [List.getElem?_eq_none_iff] at hty
        omega
    | some type =>
      simp only
      cases h0 : host.isA s (objects.getD i none) (.function type) with
      | false =>
        refine ⟨fun h => ?_, fun _ => ⟨.linkError, by simp [errorUnless, Outcome.bind],
          fun _ => rfl⟩⟩
        have := h 0 (by simp)
        simp only [Nat.add_zero, List.getElem_cons_zero, hty, Option.any_some, h0] at this
        cases this
      | true =>
        simp only [errorUnless, if_true, Outcome.bind]
        obtain ⟨ih1, ih2⟩ := ih (i + 1)
        constructor
        · intro h
          apply ih1
          intro j hj
          have := h (j + 1) (by simpa using hj)
          simpa [Nat.add_assoc, Nat.add_comm 1 j] using this
        · intro h
          have : ¬ ∀ j (hj : j < rest.length), ((types[rest[j].type.index]?).any fun type =>
              host.isA s (objects.getD (i + 1 + j) none) (.function type)) = true := by
            intro h'
            apply h
            intro j hj
            cases j with
            | zero => simp only [Nat.add_zero, List.getElem_cons_zero, hty, Option.any_some, h0]
            | succ k =>
              have := h' k (by simpa using hj)
              simpa [Nat.add_assoc, Nat.add_comm 1 k] using this
          obtain ⟨e, he1, he2⟩ := ih2 this
          exact ⟨e, he1, fun hall => he2 (fun x hx => hall x (List.mem_cons_of_mem _ hx))⟩

theorem checkKind_eq (host : Host) (objects : List (Option Ptr)) (types : List ObjectType)
    (n : Nat) (hn : types.length = n) (s : RuntimeState) (k : Unit → RuntimeState → Outcome Unit) :
    (KindMatches host s objects types →
      ((errorUnless (objects.length == n) s).bind fun _ s =>
        (checkImportTypes host objects types 0 s).bind k) = k () s) ∧
    (¬ KindMatches host s objects types →
      ((errorUnless (objects.length == n) s).bind fun _ s =>
        (checkImportTypes host objects types 0 s).bind k) = .throw .linkError s) := by
  subst hn
  obtain ⟨c1, c2⟩ := checkImportTypes_eq host objects types 0 s
  simp only [Nat.zero_add] at c1 c2
  constructor
  · rintro ⟨h1, h2⟩
    simp only [errorUnless, h1, beq_self_eq_true, if_true, Outcome.bind, c1 h2]
  · intro h
    by_cases h1 : objects.length = types.length
    · have h2 : ¬ ∀ i (h : i < types.length), host.isA s (objects.getD i none) types[i] = true :=
        fun h2 => h ⟨h1, h2⟩
      simp only [errorUnless, h1, beq_self_eq_true, if_true, Outcome.bind, c2 h2]
    · have : (objects.length == types.length) = false := by simpa using h1
      simp only [errorUnless, this, Bool.false_eq_true, if_false, Outcome.bind]

theorem checkFunctions_eq (host : Host) (types : List FunctionType)
    (objects : List (Option Ptr)) (imports : List (Import IndexedFunctionType))
    (s : RuntimeState) (k : Unit → RuntimeState → Outcome Unit) :
    (FunctionsMatch host s types objects imports →
      ((errorUnless (objects.length == imports.length) s).bind fun _ s =>
        (checkFunctionImportTypes host types objects imports 0 s).bind k) = k () s) ∧
    (¬ FunctionsMatch host s types objects imports →
      ∃ e, ((errorUnless (objects.length == imports.length) s).bind fun _ s =>
        (checkFunctionImportTypes host types objects imports 0 s).bind k) = .throw e s ∧
        ((∀ x, x ∈ imports → x.type.index < types.length) → e = .linkError)) := by
  obtain ⟨c1, c2⟩ := checkFunctionImportTypes_eq host types objects imports 0 s
  simp only [Nat.zero_add] at c1 c2
  constructor
  · rintro ⟨h1, h2⟩
    simp only [errorUnless, h1, beq_self_eq_true, if_true, Outcome.bind, c1 h2]
  · intro h
    by_cases h1 : objects.length = imports.length
    · obtain ⟨e, he1, he2⟩ := c2 (fun h2 => h ⟨h1, h2⟩)
      exact ⟨e, by simp only [errorUnless, h1, beq_self_eq_true, if_true, Outcome.bind, he1],
        he2⟩
    · have : (objects.length == imports.length) = false := by simpa using h1
      exact ⟨.linkError,
        by simp only [errorUnless, this, Bool.false_eq_true, if_false, Outcome.bind],
        fun _ => rfl⟩

theorem Outcome.bind_pure {α : Type} (x : Outcome α) : (x.bind fun a s => .ok a s) = x := by
  cases x <;> rfl

/-- Import checking returns exactly when the bindings match the declared imports, and
otherwise throws on the heap it was started on. -/
theorem checkImports_eq (host : Host) (ir : IRModule) (c : Ptr) (imports : ImportBindings)
    (name : String) (s : RuntimeState) :
    (ImportsMatch host ir s imports →
      checkImports host ir (newModuleInstance c imports name) s = .ok () s) ∧
    (¬ ImportsMatch host ir s imports →
      ∃ e, checkImports host ir (newModuleInstance c imports name) s = .throw e s ∧
        ((∀ x, x ∈ ir.functions.imports → x.type.index < ir.types.length) →
          e = .linkError)) := by
  have last : checkImportTypes host imports.exceptionTypes
      (ir.exceptionTypes.imports.map (fun i => ObjectType.exceptionType i.type)) 0 =
      fun s => (checkImportTypes host imports.exceptionTypes
      (ir.exceptionTypes.imports.map (fun i => ObjectType.exceptionType i.type)) 0 s).bind
        fun a s => .ok a s := by
    funext s
    rw [Outcome.bind_pure]
  unfold checkImports
  simp only [newModuleInstance]
  rw [last]
  obtain ⟨f1, f2⟩ := checkFunctions_eq host ir.types imports.functions ir.functions.imports s
    (fun _ s =>
      (errorUnless (imports.tables.length == ir.tables.imports.length) s).bind fun _ s =>
      (checkImportTypes host imports.tables
        (ir.tables.imports.map (fun i => ObjectType.table i.type)) 0 s).bind fun _ s =>
      (errorUnless (imports.memories.length == ir.memories.imports.length) s).bind fun _ s =>
      (checkImportTypes host imports.memories
        (ir.memories.imports.map (fun i => ObjectType.memory i.type)) 0 s).bind fun _ s =>
      (errorUnless (imports.globals.length == ir.globals.imports.length) s).bind fun _ s =>
      (checkImportTypes host imports.globals
        (ir.globals.imports.map (fun i => ObjectType.global i.type)) 0 s).bind fun _ s =>
      (errorUnless (imports.exceptionTypes.length == ir.exceptionTypes.imports.length) s).bind
        fun _ s =>
      (checkImportTypes host imports.exceptionTypes
        (ir.exceptionTypes.imports.map (fun i => ObjectType.exceptionType i.type)) 0 s).bind
        fun a s => .ok a s)
  obtain ⟨t1, t2⟩ := checkKind_eq host imports.tables
    (ir.tables.imports.map (fun i => ObjectType.table i.type)) ir.tables.imports.length
    (by simp) s
    (fun _ s =>
      (errorUnless (imports.memories.length == ir.memories.imports.length) s).bind fun _ s =>
      (checkImportTypes host imports.memories
        (ir.memories.imports.map (fun i => ObjectType.memory i.type)) 0 s).bind fun _ s =>
      (errorUnless (imports.globals.length == ir.globals.imports.length) s).bind fun _ s =>
      (checkImportTypes host imports.globals
        (ir.globals.imports.map (fun i => ObjectType.global i.type)) 0 s).bind fun _ s =>
      (errorUnless (imports.exceptionTypes.length == ir.exceptionTypes.imports.length) s).bind
        fun _ s =>
      (checkImportTypes host imports.exceptionTypes
        (ir.exceptionTypes.imports.map (fun i => ObjectType.exceptionType i.type)) 0 s).bind
        fun a s => .ok a s)
  obtain ⟨m1, m2⟩ := checkKind_eq host imports.memories
    (ir.memories.imports.map (fun i => ObjectType.memory i.type)) ir.memories.imports.length
    (by simp) s
    (fun _ s =>
      (errorUnless (imports.globals.length == ir.globals.imports.length) s).bind fun _ s =>
      (checkImportTypes host imports.globals
        (ir.globals.imports.map (fun i => ObjectType.global i.type)) 0 s).bind fun _ s =>
      (errorUnless (imports.exceptionTypes.length == ir.exceptionTypes.imports.length) s).bind
        fun _ s =>
      (checkImportTypes host imports.exceptionTypes
        (ir.exceptionTypes.imports.map (fun i => ObjectType.exceptionType i.type)) 0 s).bind
        fun a s => .ok a s)
  obtain ⟨g1, g2⟩ := checkKind_eq host imports.globals
    (ir.globals.imports.map (fun i => ObjectType.global i.type)) ir.globals.imports.length
    (by simp) s
    (fun _ s =>
      (errorUnless (imports.exceptionTypes.length == ir.exceptionTypes.imports.length) s).bind
        fun _ s =>
      (checkImportTypes host imports.exceptionTypes
        (ir.exceptionTypes.imports.map (fun i => ObjectType.exceptionType i.type)) 0 s).bind
        fun a s => .ok a s)
  obtain ⟨x1, x2⟩ := checkKind_eq host imports.exceptionTypes
    (ir.exceptionTypes.imports.map (fun i => ObjectType.exceptionType i.type))
    ir.exceptionTypes.imports.length (by simp) s (fun a s => .ok a s)
  constructor
  · rintro ⟨hf, ht, hm, hg, hx⟩
    rw [f1 hf, t1 ht, m1 hm, g1 hg, x1 hx]
  · intro h
    by_cases hf : FunctionsMatch host s ir.types imports.functions ir.functions.imports
    · rw [f1 hf]
      refine ⟨.linkError, ?_, fun _ => rfl⟩
      by_cases ht : KindMatches host s imports.tables
          (ir.tables.imports.map (fun i => ObjectType.table i.type))
      · rw [t1 ht]
        by_cases hm : KindMatches host s imports.memories
            (ir.memories.imports.map (fun i => ObjectType.memory i.type))
        · rw [m1 hm]
          by_cases hg : KindMatches host s imports.globals
              (ir.globals.imports.map (fun i => ObjectType.global i.type))
          · rw [g1 hg]
            exact x2 (fun hx => h ⟨hf, ht, hm, hg, hx⟩)
          · exact g2 hg
        · exact m2 hm
      · exact t2 ht
    · exact f2 hf

theorem allObjects_registeredState (s : RuntimeState) (c : Ptr) (imports : ImportBindings)
    (name : String) (modules : List Ptr) :
    (registeredState s c imports name modules).allObjects = s.allObjects ++ [s.fresh] := by
  unfold registeredState RuntimeState.modifyCompartment
  rw [allObjects_modifyData, allObjects_construct]

/-- C11: `instantiateModule` gets past import checking only if, kind by kind (functions,
tables, memories, globals, exception types), as many objects are supplied as the module
declares imports and every supplied object satisfies `isA` against the declared type at its
position.  Matching bindings pass the check; with any mismatch the call fails (with
`link-error` when the type indices of the function imports are valid) on the heap in which
the new instance is the only object created: no table, memory, global or function has been
created for a definition. -/
theorem instantiateModule_checks_imports (host : Host) (s : RuntimeState) (c : Ptr)
    (module : Module) (imports : ImportBindings) (name : String) (comp : Compartment)
    (modules : List Ptr) (hc : s.getCompartment c = some comp)
    (hm : setAdd s.fresh comp.modules = some modules) :
    (ImportsMatch host module.ir (registeredState s c imports name modules) imports →
      checkImports host module.ir (newModuleInstance c imports name)
        (registeredState s c imports name modules)
          = .ok () (registeredState s c imports name modules)) ∧
    (¬ ImportsMatch host module.ir (registeredState s c imports name modules) imports →
      ∃ e, instantiateModule host s c module imports name
          = .throw e (registeredState s c imports name modules) ∧
        ((∀ x, x ∈ module.ir.functions.imports → x.type.index < module.ir.types.length) →
          e = .linkError)) ∧
    (∀ mi s', instantiateModule host s c module imports name = .ok mi s' →
      ImportsMatch host module.ir (registeredState s c imports name modules) imports) ∧
    (registeredState s c imports name modules).allObjects = s.allObjects ++ [s.fresh] := by
  obtain ⟨c1, c2⟩ := checkImports_eq host module.ir c imports name
    (registeredState s c imports name modules)
  have hthrow : ¬ ImportsMatch host module.ir (registeredState s c imports name modules)
      imports → ∃ e, instantiateModule host s c module imports name
          = .throw e (registeredState s c imports name modules) ∧
        ((∀ x, x ∈ module.ir.functions.imports → x.type.index < module.ir.types.length) →
          e = .linkError) := by
    intro h
    obtain ⟨e, he1, he2⟩ := c2 h
    refine ⟨e, ?_, he2⟩
    rw [instantiateModule_eq host s c module imports name comp modules hc hm]
    unfold instantiatePhases instantiateDefinitions
    rw [he1]
    rfl
  refine ⟨c1, hthrow, fun mi s' hok => ?_, allObjects_registeredState s c imports name modules⟩
  by_contra h
  obtain ⟨e, he, _⟩ := hthrow h
  rw [he] at hok
  cases hok

theorem instantiateModule_checks_imports_witness :
    heapA.getCompartment 1
        = some { modules := [2], globals := [3], wavmIntrinsics := some 2 } ∧
      setAdd heapA.fresh [2] = some [2, 4] ∧
      ¬ ImportsMatch demoHost moduleA.ir (registeredState heapA 1 {} "a" [2, 4]) {} ∧
      instantiateModule demoHost heapA 1 moduleA {} "a"
        = .throw .linkError (registeredState heapA 1 {} "a" [2, 4]) ∧
      (registeredState heapA 1 {} "a" [2, 4]).allObjects = [1, 2, 3, 4] ∧
      checkImports demoHost moduleA.ir (newModuleInstance 1 importsA "a")
        (registeredState heapA 1 importsA "a" [2, 4])
          = .ok () (registeredState heapA 1 importsA "a" [2, 4]) :=
  have hno : ¬ ImportsMatch demoHost moduleA.ir (registeredState heapA 1 {} "a" [2, 4]) {} :=
    fun h => absurd h.2.2.2.1.1 (by decide)
  have hyes : ImportsMatch demoHost moduleA.ir (registeredState heapA 1 importsA "a" [2, 4])
      importsA :=
    ⟨⟨rfl, fun i hi => absurd (show i < 0 from hi) (Nat.not_lt_zero i)⟩, ⟨rfl, fun i hi => absurd (show i < 0 from hi) (Nat.not_lt_zero i)⟩,
      ⟨rfl, fun i hi => absurd (show i < 0 from hi) (Nat.not_lt_zero i)⟩,
      ⟨rfl, fun i hi => by
        have : i = 0 := by
          have : i < 1 := hi
          omega
        subst this
        rfl⟩,
      ⟨rfl, fun i hi => absurd (show i < 0 from hi) (Nat.not_lt_zero i)⟩⟩
  ⟨rfl, rfl, hno, by
      obtain ⟨e, he1, he2⟩ := (instantiateModule_checks_imports demoHost heapA 1 moduleA {} "a"
        { modules := [2], globals := [3], wavmIntrinsics := some 2 } [2, 4] rfl rfl).2.1 hno
      rw [he1, he2 (fun x hx => absurd (show x ∈ [] from hx) (List.not_mem_nil x))],
    rfl,
    (instantiateModule_checks_imports demoHost heapA 1 moduleA importsA "a"
      { modules := [2], globals := [3], wavmIntrinsics := some 2 } [2, 4] rfl rfl).1 hyes⟩

/-- The stages of a successful run of the phases, from the equations of its trace: the
instance value after the definitions other than functions were created (`i6`), after the
defined functions were created (`i7`), after the loader ran (`i8`), after the exports were
published (`i9`), after the passive segments were retained (`i12`). -/
theorem stages_of_trace (host : Host) (c mi : Ptr) (module : Module)
    (inst inst' : ModuleInstance) (s s' : RuntimeState) (hs : Sync s mi inst)
    (i2 i3 i4 i5 i6 i7 i8 i9 i12 : ModuleInstance)
    (s2 s3 s4 s5 s6 s7 s8 s9 s10 s11 s12 : RuntimeState)
    (h2 : instantiateTableDefs host (host.getDisassemblyNames module.ir) c mi
        module.ir.tables.imports.length module.ir.tables.defs 0 inst s = .ok i2 s2)
    (h3 : instantiateMemoryDefs host (host.getDisassemblyNames module.ir) c mi
        module.ir.memories.imports.length module.ir.memories.defs 0 i2 s2 = .ok i3 s3)
    (h4 : selectDefaults host mi i3 s3 = .ok i4 s4)
    (h5 : instantiateGlobalDefs host c mi module.ir.globals.defs i4 s4 = .ok i5 s5)
    (h6 : instantiateExceptionTypeDefs mi module.ir.exceptionTypes.defs i5 s5 = .ok i6 s6)
    (h7 : instantiateFunctionDefs (host.getDisassemblyNames module.ir) module.ir.types mi
        module.ir.functions.imports.length module.ir.functions.defs 0 i6 s6 = .ok i7 s7)
    (h8 : loadAndLink host c mi module i7 s7 = .ok i8 s8)
    (h9 : publishExports mi module.ir.exports i8 s8 = .ok i9 s9)
    (h10 : copyDataSegments i9 module.ir.dataSegments s9 = .ok () s10)
    (h11 : copyTableSegments host i9 module.ir.tableSegments s10 = .ok () s11)
    (h12 : retainPassiveSegments module.ir mi i9 s11 = .ok i12 s12)
    (h13 : selectStartFunction host module.ir mi i12 s12 = .ok inst' s') :
    ∃ (newT newM newG newE newF : List Ptr),
      (i6 = { inst with
          tables := inst.tables ++ newT.map some,
          memories := inst.memories ++ newM.map some,
          defaultMemory :=
            if (inst.memories ++ newM.map some).length ≠ 0 then
              (inst.memories ++ newM.map some).getD 0 none
            else inst.defaultMemory,
          defaultTable :=
            if (inst.tables ++ newT.map some).length ≠ 0 then
              (inst.tables ++ newT.map some).getD 0 none
            else inst.defaultTable,
          globals := inst.globals ++ newG.map some,
          exceptionTypes := inst.exceptionTypes ++ newE.map some } ∧
        Sync s6 mi i6) ∧
      (instantiateFunctionDefs (host.getDisassemblyNames module.ir) module.ir.types mi
          module.ir.functions.imports.length module.ir.functions.defs 0 i6 s6 = .ok i7 s7 ∧
        i7 = { i6 with functionDefs := i6.functionDefs ++ newF.map some,
                       functions := i6.functions ++ newF.map some } ∧
        Sync s7 mi i7) ∧
      (loadAndLink host c mi module i7 s7 = .ok i8 s8 ∧
        (∃ jh, i8 = { i7 with jitModule := some jh }) ∧ Sync s8 mi i8) ∧
      (publishExports mi module.ir.exports i8 s8 = .ok i9 s9 ∧
        (∃ em, i9 = { i8 with exportMap := em }) ∧ Sync s9 mi i9) ∧
      (copyDataSegments i9 module.ir.dataSegments s9 = .ok () s10 ∧ Sync s10 mi i9) ∧
      (copyTableSegments host i9 module.ir.tableSegments s10 = .ok () s11 ∧ Sync s11 mi i9) ∧
      (retainPassiveSegments module.ir mi i9 s11 = .ok i12 s12 ∧
        (∃ pts, retainPassiveTableSegments i9.functions module.ir.tableSegments 0
            i9.passiveTableSegments = some pts ∧
          i12 = { i9 with
            passiveDataSegments :=
              retainPassiveDataSegments module.ir.dataSegments 0 i9.passiveDataSegments,
            passiveTableSegments := pts }) ∧
        Sync s12 mi i12) ∧
      (selectStartFunction host module.ir mi i12 s12 = .ok inst' s' ∧
        ((module.ir.startFunctionIndex = UINTPTR_MAX ∧ inst' = i12) ∨
          (module.ir.startFunctionIndex ≠ UINTPTR_MAX ∧ ∃ f,
            i12.functions[module.ir.startFunctionIndex]? = some f ∧
            inst' = { i12 with startFunction := f })) ∧
        Sync s' mi inst') := by
  have T := instantiateTableDefs_spec host (host.getDisassemblyNames module.ir) c mi
    module.ir.tables.imports.length module.ir.tables.defs 0 inst s hs
  obtain ⟨hs2, newT, e2, _⟩ := T.ok i2 s2 h2
  have M := instantiateMemoryDefs_spec host (host.getDisassemblyNames module.ir) c mi
    module.ir.memories.imports.length module.ir.memories.defs 0 i2 s2 hs2
  obtain ⟨hs3, newM, e3, _⟩ := M.ok i3 s3 h3
  have D := selectDefaults_spec host mi i3 s3 hs3
  obtain ⟨hs4, e4, _⟩ := D.ok i4 s4 h4
  have G := instantiateGlobalDefs_spec host c mi module.ir.globals.defs i4 s4 hs4
  obtain ⟨hs5, newG, e5, _⟩ := G.ok i5 s5 h5
  have E := instantiateExceptionTypeDefs_spec mi module.ir.exceptionTypes.defs i5 s5 hs5
  obtain ⟨hs6, newE, e6, _⟩ := E.ok i6 s6 h6
  have F := instantiateFunctionDefs_spec (host.getDisassemblyNames module.ir) module.ir.types
    mi module.ir.functions.imports.length module.ir.functions.defs 0 i6 s6 hs6
  obtain ⟨hs7, newF, e7, _⟩ := F.ok i7 s7 h7
  have L := loadAndLink_spec host c mi module i7 s7 hs7
  obtain ⟨hs8, jh, e8⟩ := L.ok i8 s8 h8
  have X := publishExports_spec mi module.ir.exports i8 s8 hs8
  obtain ⟨hs9, em, e9, _⟩ := X.ok i9 s9 h9
  have DS := copyDataSegments_spec mi i9 i9 module.ir.dataSegments s9 hs9
  have hs10 := DS.2 () s10 h10
  have TS := copyTableSegments_spec host mi i9 i9 module.ir.tableSegments s10 hs10
  have hs11 := TS.2 () s11 h11
  have P := retainPassiveSegments_spec module.ir mi i9 s11 hs11
  obtain ⟨hs12, pts, p1, e12⟩ := P.ok i12 s12 h12
  have S := selectStartFunction_spec host module.ir mi i12 s12 hs12
  obtain ⟨hs13, st⟩ := S.ok inst' s' h13
  refine ⟨newT, newM, newG, newE, newF,
    ⟨?_, hs6⟩, ⟨h7, e7, hs7⟩, ⟨h8, ⟨jh, e8⟩, hs8⟩, ⟨h9, ⟨em, e9⟩, hs9⟩, ⟨h10, hs10⟩,
    ⟨h11, hs11⟩, ⟨h12, ⟨pts, p1, e12⟩, hs12⟩, h13, st, hs13⟩
  rw [e6, e5, e4, e3, e2]

/-- The stages of a successful run of the phases. -/
theorem instantiatePhases_stages (host : Host) (c mi : Ptr) (module : Module)
    (inst inst' : ModuleInstance) (s s' : RuntimeState) (hs : Sync s mi inst)
    (h : instantiatePhases host c mi module inst s = .ok inst' s') :
    ∃ (i6 : ModuleInstance) (s6 : RuntimeState) (i7 : ModuleInstance) (s7 : RuntimeState)
        (i8 : ModuleInstance) (s8 : RuntimeState) (i9 : ModuleInstance)
        (s9 s10 s11 : RuntimeState) (i12 : ModuleInstance) (s12 : RuntimeState)
        (newT newM newG newE newF : List Ptr),
      (i6 = { inst with
          tables := inst.tables ++ newT.map some,
          memories := inst.memories ++ newM.map some,
          defaultMemory :=
            if (inst.memories ++ newM.map some).length ≠ 0 then
              (inst.memories ++ newM.map some).getD 0 none
            else inst.defaultMemory,
          defaultTable :=
            if (inst.tables ++ newT.map some).length ≠ 0 then
              (inst.tables ++ newT.map some).getD 0 none
            else inst.defaultTable,
          globals := inst.globals ++ newG.map some,
          exceptionTypes := inst.exceptionTypes ++ newE.map some } ∧
        Sync s6 mi i6) ∧
      (instantiateFunctionDefs (host.getDisassemblyNames module.ir) module.ir.types mi
          module.ir.functions.imports.length module.ir.functions.defs 0 i6 s6 = .ok i7 s7 ∧
        i7 = { i6 with functionDefs := i6.functionDefs ++ newF.map some,
                       functions := i6.functions ++ newF.map some } ∧
        Sync s7 mi i7) ∧
      (loadAndLink host c mi module i7 s7 = .ok i8 s8 ∧
        (∃ jh, i8 = { i7 with jitModule := some jh }) ∧ Sync s8 mi i8) ∧
      (publishExports mi module.ir.exports i8 s8 = .ok i9 s9 ∧
        (∃ em, i9 = { i8 with exportMap := em }) ∧ Sync s9 mi i9) ∧
      (copyDataSegments i9 module.ir.dataSegments s9 = .ok () s10 ∧ Sync s10 mi i9) ∧
      (copyTableSegments host i9 module.ir.tableSegments s10 = .ok () s11 ∧ Sync s11 mi i9) ∧
      (retainPassiveSegments module.ir mi i9 s11 = .ok i12 s12 ∧
        (∃ pts, retainPassiveTableSegments i9.functions module.ir.tableSegments 0
            i9.passiveTableSegments = some pts ∧
          i12 = { i9 with
            passiveDataSegments :=
              retainPassiveDataSegments module.ir.dataSegments 0 i9.passiveDataSegments,
            passiveTableSegments := pts }) ∧
        Sync s12 mi i12) ∧
      (selectStartFunction host module.ir mi i12 s12 = .ok inst' s' ∧
        ((module.ir.startFunctionIndex = UINTPTR_MAX ∧ inst' = i12) ∨
          (module.ir.startFunctionIndex ≠ UINTPTR_MAX ∧ ∃ f,
            i12.functions[module.ir.startFunctionIndex]? = some f ∧
            inst' = { i12 with startFunction := f })) ∧
        Sync s' mi inst') := by
  obtain ⟨i2, s2, i3, s3, i4, s4, i5, s5, i6, s6, i7, s7, i8, s8, i9, s9, s10, s11, i12, s12,
    h1, h2, h3, h4, h5, h6, h7, h8, h9, h10, h11, h12, h13⟩ :=
    instantiatePhases_trace host c mi module inst inst' s s' h
  obtain ⟨newT, newM, newG, newE, newF, hfacts⟩ :=
    stages_of_trace host c mi module inst inst' s s' hs i2 i3 i4 i5 i6 i7 i8 i9 i12
      s2 s3 s4 s5 s6 s7 s8 s9 s10 s11 s12 h2 h3 h4 h5 h6 h7 h8 h9 h10 h11 h12 h13
  exact ⟨i6, s6, i7, s7, i8, s8, i9, s9, s10, s11, i12, s12, newT, newM, newG, newE, newF,
    hfacts⟩

/-! ## Publication of the exports -/

theorem exportedObject_exportMap_irrel (inst : ModuleInstance)
    (em : List (String × Option Ptr)) (x : Export) :
    exportedObject { inst with exportMap := em } x = exportedObject inst x := rfl

theorem assocAdd_eq_none {k : String} {v : Option Ptr} {l : List (String × Option Ptr)} :
    assocAdd k v l = none ↔ k ∈ l.map Prod.fst := by
  unfold assocAdd
  split <;> simp_all

/-- What the export loop does, by cases: it returns exactly when every export designates an
object, the export names are pairwise distinct and none is in the map already, and then the
keys of the map are the old keys followed by the export names in order. -/
theorem publishExports_cases (mi : Ptr) (exports : List Export) (inst : ModuleInstance)
    (s : RuntimeState) :
    (∀ inst' s', publishExports mi exports inst s = .ok inst' s' →
      (exports.map Export.name).Nodup ∧
      (∀ n, n ∈ exports.map Export.name → n ∉ inst.exportMap.map Prod.fst) ∧
      inst'.exportMap.map Prod.fst = inst.exportMap.map Prod.fst ++ exports.map Export.name) ∧
    ((∀ x, x ∈ exports → ∃ o, exportedObject inst x = .ok o) →
      ((exports.map Export.name).Nodup ∧
        (∀ n, n ∈ exports.map Export.name → n ∉ inst.exportMap.map Prod.fst) →
          ∃ inst' s', publishExports mi exports inst s = .ok inst' s') ∧
      (¬ ((exports.map Export.name).Nodup ∧
        (∀ n, n ∈ exports.map Export.name → n ∉ inst.exportMap.map Prod.fst)) →
          ∃ s', publishExports mi exports inst s = .throw .linkError s')) := by
  induction exports generalizing inst s with
  | nil =>
    refine ⟨fun inst' s' h => ?_, fun _ => ⟨fun _ => ⟨inst, s, rfl⟩, fun h => ?_⟩⟩
    · cases h
      simp
    · exact (h ⟨List.nodup_nil, fun n hn => by simp at hn⟩).elim
  | cons x rest ih =>
    unfold publishExports
    cases ho : exportedObject inst x with
    | error e =>
      refine ⟨fun inst' s' h => (by cases h), fun hall => ?_⟩
      obtain ⟨o, ho'⟩ := hall x (List.mem_cons_self _ _)
      rw [ho] at ho'
      cases ho'
    | ok o =>
      simp only
      unfold exportMapAddOrFail
      cases ha : assocAdd x.name o inst.exportMap with
      | none =>
        have hin := assocAdd_eq_none.1 ha
        refine ⟨fun inst' s' h => (by cases h), fun _ => ⟨fun hg => ?_, fun _ => ⟨s, rfl⟩⟩⟩
        exact (hg.2 x.name (by simp) hin).elim
      | some em1 =>
        simp only
        obtain ⟨hnew, hem1⟩ := assocAdd_eq_some ha
        obtain ⟨ih1, ih2⟩ := ih { inst with exportMap := em1 }
          (s.setModuleInstance mi { inst with exportMap := em1 })
        have hkeys : em1.map Prod.fst = inst.exportMap.map Prod.fst ++ [x.name] := by
          rw [hem1]
          simp
        have hgood : ((rest.map Export.name).Nodup ∧
            (∀ n, n ∈ rest.map Export.name → n ∉ em1.map Prod.fst)) ↔
            (((x :: rest).map Export.name).Nodup ∧
              (∀ n, n ∈ (x :: rest).map Export.name → n ∉ inst.exportMap.map Prod.fst)) := by
          rw [hkeys, List.map_cons]
          constructor
          · rintro ⟨h1, h2⟩
            refine ⟨List.nodup_cons.2 ⟨fun hx =>
              h2 x.name hx (List.mem_append_right _ (List.mem_singleton_self _)), h1⟩,
              fun n hn hk => ?_⟩
            rcases List.mem_cons.1 hn with e | hn'
            · rw [e] at hk
              exact hnew hk
            · exact h2 n hn' (List.mem_append_left _ hk)
          · rintro ⟨hnd, h3⟩
            obtain ⟨h1, h2⟩ := List.nodup_cons.1 hnd
            refine ⟨h2, fun n hn hk => ?_⟩
            rcases List.mem_append.1 hk with hk | hk
            · exact h3 n (List.mem_cons_of_mem _ hn) hk
            · rw [List.mem_singleton.1 hk] at hn
              exact h1 hn
        constructor
        · intro inst' s' h
          obtain ⟨g1, g2, g3⟩ := ih1 inst' s' h
          obtain ⟨k1, k2⟩ := hgood.1 ⟨g1, g2⟩
          refine ⟨k1, k2, ?_⟩
          rw [g3]
          simp only [hkeys, List.map_cons, List.append_assoc, List.singleton_append]
        · intro hall
          obtain ⟨j1, j2⟩ := ih2 (fun y hy => hall y (List.mem_cons_of_mem _ hy))
          exact ⟨fun hg => j1 (hgood.2 hg), fun hg => j2 (fun hg' => hg (hgood.1 hg'))⟩

theorem instantiateModule_phases (host : Host) (s : RuntimeState) (c : Ptr) (module : Module)
    (imports : ImportBindings) (name : String) (mi : Ptr) (s' : RuntimeState)
    (h : instantiateModule host s c module imports name = .ok mi s') :
    mi = s.fresh ∧ ∃ comp modules inst',
      s.getCompartment c = some comp ∧ setAdd s.fresh comp.modules = some modules ∧
      instantiatePhases host c s.fresh module (newModuleInstance c imports name)
        (registeredState s c imports name modules) = .ok inst' s' ∧
      Sync (registeredState s c imports name modules) s.fresh
        (newModuleInstance c imports name) := by
  cases hc : s.getCompartment c with
  | none =>
    unfold instantiateModule at h
    rw [hc] at h
    cases h
  | some comp =>
    cases hm : setAdd s.fresh comp.modules with
    | none =>
      unfold instantiateModule at h
      rw [hc] at h
      simp only [hm] at h
      cases h
    | some modules =>
      rw [instantiateModule_eq host s c module imports name comp modules hc hm] at h
      obtain ⟨inst', s1, h1, h2⟩ := Outcome.bind_eq_ok.1 h
      cases h2
      exact ⟨rfl, comp, modules, inst', rfl, hm, h1,
        registeredState_sync s c imports name modules comp hc⟩

/-- C12: when the export list of the module holds the same name twice, `instantiateModule`
returns no instance; at export publication (every export designating an object, the export
map still empty) the loop fails with `link-error` in that case, and with pairwise distinct
names it returns with exactly one entry per export, in order.  After a successful
instantiation the keys of the export map are the export names of the module IR. -/
theorem instantiateModule_export_names (host : Host) (s : RuntimeState) (c : Ptr)
    (module : Module) (imports : ImportBindings) (name : String) :
    (¬ (module.ir.exports.map Export.name).Nodup →
      (instantiateModule host s c module imports name).value? = none) ∧
    (∀ mi s', instantiateModule host s c module imports name = .ok mi s' →
      ∃ inst, s'.getModuleInstance mi = some inst ∧
        inst.exportMap.map Prod.fst = module.ir.exports.map Export.name ∧
        inst.exportMap.length = module.ir.exports.length) ∧
    (∀ mi (inst : ModuleInstance) (st : RuntimeState), inst.exportMap = [] →
      (∀ x, x ∈ module.ir.exports → ∃ o, exportedObject inst x = .ok o) →
      ((module.ir.exports.map Export.name).Nodup →
        ∃ inst' st', publishExports mi module.ir.exports inst st = .ok inst' st' ∧
          inst'.exportMap.map Prod.fst = module.ir.exports.map Export.name) ∧
      (¬ (module.ir.exports.map Export.name).Nodup →
        ∃ st', publishExports mi module.ir.exports inst st = .throw .linkError st')) := by
  have hok : ∀ mi s', instantiateModule host s c module imports name = .ok mi s' →
      (module.ir.exports.map Export.name).Nodup ∧
      ∃ inst, s'.getModuleInstance mi = some inst ∧
        inst.exportMap.map Prod.fst = module.ir.exports.map Export.name := by
    intro mi s' h
    obtain ⟨hmi, comp, modules, inst', _, _, hph, hsync⟩ :=
      instantiateModule_phases host s c module imports name mi s' h
    obtain ⟨i6, s6, i7, s7, i8, s8, i9, s9, s10, s11, i12, s12, newT, newM, newG, newE, newF,
      ⟨e6, _⟩, ⟨_, e7, _⟩, ⟨_, ⟨jh, e8⟩, _⟩, ⟨h9, _, _⟩, _, _, ⟨_, ⟨pts, _, e12⟩, _⟩,
      _, st, hs'⟩ := instantiatePhases_stages host c s.fresh module _ inst' _ s' hsync hph
    obtain ⟨g1, _, g3⟩ := (publishExports_cases s.fresh module.ir.exports i8 s8).1 i9 s9 h9
    have h8 : i8.exportMap = [] := by
      rw [e8, e7, e6]
      rfl
    rw [h8] at g3
    have hfin : inst'.exportMap = i9.exportMap := by
      rcases st with ⟨_, rfl⟩ | ⟨_, f, _, rfl⟩ <;> rw [e12]
    refine ⟨g1, inst', ?_, ?_⟩
    · rw [hmi]
      exact hs'.getModuleInstance
    · rw [hfin, g3]
      rfl
  refine ⟨fun hdup => ?_, fun mi s' h => ?_, fun mi inst st hem hall => ?_⟩
  · cases hx : instantiateModule host s c module imports name with
    | throw e s1 => rfl
    | ok mi s1 => exact (hdup (hok mi s1 hx).1).elim
  · obtain ⟨_, inst, h1, h2⟩ := hok mi s' h
    refine ⟨inst, h1, h2, ?_⟩
    have := congrArg List.length h2
    simpa using this
  · obtain ⟨c1, c2⟩ := publishExports_cases mi module.ir.exports inst st
    obtain ⟨d1, d2⟩ := c2 hall
    constructor
    · intro hnd
      obtain ⟨inst', st', hp⟩ := d1 ⟨hnd, fun n _ => by simp [hem]⟩
      refine ⟨inst', st', hp, ?_⟩
      rw [(c1 inst' st' hp).2.2, hem]
      rfl
    · intro hdup
      exact d2 (fun hg => hdup hg.1)

theorem instantiateModule_export_names_witness :
    ¬ (moduleDup.ir.exports.map Export.name).Nodup ∧
      (instantiateModule demoHost heapA 1 moduleDup importsA "a").value? = none ∧
      (instantiateModule demoHost heapA 1 moduleDup importsA "a").exception?
        = some .linkError ∧
      instantiateModule demoHost heapA 1 moduleA importsA "a" = .ok 4 heapAInstantiated ∧
      ∃ inst, heapAInstantiated.getModuleInstance 4 = some inst ∧
        inst.exportMap.map Prod.fst = ["main", "g", "mem"] ∧ inst.exportMap.length = 3 :=
  ⟨by decide,
    (instantiateModule_export_names demoHost heapA 1 moduleDup importsA "a").1 (by decide),
    by decide, rfl,
    (instantiateModule_export_names demoHost heapA 1 moduleA importsA "a").2.1 4
      heapAInstantiated rfl⟩

/-! ## Passive segments -/

theorem assocAddIfAbsent_get {β : Type} (k : Nat) (v : β) (l : List (Nat × β)) (i : Nat)
    (hk : k ∉ l.map Prod.fst) :
    assocGet i (assocAddIfAbsent k v l) = if i = k then some v else assocGet i l := by
  unfold assocAddIfAbsent assocAdd
  simp only [hk, if_false]
  rw [assocGet_append_single]
  by_cases h : i = k
  · subst h
    rw [assocGet_eq_none.2 hk]
  · have : ¬ k = i := fun e => h e.symm
    cases assocGet i l <;> simp [h, this]

theorem retainPassiveDataSegments_get (segments : List DataSegment) (k : Nat)
    (acc : List (Nat × List Nat)) (hacc : ∀ i, i ∈ acc.map Prod.fst → i < k) (i : Nat) :
    assocGet i (retainPassiveDataSegments segments k acc) =
      if i < k then assocGet i acc
      else (segments[i - k]?).bind fun seg => if seg.isActive then none else some seg.data := by
  induction segments generalizing k acc with
  | nil =>
    unfold retainPassiveDataSegments
    by_cases h : i < k
    · simp [h]
    · simp only [h, if_false, List.getElem?_nil, Option.none_bind]
      exact assocGet_eq_none.2 (fun hm => h (hacc i hm))
  | cons d rest ih =>
    unfold retainPassiveDataSegments
    have hk : k ∉ acc.map Prod.fst := fun hm => Nat.lt_irrefl _ (hacc k hm)
    cases hact : d.isActive with
    | true =>
      simp only [Bool.not_true, Bool.false_eq_true, if_false]
      rw [ih (k + 1) acc (fun j hj => Nat.lt_succ_of_lt (hacc j hj))]
      by_cases h1 : i < k
      · simp [h1, Nat.lt_succ_of_lt h1]
      · by_cases h2 : i = k
        · subst h2
          simp [hact, assocGet_eq_none.2 hk]
        · have h3 : ¬ i < k + 1 := by omega
          have h4 : i - k = (i - (k + 1)) + 1 := by omega
          simp only [h1, h3, if_false, h4, List.getElem?_cons_succ]
    | false =>
      simp only [Bool.not_false, if_true]
      rw [ih (k + 1) (assocAddIfAbsent k d.data acc) (fun j hj => by
        unfold assocAddIfAbsent assocAdd at hj
        simp only [hk, if_false, List.map_append, List.map_cons, List.map_nil,
          List.mem_append, List.mem_singleton] at hj
        rcases hj with hj | hj
        · exact Nat.lt_succ_of_lt (hacc j hj)
        · omega)]
      rw [assocAddIfAbsent_get k d.data acc i hk]
      by_cases h1 : i < k
      · have : i ≠ k := by omega
        simp [h1, Nat.lt_succ_of_lt h1, this]
      · by_cases h2 : i = k
        · subst h2
          simp [hact]
        · have h3 : ¬ i < k + 1 := by omega
          have h4 : i - k = (i - (k + 1)) + 1 := by omega
          simp only [h1, h3, if_false, h4, List.getElem?_cons_succ]

theorem retainPassiveTableSegments_get (functions : List (Option Ptr))
    (segments : List TableSegment) (k : Nat) (acc res : List (Nat × List (Option Ptr)))
    (hacc : ∀ i, i ∈ acc.map Prod.fst → i < k)
    (h : retainPassiveTableSegments functions segments k acc = some res) (i : Nat) :
    assocGet i res =
      if i < k then assocGet i acc
      else (segments[i - k]?).bind fun seg =>
        if seg.isActive then none else passiveTableSegmentObjects functions seg.indices := by
  induction segments generalizing k acc with
  | nil =>
    unfold retainPassiveTableSegments at h
    cases h
    by_cases h1 : i < k
    · simp [h1]
    · simp only [h1, if_false, List.getElem?_nil, Option.none_bind]
      exact assocGet_eq_none.2 (fun hm => h1 (hacc i hm))
  | cons d rest ih =>
    unfold retainPassiveTableSegments at h
    have hk : k ∉ acc.map Prod.fst := fun hm => Nat.lt_irrefl _ (hacc k hm)
    cases hact : d.isActive with
    | true =>
      simp only [hact, Bool.not_true, Bool.false_eq_true, if_false] at h
      rw [ih (k + 1) acc (fun j hj => Nat.lt_succ_of_lt (hacc j hj)) h]
      by_cases h1 : i < k
      · simp [h1, Nat.lt_succ_of_lt h1]
      · by_cases h2 : i = k
        · subst h2
          simp [hact, assocGet_eq_none.2 hk]
        · have h3 : ¬ i < k + 1 := by omega
          have h4 : i - k = (i - (k + 1)) + 1 := by omega
          simp only [h1, h3, if_false, h4, List.getElem?_cons_succ]
    | false =>
      simp only [hact, Bool.not_false, if_true] at h
      cases hobj : passiveTableSegmentObjects functions d.indices with
      | none => simp [hobj] at h
      | some objs =>
        simp only [hobj] at h
        rw [ih (k + 1) (assocAddIfAbsent k objs acc) (fun j hj => by
          unfold assocAddIfAbsent assocAdd at hj
          simp only [hk, if_false, List.map_append, List.map_cons, List.map_nil,
            List.mem_append, List.mem_singleton] at hj
          rcases hj with hj | hj
          · exact Nat.lt_succ_of_lt (hacc j hj)
          · omega) h]
        rw [assocAddIfAbsent_get k objs acc i hk]
        by_cases h1 : i < k
        · have : i ≠ k := by omega
          simp [h1, Nat.lt_succ_of_lt h1, this]
        · by_cases h2 : i = k
          · subst h2
            simp [hact, hobj]
          · have h3 : ¬ i < k + 1 := by omega
            have h4 : i - k = (i - (k + 1)) + 1 := by omega
            simp only [h1, h3, if_false, h4, List.getElem?_cons_succ]

theorem passiveTableSegmentObjects_eq (functions : List (Option Ptr)) (indices : List Nat)
    (objs : List (Option Ptr)) (h : passiveTableSegmentObjects functions indices = some objs) :
    List.Forall₂ (fun k o => functions[k]? = some o) indices objs := by
  induction indices generalizing objs with
  | nil =>
    cases h
    exact List.Forall₂.nil
  | cons k rest ih =>
    unfold passiveTableSegmentObjects at h
    cases hf : functions[k]? with
    | none => simp [hf] at h
    | some o =>
      simp only [hf] at h
      cases hr : passiveTableSegmentObjects functions rest with
      | none => simp [hr] at h
      | some os =>
        simp only [hr, Option.map_some', Option.some.injEq] at h
        subst h
        exact List.Forall₂.cons hf (ih os hr)

theorem retainPassiveTableSegments_found (functions : List (Option Ptr))
    (segs : List TableSegment) (k : Nat) (acc res : List (Nat × List (Option Ptr)))
    (hres : retainPassiveTableSegments functions segs k acc = some res)
    (sg : TableSegment) (hsg : sg ∈ segs) (hsa : sg.isActive = false) :
    ∃ objs, passiveTableSegmentObjects functions sg.indices = some objs := by
  induction segs generalizing k acc with
  | nil => simp at hsg
  | cons d rest ih =>
    unfold retainPassiveTableSegments at hres
    cases hda : d.isActive with
    | true =>
      simp only [hda, Bool.not_true, Bool.false_eq_true, if_false] at hres
      rcases List.mem_cons.1 hsg with e | hsg'
      · rw [e, hda] at hsa
        cases hsa
      · exact ih _ _ hres hsg'
    | false =>
      simp only [hda, Bool.not_false, if_true] at hres
      cases hdo : passiveTableSegmentObjects functions d.indices with
      | none => simp [hdo] at hres
      | some objs =>
        simp only [hdo] at hres
        rcases List.mem_cons.1 hsg with e | hsg'
        · rw [e, hdo]
          exact ⟨objs, rfl⟩
        · exact ih _ _ hres hsg'

/-- C13: after a successful `instantiateModule`, the keys of `passiveDataSegments` are exactly
the indices of the data segments that are not active and the value at such an index is the
segment's data; the keys of `passiveTableSegments` are exactly the indices of the element
segments that are not active and the value at such an index is the list of
`instance.functions[k]` for `k` ranging over the segment's indices in order; an active segment
has no entry in either map. -/
theorem instantiateModule_passive_segments (host : Host) (s : RuntimeState) (c : Ptr)
    (module : Module) (imports : ImportBindings) (name : String) (mi : Ptr) (s' : RuntimeState)
    (h : instantiateModule host s c module imports name = .ok mi s') :
    ∃ inst, s'.getModuleInstance mi = some inst ∧
      (∀ i, i ∈ inst.passiveDataSegments.map Prod.fst ↔
        ∃ seg, module.ir.dataSegments[i]? = some seg ∧ seg.isActive = false) ∧
      (∀ i (seg : DataSegment), module.ir.dataSegments[i]? = some seg →
        assocGet i inst.passiveDataSegments = if seg.isActive then none else some seg.data) ∧
      (∀ j, j ∈ inst.passiveTableSegments.map Prod.fst ↔
        ∃ seg, module.ir.tableSegments[j]? = some seg ∧ seg.isActive = false) ∧
      (∀ j (seg : TableSegment), module.ir.tableSegments[j]? = some seg →
        if seg.isActive then assocGet j inst.passiveTableSegments = none
        else ∃ objs, assocGet j inst.passiveTableSegments = some objs ∧
          List.Forall₂ (fun k o => inst.functions[k]? = some o) seg.indices objs) := by
  obtain ⟨_, comp, modules, inst, newF, newT, newM, newG, newE, _, _, hsync, _, hI⟩ :=
    instantiateModule_ok host s c module imports name mi s' h
  have hd : ∀ i, assocGet i inst.passiveDataSegments =
      (module.ir.dataSegments[i]?).bind fun seg =>
        if seg.isActive then none else some seg.data := by
    intro i
    rw [hI.passiveDataSegments,
      retainPassiveDataSegments_get module.ir.dataSegments 0 _ (fun j hj => by
        simp [newModuleInstance] at hj) i]
    simp
  have ht : ∀ j, assocGet j inst.passiveTableSegments =
      (module.ir.tableSegments[j]?).bind fun seg =>
        if seg.isActive then none
        else passiveTableSegmentObjects inst.functions seg.indices := by
    intro j
    rw [retainPassiveTableSegments_get inst.functions module.ir.tableSegments 0 _ _
      (fun j hj => by simp [newModuleInstance] at hj) hI.passiveTableSegments j]
    simp
  have hfound : ∀ j (seg : TableSegment), module.ir.tableSegments[j]? = some seg →
      seg.isActive = false →
      ∃ objs, passiveTableSegmentObjects inst.functions seg.indices = some objs :=
    fun j seg hseg hact => retainPassiveTableSegments_found inst.functions _ _ _ _
      hI.passiveTableSegments seg (List.mem_iff_getElem?.2 ⟨j, hseg⟩) hact
  refine ⟨inst, hsync.getModuleInstance, fun i => ?_, fun i seg hseg => ?_, fun j => ?_,
    fun j seg hseg => ?_⟩
  · rw [← assocGet_isSome, hd i]
    cases hseg : module.ir.dataSegments[i]? with
    | none => simp
    | some seg => cases hact : seg.isActive <;> simp [hact]
  · rw [hd i, hseg]
    rfl
  · rw [← assocGet_isSome, ht j]
    cases hseg : module.ir.tableSegments[j]? with
    | none => simp
    | some seg =>
      cases hact : seg.isActive with
      | true => simp [hact]
      | false =>
        obtain ⟨objs, hobj⟩ := hfound j seg hseg hact
        simp [hact, hobj]
  · have := ht j
    rw [hseg] at this
    cases hact : seg.isActive with
    | true =>
      rw [this]
      simp [hact]
    | false =>
      obtain ⟨objs, hobj⟩ := hfound j seg hseg hact
      simp only [Bool.false_eq_true, if_false]
      refine ⟨objs, ?_, passiveTableSegmentObjects_eq _ _ _ hobj⟩
      rw [this]
      simp [hact, hobj]

theorem instantiateModule_passive_segments_witness :
    instantiateModule demoHost heapB 1 moduleP {} "p" = .ok 3 heapPInstantiated ∧
      (heapPInstantiated.getModuleInstance 3).map
          (fun i => (i.passiveDataSegments, i.passiveTableSegments, i.functions))
        = some ([(0, [1, 2, 3])], [(1, [some 6, some 6])], [some 6]) ∧
      ∃ inst, heapPInstantiated.getModuleInstance 3 = some inst ∧
        (∀ i, i ∈ inst.passiveDataSegments.map Prod.fst ↔
          ∃ seg, moduleP.ir.dataSegments[i]? = some seg ∧ seg.isActive = false) ∧
        (∀ i (seg : DataSegment), moduleP.ir.dataSegments[i]? = some seg →
          assocGet i inst.passiveDataSegments = if seg.isActive then none else some seg.data) ∧
        (∀ j, j ∈ inst.passiveTableSegments.map Prod.fst ↔
          ∃ seg, moduleP.ir.tableSegments[j]? = some seg ∧ seg.isActive = false) ∧
        (∀ j (seg : TableSegment), moduleP.ir.tableSegments[j]? = some seg →
          if seg.isActive then assocGet j inst.passiveTableSegments = none
          else ∃ objs, assocGet j inst.passiveTableSegments = some objs ∧
            List.Forall₂ (fun k o => inst.functions[k]? = some o) seg.indices objs) :=
  ⟨rfl, rfl,
    instantiateModule_passive_segments demoHost heapB 1 moduleP {} "p" 3 heapPInstantiated rfl⟩

/-! ## Start function and defaults -/

theorem getFunction_setModuleInstance (s : RuntimeState) (mi : Ptr) (inst inst' : ModuleInstance)
    (hs : Sync s mi inst) (p : Ptr) (f : FunctionInstance) (hf : s.getFunction p = some f) :
    (s.setModuleInstance mi inst').getFunction p = some f := by
  obtain ⟨n, hn⟩ := getFunction_eq.1 hf
  obtain ⟨k, hk⟩ := hs
  have hne : p ≠ mi := by
    intro e
    rw [e, hk] at hn
    cases hn
  apply getFunction_eq.2
  exact ⟨n, by
    unfold RuntimeState.setModuleInstance
    rw [get_modifyData_ne _ _ _ _ hne]
    exact hn⟩

theorem selectStartFunction_assert (host : Host) (ir : IRModule) (mi : Ptr)
    (inst inst' : ModuleInstance) (s s' : RuntimeState) (hs : Sync s mi inst)
    (ha : host.assertsEnabled = true) (h0 : ir.startFunctionIndex ≠ UINTPTR_MAX)
    (h : selectStartFunction host ir mi inst s = .ok inst' s') :
    ∃ p f, inst'.startFunction = some p ∧ s'.getFunction p = some f ∧
      f.type = ({} : FunctionType) := by
  unfold selectStartFunction at h
  rw [if_pos h0] at h
  cases hf : inst.functions[ir.startFunctionIndex]? with
  | none => simp [hf] at h
  | some sf =>
    simp only [hf, ha, if_true] at h
    cases hg : sf.bind s.getFunction with
    | none => simp [hg] at h
    | some f =>
      simp only [hg] at h
      by_cases ht : f.type = ({} : FunctionType)
      · simp only [ht, if_true, Outcome.ok.injEq] at h
        obtain ⟨rfl, rfl⟩ := h
        cases sf with
        | none => simp at hg
        | some p =>
          simp only [Option.some_bind] at hg
          exact ⟨p, f, rfl, getFunction_setModuleInstance s mi inst _ hs p f hg, ht⟩
      · simp [ht] at h

/-- C14: after a successful `instantiateModule`, `getStartFunction` is null when the module IR
declares no start function (`startFunctionIndex = UINTPTR_MAX`) and is
`instance.functions[startFunctionIndex]` when it declares one; when assertions are compiled
in, that function is a function instance of type `() -> ()`. -/
theorem getStartFunction_resolved (host : Host) (s : RuntimeState) (c : Ptr)
    (module : Module) (imports : ImportBindings) (name : String) (mi : Ptr) (s' : RuntimeState)
    (h : instantiateModule host s c module imports name = .ok mi s') :
    ∃ inst, s'.getModuleInstance mi = some inst ∧
      (module.ir.startFunctionIndex = UINTPTR_MAX → getStartFunction inst = none) ∧
      (module.ir.startFunctionIndex ≠ UINTPTR_MAX →
        inst.functions[module.ir.startFunctionIndex]? = some (getStartFunction inst) ∧
        (host.assertsEnabled = true → ∃ p f, getStartFunction inst = some p ∧
          s'.getFunction p = some f ∧ f.type = ({} : FunctionType))) := by
  obtain ⟨hmi, comp, modules, inst', _, _, hph, hsync⟩ :=
    instantiateModule_phases host s c module imports name mi s' h
  obtain ⟨i6, s6, i7, s7, i8, s8, i9, s9, s10, s11, i12, s12, newT, newM, newG, newE, newF,
    ⟨e6, _⟩, ⟨_, e7, _⟩, ⟨_, ⟨jh, e8⟩, _⟩, ⟨_, ⟨em, e9⟩, _⟩, _, _, ⟨_, ⟨pts, _, e12⟩, hs12⟩,
    h13, st, hs'⟩ := instantiatePhases_stages host c s.fresh module _ inst' _ s' hsync hph
  refine ⟨inst', by rw [hmi]; exact hs'.getModuleInstance, fun h0 => ?_, fun h0 => ⟨?_, ?_⟩⟩
  · rcases st with ⟨_, rfl⟩ | ⟨h1, _⟩
    · unfold getStartFunction
      rw [e12, e9, e8, e7, e6]
      rfl
    · exact (h1 h0).elim
  · rcases st with ⟨h1, _⟩ | ⟨_, f, hf, rfl⟩
    · exact (h0 h1).elim
    · exact hf
  · intro ha
    exact selectStartFunction_assert host module.ir s.fresh i12 inst' s12 s' hs12 ha h0 h13

theorem getStartFunction_resolved_witness :
    instantiateModule demoHost heapB 1 moduleP {} "p" = .ok 3 heapPInstantiated ∧
      moduleP.ir.startFunctionIndex = 0 ∧
      instantiateModule demoHost heapB 1 (moduleB 0 []) {} "b"
        = .ok 3 (instantiateModule demoHost heapB 1 (moduleB 0 []) {} "b").state ∧
      (∃ inst, heapPInstantiated.getModuleInstance 3 = some inst ∧
        inst.functions[0]? = some (getStartFunction inst) ∧ getStartFunction inst = some 6) ∧
      (∃ inst, (instantiateModule demoHost heapB 1 (moduleB 0 []) {} "b").state.getModuleInstance
          3 = some inst ∧ getStartFunction inst = none) := by
  obtain ⟨inst, h1, _, h3⟩ :=
    getStartFunction_resolved demoHost heapB 1 moduleP {} "p" 3 heapPInstantiated rfl
  obtain ⟨inst2, k1, k2, _⟩ :=
    getStartFunction_resolved demoHost heapB 1 (moduleB 0 []) {} "b" 3 _ rfl
  refine ⟨rfl, rfl, rfl, ⟨inst, h1, (h3 (by decide)).1, ?_⟩, ⟨inst2, k1, k2 rfl⟩⟩
  have e : heapPInstantiated.getModuleInstance 3 = some _ := rfl
  rw [e] at h1
  cases h1
  rfl

theorem selectDefaults_assert (host : Host) (mi : Ptr) (inst : ModuleInstance)
    (s : RuntimeState) :
    (inst.memories.length ≤ 1 → ∃ inst' s', selectDefaults host mi inst s = .ok inst' s') ∧
    (host.assertsEnabled = true → 2 ≤ inst.memories.length →
      selectDefaults host mi inst s = .throw .fatal s) ∧
    (host.assertsEnabled = false → ∃ inst' s', selectDefaults host mi inst s = .ok inst' s') := by
  unfold selectDefaults
  refine ⟨fun hle => ?_, fun ha h2 => ?_, fun ha => ?_⟩
  · by_cases hm : inst.memories.length = 0
    · simp only [hm, bne_self_eq_false, Bool.false_eq_true, if_false, Outcome.bind]
      split <;> exact ⟨_, _, rfl⟩
    · have h1 : inst.memories.length = 1 := by omega
      simp only [h1, wavmAssert, Outcome.bind]
      simp only [bne_iff_ne, ne_eq, one_ne_zero, not_false_eq_true, if_true, beq_self_eq_true,
        Bool.not_true, Bool.and_false, Bool.false_eq_true, if_false]
      split <;> exact ⟨_, _, rfl⟩
  · have hne : (inst.memories.length != 0) = true := by
      simp only [bne_iff_ne, ne_eq]
      omega
    have hne1 : (inst.memories.length == 1) = false := by
      simp only [beq_eq_false_iff_ne, ne_eq]
      omega
    simp only [hne, if_true, wavmAssert, ha, hne1, Bool.not_false, Bool.and_self, Outcome.bind]
  · by_cases hm : inst.memories.length = 0
    · simp only [hm, bne_self_eq_false, Bool.false_eq_true, if_false, Outcome.bind]
      split <;> exact ⟨_, _, rfl⟩
    · have hne : (inst.memories.length != 0) = true := by
        simp only [bne_iff_ne, ne_eq]
        exact hm
      simp only [hne, if_true, wavmAssert, ha, Bool.false_and, Bool.false_eq_true, if_false,
        Outcome.bind]
      split <;> exact ⟨_, _, rfl⟩

/-- C15: after a successful `instantiateModule`, `getDefaultMemory` is `instance.memories[0]`
when the instance has a memory (imports plus definitions) and null otherwise, and
`getDefaultTable` is `instance.tables[0]` when it has a table and null otherwise.  The
assertion `memories.size() == 1` of the phase that selects the defaults never fails on an
instance with at most one memory; when assertions are compiled in it fails on two or more
memories, so a successful instantiation then has at most one. -/
theorem getDefaultMemory_first (host : Host) (s : RuntimeState) (c : Ptr)
    (module : Module) (imports : ImportBindings) (name : String) :
    (∀ mi s', instantiateModule host s c module imports name = .ok mi s' →
      ∃ inst, s'.getModuleInstance mi = some inst ∧
        inst.memories.length
          = module.ir.memories.imports.length + module.ir.memories.defs.length ∧
        inst.tables.length = module.ir.tables.imports.length + module.ir.tables.defs.length ∧
        (inst.memories = [] → getDefaultMemory inst = none) ∧
        (∀ m rest, inst.memories = m :: rest → getDefaultMemory inst = m) ∧
        (inst.tables = [] → getDefaultTable inst = none) ∧
        (∀ t rest, inst.tables = t :: rest → getDefaultTable inst = t) ∧
        (host.assertsEnabled = true → inst.memories.length ≤ 1)) ∧
    (∀ mi (inst : ModuleInstance) (st : RuntimeState),
      (inst.memories.length ≤ 1 → ∃ inst' st', selectDefaults host mi inst st = .ok inst' st') ∧
      (host.assertsEnabled = true → 2 ≤ inst.memories.length →
        selectDefaults host mi inst st = .throw .fatal st)) := by
  refine ⟨fun mi s' h => ?_, fun mi inst st =>
    ⟨(selectDefaults_assert host mi inst st).1, (selectDefaults_assert host mi inst st).2.1⟩⟩
  obtain ⟨_, comp, modules, inst, newF, newT, newM, newG, newE, _, _, hsync, _, hI⟩ :=
    instantiateModule_ok host s c module imports name mi s' h
  have hm : inst.memories.length
      = module.ir.memories.imports.length + module.ir.memories.defs.length := by
    rw [hI.memories, List.length_append, List.length_map, hI.importMemories,
      hI.newMemories.length_eq]
  have ht : inst.tables.length
      = module.ir.tables.imports.length + module.ir.tables.defs.length := by
    rw [hI.tables, List.length_append, List.length_map, hI.importTables,
      hI.newTables.length_eq]
  refine ⟨inst, hsync.getModuleInstance, hm, ht, fun he => ?_, fun m rest he => ?_,
    fun he => ?_, fun t rest he => ?_, fun ha => ?_⟩
  · unfold getDefaultMemory
    rw [hI.defaultMemory, he]
    rfl
  · unfold getDefaultMemory
    rw [hI.defaultMemory, he]
    rfl
  · unfold getDefaultTable
    rw [hI.defaultTable, he]
    rfl
  · unfold getDefaultTable
    rw [hI.defaultTable, he]
    rfl
  · by_cases h0 : inst.memories.length = 0
    · omega
    · have := hI.memoriesAssert ha h0
      omega

theorem getDefaultMemory_first_witness :
    instantiateModule demoHost heapB 1 moduleP {} "p" = .ok 3 heapPInstantiated ∧
      ∃ inst, heapPInstantiated.getModuleInstance 3 = some inst ∧
        inst.memories = [some 5] ∧ inst.tables = [some 4] ∧
        getDefaultMemory inst = some 5 ∧ getDefaultTable inst = some 4 := by
  obtain ⟨inst, h1, _, _, _, h5, _, h7, _⟩ :=
    (getDefaultMemory_first demoHost heapB 1 moduleP {} "p").1 3 heapPInstantiated rfl
  have e : heapPInstantiated.getModuleInstance 3 = some _ := rfl
  rw [e] at h1
  cases h1
  exact ⟨rfl, _, e, rfl, rfl, h5 (some 5) [] rfl, h7 (some 4) [] rfl⟩

/-! ## The defined functions and the bindings handed to the loader -/

theorem instantiateDefinitions_eq (host : Host) (c mi : Ptr) (module : Module)
    (inst : ModuleInstance) (s : RuntimeState) :
    instantiateDefinitions host c mi module inst s =
      (instantiateBeforeLoad host c mi module inst s).bind fun inst s =>
      (loadAndLink host c mi module inst s).bind fun inst s =>
      publishExports mi module.ir.exports inst s := by
  unfold instantiateDefinitions instantiateBeforeLoad
  simp only [Outcome.bind_assoc]

theorem instantiateFunctionDefs_keeps (names : DisassemblyNames) (types : List FunctionType)
    (mi : Ptr) (numImports : Nat) (defs : List FunctionDef) (idx : Nat) (inst inst' : ModuleInstance)
    (s s' : RuntimeState) (hs : Sync s mi inst)
    (h : instantiateFunctionDefs names types mi numImports defs idx inst s = .ok inst' s')
    (p : Ptr) (f : FunctionInstance) (hf : s.getFunction p = some f) :
    s'.getFunction p = some f := by
  induction defs generalizing idx inst s with
  | nil =>
    cases h
    exact hf
  | cons d rest ih =>
    unfold instantiateFunctionDefs at h
    cases hty : types[d.type.index]? with
    | none => simp [hty] at h
    | some type =>
      simp only [hty] at h
      have hsync := hs.syncConstruct (.function
          { moduleInstance := some mi, type := type, nativeFunction := none,
            callingConvention := .wasm,
            debugName := functionDebugName names numImports idx })
      obtain ⟨_, hs2⟩ := hsync.frame_set false false
        { inst with functionDefs := inst.functionDefs ++ [some s.fresh],
                    functions := inst.functions ++ [some s.fresh] } rfl
      refine ih (idx + 1) _ _ hs2 h ?_
      apply getFunction_setModuleInstance _ _ _ _ hsync
      obtain ⟨n, hn⟩ := getFunction_eq.1 hf
      exact getFunction_eq.2 ⟨n, get_construct_of_get _ _ _ _ hn⟩

/-- The function instances the loop creates: one per definition, in order, each with the
resolved type, calling convention `wasm`, the new instance as module instance, and no machine
code yet. -/
theorem instantiateFunctionDefs_native (names : DisassemblyNames) (types : List FunctionType)
    (mi : Ptr) (numImports : Nat) (defs : List FunctionDef) (idx : Nat) (inst inst' : ModuleInstance)
    (s s' : RuntimeState) (hs : Sync s mi inst)
    (h : instantiateFunctionDefs names types mi numImports defs idx inst s = .ok inst' s') :
    ∃ new : List Ptr,
      inst' = { inst with functionDefs := inst.functionDefs ++ new.map some,
                          functions := inst.functions ++ new.map some } ∧
      List.Forall₂ (fun p (d : FunctionDef) => s.get p = none ∧
        ∃ f type, s'.getFunction p = some f ∧ types[d.type.index]? = some type ∧
          f.type = type ∧ f.callingConvention = .wasm ∧ f.moduleInstance = some mi ∧
          f.nativeFunction = none) new defs := by
  induction defs generalizing idx inst s with
  | nil =>
    cases h
    exact ⟨[], by simp, List.Forall₂.nil⟩
  | cons d rest ih =>
    have h0 := h
    unfold instantiateFunctionDefs at h
    cases hty : types[d.type.index]? with
    | none => simp [hty] at h
    | some type =>
      simp only [hty] at h
      have hsync := hs.syncConstruct (.function
          { moduleInstance := some mi, type := type, nativeFunction := none,
            callingConvention := .wasm,
            debugName := functionDebugName names numImports idx })
      obtain ⟨_, hs2⟩ := hsync.frame_set false false
        { inst with functionDefs := inst.functionDefs ++ [some s.fresh],
                    functions := inst.functions ++ [some s.fresh] } rfl
      obtain ⟨new, hinst, hall⟩ := ih (idx + 1) _ _ hs2 h
      have hnew : ((s.construct (.function
          { moduleInstance := some mi, type := type, nativeFunction := none,
            callingConvention := .wasm,
            debugName := functionDebugName names numImports idx })).2.setModuleInstance mi
          { inst with functionDefs := inst.functionDefs ++ [some s.fresh],
                      functions := inst.functions ++ [some s.fresh] }).getFunction s.fresh
          = some { moduleInstance := some mi, type := type, nativeFunction := none,
                   callingConvention := .wasm,
                   debugName := functionDebugName names numImports idx } := by
        apply getFunction_setModuleInstance _ _ _ _ hsync
        exact getFunction_eq.2 ⟨0, by rw [get_construct]; simp⟩
      refine ⟨s.fresh :: new, ?_, List.Forall₂.cons ⟨get_fresh s, _, type,
        instantiateFunctionDefs_keeps names types mi numImports rest (idx + 1) _ _ _ _ hs2 h
          _ _ hnew, hty, rfl, rfl, rfl, rfl⟩ ?_⟩
      · rw [hinst]
        simp
      · refine hall.imp (fun p _ hp => ⟨?_, hp.2⟩)
        unfold RuntimeState.setModuleInstance at hp
        rw [get_modifyData] at hp
        have h1 := hp.1
        by_cases hpm : p = mi
        · simp only [hpm, if_true, Option.map_eq_none'] at h1
          obtain ⟨n, hn⟩ := hsync
          rw [hn] at h1
          cases h1
        · simp only [hpm, if_false] at h1
          rw [get_construct] at h1
          by_cases hpf : p = s.fresh
          · simp [hpf] at h1
          · simpa [hpf] using h1

theorem instantiateBeforeLoad_stages (host : Host) (c mi : Ptr) (module : Module)
    (inst i7 : ModuleInstance) (s s7 : RuntimeState) (hs : Sync s mi inst)
    (h : instantiateBeforeLoad host c mi module inst s = .ok i7 s7) :
    ∃ (i6 : ModuleInstance) (s6 : RuntimeState) (newT newM newG newE : List Ptr),
      checkImports host module.ir inst s = .ok () s ∧
      i6 = { inst with
          tables := inst.tables ++ newT.map some,
          memories := inst.memories ++ newM.map some,
          defaultMemory :=
            if (inst.memories ++ newM.map some).length ≠ 0 then
              (inst.memories ++ newM.map some).getD 0 none
            else inst.defaultMemory,
          defaultTable :=
            if (inst.tables ++ newT.map some).length ≠ 0 then
              (inst.tables ++ newT.map some).getD 0 none
            else inst.defaultTable,
          globals := inst.globals ++ newG.map some,
          exceptionTypes := inst.exceptionTypes ++ newE.map some } ∧
      Sync s6 mi i6 ∧ Frame mi true true s s6 ∧
      newG.length = module.ir.globals.defs.length ∧
      (∀ p, p ∈ newG → s.get p = none ∧ ∃ g, s6.getGlobal p = some g) ∧
      instantiateFunctionDefs (host.getDisassemblyNames module.ir) module.ir.types mi
        module.ir.functions.imports.length module.ir.functions.defs 0 i6 s6 = .ok i7 s7 := by
  unfold instantiateBeforeLoad at h
  obtain ⟨_, s1, h1, r1⟩ := Outcome.bind_eq_ok.1 h
  obtain ⟨i2, s2, h2, r2⟩ := Outcome.bind_eq_ok.1 r1
  obtain ⟨i3, s3, h3, r3⟩ := Outcome.bind_eq_ok.1 r2
  obtain ⟨i4, s4, h4, r4⟩ := Outcome.bind_eq_ok.1 r3
  obtain ⟨i5, s5, h5, r5⟩ := Outcome.bind_eq_ok.1 r4
  obtain ⟨i6, s6, h6, h7⟩ := Outcome.bind_eq_ok.1 r5
  have e1 : s1 = s := Outcome.eq_of_state h1 (checkImports_state _ _ _ _)
  rw [e1] at h1 h2
  have T := instantiateTableDefs_spec host (host.getDisassemblyNames module.ir) c mi
    module.ir.tables.imports.length module.ir.tables.defs 0 inst s hs
  obtain ⟨hs2, newT, e2, _⟩ := T.ok i2 s2 h2
  have M := instantiateMemoryDefs_spec host (host.getDisassemblyNames module.ir) c mi
    module.ir.memories.imports.length module.ir.memories.defs 0 i2 s2 hs2
  obtain ⟨hs3, newM, e3, _⟩ := M.ok i3 s3 h3
  have D := selectDefaults_spec host mi i3 s3 hs3
  obtain ⟨hs4, e4, _⟩ := D.ok i4 s4 h4
  have G := instantiateGlobalDefs_spec host c mi module.ir.globals.defs i4 s4 hs4
  obtain ⟨hs5, newG, e5, fG⟩ := G.ok i5 s5 h5
  have E := instantiateExceptionTypeDefs_spec mi module.ir.exceptionTypes.defs i5 s5 hs5
  obtain ⟨hs6, newE, e6, _⟩ := E.ok i6 s6 h6
  have g4 : Frame mi true true s s4 :=
    ((T.frame_ok h2).frameTrans (M.frame_ok h3)).frameTrans (D.frame_ok h4)
  have g6 : Frame mi true true s5 s6 := E.frame_ok h6
  refine ⟨i6, s6, newT, newM, newG, newE, h1, ?_, hs6,
    (g4.frameTrans (G.frame_ok h5)).frameTrans g6, fG.length_eq, ?_, h7⟩
  · rw [e6, e5, e4, e3, e2]
  · intro p hp
    obtain ⟨j, hj⟩ := List.mem_iff_getElem?.1 hp
    have hlen := fG.length_eq
    have hj' : j < module.ir.globals.defs.length := by
      rw [← hlen]
      exact (List.getElem?_eq_some.1 hj).1
    obtain ⟨a, ha1, ha2, v, _, _, g, hg, _⟩ :=
      forall₂_getElem fG j (module.ir.globals.defs[j]) (List.getElem?_eq_getElem hj')
    rw [hj] at ha1
    cases ha1
    exact ⟨g4.get_none ha2, g, g6.getGlobal hg⟩

/-- C16: when the loader is about to be invoked, and again after a successful instantiation,
`instance.functions` is the supplied function imports followed by `instance.functionDefs`,
which has one entry per function definition; the `i`-th entry is a function instance created
by this call with calling convention `wasm`, type `ir.types[ir.functions.defs[i].type.index]`
and the new instance as module instance, and before the loader is invoked its
`nativeFunction` is null. -/
theorem instantiateModule_function_defs (host : Host) (s : RuntimeState) (c : Ptr)
    (module : Module) (imports : ImportBindings) (name : String) :
    (∀ (comp : Compartment) (modules : List Ptr) (i7 : ModuleInstance) (s7 : RuntimeState),
      s.getCompartment c = some comp →
      setAdd s.fresh comp.modules = some modules →
      instantiateBeforeLoad host c s.fresh module (newModuleInstance c imports name)
        (registeredState s c imports name modules) = .ok i7 s7 →
      i7.functions = imports.functions ++ i7.functionDefs ∧
      i7.functionDefs.length = module.ir.functions.defs.length ∧
      ∀ (i : Nat) (d : FunctionDef), module.ir.functions.defs[i]? = some d →
        ∃ (p : Ptr) (f : FunctionInstance) (type : FunctionType),
          i7.functionDefs[i]? = some (some p) ∧ s.get p = none ∧
          s7.getFunction p = some f ∧ module.ir.types[d.type.index]? = some type ∧
          f.type = type ∧ f.callingConvention = .wasm ∧ f.moduleInstance = some s.fresh ∧
          f.nativeFunction = none) ∧
    (∀ mi s', instantiateModule host s c module imports name = .ok mi s' →
      ∃ inst : ModuleInstance, s'.getModuleInstance mi = some inst ∧
        inst.functions = imports.functions ++ inst.functionDefs ∧
        inst.functionDefs.length = module.ir.functions.defs.length ∧
        ∀ (i : Nat) (d : FunctionDef), module.ir.functions.defs[i]? = some d →
          ∃ (p : Ptr) (f : FunctionInstance) (type : FunctionType),
            inst.functionDefs[i]? = some (some p) ∧ s.get p = none ∧
            s'.getFunction p = some f ∧ module.ir.types[d.type.index]? = some type ∧
            f.type = type ∧ f.callingConvention = .wasm ∧ f.moduleInstance = some mi) := by
  constructor
  · intro comp modules i7 s7 hc hm h
    have hsync := registeredState_sync s c imports name modules comp hc
    obtain ⟨i6, s6, newT, newM, newG, newE, _, e6, hs6, hfr, _, _, h7⟩ :=
      instantiateBeforeLoad_stages host c s.fresh module _ i7 _ s7 hsync h
    obtain ⟨new, e7, hall⟩ := instantiateFunctionDefs_native _ _ _ _ _ _ _ _ _ _ hs6 h7
    have hdefs : i7.functionDefs = new.map some := by
      rw [e7, e6]
      rfl
    have hfun : i7.functions = imports.functions ++ new.map some := by
      rw [e7, e6]
      rfl
    refine ⟨by rw [hfun, hdefs], by rw [hdefs, List.length_map, hall.length_eq],
      fun i d hd => ?_⟩
    obtain ⟨p, hp1, hp2, f, type, k1, k2, k3, k4, k5, k6⟩ := forall₂_getElem hall i d hd
    refine ⟨p, f, type, ?_, ?_, k1, k2, k3, k4, k5, k6⟩
    · rw [hdefs, List.getElem?_map, hp1]
      rfl
    · exact registeredState_get_none s c imports name modules p (hfr.get_none hp2)
  · intro mi s' h
    obtain ⟨_, comp, modules, inst, newF, newT, newM, newG, newE, _, _, hsync, _, hI⟩ :=
      instantiateModule_ok host s c module imports name mi s' h
    have hdefs : inst.functionDefs = newF.map some := hI.functionDefs
    refine ⟨inst, hsync.getModuleInstance, by rw [hI.functions, hdefs]; rfl,
      by rw [hdefs, List.length_map, hI.newFunctions.length_eq], fun i d hd => ?_⟩
    obtain ⟨p, hp1, hp2, type, hty, f, k1, k2, k3, k4⟩ := forall₂_getElem hI.newFunctions i d hd
    refine ⟨p, f, type, ?_, hp2, k1, hty, k3, k4, k2⟩
    rw [hdefs, List.getElem?_map, hp1]
    rfl

theorem instantiateModule_function_defs_witness :
    instantiateBeforeLoad demoHost 1 heapB.fresh moduleP (newModuleInstance 1 {} "p")
        (registeredState heapB 1 {} "p" [2, 3]) = .ok instPBeforeLoad heapPBeforeLoad ∧
      (heapPBeforeLoad.getFunction 6).map (fun f => f.nativeFunction) = some none ∧
      (heapPInstantiated.getFunction 6).map (fun f => f.nativeFunction) = some (some 4096) ∧
      (∃ p f type, instPBeforeLoad.functionDefs[0]? = some (some p) ∧ heapB.get p = none ∧
          heapPBeforeLoad.getFunction p = some f ∧ moduleP.ir.types[0]? = some type ∧
          f.type = type ∧ f.callingConvention = .wasm ∧ f.moduleInstance = some heapB.fresh ∧
          f.nativeFunction = none) ∧
      (∃ inst, heapPInstantiated.getModuleInstance 3 = some inst ∧
        inst.functions = [] ++ inst.functionDefs ∧ inst.functionDefs.length = 1) :=
  ⟨rfl, rfl, rfl,
    ((instantiateModule_function_defs demoHost heapB 1 moduleP {} "p").1
      { modules := [2], wavmIntrinsics := some 2 } [2, 3] instPBeforeLoad heapPBeforeLoad
      rfl rfl rfl).2.2 0 { type := { index := 0 } } rfl,
    by
      obtain ⟨inst, h1, h2, h3, _⟩ :=
        (instantiateModule_function_defs demoHost heapB 1 moduleP {} "p").2 3
          heapPInstantiated rfl
      exact ⟨inst, h1, h2, h3⟩⟩

theorem buildJitFunctionImports_spec (host : Host) (s : RuntimeState)
    (functions : List (Option Ptr)) (indices : List Nat) (bindings : List FunctionBinding)
    (h : buildJitFunctionImports host s functions indices = some bindings) :
    List.Forall₂ (fun importIndex (b : FunctionBinding) =>
      ∃ p f, functions.getD importIndex none = some p ∧ s.getFunction p = some f ∧
        b = { nativeFunction :=
                if f.callingConvention = .wasm then f.nativeFunction
                else host.getIntrinsicThunk f.nativeFunction (some p) f.type
                  f.callingConvention }) indices bindings := by
  induction indices generalizing bindings with
  | nil =>
    cases h
    exact List.Forall₂.nil
  | cons i rest ih =>
    unfold buildJitFunctionImports at h
    cases hp : functions.getD i none with
    | none =>
      rw [hp] at h
      cases h
    | some p =>
      cases hf : s.getFunction p with
      | none =>
        rw [hp] at h
        simp only [Option.some_bind, hf] at h
        cases h
      | some f =>
        simp only [hp, Option.some_bind, hf] at h
        cases hr : buildJitFunctionImports host s functions rest with
        | none => simp [hr] at h
        | some bs =>
          simp only [hr, Option.map_some', Option.some.injEq] at h
          subst h
          refine List.Forall₂.cons ⟨p, f, hp, hf, ?_⟩ (ih bs hr)
          by_cases hcc : f.callingConvention = .wasm <;> simp [hcc, hp]

theorem buildJitGlobals_spec (s : RuntimeState) (globals : List (Option Ptr))
    (bindings : List GlobalBinding) (h : buildJitGlobals s globals = some bindings) :
    List.Forall₂ (fun global (b : GlobalBinding) =>
      ∃ p g, global = some p ∧ s.getGlobal p = some g ∧
        b = { type := g.type,
              value := if g.type.isMutable then .mutableGlobalId g.mutableGlobalId
                else .immutableValuePointer p }) globals bindings := by
  induction globals generalizing bindings with
  | nil =>
    cases h
    exact List.Forall₂.nil
  | cons o rest ih =>
    unfold buildJitGlobals at h
    cases o with
    | none => simp at h
    | some p =>
      cases hg : s.getGlobal p with
      | none => simp [hg] at h
      | some g =>
        simp only [Option.some_bind, hg] at h
        cases hr : buildJitGlobals s rest with
        | none => simp [hr] at h
        | some bs =>
          simp only [hr, Option.map_some', Option.some.injEq] at h
          subst h
          exact List.Forall₂.cons ⟨p, g, rfl, hg, rfl⟩ (ih bs hr)

theorem buildLoadModuleArgs_eq (host : Host) (s : RuntimeState) (mi : Ptr) (module : Module)
    (inst : ModuleInstance) (em : List (String × FunctionBinding)) (args : LoadModuleArgs)
    (h : buildLoadModuleArgs host s mi module inst em = some args) :
    buildJitFunctionImports host s inst.functions
        (List.range module.ir.functions.imports.length) = some args.functionImports ∧
      buildJitGlobals s inst.globals = some args.globals ∧
      buildJitTables s inst.tables = some args.tables ∧
      buildJitMemories s inst.memories = some args.memories ∧
      args.moduleInstance = mi ∧ args.functionDefInstances = inst.functionDefs := by
  unfold buildLoadModuleArgs at h
  split at h
  · next a b c d e f h1 h2 h3 h4 h5 h6 =>
    cases h
    exact ⟨h3, h6, h4, h5, rfl, rfl⟩
  · cases h

/-- The loader is invoked on the arguments `loadModuleArguments` describes, and the instance
keeps the handle it returns. -/
theorem loadAndLink_arguments (host : Host) (c mi : Ptr) (module : Module)
    (inst inst' : ModuleInstance) (s s' : RuntimeState)
    (h : loadAndLink host c mi module inst s = .ok inst' s') :
    ∃ args, loadModuleArguments host c mi module inst s = some args ∧
      inst' = { inst with jitModule := some (host.loadModule args).handle } := by
  unfold loadAndLink at h
  unfold loadModuleArguments
  cases hw : ((s.getCompartment c).bind (fun c => c.wavmIntrinsics)).bind
      s.getModuleInstance with
  | none => simp [hw] at h
  | some w =>
    simp only [hw] at h ⊢
    have hst := buildIntrinsicsExportMap_state host s w.exportMap []
    cases hb : buildIntrinsicsExportMap host s w.exportMap [] with
    | throw e s1 => simp [hb, Outcome.bind] at h
    | ok em s1 =>
      rw [hb] at hst
      simp only [Outcome.state] at hst
      subst hst
      simp only [hb, Outcome.bind] at h ⊢
      cases ha : buildLoadModuleArgs host s1 mi module inst em with
      | none => simp [ha] at h
      | some args =>
        simp only [ha] at h
        refine ⟨args, rfl, ?_⟩
        cases hl : linkFunctionDefs inst.functionDefs (host.loadModule args).outFunctionDefs
            (List.range module.ir.functions.defs.length)
            (s1.setModuleInstance mi
              { inst with jitModule := some (host.loadModule args).handle }) with
        | throw e s2 => simp [hl] at h
        | ok u s2 =>
          simp only [hl, Outcome.ok.injEq] at h
          exact h.1.symm

theorem loadModuleArguments_eq (host : Host) (c mi : Ptr) (module : Module)
    (inst : ModuleInstance) (s : RuntimeState) (args : LoadModuleArgs)
    (h : loadModuleArguments host c mi module inst s = some args) :
    ∃ em, buildLoadModuleArgs host s mi module inst em = some args := by
  unfold loadModuleArguments at h
  cases hw : ((s.getCompartment c).bind (fun c => c.wavmIntrinsics)).bind
      s.getModuleInstance with
  | none => simp [hw] at h
  | some w =>
    simp only [hw] at h
    have hst := buildIntrinsicsExportMap_state host s w.exportMap []
    cases hb : buildIntrinsicsExportMap host s w.exportMap [] with
    | throw e s1 => simp [hb] at h
    | ok em s1 =>
      rw [hb] at hst
      simp only [Outcome.state] at hst
      subst hst
      simp only [hb] at h
      exact ⟨em, h⟩

/-- A successful run of the phases went through the loader: the bindings were built on the
heap left by the creation of the defined functions, and the instance keeps the handle the
loader returned for them. -/
theorem instantiatePhases_loader (host : Host) (c mi : Ptr) (module : Module)
    (inst inst' : ModuleInstance) (s s' : RuntimeState) (hs : Sync s mi inst)
    (h : instantiatePhases host c mi module inst s = .ok inst' s') :
    ∃ i7 s7 args, instantiateBeforeLoad host c mi module inst s = .ok i7 s7 ∧
      loadModuleArguments host c mi module i7 s7 = some args ∧
      inst'.jitModule = some (host.loadModule args).handle := by
  obtain ⟨i2, s2, i3, s3, i4, s4, i5, s5, i6, s6, i7, s7, i8, s8, i9, s9, s10, s11, i12, s12,
    h1, h2, h3, h4, h5, h6, h7, h8, h9, h10, h11, h12, h13⟩ :=
    instantiatePhases_trace host c mi module inst inst' s s' h
  obtain ⟨newT, newM, newG, newE, newF, _, _, _, ⟨_, ⟨em, e9⟩, _⟩, _, _, ⟨_, ⟨pts, _, e12⟩, _⟩,
    _, st, _⟩ :=
    stages_of_trace host c mi module inst inst' s s' hs i2 i3 i4 i5 i6 i7 i8 i9 i12
      s2 s3 s4 s5 s6 s7 s8 s9 s10 s11 s12 h2 h3 h4 h5 h6 h7 h8 h9 h10 h11 h12 h13
  obtain ⟨args, ha, e8⟩ := loadAndLink_arguments host c mi module i7 i8 s7 s8 h8
  refine ⟨i7, s7, args, ?_, ha, ?_⟩
  · unfold instantiateBeforeLoad
    rw [h1]
    simp only [Outcome.bind, h2, h3, h4, h5, h6]
    exact h7
  · rcases st with ⟨_, rfl⟩ | ⟨_, f, _, rfl⟩ <;> rw [e12, e9, e8]

/-- C17: when `instantiateModule` reaches the load phase, the function-import bindings handed
to the loader have one entry per declared function import, in import order; entry `i` is the
import's own `nativeFunction` when the calling convention of the import is `wasm`, and
`getIntrinsicThunk(nativeFunction, import, import.type, import.callingConvention)` when it is
not.  A successful instantiation went through the loader with such bindings. -/
theorem loadModule_function_imports (host : Host) (s : RuntimeState) (c : Ptr)
    (module : Module) (imports : ImportBindings) (name : String) :
    (∀ (comp : Compartment) (modules : List Ptr) (i7 : ModuleInstance) (s7 : RuntimeState)
        (args : LoadModuleArgs),
      s.getCompartment c = some comp → setAdd s.fresh comp.modules = some modules →
      instantiateBeforeLoad host c s.fresh module (newModuleInstance c imports name)
        (registeredState s c imports name modules) = .ok i7 s7 →
      loadModuleArguments host c s.fresh module i7 s7 = some args →
      args.functionImports.length = module.ir.functions.imports.length ∧
      ∀ (i : Nat), i < module.ir.functions.imports.length →
        ∃ (p : Ptr) (f : FunctionInstance), imports.functions[i]? = some (some p) ∧
          s7.getFunction p = some f ∧
          args.functionImports[i]? = some
            { nativeFunction :=
                if f.callingConvention = .wasm then f.nativeFunction
                else host.getIntrinsicThunk f.nativeFunction (some p) f.type
                  f.callingConvention }) ∧
    (∀ mi s', instantiateModule host s c module imports name = .ok mi s' →
      ∃ (comp : Compartment) (modules : List Ptr) (i7 : ModuleInstance) (s7 : RuntimeState)
          (args : LoadModuleArgs) (inst : ModuleInstance),
        s.getCompartment c = some comp ∧ setAdd s.fresh comp.modules = some modules ∧
        instantiateBeforeLoad host c s.fresh module (newModuleInstance c imports name)
          (registeredState s c imports name modules) = .ok i7 s7 ∧
        loadModuleArguments host c s.fresh module i7 s7 = some args ∧
        s'.getModuleInstance mi = some inst ∧
        inst.jitModule = some (host.loadModule args).handle) := by
  constructor
  · intro comp modules i7 s7 args hc hm h hargs
    have hsync := registeredState_sync s c imports name modules comp hc
    obtain ⟨i6, s6, newT, newM, newG, newE, hchk, e6, hs6, _, _, _, h7⟩ :=
      instantiateBeforeLoad_stages host c s.fresh module _ i7 _ s7 hsync h
    obtain ⟨l1, _⟩ := checkImports_lengths host module.ir _ _ _ () hchk
    obtain ⟨new, e7, _⟩ := instantiateFunctionDefs_native _ _ _ _ _ _ _ _ _ _ hs6 h7
    have hfun : i7.functions = imports.functions ++ new.map some := by
      rw [e7, e6]
      rfl
    have hlen : imports.functions.length = module.ir.functions.imports.length := l1
    obtain ⟨em, hb⟩ := loadModuleArguments_eq host c s.fresh module i7 s7 args hargs
    obtain ⟨hfi, _⟩ := buildLoadModuleArgs_eq host s7 s.fresh module i7 em args hb
    have hall := buildJitFunctionImports_spec host s7 i7.functions _ _ hfi
    have hl := hall.length_eq
    rw [List.length_range] at hl
    refine ⟨hl.symm, fun i hi => ?_⟩
    have hlt : i < args.functionImports.length := by omega
    have hb := List.getElem?_eq_getElem hlt
    obtain ⟨a, ha1, p, f, k1, k2, k3⟩ := forall₂_getElem hall i _ hb
    have ha : a = i := by
      rw [List.getElem?_range hi] at ha1
      cases ha1
      rfl
    subst ha
    refine ⟨p, f, ?_, k2, by rw [hb, k3]⟩
    rw [hfun, List.getD_eq_getElem?_getD, List.getElem?_append_left (by omega)] at k1
    have hi' : a < imports.functions.length := by omega
    rw [List.getElem?_eq_getElem hi'] at k1 ⊢
    simp only [Option.getD_some] at k1
    rw [k1]
  · intro mi s' h
    obtain ⟨hmi, comp, modules, inst', hc, hm, hph, hsync⟩ :=
      instantiateModule_phases host s c module imports name mi s' h
    obtain ⟨i7, s7, args, h1, h2, h3⟩ :=
      instantiatePhases_loader host c s.fresh module _ inst' _ s' hsync hph
    have hs' := (instantiatePhases_post host c s.fresh module _ inst' _ s' hsync hph).1
    exact ⟨comp, modules, i7, s7, args, inst', hc, hm, h1, h2,
      by rw [hmi]; exact hs'.getModuleInstance, h3⟩

theorem loadModule_function_imports_witness :
    instantiateBeforeLoad thunkHost 1 heapF.fresh moduleF (newModuleInstance 1 importsF "f")
        (registeredState heapF 1 importsF "f" [2, 7]) = .ok instFBeforeLoad heapFBeforeLoad ∧
      (loadModuleArguments thunkHost 1 heapF.fresh moduleF instFBeforeLoad
        heapFBeforeLoad).map (fun a => a.functionImports)
          = some [{ nativeFunction := some 501 }, { nativeFunction := some 600 }] ∧
      (heapFBeforeLoad.getFunction 3).map (fun f => (f.callingConvention, f.nativeFunction))
        = some (.intrinsic, some 500) ∧
      (heapFBeforeLoad.getFunction 6).map (fun f => (f.callingConvention, f.nativeFunction))
        = some (.wasm, some 600) ∧
      ∀ (i : Nat), i < moduleF.ir.functions.imports.length →
        ∃ (p : Ptr) (f : FunctionInstance), importsF.functions[i]? = some (some p) ∧
          heapFBeforeLoad.getFunction p = some f ∧
          [({ nativeFunction := some 501 } : FunctionBinding),
            { nativeFunction := some 600 }][i]? = some
            { nativeFunction :=
                if f.callingConvention = .wasm then f.nativeFunction
                else thunkHost.getIntrinsicThunk f.nativeFunction (some p) f.type
                  f.callingConvention } :=
  ⟨rfl, rfl, rfl, rfl,
    ((loadModule_function_imports thunkHost heapF 1 moduleF importsF "f").1
      { modules := [2], globals := [4, 5], globalDataAllocationMask := [0],
        initialContextMutableGlobals := [(0, 9)], wavmIntrinsics := some 2 } [2, 7]
      instFBeforeLoad heapFBeforeLoad
      ((loadModuleArguments thunkHost 1 heapF.fresh moduleF instFBeforeLoad
        heapFBeforeLoad).get rfl) rfl rfl rfl rfl).2⟩

/-- C18: when `instantiateModule` reaches the load phase, the global bindings handed to the
loader have one entry per global of the instance, the supplied imports first and then the
globals created for the definitions, in order; every entry carries the type of its global,
the entry of an immutable global points to that global, so that the loader reads its stored
`initialValue` through it, and the entry of a mutable global carries that global's
`mutableGlobalId`. -/
theorem loadModule_global_bindings (host : Host) (s : RuntimeState) (c : Ptr)
    (module : Module) (imports : ImportBindings) (name : String) (comp : Compartment)
    (modules : List Ptr) (i7 : ModuleInstance) (s7 : RuntimeState) (args : LoadModuleArgs)
    (hc : s.getCompartment c = some comp)
    (h : instantiateBeforeLoad host c s.fresh module (newModuleInstance c imports name)
      (registeredState s c imports name modules) = .ok i7 s7)
    (hargs : loadModuleArguments host c s.fresh module i7 s7 = some args) :
    (∃ newG : List Ptr, i7.globals = imports.globals ++ newG.map some ∧
      imports.globals.length = module.ir.globals.imports.length ∧
      newG.length = module.ir.globals.defs.length ∧ ∀ p, p ∈ newG → s.get p = none) ∧
    args.globals.length = i7.globals.length ∧
    ∀ (i : Nat), i < i7.globals.length →
      ∃ (p : Ptr) (g : GlobalInstance) (b : GlobalBinding),
        i7.globals[i]? = some (some p) ∧ s7.getGlobal p = some g ∧
        args.globals[i]? = some b ∧ b.type = g.type ∧
        (g.type.isMutable = true → b.value = .mutableGlobalId g.mutableGlobalId) ∧
        (g.type.isMutable = false → b.value = .immutableValuePointer p ∧
          b.readImmutableValue s7 = some g.initialValue) := by
  have hsync := registeredState_sync s c imports name modules comp hc
  obtain ⟨i6, s6, newT, newM, newG, newE, hchk, e6, hs6, hfr, hlenG, hnewG, h7⟩ :=
    instantiateBeforeLoad_stages host c s.fresh module _ i7 _ s7 hsync h
  obtain ⟨_, _, _, l4, _⟩ := checkImports_lengths host module.ir _ _ _ () hchk
  obtain ⟨new, e7, _⟩ := instantiateFunctionDefs_native _ _ _ _ _ _ _ _ _ _ hs6 h7
  have hglob : i7.globals = imports.globals ++ newG.map some := by
    rw [e7, e6]
    rfl
  obtain ⟨em, hb⟩ := loadModuleArguments_eq host c s.fresh module i7 s7 args hargs
  obtain ⟨_, hg, _⟩ := buildLoadModuleArgs_eq host s7 s.fresh module i7 em args hb
  have hall := buildJitGlobals_spec s7 i7.globals _ hg
  refine ⟨⟨newG, hglob, l4, hlenG, fun p hp =>
    registeredState_get_none s c imports name modules p (hnewG p hp).1⟩,
    hall.length_eq.symm, fun i hi => ?_⟩
  have hlt : i < args.globals.length := by
    rw [← hall.length_eq]
    exact hi
  have hbi := List.getElem?_eq_getElem hlt
  obtain ⟨a, ha1, p, g, k1, k2, k3⟩ := forall₂_getElem hall i _ hbi
  subst k1
  refine ⟨p, g, _, ha1, k2, hbi, by rw [k3], fun hmut => by rw [k3]; simp [hmut],
    fun hmut => ?_⟩
  rw [k3]
  simp only [hmut, Bool.false_eq_true, if_false, true_and]
  simp only [GlobalBinding.readImmutableValue, k2, Option.map_some']

theorem loadModule_global_bindings_witness :
    instantiateBeforeLoad thunkHost 1 heapF.fresh moduleF (newModuleInstance 1 importsF "f")
        (registeredState heapF 1 importsF "f" [2, 7]) = .ok instFBeforeLoad heapFBeforeLoad ∧
      (loadModuleArguments thunkHost 1 heapF.fresh moduleF instFBeforeLoad
        heapFBeforeLoad).map (fun a => a.globals)
          = some [{ type := { valueType := .i32, isMutable := false },
                    value := .immutableValuePointer 4 },
                  { type := { valueType := .i32, isMutable := true },
                    value := .mutableGlobalId 0 },
                  { type := { valueType := .i32, isMutable := false },
                    value := .immutableValuePointer 8 }] ∧
      (heapFBeforeLoad.getGlobal 8).map (fun g => g.initialValue) = some 11 ∧
      (∃ newG : List Ptr, instFBeforeLoad.globals = importsF.globals ++ newG.map some ∧
        importsF.globals.length = moduleF.ir.globals.imports.length ∧
        newG.length = moduleF.ir.globals.defs.length ∧ ∀ p, p ∈ newG → heapF.get p = none) :=
  ⟨rfl, rfl, rfl,
    (loadModule_global_bindings thunkHost heapF 1 moduleF importsF "f"
      { modules := [2], globals := [4, 5], globalDataAllocationMask := [0],
        initialContextMutableGlobals := [(0, 9)], wavmIntrinsics := some 2 } [2, 7]
      instFBeforeLoad heapFBeforeLoad
      ((loadModuleArguments thunkHost 1 heapF.fresh moduleF instFBeforeLoad
        heapFBeforeLoad).get rfl) rfl rfl rfl).1⟩

/-! ## Active element segments -/

theorem length_installElements (objects : List (Option Ptr)) (elements : List (Option Ptr))
    (start : Nat) : (installElements elements start objects).length = elements.length := by
  induction objects generalizing elements start with
  | nil => rfl
  | cons o rest ih =>
    unfold installElements
    rw [ih, List.length_set]

theorem getElem?_installElements (objects : List (Option Ptr)) (elements : List (Option Ptr))
    (start j : Nat) :
    (installElements elements start objects)[j]? =
      if start ≤ j ∧ j < start + objects.length ∧ j < elements.length then
        objects[j - start]?
      else elements[j]? := by
  induction objects generalizing elements start with
  | nil =>
    unfold installElements
    have : ¬ (start ≤ j ∧ j < start + ([] : List (Option Ptr)).length ∧ j < elements.length) := by
      simp only [List.length_nil]
      omega
    rw [if_neg this]
  | cons o rest ih =>
    unfold installElements
    rw [ih, List.length_set]
    by_cases hj : j = start
    · subst hj
      have h1 : ¬ (j + 1 ≤ j ∧ j < j + 1 + rest.length ∧ j < elements.length) := by omega
      rw [if_neg h1, List.getElem?_set]
      by_cases hl : j < elements.length
      · have h2 : j ≤ j ∧ j < j + (o :: rest).length ∧ j < elements.length := by
          simp only [List.length_cons]
          omega
        rw [if_pos h2]
        simp [hl]
      · have h2 : ¬ (j ≤ j ∧ j < j + (o :: rest).length ∧ j < elements.length) := by omega
        rw [if_neg h2]
        simp only [if_true, hl, if_false]
        exact (List.getElem?_eq_none (by omega)).symm
    · rw [List.getElem?_set_ne (fun e => hj e.symm)]
      by_cases hc : start + 1 ≤ j ∧ j < start + 1 + rest.length ∧ j < elements.length
      · have h2 : start ≤ j ∧ j < start + (o :: rest).length ∧ j < elements.length := by
          simp only [List.length_cons]
          omega
        rw [if_pos hc, if_pos h2]
        have : j - start = (j - (start + 1)) + 1 := by omega
        rw [this, List.getElem?_cons_succ]
      · have h2 : ¬ (start ≤ j ∧ j < start + (o :: rest).length ∧ j < elements.length) := by
          simp only [List.length_cons]
          omega
        rw [if_neg hc, if_neg h2]

theorem setTableElement_ok (s : RuntimeState) (t : Ptr) (tab : TableInstance) (i : Nat)
    (o : Option Ptr) (ht : s.getTable t = some tab) (hi : i < tab.elements.length) :
    ∃ s', setTableElement s t i o = .ok () s' ∧
      s'.getTable t = some { tab with elements := tab.elements.set i o } ∧
      ∀ q, q ≠ t → s'.get q = s.get q := by
  unfold setTableElement
  simp only [ht, getTableNumElements, hi, if_true]
  refine ⟨_, rfl, ?_, fun q hq => get_modifyData_ne _ _ _ _ hq⟩
  obtain ⟨n, hn⟩ := getTable_eq.1 ht
  exact getTable_eq.2 ⟨n, by rw [get_modifyData_self, hn]; rfl⟩

theorem setTableElement_oob (s : RuntimeState) (t : Ptr) (tab : TableInstance) (i : Nat)
    (o : Option Ptr) (ht : s.getTable t = some tab) (hi : tab.elements.length ≤ i) :
    setTableElement s t i o = .throw (.outOfBoundsTableAccess t i) s := by
  unfold setTableElement
  have : ¬ i < tab.elements.length := by omega
  simp only [ht, getTableNumElements, this, if_false]

/-- The inner loop of an element segment that fits the table: slot `base + index + i` receives
`functions[indices[i]]`, every other object of the heap is left as it was. -/
theorem copyTableSegmentElements_ok (host : Host) (inst : ModuleInstance) (t : Ptr)
    (base : Nat) (indices : List Nat) (index : Nat) (s : RuntimeState) (tab : TableInstance)
    (ht : s.getTable t = some tab)
    (hidx : ∀ k, k ∈ indices → k < inst.functions.length)
    (hfit : base + index + indices.length ≤ tab.elements.length)
    (hsize : tab.elements.length < 2 ^ 64) :
    ∃ s', copyTableSegmentElements host inst t base indices index s = .ok () s' ∧
      s'.getTable t = some { tab with
        elements := installElements tab.elements (base + index)
          (indices.map fun k => inst.functions.getD k none) } ∧
      ∀ q, q ≠ t → s'.get q = s.get q := by
  induction indices generalizing index s tab with
  | nil => exact ⟨s, rfl, ht, fun _ _ => rfl⟩
  | cons k rest ih =>
    unfold copyTableSegmentElements
    have hk : k < inst.functions.length := hidx k (List.mem_cons_self _ _)
    have hassert : wavmAssert host (decide (k < inst.functions.length)) s = .ok () s :=
      wavmAssert_eq_ok.2 ⟨fun _ => by simpa using hk, rfl⟩
    simp only [hassert, Outcome.bind, List.getElem?_eq_getElem hk]
    simp only [List.length_cons] at hfit
    have hmod : (base + index) % 2 ^ 64 = base + index := Nat.mod_eq_of_lt (by omega)
    rw [hmod]
    obtain ⟨s1, h1, h2, h3⟩ := setTableElement_ok s t tab (base + index) inst.functions[k] ht
      (by omega)
    rw [h1]
    simp only
    obtain ⟨s', g1, g2, g3⟩ := ih (index + 1) s1 _ h2
      (fun j hj => hidx j (List.mem_cons_of_mem _ hj))
      (by simp only [List.length_set]; omega) (by simpa using hsize)
    refine ⟨s', g1, ?_, fun q hq => (g3 q hq).trans (h3 q hq)⟩
    rw [g2]
    simp only [List.map_cons, installElements, Nat.add_assoc]
    rw [List.getD_eq_getElem?_getD, List.getElem?_eq_getElem hk]
    rfl

/-- The inner loop of a non-empty element segment that does not fit the table fails at the
first slot outside the table. -/
theorem copyTableSegmentElements_oob (host : Host) (inst : ModuleInstance) (t : Ptr)
    (base : Nat) (indices : List Nat) (index : Nat) (s : RuntimeState) (tab : TableInstance)
    (ht : s.getTable t = some tab)
    (hidx : ∀ k, k ∈ indices → k < inst.functions.length)
    (hne : indices ≠ [])
    (hover : tab.elements.length < base + index + indices.length)
    (hlt : base + index < 2 ^ 64) (hsize : tab.elements.length < 2 ^ 64) :
    ∃ s', copyTableSegmentElements host inst t base indices index s
      = .throw (.outOfBoundsTableAccess t (max (base + index) tab.elements.length)) s' := by
  induction indices generalizing index s tab with
  | nil => exact (hne rfl).elim
  | cons k rest ih =>
    unfold copyTableSegmentElements
    have hk : k < inst.functions.length := hidx k (List.mem_cons_self _ _)
    have hassert : wavmAssert host (decide (k < inst.functions.length)) s = .ok () s :=
      wavmAssert_eq_ok.2 ⟨fun _ => by simpa using hk, rfl⟩
    simp only [hassert, Outcome.bind, List.getElem?_eq_getElem hk]
    simp only [List.length_cons] at hover
    rw [Nat.mod_eq_of_lt hlt]
    by_cases hin : base + index < tab.elements.length
    · obtain ⟨s1, h1, h2, h3⟩ := setTableElement_ok s t tab (base + index) inst.functions[k]
        ht hin
      rw [h1]
      simp only
      have hrest : rest ≠ [] := by
        intro e
        rw [e] at hover
        simp only [List.length_nil] at hover
        omega
      obtain ⟨s', g1⟩ := ih (index + 1) s1 _ h2
        (fun j hj => hidx j (List.mem_cons_of_mem _ hj)) hrest
        (by simp only [List.length_set]; omega) (by omega) (by simpa using hsize)
      refine ⟨s', ?_⟩
      rw [g1]
      simp only [List.length_set]
      congr 2
      omega
    · rw [setTableElement_oob s t tab (base + index) _ ht (by omega)]
      refine ⟨s, ?_⟩
      simp only
      congr 2
      omega

theorem copyTableSegments_append (host : Host) (inst : ModuleInstance)
    (pre rest : List TableSegment) (s : RuntimeState) :
    copyTableSegments host inst (pre ++ rest) s
      = (copyTableSegments host inst pre s).bind
          (fun _ s1 => copyTableSegments host inst rest s1) := by
  induction pre generalizing s with
  | nil => rfl
  | cons d t ih =>
    simp only [List.cons_append, copyTableSegments, Outcome.bind_assoc]
    congr 1
    funext _ s1
    exact ih s1

theorem instantiateModule_throw_of_tableSegments (host : Host) (s0 : RuntimeState) (c : Ptr)
    (module : Module) (imports : ImportBindings) (name : String) (comp : Compartment)
    (modules : List Ptr) (inst : ModuleInstance) (s s10 sf : RuntimeState) (e : Exception)
    (hc : s0.getCompartment c = some comp) (hm : setAdd s0.fresh comp.modules = some modules)
    (hdefs : instantiateDefinitions host c s0.fresh module (newModuleInstance c imports name)
      (registeredState s0 c imports name modules) = .ok inst s)
    (hdata : copyDataSegments inst module.ir.dataSegments s = .ok () s10)
    (hthrow : copyTableSegments host inst module.ir.tableSegments s10 = .throw e sf) :
    instantiateModule host s0 c module imports name = .throw e sf := by
  rw [instantiateModule_eq host s0 c module imports name comp modules hc hm]
  unfold instantiatePhases
  rw [hdefs]
  simp only [Outcome.bind]
  unfold instantiateSegments
  rw [hdata]
  simp only [Outcome.bind]
  rw [hthrow]

theorem copyTableSegment_nonempty (host : Host) (inst : ModuleInstance) (seg : TableSegment)
    (s : RuntimeState) (tp : Ptr) (v : Value) (hact : seg.isActive = true)
    (hne : seg.indices ≠ []) (htab : inst.tables[seg.tableIndex]? = some (some tp))
    (hv : evaluateInitializer s inst.globals seg.baseOffset = .ok v) (hty : v.type = .i32) :
    copyTableSegment host inst seg s
      = copyTableSegmentElements host inst tp v.i32 seg.indices 0 s := by
  unfold copyTableSegment
  have : seg.indices.length ≠ 0 := fun e => hne (List.length_eq_zero.1 e)
  simp only [hact, if_true, htab, hv, hty, ne_eq, this, not_false_eq_true]

theorem copyTableSegment_empty (host : Host) (inst : ModuleInstance) (seg : TableSegment)
    (s : RuntimeState) (tp : Ptr) (tab : TableInstance) (v : Value)
    (hact : seg.isActive = true) (he : seg.indices = [])
    (htab : inst.tables[seg.tableIndex]? = some (some tp)) (ht : s.getTable tp = some tab)
    (hv : evaluateInitializer s inst.globals seg.baseOffset = .ok v) (hty : v.type = .i32) :
    copyTableSegment host inst seg s =
      if v.i32 > tab.elements.length then .throw (.outOfBoundsTableAccess tp v.i32) s
      else .ok () s := by
  unfold copyTableSegment
  simp only [hact, if_true, htab, hv, hty, he, List.length_nil, ne_eq, not_true_eq_false,
    if_false, getTableNumElements]
  rw [show (some tp).bind s.getTable = some tab from ht]

/-- C19: when `instantiateModule` has reached an active element segment with base offset `b`
(the 32-bit value of its initializer) and function indices `k_0 .. k_{n-1}`, all of them
indices of instance functions, on a table of fewer than `2^64` elements: if `n > 0` and
`b + n` does not exceed the number of elements of the table, the segment stores
`instance.functions[k_i]` in element `b + i` for every `i`, the sum being the natural number
`b + i`, and changes no other element and no other object; if `n > 0` and `b + n` exceeds the
number of elements, instantiation fails with `out-of-bounds-table-access` at the first slot
outside the table; if `n = 0`, instantiation fails with `out-of-bounds-table-access` carrying
`b` when `b` is greater than the number of elements, and otherwise the segment changes nothing
and the loop goes on with the segments after it. -/
theorem instantiateModule_element_segment (host : Host) (s0 : RuntimeState) (c : Ptr)
    (module : Module) (imports : ImportBindings) (name : String) (comp : Compartment)
    (modules : List Ptr) (inst : ModuleInstance) (s9 s10 s1 : RuntimeState)
    (pre post : List TableSegment) (seg : TableSegment) (tp : Ptr) (tab : TableInstance)
    (v : Value)
    (hc : s0.getCompartment c = some comp) (hm : setAdd s0.fresh comp.modules = some modules)
    (hdefs : instantiateDefinitions host c s0.fresh module (newModuleInstance c imports name)
      (registeredState s0 c imports name modules) = .ok inst s9)
    (hdata : copyDataSegments inst module.ir.dataSegments s9 = .ok () s10)
    (hsegs : module.ir.tableSegments = pre ++ seg :: post)
    (hpre : copyTableSegments host inst pre s10 = .ok () s1)
    (hact : seg.isActive = true)
    (htab : inst.tables[seg.tableIndex]? = some (some tp))
    (ht : s1.getTable tp = some tab)
    (hv : evaluateInitializer s1 inst.globals seg.baseOffset = .ok v) (hty : v.type = .i32)
    (hidx : ∀ k, k ∈ seg.indices → k < inst.functions.length)
    (hsize : tab.elements.length < 2 ^ 64) :
    (seg.indices ≠ [] → v.i32 + seg.indices.length ≤ tab.elements.length →
      ∃ (s2 : RuntimeState) (tab' : TableInstance),
        copyTableSegment host inst seg s1 = .ok () s2 ∧
        copyTableSegments host inst module.ir.tableSegments s10
          = copyTableSegments host inst post s2 ∧
        s2.getTable tp = some tab' ∧ tab'.elements.length = tab.elements.length ∧
        (∀ (i k : Nat), seg.indices[i]? = some k →
          tab'.elements[v.i32 + i]? = inst.functions[k]?) ∧
        (∀ (j : Nat), (j < v.i32 ∨ v.i32 + seg.indices.length ≤ j) →
          tab'.elements[j]? = tab.elements[j]?) ∧
        (∀ q, q ≠ tp → s2.get q = s1.get q)) ∧
    (seg.indices ≠ [] → tab.elements.length < v.i32 + seg.indices.length →
      ∃ sf, instantiateModule host s0 c module imports name
        = .throw (.outOfBoundsTableAccess tp (max v.i32 tab.elements.length)) sf) ∧
    (seg.indices = [] →
      (v.i32 > tab.elements.length →
        instantiateModule host s0 c module imports name
          = .throw (.outOfBoundsTableAccess tp v.i32) s1) ∧
      (v.i32 ≤ tab.elements.length →
        copyTableSegment host inst seg s1 = .ok () s1 ∧
        copyTableSegments host inst module.ir.tableSegments s10
          = copyTableSegments host inst post s1)) := by
  have hloop : copyTableSegments host inst module.ir.tableSegments s10
      = (copyTableSegment host inst seg s1).bind fun _ s =>
          copyTableSegments host inst post s := by
    rw [hsegs, copyTableSegments_append, hpre]
    rfl
  have hi32 : v.i32 < 2 ^ 32 := Nat.mod_lt _ (by norm_num)
  refine ⟨fun hne hfit => ?_, fun hne hover => ?_, fun he => ⟨fun hgt => ?_, fun hle => ?_⟩⟩
  · obtain ⟨s2, h1, h2, h3⟩ := copyTableSegmentElements_ok host inst tp v.i32 seg.indices 0 s1
      tab ht hidx (by omega) hsize
    have hseg := copyTableSegment_nonempty host inst seg s1 tp v hact hne htab hv hty
    refine ⟨s2, _, by rw [hseg, h1], by rw [hloop, hseg, h1]; rfl, h2, ?_, ?_, ?_, h3⟩
    · simp only [length_installElements]
    · intro i k hik
      simp only [Nat.add_zero]
      rw [getElem?_installElements]
      have hi : i < seg.indices.length := (List.getElem?_eq_some.1 hik).1
      have hcond : v.i32 ≤ v.i32 + i ∧
          v.i32 + i < v.i32 + (seg.indices.map fun k => inst.functions.getD k none).length ∧
          v.i32 + i < tab.elements.length := by
        simp only [List.length_map]
        omega
      rw [if_pos hcond]
      have : v.i32 + i - v.i32 = i := by omega
      rw [this, List.getElem?_map, hik]
      have hk : k < inst.functions.length := hidx k (List.mem_iff_getElem?.2 ⟨i, hik⟩)
      simp only [Option.map_some', List.getD_eq_getElem?_getD, List.getElem?_eq_getElem hk,
        Option.getD_some]
    · intro j hj
      simp only [Nat.add_zero]
      rw [getElem?_installElements]
      have hcond : ¬ (v.i32 ≤ j ∧
          j < v.i32 + (seg.indices.map fun k => inst.functions.getD k none).length ∧
          j < tab.elements.length) := by
        simp only [List.length_map]
        omega
      rw [if_neg hcond]
  · obtain ⟨sf, h1⟩ := copyTableSegmentElements_oob host inst tp v.i32 seg.indices 0 s1 tab ht
      hidx hne (by omega) (by omega) hsize
    refine ⟨sf, instantiateModule_throw_of_tableSegments host s0 c module imports name comp
      modules inst s9 s10 sf _ hc hm hdefs hdata ?_⟩
    rw [hloop, copyTableSegment_nonempty host inst seg s1 tp v hact hne htab hv hty, h1]
    rfl
  · apply instantiateModule_throw_of_tableSegments host s0 c module imports name comp
      modules inst s9 s10 s1 _ hc hm hdefs hdata
    rw [hloop, copyTableSegment_empty host inst seg s1 tp tab v hact he htab ht hv hty,
      if_pos hgt]
    rfl
  · have hseg : copyTableSegment host inst seg s1 = .ok () s1 := by
      rw [copyTableSegment_empty host inst seg s1 tp tab v hact he htab ht hv hty,
        if_neg (by omega)]
    exact ⟨hseg, by rw [hloop, hseg]; rfl⟩

theorem instantiateModule_element_segment_witness :
    instantiateDefinitions demoHost 1 heapB.fresh moduleP (newModuleInstance 1 {} "p")
        (registeredState heapB 1 {} "p" [2, 3]) = .ok instPDefined heapPDefined ∧
      copyDataSegments instPDefined moduleP.ir.dataSegments heapPDefined = .ok () heapPData ∧
      heapPData.getTable 4 = some tableP ∧
      (heapPInstantiated.getTable 4).map (fun t => t.elements) = some [none, some 6] ∧
      ∃ (s2 : RuntimeState) (tab' : TableInstance),
        copyTableSegment demoHost instPDefined
          { isActive := true, tableIndex := 0, baseOffset := .i32_const 1, indices := [0] }
          heapPData = .ok () s2 ∧
        s2.getTable 4 = some tab' ∧ tab'.elements.length = 2 ∧
        tab'.elements[1 + 0]? = instPDefined.functions[0]? ∧
        tab'.elements[0]? = tableP.elements[0]? := by
  obtain ⟨s2, tab', h1, _, h3, h4, h5, h6, _⟩ :=
    (instantiateModule_element_segment demoHost heapB 1 moduleP {} "p"
      { modules := [2], wavmIntrinsics := some 2 } [2, 3] instPDefined heapPDefined heapPData
      heapPData []
      [{ isActive := false, tableIndex := 0, baseOffset := .i32_const 0, indices := [0, 0] }]
      { isActive := true, tableIndex := 0, baseOffset := .i32_const 1, indices := [0] }
      4 tableP { type := .i32, bits := 1 } rfl rfl rfl rfl rfl rfl rfl rfl rfl rfl rfl
      (fun k hk => by
        have : k = 0 := by simpa using hk
        subst this
        decide)
      (by decide)).1 (by decide) (by decide)
  exact ⟨rfl, rfl, rfl, rfl, s2, tab', h1, h3, h4, h5 0 0 rfl, h6 0 (Or.inl (by decide))⟩

/-! ## The bytes written by the active data segments -/

theorem getMemory_of_get_eq {s s' : RuntimeState} {p : Ptr} (h : s'.get p = s.get p) :
    s'.getMemory p = s.getMemory p := by
  unfold RuntimeState.getMemory
  rw [h]

theorem getGlobal_of_get_eq {s s' : RuntimeState} {p : Ptr} (h : s'.get p = s.get p) :
    s'.getGlobal p = s.getGlobal p := by
  unfold RuntimeState.getGlobal
  rw [h]

theorem getGlobal_of_getMemory {s : RuntimeState} {p : Ptr} {m : MemoryInstance}
    (h : s.getMemory p = some m) : s.getGlobal p = none := by
  obtain ⟨n, hn⟩ := getMemory_eq.1 h
  unfold RuntimeState.getGlobal
  rw [hn]

theorem evaluateInitializer_congr (s s' : RuntimeState) (gs : List (Option Ptr))
    (x : InitializerExpression) (h : ∀ g, s'.getGlobal g = s.getGlobal g) :
    evaluateInitializer s' gs x = evaluateInitializer s gs x := by
  cases x <;> simp only [evaluateInitializer, h]

theorem segmentByte_congr (s s' : RuntimeState) (inst : ModuleInstance) (mp : Ptr) (a : Nat)
    (d : DataSegment) (h : ∀ g, s'.getGlobal g = s.getGlobal g) :
    segmentByte s' inst mp a d = segmentByte s inst mp a d := by
  unfold segmentByte
  rw [evaluateInitializer_congr s s' _ _ h]

theorem dataSegmentByte_congr (s s' : RuntimeState) (inst : ModuleInstance) (mp : Ptr) (a : Nat)
    (ds : List DataSegment) (h : ∀ g, s'.getGlobal g = s.getGlobal g) :
    dataSegmentByte s' inst mp a ds = dataSegmentByte s inst mp a ds := by
  induction ds with
  | nil => rfl
  | cons d rest ih =>
    simp only [dataSegmentByte, ih, segmentByte_congr s s' inst mp a d h]

/-- Passive segments store nothing: they can be dropped from the list. -/
theorem dataSegmentByte_filter (s : RuntimeState) (inst : ModuleInstance) (mp : Ptr) (a : Nat)
    (ds : List DataSegment) :
    dataSegmentByte s inst mp a ds
      = dataSegmentByte s inst mp a (ds.filter fun d => d.isActive) := by
  induction ds with
  | nil => rfl
  | cons d rest ih =>
    cases hact : d.isActive with
    | true =>
      rw [List.filter_cons_of_pos (by simpa using hact)]
      simp only [dataSegmentByte, ih]
    | false =>
      rw [List.filter_cons_of_neg (by simp [hact])]
      simp only [dataSegmentByte, ← ih]
      have : segmentByte s inst mp a d = none := by
        unfold segmentByte
        simp [hact]
      rw [this]
      cases dataSegmentByte s inst mp a rest <;> rfl

theorem bytewiseMemCopy_ok (mp : Ptr) (data : List Nat) (a : Nat) (s s' : RuntimeState)
    (m : MemoryInstance) (hm : s.getMemory mp = some m)
    (h : bytewiseMemCopy mp data a s = .ok () s') :
    (data ≠ [] → a + data.length ≤ m.numPages * numBytesPerPage) ∧
    ∃ m', s'.getMemory mp = some m' ∧ m'.numPages = m.numPages ∧
      (∀ x, m'.bytes x = if a ≤ x then (data[x - a]?).getD (m.bytes x) else m.bytes x) ∧
      ∀ q, q ≠ mp → s'.get q = s.get q := by
  induction data generalizing a s m with
  | nil =>
    cases h
    exact ⟨fun hne => absurd rfl hne, m, hm, rfl, fun x => by simp, fun _ _ => rfl⟩
  | cons b rest ih =>
    unfold bytewiseMemCopy at h
    rw [hm] at h
    simp only at h
    by_cases hlt : a < m.numPages * numBytesPerPage
    · rw [if_pos hlt] at h
      obtain ⟨h1, m', h2, h3, h4, h5⟩ := ih (a + 1) (s.storeByte mp a b)
        { m with bytes := fun i => if i = a then b else m.bytes i }
        (getMemory_storeByte s mp m a b hm) h
      refine ⟨fun _ => ?_, m', h2, h3, fun x => ?_, fun q hq => ?_⟩
      · by_cases hr : rest = []
        · subst hr
          simp only [List.length_cons, List.length_nil]
          omega
        · have := h1 hr
          simp only [List.length_cons]
          simp only at this
          omega
      · rw [h4 x]
        simp only
        by_cases hax : a ≤ x
        · rw [if_pos hax]
          by_cases hxa : x = a
          · subst hxa
            have : ¬ (x + 1 ≤ x) := by omega
            simp [this]
          · have h1x : a + 1 ≤ x := by omega
            rw [if_pos h1x, if_neg hxa]
            have e : x - a = (x - (a + 1)) + 1 := by omega
            rw [e, List.getElem?_cons_succ]
        · have h1x : ¬ (a + 1 ≤ x) := by omega
          have hxa : x ≠ a := by omega
          rw [if_neg hax, if_neg h1x, if_neg hxa]
      · rw [h5 q hq]
        unfold RuntimeState.storeByte
        exact get_modifyData_ne _ _ _ _ hq
    · rw [if_neg hlt] at h
      cases h

theorem bytewiseMemCopy_none (mp : Ptr) (data : List Nat) (a : Nat) (s s' : RuntimeState)
    (hm : s.getMemory mp = none) (hne : data ≠ [])
    (h : bytewiseMemCopy mp data a s = .ok () s') : False := by
  cases data with
  | nil => exact hne rfl
  | cons b rest =>
    unfold bytewiseMemCopy at h
    rw [hm] at h
    cases h

theorem DataStep.same (s : RuntimeState) (byte : Ptr → Nat → Option Nat)
    (h : ∀ mp a, byte mp a = none) : DataStep s s byte :=
  ⟨fun _ => rfl, fun _ h => h, fun mp m hm => ⟨m, hm, rfl, fun a => by rw [h mp a]; rfl⟩⟩

theorem copyDataSegment_ok (inst : ModuleInstance) (d : DataSegment) (s s' : RuntimeState)
    (h : copyDataSegment inst d s = .ok () s') :
    DataStep s s' (fun mp a => segmentByte s inst mp a d) ∧
    (d.isActive = true → SegmentFits s inst d) := by
  unfold copyDataSegment at h
  cases hact : d.isActive with
  | false =>
    simp only [hact, Bool.false_eq_true, if_false] at h
    cases h
    refine ⟨DataStep.same s _ fun mp a => ?_, fun h => by cases h⟩
    unfold segmentByte
    simp [hact]
  | true =>
    simp only [hact, if_true] at h
    cases hmem : inst.memories[d.memoryIndex]? with
    | none => simp [hmem] at h
    | some memory =>
      simp only [hmem] at h
      cases hv : evaluateInitializer s inst.globals d.baseOffset with
      | error e => simp [hv] at h
      | ok v =>
        simp only [hv] at h
        by_cases hty : v.type = .i32
        · rw [if_pos hty] at h
          by_cases hlen : d.data.length = 0
          · have hnil : d.data = [] := List.length_eq_zero.1 hlen
            simp only [hlen, ne_eq, not_true_eq_false, if_false] at h
            cases memory with
            | none => simp at h
            | some mp0 =>
              cases hm0 : s.getMemory mp0 with
              | none =>
                rw [show (some mp0).bind s.getMemory = none from hm0] at h
                simp at h
              | some m0 =>
                rw [show (some mp0).bind s.getMemory = some m0 from hm0] at h
                simp only at h
                split at h
                · cases h
                · rename_i hle
                  cases h
                  refine ⟨DataStep.same s _ fun mp a => ?_, fun _ =>
                    ⟨mp0, m0, v, hmem, hm0, hv, hty, ?_⟩⟩
                  · unfold segmentByte
                    rw [hv, hnil]
                    simp
                  · rw [hlen]
                    have := Nat.mod_le (m0.numPages * numBytesPerPage) (2 ^ 64)
                    omega
          · have hne : d.data ≠ [] := fun e => hlen (by rw [e]; rfl)
            simp only [ne_eq, hlen, not_false_eq_true, if_true] at h
            cases memory with
            | none => simp at h
            | some mp0 =>
              simp only at h
              cases hm0 : s.getMemory mp0 with
              | none => exact (bytewiseMemCopy_none mp0 d.data v.i32 s s' hm0 hne h).elim
              | some m0 =>
                obtain ⟨hfit, m0', g1, g2, g3, g4⟩ :=
                  bytewiseMemCopy_ok mp0 d.data v.i32 s s' m0 hm0 h
                refine ⟨⟨fun g => ?_, fun mp hnone => ?_, fun mp m hm => ?_⟩,
                  fun _ => ⟨mp0, m0, v, hmem, hm0, hv, hty, hfit hne⟩⟩
                · by_cases hg : g = mp0
                  · rw [hg, getGlobal_of_getMemory g1, getGlobal_of_getMemory hm0]
                  · exact getGlobal_of_get_eq (g4 g hg)
                · have hmp : mp ≠ mp0 := by
                    intro e
                    rw [e, hm0] at hnone
                    cases hnone
                  rw [getMemory_of_get_eq (g4 mp hmp), hnone]
                · by_cases hmp : mp = mp0
                  · subst hmp
                    rw [hm0] at hm
                    cases hm
                    refine ⟨m0', g1, g2, fun a => ?_⟩
                    rw [g3 a]
                    unfold segmentByte
                    rw [hv]
                    simp only [hact, hmem, and_self, if_true]
                    split <;> rfl
                  · refine ⟨m, by rw [getMemory_of_get_eq (g4 mp hmp), hm], rfl, fun a => ?_⟩
                    show m.bytes a = (segmentByte s inst mp a d).getD (m.bytes a)
                    unfold segmentByte
                    have : ¬ (d.isActive = true ∧
                        inst.memories[d.memoryIndex]? = some (some mp)) := by
                      rw [hmem]
                      intro hc
                      exact hmp (Option.some.inj (Option.some.inj hc.2)).symm
                    rw [if_neg this]
                    rfl
        · rw [if_neg hty] at h
          cases h

theorem SegmentFits.of_step {s s' : RuntimeState} {byte : Ptr → Nat → Option Nat}
    (hstep : DataStep s s' byte) {inst : ModuleInstance} {d : DataSegment}
    (h : SegmentFits s' inst d) : SegmentFits s inst d := by
  obtain ⟨mp, m', v, h1, h2, h3, h4, h5⟩ := h
  cases hm : s.getMemory mp with
  | none =>
    rw [hstep.2.1 mp hm] at h2
    cases h2
  | some m =>
    obtain ⟨m'', g1, g2, _⟩ := hstep.2.2 mp m hm
    rw [h2] at g1
    cases g1
    refine ⟨mp, m, v, h1, hm, ?_, h4, by rw [← g2]; exact h5⟩
    rw [← evaluateInitializer_congr s s' _ _ hstep.1]
    exact h3

theorem copyDataSegments_ok (inst : ModuleInstance) (ds : List DataSegment)
    (s s' : RuntimeState) (h : copyDataSegments inst ds s = .ok () s') :
    DataStep s s' (fun mp a => dataSegmentByte s inst mp a ds) ∧
    (∀ d, d ∈ ds → d.isActive = true → SegmentFits s inst d) := by
  induction ds generalizing s with
  | nil =>
    have e : s' = s := by
      cases h
      rfl
    rw [e]
    exact ⟨DataStep.same s _ fun _ _ => rfl, fun d hd => by cases hd⟩
  | cons d rest ih =>
    unfold copyDataSegments at h
    obtain ⟨_, s1, h1, h2⟩ := Outcome.bind_eq_ok.1 h
    obtain ⟨st1, fit1⟩ := copyDataSegment_ok inst d s s1 h1
    obtain ⟨st2, fit2⟩ := ih s1 h2
    refine ⟨⟨fun g => by rw [st2.1 g, st1.1 g], fun mp hm => st2.2.1 mp (st1.2.1 mp hm),
      fun mp m hm => ?_⟩, fun x hx hact => ?_⟩
    · obtain ⟨m1, a1, a2, a3⟩ := st1.2.2 mp m hm
      obtain ⟨m2, b1, b2, b3⟩ := st2.2.2 mp m1 a1
      refine ⟨m2, b1, by rw [b2, a2], fun a => ?_⟩
      have b3' : m2.bytes a = (dataSegmentByte s1 inst mp a rest).getD (m1.bytes a) := b3 a
      have a3' : m1.bytes a = (segmentByte s inst mp a d).getD (m.bytes a) := a3 a
      show m2.bytes a = (dataSegmentByte s inst mp a (d :: rest)).getD (m.bytes a)
      rw [b3', a3', dataSegmentByte_congr s s1 inst mp a rest st1.1]
      simp only [dataSegmentByte]
      cases dataSegmentByte s inst mp a rest <;> rfl
    · rcases List.mem_cons.1 hx with e | hx'
      · subst e
        exact fit1 hact
      · exact (fit2 x hx' hact).of_step st1

theorem Frame.getMemory {mi : Ptr} {e : Bool} {s s' : RuntimeState}
    (h : Frame mi false e s s') {p : Ptr} {m : MemoryInstance} (hp : s.getMemory p = some m) :
    s'.getMemory p = some m := by
  obtain ⟨n, hn⟩ := getMemory_eq.1 hp
  obtain ⟨⟨n', d'⟩, g1, _, g3⟩ := h.1 p _ hn
  cases d' with
  | memory t' =>
    have e : t' = m := by
      cases t'
      cases m
      simpa [ObjectData.frozen] using g3
    subst e
    exact getMemory_eq.2 ⟨n', g1⟩
  | moduleInstance x =>
    simp only [ObjectData.frozen] at g3
    split at g3 <;> cases g3
  | _ => simp [ObjectData.frozen] at g3

theorem registeredState_getMemory (s : RuntimeState) (c : Ptr) (imports : ImportBindings)
    (name : String) (modules : List Ptr) (p : Ptr) (m : MemoryInstance)
    (h : s.getMemory p = some m) :
    (registeredState s c imports name modules).getMemory p = some m := by
  obtain ⟨n, hn⟩ := getMemory_eq.1 h
  obtain ⟨⟨n0, d0⟩, h1, _, h3⟩ := registeredState_old s c imports name modules p _ hn
  rcases h3 with h3 | ⟨x, hx, _⟩
  · simp only at h3
    subst h3
    exact getMemory_eq.2 ⟨n0, h1⟩
  · cases hx

/-- The phases up to the publication of the exports keep the bytes of the memories and the
elements of the tables that exist. -/
theorem instantiateDefinitions_frame (host : Host) (c mi : Ptr) (module : Module)
    (inst : ModuleInstance) (s : RuntimeState) (hs : Sync s mi inst) :
    Frame mi false false s (instantiateDefinitions host c mi module inst s).state := by
  unfold instantiateDefinitions
  refine frame_bind_unit (checkImports_spec host module.ir mi inst s hs) (by simp) (by simp) _
    (fun _ s1 _ hs1 => ?_)
  refine (instantiateTableDefs_spec host _ c mi _ _ 0 inst s1 hs1).frame_bind _
    (fun i2 s2 _ hs2 => ?_)
  refine (instantiateMemoryDefs_spec host _ c mi _ _ 0 i2 s2 hs2).frame_bind _
    (fun i3 s3 _ hs3 => ?_)
  refine (selectDefaults_spec host mi i3 s3 hs3).frame_bind _ (fun i4 s4 _ hs4 => ?_)
  refine (instantiateGlobalDefs_spec host c mi _ i4 s4 hs4).frame_bind _
    (fun i5 s5 _ hs5 => ?_)
  refine (instantiateExceptionTypeDefs_spec mi _ i5 s5 hs5).frame_bind _
    (fun i6 s6 _ hs6 => ?_)
  refine (instantiateFunctionDefs_spec _ _ mi _ _ 0 i6 s6 hs6).frame_bind _
    (fun i7 s7 _ hs7 => ?_)
  refine (loadAndLink_spec host c mi module i7 s7 hs7).frame_bind _ (fun i8 s8 _ hs8 => ?_)
  exact (publishExports_spec mi _ i8 s8 hs8).frame

theorem instantiateDefinitions_sync (host : Host) (c mi : Ptr) (module : Module)
    (inst inst' : ModuleInstance) (s s' : RuntimeState) (hs : Sync s mi inst)
    (h : instantiateDefinitions host c mi module inst s = .ok inst' s') : Sync s' mi inst' := by
  unfold instantiateDefinitions at h
  obtain ⟨_, s1, h1, r1⟩ := Outcome.bind_eq_ok.1 h
  have hs1 := (checkImports_spec host module.ir mi inst s hs).2 _ _ h1
  obtain ⟨i2, s2, h2, r2⟩ := Outcome.bind_eq_ok.1 r1
  have hs2 := ((instantiateTableDefs_spec host _ c mi _ _ 0 inst s1 hs1).ok i2 s2 h2).1
  obtain ⟨i3, s3, h3, r3⟩ := Outcome.bind_eq_ok.1 r2
  have hs3 := ((instantiateMemoryDefs_spec host _ c mi _ _ 0 i2 s2 hs2).ok i3 s3 h3).1
  obtain ⟨i4, s4, h4, r4⟩ := Outcome.bind_eq_ok.1 r3
  have hs4 := ((selectDefaults_spec host mi i3 s3 hs3).ok i4 s4 h4).1
  obtain ⟨i5, s5, h5, r5⟩ := Outcome.bind_eq_ok.1 r4
  have hs5 := ((instantiateGlobalDefs_spec host c mi _ i4 s4 hs4).ok i5 s5 h5).1
  obtain ⟨i6, s6, h6, r6⟩ := Outcome.bind_eq_ok.1 r5
  have hs6 := ((instantiateExceptionTypeDefs_spec mi _ i5 s5 hs5).ok i6 s6 h6).1
  obtain ⟨i7, s7, h7, r7⟩ := Outcome.bind_eq_ok.1 r6
  have hs7 := ((instantiateFunctionDefs_spec _ _ mi _ _ 0 i6 s6 hs6).ok i7 s7 h7).1
  obtain ⟨i8, s8, h8, r8⟩ := Outcome.bind_eq_ok.1 r7
  have hs8 := ((loadAndLink_spec host c mi module i7 s7 hs7).ok i8 s8 h8).1
  exact ((publishExports_spec mi _ i8 s8 hs8).ok inst' s' r8).1

theorem dataSegmentByte_eq_none (s : RuntimeState) (inst : ModuleInstance) (mp : Ptr) (a : Nat)
    (ds : List DataSegment) (h : ∀ d, d ∈ ds → segmentByte s inst mp a d = none) :
    dataSegmentByte s inst mp a ds = none := by
  induction ds with
  | nil => rfl
  | cons d rest ih =>
    simp only [dataSegmentByte, ih fun x hx => h x (List.mem_cons_of_mem _ hx),
      h d (List.mem_cons_self _ _)]

theorem dataSegmentByte_last (s : RuntimeState) (inst : ModuleInstance) (mp : Ptr) (a : Nat)
    (pre post : List DataSegment) (d : DataSegment) (byte : Nat)
    (hd : segmentByte s inst mp a d = some byte)
    (hpost : ∀ x, x ∈ post → segmentByte s inst mp a x = none) :
    dataSegmentByte s inst mp a (pre ++ d :: post) = some byte := by
  induction pre with
  | nil =>
    simp only [List.nil_append, dataSegmentByte,
      dataSegmentByte_eq_none s inst mp a post hpost, hd]
  | cons x rest ih =>
    show (match dataSegmentByte s inst mp a (rest ++ d :: post) with
      | some byte => some byte
      | none => segmentByte s inst mp a x) = some byte
    rw [ih]

theorem segmentByte_passive (s : RuntimeState) (inst : ModuleInstance) (mp : Ptr) (a : Nat)
    (d : DataSegment) (h : d.isActive = false) : segmentByte s inst mp a d = none := by
  unfold segmentByte
  simp [h]

/-- The phases that follow the data segments keep the bytes of the memories. -/
theorem afterDataSegments_getMemory (host : Host) (mi : Ptr) (module : Module)
    (inst inst' i12 : ModuleInstance) (s10 s11 s12 s' : RuntimeState) (hs10 : Sync s10 mi inst)
    (h11 : copyTableSegments host inst module.ir.tableSegments s10 = .ok () s11)
    (h12 : retainPassiveSegments module.ir mi inst s11 = .ok i12 s12)
    (h13 : selectStartFunction host module.ir mi i12 s12 = .ok inst' s')
    (mp : Ptr) (m : MemoryInstance) (hm : s10.getMemory mp = some m) :
    s'.getMemory mp = some m := by
  have TS := copyTableSegments_spec host mi inst inst module.ir.tableSegments s10 hs10
  have hs11 := TS.2 () s11 h11
  have f11 := TS.1
  rw [h11] at f11
  have P := retainPassiveSegments_spec module.ir mi inst s11 hs11
  have hs12 := (P.ok i12 s12 h12).1
  have f12 := P.frame
  rw [h12] at f12
  have f13 := (selectStartFunction_spec host module.ir mi i12 s12 hs12).frame
  rw [h13] at f13
  exact f13.getMemory (f12.getMemory (f11.getMemory hm))

/-- C20: after a successful `instantiateModule`, every active data segment lies within its
memory, and every memory that exists when the data segments are reached (the memories that
existed before the call are among them, with the bytes they had) has its number of pages and,
at every address, the byte given by the active data segments applied in declaration order:
the byte of the last segment that is active, targets this memory and covers the address, and
the byte the memory had when no such segment exists; passive segments store nothing. -/
theorem instantiateModule_data_segments (host : Host) (s : RuntimeState) (c : Ptr)
    (module : Module) (imports : ImportBindings) (name : String) (mi : Ptr)
    (s' : RuntimeState) (h : instantiateModule host s c module imports name = .ok mi s') :
    ∃ (comp : Compartment) (modules : List Ptr) (inst : ModuleInstance) (s9 : RuntimeState),
      s.getCompartment c = some comp ∧ setAdd s.fresh comp.modules = some modules ∧
      instantiateDefinitions host c s.fresh module (newModuleInstance c imports name)
        (registeredState s c imports name modules) = .ok inst s9 ∧
      (∀ mp m, s.getMemory mp = some m → s9.getMemory mp = some m) ∧
      (∀ d, d ∈ module.ir.dataSegments → d.isActive = true → SegmentFits s9 inst d) ∧
      (∀ mp a d, d.isActive = false → segmentByte s9 inst mp a d = none) ∧
      ∀ mp m, s9.getMemory mp = some m →
        ∃ m', s'.getMemory mp = some m' ∧ m'.numPages = m.numPages ∧
          (∀ a, m'.bytes a
            = (dataSegmentByte s9 inst mp a module.ir.dataSegments).getD (m.bytes a)) ∧
          (∀ a, (∀ d, d ∈ module.ir.dataSegments → segmentByte s9 inst mp a d = none) →
            m'.bytes a = m.bytes a) ∧
          (∀ a pre d post byte, module.ir.dataSegments = pre ++ d :: post →
            segmentByte s9 inst mp a d = some byte →
            (∀ x, x ∈ post → segmentByte s9 inst mp a x = none) → m'.bytes a = byte) := by
  obtain ⟨_, comp, modules, inst', hc, hm, hph, hsync⟩ :=
    instantiateModule_phases host s c module imports name mi s' h
  unfold instantiatePhases at hph
  obtain ⟨inst, s9, hdefs, hseg⟩ := Outcome.bind_eq_ok.1 hph
  unfold instantiateSegments at hseg
  obtain ⟨_, s10, h10, r10⟩ := Outcome.bind_eq_ok.1 hseg
  obtain ⟨_, s11, h11, r11⟩ := Outcome.bind_eq_ok.1 r10
  obtain ⟨i12, s12, h12, h13⟩ := Outcome.bind_eq_ok.1 r11
  have fdefs := instantiateDefinitions_frame host c s.fresh module _ _ hsync
  rw [hdefs] at fdefs
  have hs9 := instantiateDefinitions_sync host c s.fresh module _ inst _ s9 hsync hdefs
  have hs10 := (copyDataSegments_spec s.fresh inst inst module.ir.dataSegments s9 hs9).2 ()
    s10 h10
  obtain ⟨step, fits⟩ := copyDataSegments_ok inst module.ir.dataSegments s9 s10 h10
  refine ⟨comp, modules, inst, s9, hc, hm, hdefs,
    fun mp m hmp => fdefs.getMemory (registeredState_getMemory s c imports name modules mp m hmp),
    fits, fun mp a d hd => segmentByte_passive s9 inst mp a d hd, fun mp m hmp => ?_⟩
  obtain ⟨m', g1, g2, g3⟩ := step.2.2 mp m hmp
  have g3' : ∀ a, m'.bytes a
      = (dataSegmentByte s9 inst mp a module.ir.dataSegments).getD (m.bytes a) := g3
  refine ⟨m', afterDataSegments_getMemory host s.fresh module inst inst' i12 s10 s11 s12 s'
    hs10 h11 h12 h13 mp m' g1, g2, g3', fun a hnone => ?_, fun a pre d post byte hsplit hd hpost => ?_⟩
  · rw [g3' a, dataSegmentByte_eq_none s9 inst mp a _ hnone]
    rfl
  · rw [g3' a, hsplit, dataSegmentByte_last s9 inst mp a pre post d byte hd hpost]
    rfl

theorem instantiateModule_data_segments_witness :
    instantiateModule demoHost heapM 1 moduleO importsE "o" = .ok 4 heapOInstantiated ∧
      (heapOInstantiated.getMemory 3).map
          (fun m => [m.bytes 3, m.bytes 4, m.bytes 5, m.bytes 6, m.bytes 7])
        = some [0, 1, 7, 8, 0] ∧
      ∃ (inst : ModuleInstance) (s9 : RuntimeState),
        (∀ mp m, heapM.getMemory mp = some m → s9.getMemory mp = some m) ∧
        (∀ d, d ∈ moduleO.ir.dataSegments → d.isActive = true → SegmentFits s9 inst d) ∧
        ∀ mp m, s9.getMemory mp = some m →
          ∃ m', heapOInstantiated.getMemory mp = some m' ∧
            ∀ a, m'.bytes a
              = (dataSegmentByte s9 inst mp a moduleO.ir.dataSegments).getD (m.bytes a) := by
  obtain ⟨_, _, inst, s9, _, _, _, h1, h2, _, h3⟩ :=
    instantiateModule_data_segments demoHost heapM 1 moduleO importsE "o" 4 heapOInstantiated rfl
  refine ⟨rfl, by decide, inst, s9, h1, h2, fun mp m hm => ?_⟩
  obtain ⟨m', g1, _, g3, _⟩ := h3 mp m hm
  exact ⟨m', g1, g3⟩

/-! ## The mark loop terminates -/

theorem visitReference_pushed (m : MarkState) (reference : Option Ptr) (x : Ptr)
    (hx : x ∈ (visitReference m reference).pendingScanObjects)
    (hn : x ∉ m.pendingScanObjects) :
    reference = some x ∧ x ∈ m.unreferencedObjects ∧
      x ∉ (visitReference m reference).unreferencedObjects := by
  rcases (visitReference_moves m reference).pushed x hx with h | ⟨h1, h2, h3⟩
  · exact absurd h hn
  · exact ⟨h3.symm, h1, h2⟩

theorem visitReference_markedOnce (st : MarkState) (r : Option Ptr) (seen : List Ptr)
    (h : MarkedOnce st seen) : MarkedOnce (visitReference st r) seen := by
  cases r with
  | none => exact h
  | some r =>
    by_cases hr : r ∈ st.unreferencedObjects
    · simp only [visitReference, hr, if_true]
      refine ⟨?_, fun x hx hx' => ?_⟩
      · show (r :: (st.pendingScanObjects ++ seen)).Nodup
        exact List.nodup_cons.2 ⟨fun hmem => h.2 r hmem hr, h.1⟩
      · have hx2 : x ∈ r :: (st.pendingScanObjects ++ seen) := hx
        have hx3 := mem_setRemove.1 hx'
        rcases List.mem_cons.1 hx2 with e | hmem
        · exact hx3.2 e
        · exact h.2 x hmem hx3.1
    · simp only [visitReference, hr, if_false]
      exact h

theorem visitReferenceArray_markedOnce (array : List (Option Ptr)) (st : MarkState)
    (seen : List Ptr) (h : MarkedOnce st seen) :
    MarkedOnce (visitReferenceArray st array) seen := by
  induction array generalizing st with
  | nil => exact h
  | cons r t ih => exact ih (visitReference st r) (visitReference_markedOnce st r seen h)

theorem scanObject_markedOnce (s : RuntimeState) (st : MarkState) (o : Ptr) (seen : List Ptr)
    (h : MarkedOnce st seen) : MarkedOnce (scanObject s st o) seen := by
  cases hg : s.get o with
  | none =>
    unfold scanObject
    rw [hg]
    exact h
  | some obj =>
    rw [scanObject_eq s st o obj hg]
    exact visitReferenceArray_markedOnce _ st seen h

theorem scanObject_pushed (s : RuntimeState) (st : MarkState) (o : Ptr) (x : Ptr)
    (hx : x ∈ (scanObject s st o).pendingScanObjects ∨
      x ∈ (scanObject s st o).unreferencedObjects) :
    x ∈ st.pendingScanObjects ∨ x ∈ st.unreferencedObjects := by
  cases hg : s.get o with
  | none =>
    unfold scanObject at hx
    rw [hg] at hx
    exact hx
  | some obj =>
    rw [scanObject_eq s st o obj hg] at hx
    have hm := visitReferenceArray_moves (outgoingEdges obj.data) st
    rcases hx with hx | hx
    · rcases hm.pushed x hx with h | ⟨h, _, _⟩
      · exact Or.inl h
      · exact Or.inr h
    · exact Or.inr (hm.unref_sub x hx)

theorem length_markScanned_le (s : RuntimeState) (fuel : Nat) (st : MarkState) :
    (markScanned s fuel st).length ≤ fuel := by
  induction fuel generalizing st with
  | zero =>
    unfold markScanned
    cases st.pendingScanObjects <;> simp
  | succ f ih =>
    unfold markScanned
    cases st.pendingScanObjects with
    | nil => simp
    | cons top rest =>
      simp only [List.length_cons]
      have := ih (scanObject s { st with pendingScanObjects := rest } top)
      omega

theorem markScanned_once (s : RuntimeState) (fuel : Nat) (st : MarkState) (seen : List Ptr)
    (h : MarkedOnce st seen) :
    (markScanned s fuel st).Nodup ∧
    ∀ x, x ∈ markScanned s fuel st →
      x ∉ seen ∧ (x ∈ st.pendingScanObjects ∨ x ∈ st.unreferencedObjects) := by
  induction fuel generalizing st seen with
  | zero =>
    unfold markScanned
    cases st.pendingScanObjects <;> exact ⟨List.nodup_nil, fun x hx => by cases hx⟩
  | succ f ih =>
    unfold markScanned
    cases hp : st.pendingScanObjects with
    | nil => exact ⟨List.nodup_nil, fun x hx => by cases hx⟩
    | cons top rest =>
      simp only
      have hnd : (top :: (rest ++ seen)).Nodup := by
        have := h.1
        rw [hp] at this
        exact this
      have h1 : MarkedOnce { st with pendingScanObjects := rest } (top :: seen) := by
        refine ⟨?_, fun x hx => h.2 x ?_⟩
        · show (rest ++ top :: seen).Nodup
          exact (List.perm_middle.nodup_iff).2 hnd
        · have hx' : x ∈ rest ++ top :: seen := hx
          rw [hp]
          show x ∈ top :: (rest ++ seen)
          exact (List.perm_middle.mem_iff).1 hx'
      have h2 := scanObject_markedOnce s _ top (top :: seen) h1
      obtain ⟨g1, g2⟩ := ih _ (top :: seen) h2
      refine ⟨List.nodup_cons.2 ⟨fun hmem => (g2 top hmem).1 (List.mem_cons_self _ _), g1⟩,
        fun x hx => ?_⟩
      rcases List.mem_cons.1 hx with e | hmem
      · subst e
        refine ⟨fun hs => ?_, Or.inl (List.mem_cons_self _ _)⟩
        exact (List.nodup_cons.1 hnd).1 (List.mem_append_right _ hs)
      · obtain ⟨a1, a2⟩ := g2 x hmem
        refine ⟨fun hs => a1 (List.mem_cons_of_mem _ hs), ?_⟩
        rcases scanObject_pushed s _ top x a2 with b | b
        · exact Or.inl (List.mem_cons_of_mem _ b)
        · exact Or.inr b

theorem markLoop_fuel_mono (s : RuntimeState) (fuel fuel' : Nat) (st st' : MarkState)
    (h : markLoop s fuel st = some st') (hle : fuel ≤ fuel') :
    markLoop s fuel' st = some st' ∧ markScanned s fuel' st = markScanned s fuel st := by
  induction fuel generalizing st fuel' with
  | zero =>
    unfold markLoop at h
    unfold markLoop markScanned
    cases hp : st.pendingScanObjects with
    | nil =>
      rw [hp] at h
      exact ⟨h, rfl⟩
    | cons top rest =>
      rw [hp] at h
      cases h
  | succ f ih =>
    unfold markLoop at h
    unfold markLoop markScanned
    cases hp : st.pendingScanObjects with
    | nil =>
      rw [hp] at h
      exact ⟨h, rfl⟩
    | cons top rest =>
      rw [hp] at h
      simp only at h
      cases fuel' with
      | zero => omega
      | succ f' =>
        simp only
        obtain ⟨a, b⟩ := ih f' _ h (by omega)
        exact ⟨a, by rw [b]⟩

theorem rootLoop_markedOnce (s : RuntimeState) (l : List Ptr) (st : MarkState) (n : Nat)
    (st' : MarkState) (n' : Nat) (h : rootLoop s l (st, n) = some (st', n'))
    (hm : MarkedOnce st []) :
    MarkedOnce st' [] ∧ st'.measure ≤ st.measure ∧
    ∀ x, x ∈ st'.pendingScanObjects ∨ x ∈ st'.unreferencedObjects →
      x ∈ st.pendingScanObjects ∨ x ∈ st.unreferencedObjects := by
  induction l generalizing st n with
  | nil =>
    cases h
    exact ⟨hm, le_refl _, fun _ hx => hx⟩
  | cons o t ih =>
    unfold rootLoop at h
    by_cases hr : numRootReferences s o > 0
    · simp only [hr, if_true] at h
      by_cases ho : o ∈ st.unreferencedObjects
      · simp only [setRemoveOrFail, ho, if_true] at h
        have h1 : MarkedOnce
            { unreferencedObjects := setRemove o st.unreferencedObjects,
              pendingScanObjects := o :: st.pendingScanObjects } [] := by
          have := visitReference_markedOnce st (some o) [] hm
          simpa only [visitReference, ho, if_true] using this
        obtain ⟨a, b, c⟩ := ih _ _ h h1
        refine ⟨a, ?_, fun x hx => ?_⟩
        · have := length_setRemove_lt ho
          simp only [MarkState.measure, List.length_cons] at b ⊢
          omega
        · rcases c x hx with e | e
          · rcases List.mem_cons.1 e with e1 | e1
            · exact Or.inr (e1 ▸ ho)
            · exact Or.inl e1
          · exact Or.inr (mem_setRemove.1 e).1
      · simp [setRemoveOrFail, ho] at h
    · simp only [hr, if_false] at h
      exact ih _ _ h hm

theorem markLoop_unreferenced (s : RuntimeState) (fuel : Nat) (st st' : MarkState)
    (h : markLoop s fuel st = some st') :
    st'.unreferencedObjects.Sublist st.unreferencedObjects := by
  induction fuel generalizing st with
  | zero =>
    unfold markLoop at h
    cases hp : st.pendingScanObjects with
    | nil =>
      rw [hp] at h
      cases h
      exact List.Sublist.refl _
    | cons top rest =>
      rw [hp] at h
      cases h
  | succ f ih =>
    unfold markLoop at h
    cases hp : st.pendingScanObjects with
    | nil =>
      rw [hp] at h
      cases h
      exact List.Sublist.refl _
    | cons top rest =>
      rw [hp] at h
      exact (ih _ h).trans (scanObject_measure s { st with pendingScanObjects := rest } top).2

theorem markScanned_marked (s : RuntimeState) (fuel : Nat) (st st' : MarkState)
    (seen : List Ptr) (h : markLoop s fuel st = some st') (hm : MarkedOnce st seen) :
    ∀ x, x ∈ markScanned s fuel st → x ∉ st'.unreferencedObjects := by
  induction fuel generalizing st seen with
  | zero =>
    unfold markScanned
    cases st.pendingScanObjects <;> exact fun x hx => by cases hx
  | succ f ih =>
    unfold markLoop at h
    unfold markScanned
    cases hp : st.pendingScanObjects with
    | nil => exact fun x hx => by cases hx
    | cons top rest =>
      rw [hp] at h
      simp only at h ⊢
      have h1 : MarkedOnce { st with pendingScanObjects := rest } (top :: seen) := by
        have hnd : (top :: (rest ++ seen)).Nodup := by
          have := hm.1
          rw [hp] at this
          exact this
        refine ⟨?_, fun x hx => hm.2 x ?_⟩
        · show (rest ++ top :: seen).Nodup
          exact (List.perm_middle.nodup_iff).2 hnd
        · have hx' : x ∈ rest ++ top :: seen := hx
          rw [hp]
          show x ∈ top :: (rest ++ seen)
          exact (List.perm_middle.mem_iff).1 hx'
      have h2 := scanObject_markedOnce s _ top (top :: seen) h1
      intro x hx
      rcases List.mem_cons.1 hx with e | hmem
      · subst e
        intro hun
        have hsub := (markLoop_unreferenced s f _ st' h).trans
          (scanObject_measure s { st with pendingScanObjects := rest } x).2
        exact hm.2 x (by rw [hp]; exact List.mem_append_left _ (List.mem_cons_self _ _))
          (hsub.subset hun)
      · exact ih _ (top :: seen) h h2 x hmem

/-- C23: on every heap (cycles and self-references included), the mark loop that
`collectGarbage` starts after its root loop returns within `allObjects.size()` iterations and
with the stack empty; more iterations allowed change neither the result nor the objects
scanned.  The objects scanned are pairwise distinct registered objects, so each registered
object is scanned at most once and there are at most as many iterations as registered
objects; and `visitReference` pushes an object only when it has just removed it from
`unreferencedObjects`, where it never returns. -/
theorem markLoop_terminates (s : RuntimeState) (st : MarkState) (numRoots : Nat)
    (h : rootLoop s s.allObjects
      ({ unreferencedObjects := s.allObjects, pendingScanObjects := [] }, 0)
        = some (st, numRoots)) :
    ∃ st', markLoop s s.allObjects.length st = some st' ∧ st'.pendingScanObjects = [] ∧
      (∀ fuel, s.allObjects.length ≤ fuel →
        markLoop s fuel st = some st' ∧
        markScanned s fuel st = markScanned s s.allObjects.length st) ∧
      (markScanned s s.allObjects.length st).Nodup ∧
      (∀ x, x ∈ markScanned s s.allObjects.length st →
        x ∈ s.allObjects ∧ x ∉ st'.unreferencedObjects) ∧
      (markScanned s s.allObjects.length st).length ≤ s.allObjects.length ∧
      (∀ (m : MarkState) (reference : Option Ptr) (x : Ptr),
        x ∈ (visitReference m reference).pendingScanObjects → x ∉ m.pendingScanObjects →
        reference = some x ∧ x ∈ m.unreferencedObjects ∧
          x ∉ (visitReference m reference).unreferencedObjects) ∧
      (∀ (m : MarkState) (o x : Ptr), x ∈ (scanObject s m o).unreferencedObjects →
        x ∈ m.unreferencedObjects) := by
  have h0 : MarkedOnce { unreferencedObjects := s.allObjects, pendingScanObjects := [] } [] :=
    ⟨List.nodup_nil, fun x hx => by cases hx⟩
  obtain ⟨hm, hmeas, hsub⟩ := rootLoop_markedOnce s _ _ _ _ _ h h0
  have hfuel : st.measure ≤ s.allObjects.length := by
    simpa [MarkState.measure] using hmeas
  obtain ⟨st', hloop, hsl⟩ := markLoop_total s s.allObjects.length st hfuel
  obtain ⟨hnd, hmem⟩ := markScanned_once s s.allObjects.length st [] hm
  obtain ⟨_, hp⟩ := markLoop_inv s _ st st' hloop (rootLoop_inv s st numRoots h)
  refine ⟨st', hloop, hp, fun fuel hle => markLoop_fuel_mono s _ fuel st st' hloop hle, hnd,
    fun x hx => ?_, length_markScanned_le s _ st, visitReference_pushed,
    fun m o x hx => (scanObject_measure s m o).2.subset hx⟩
  have hx1 : x ∈ s.allObjects := by
    rcases hsub x (hmem x hx).2 with e | e
    · cases e
    · exact e
  exact ⟨hx1, markScanned_marked s _ st st' [] hloop hm x hx⟩

theorem markLoop_terminates_witness :
    rootLoop gcHeapC gcHeapC.allObjects
        ({ unreferencedObjects := gcHeapC.allObjects, pendingScanObjects := [] }, 0)
      = some ({ unreferencedObjects := [2, 3, 5], pendingScanObjects := [4, 1] }, 2) ∧
    markScanned gcHeapC 5 { unreferencedObjects := [2, 3, 5], pendingScanObjects := [4, 1] }
      = [4, 3, 2, 1] ∧
    ∃ st', markLoop gcHeapC gcHeapC.allObjects.length
        { unreferencedObjects := [2, 3, 5], pendingScanObjects := [4, 1] } = some st' ∧
      st'.pendingScanObjects = [] ∧
      (markScanned gcHeapC gcHeapC.allObjects.length
        { unreferencedObjects := [2, 3, 5], pendingScanObjects := [4, 1] }).length
        ≤ gcHeapC.allObjects.length := by
  obtain ⟨st', h1, h2, _, _, _, h6, _⟩ := markLoop_terminates gcHeapC
    { unreferencedObjects := [2, 3, 5], pendingScanObjects := [4, 1] } 2 rfl
  exact ⟨rfl, by decide, st', h1, h2, h6⟩

/-! ## The phases of a collection -/

theorem collectGarbage_stages (s : RuntimeState) (r : GCResult)
    (h : collectGarbage s = some r) :
    ∃ st1 st2 s3,
      rootLoop s s.allObjects
        ({ unreferencedObjects := s.allObjects, pendingScanObjects := [] }, 0)
          = some (st1, r.numRoots) ∧
      markLoop s s.allObjects.length st1 = some st2 ∧
      st2.unreferencedObjects = r.garbage ∧
      finalizeLoop r.garbage r.garbage (s, []) = some (s3, r.finalized) ∧
      deleteLoop r.garbage (s3, []) = some (r.state, r.deleted) := by
  unfold collectGarbage at h
  cases h1 : rootLoop s s.allObjects
      ({ unreferencedObjects := s.allObjects, pendingScanObjects := [] }, 0) with
  | none => simp [h1] at h
  | some a =>
    obtain ⟨st1, numRoots⟩ := a
    simp only [h1] at h
    cases h2 : markLoop s s.allObjects.length st1 with
    | none => simp [h2] at h
    | some st2 =>
      simp only [h2] at h
      cases h3 : finalizeLoop st2.unreferencedObjects st2.unreferencedObjects (s, []) with
      | none => simp [h3] at h
      | some b =>
        obtain ⟨s3, finalized⟩ := b
        simp only [h3] at h
        cases h4 : deleteLoop st2.unreferencedObjects (s3, []) with
        | none => simp [h4] at h
        | some d =>
          obtain ⟨s4, deleted⟩ := d
          simp only [h4, Option.some.injEq] at h
          subst h
          exact ⟨st1, st2, s3, rfl, h2, rfl, h3, h4⟩

theorem finalizeLoop_eq_unchecked (u l : List Ptr) (acc : RuntimeState × List Ptr)
    (h : ∀ x, x ∈ l → x ∈ u) : finalizeLoop u l acc = finalizeLoopUnchecked l acc := by
  induction l generalizing acc with
  | nil => rfl
  | cons o t ih =>
    obtain ⟨s, fin⟩ := acc
    unfold finalizeLoop finalizeLoopUnchecked
    rw [if_pos (h o (List.mem_cons_self _ _))]
    cases finalizeObject s o with
    | none => rfl
    | some s' => exact ih _ (fun x hx => h x (List.mem_cons_of_mem _ hx))

theorem finalizeLoop_append (u pre post : List Ptr) (acc : RuntimeState × List Ptr) :
    finalizeLoop u (pre ++ post) acc = (finalizeLoop u pre acc).bind (finalizeLoop u post) := by
  induction pre generalizing acc with
  | nil => rfl
  | cons o t ih =>
    obtain ⟨s, fin⟩ := acc
    have step : ∀ l, finalizeLoop u (o :: l) (s, fin) =
        if o ∈ u then
          match finalizeObject s o with
          | none => none
          | some s' => finalizeLoop u l (s', fin ++ [o])
        else finalizeLoop u l (s, fin) := fun l => rfl
    rw [List.cons_append, step, step]
    split
    · cases finalizeObject s o with
      | none => rfl
      | some s' => exact ih _
    · exact ih _

theorem deleteLoop_nodup (l : List Ptr) (s : RuntimeState) (del : List Ptr)
    (r : RuntimeState × List Ptr) (h : deleteLoop l (s, del) = some r) :
    l.Nodup ∧ ∀ x, x ∈ l → x ∈ s.allObjects := by
  induction l generalizing s del with
  | nil => exact ⟨List.nodup_nil, fun x hx => by cases hx⟩
  | cons o t ih =>
    unfold deleteLoop at h
    by_cases ho : o ∈ s.allObjects
    · rw [if_pos ho] at h
      obtain ⟨h1, h2⟩ := ih _ _ h
      refine ⟨List.nodup_cons.2 ⟨fun hmem => ?_, h1⟩, fun x hx => ?_⟩
      · exact ((mem_allObjects_delete s o o).1 (h2 o hmem)).2 rfl
      · rcases List.mem_cons.1 hx with e | e
        · exact e ▸ ho
        · exact ((mem_allObjects_delete s o x).1 (h2 x e)).1
    · rw [if_neg ho] at h
      cases h

/-- A finalizer leaves the heap as it is or updates one compartment. -/
theorem finalizeObject_form (s s' : RuntimeState) (o : Ptr)
    (h : finalizeObject s o = some s') :
    s' = s ∨ ∃ c f, s' = s.modifyCompartment c f := by
  unfold finalizeObject at h
  cases hg : s.get o with
  | none =>
    simp only [hg, Option.some.injEq] at h
    exact Or.inl h.symm
  | some obj =>
    obtain ⟨n, d⟩ := obj
    simp only [hg] at h
    cases d with
    | moduleInstance m =>
      simp only [ModuleInstance.finalize] at h
      cases hc : m.compartment with
      | none => simp [hc] at h
      | some c =>
        simp only [hc] at h
        cases hcomp : s.getCompartment c with
        | none => simp [hcomp] at h
        | some comp =>
          simp only [hcomp] at h
          cases hr : setRemoveOrFail o comp.modules with
          | none => simp [hr] at h
          | some modules =>
            simp only [hr, Option.some.injEq] at h
            exact Or.inr ⟨c, _, h.symm⟩
    | table t =>
      simp only [Option.some.injEq, TableInstance.finalize] at h
      cases hc : t.compartment with
      | none =>
        simp only [hc] at h
        exact Or.inl h.symm
      | some c =>
        simp only [hc] at h
        exact Or.inr ⟨c, _, h.symm⟩
    | memory t =>
      simp only [Option.some.injEq, MemoryInstance.finalize] at h
      cases hc : t.compartment with
      | none =>
        simp only [hc] at h
        exact Or.inl h.symm
      | some c =>
        simp only [hc] at h
        exact Or.inr ⟨c, _, h.symm⟩
    | global t =>
      simp only [Option.some.injEq, GlobalInstance.finalize] at h
      cases hc : t.compartment with
      | none =>
        simp only [hc] at h
        exact Or.inl h.symm
      | some c =>
        simp only [hc] at h
        exact Or.inr ⟨c, _, h.symm⟩
    | context t =>
      simp only [Option.some.injEq, Context.finalize] at h
      cases hc : t.compartment with
      | none =>
        simp only [hc] at h
        exact Or.inl h.symm
      | some c =>
        simp only [hc] at h
        exact Or.inr ⟨c, _, h.symm⟩
    | function _ =>
      simp only [Option.some.injEq] at h
      exact Or.inl h.symm
    | compartment _ =>
      simp only [Option.some.injEq] at h
      exact Or.inl h.symm
    | module _ =>
      simp only [Option.some.injEq] at h
      exact Or.inl h.symm
    | exceptionTypeInstance _ =>
      simp only [Option.some.injEq] at h
      exact Or.inl h.symm

theorem finalizeObject_getCompartment (s s' : RuntimeState) (o : Ptr)
    (h : finalizeObject s o = some s') (c : Ptr) (comp : Compartment)
    (hc : s.getCompartment c = some comp) : ∃ comp', s'.getCompartment c = some comp' := by
  rcases finalizeObject_form s s' o h with e | ⟨c', f, e⟩
  · exact ⟨comp, e ▸ hc⟩
  · rw [e, getCompartment_modifyCompartment]
    by_cases hcc : c = c'
    · rw [if_pos hcc, hc]
      exact ⟨f comp, rfl⟩
    · rw [if_neg hcc]
      exact ⟨comp, hc⟩

theorem finalizeLoop_getCompartment (u l : List Ptr) (s : RuntimeState) (fin : List Ptr)
    (s' : RuntimeState) (fin' : List Ptr) (h : finalizeLoop u l (s, fin) = some (s', fin'))
    (c : Ptr) (comp : Compartment) (hc : s.getCompartment c = some comp) :
    ∃ comp', s'.getCompartment c = some comp' := by
  induction l generalizing s fin comp with
  | nil =>
    cases h
    exact ⟨comp, hc⟩
  | cons o t ih =>
    unfold finalizeLoop at h
    split at h
    · cases ho : finalizeObject s o with
      | none => simp [ho] at h
      | some s1 =>
        simp only [ho] at h
        obtain ⟨comp1, h1⟩ := finalizeObject_getCompartment s s1 o ho c comp hc
        exact ih _ _ h comp1 h1
    · exact ih _ _ h comp hc

/-! ## The finalize pass -/

/-- C22: in a run of `collectGarbage` that returns, the list of `finalize` calls is the
garbage set in iteration order, the garbage set has no repetition, so `finalize` runs exactly
once on each garbage object and on no other object.  The finalize loop has run to its end on
a registry that still holds every object when the delete loop starts, and each single
`finalize` call finds every garbage object still registered.  The `contains` check never
skips an object: the loop with the check and the loop without it are the same function of
the set and the heap. -/
theorem collectGarbage_finalize_once (s : RuntimeState) :
    (consistent s = true → ∃ r, collectGarbage s = some r) ∧
    (∀ (u : List Ptr) (acc : RuntimeState × List Ptr),
      finalizeLoop u u acc = finalizeLoopUnchecked u acc) ∧
    ∀ r, collectGarbage s = some r →
      r.finalized = r.garbage ∧ r.garbage.Nodup ∧
      (∀ o, r.finalized.count o = if o ∈ r.garbage then 1 else 0) ∧
      ∃ s3, finalizeLoop r.garbage r.garbage (s, []) = some (s3, r.finalized) ∧
        finalizeLoopUnchecked r.garbage (s, []) = some (s3, r.finalized) ∧
        s3.allObjects = s.allObjects ∧
        deleteLoop r.garbage (s3, []) = some (r.state, r.deleted) ∧
        r.deleted = r.garbage ∧
        ∀ pre o post, r.garbage = pre ++ o :: post →
          ∃ sa sb, finalizeLoop r.garbage pre (s, []) = some (sa, pre) ∧
            sa.allObjects = s.allObjects ∧ (∀ g, g ∈ r.garbage → g ∈ sa.allObjects) ∧
            finalizeObject sa o = some sb := by
  refine ⟨collectGarbage_total s,
    fun u acc => finalizeLoop_eq_unchecked u u acc (fun _ hx => hx), fun r h => ?_⟩
  obtain ⟨hfin, hdel, hgar, _, _⟩ := collectGarbage_spec s r h
  obtain ⟨st1, st2, s3, _, _, _, h3, h4⟩ := collectGarbage_stages s r h
  have hnd : r.garbage.Nodup := (deleteLoop_nodup _ _ _ _ h4).1
  have hsame := (finalizeLoop_spec _ _ _ _ _ _ h3).1
  refine ⟨hfin, hnd, fun o => ?_, s3, h3, ?_, hsame.1, h4, hdel, fun pre o post hsplit => ?_⟩
  · rw [hfin]
    by_cases ho : o ∈ r.garbage
    · rw [if_pos ho]
      exact List.count_eq_one_of_mem hnd ho
    · rw [if_neg ho]
      exact List.count_eq_zero_of_not_mem ho
  · rw [← finalizeLoop_eq_unchecked r.garbage r.garbage (s, []) (fun _ hx => hx)]
    exact h3
  · have h3' := h3
    rw [show finalizeLoop r.garbage r.garbage (s, [])
        = finalizeLoop r.garbage (pre ++ o :: post) (s, []) by rw [← hsplit],
      finalizeLoop_append] at h3'
    cases hpre : finalizeLoop r.garbage pre (s, []) with
    | none =>
      rw [hpre] at h3'
      cases h3'
    | some a =>
      obtain ⟨sa, fa⟩ := a
      rw [hpre] at h3'
      obtain ⟨hsa, hfa⟩ := finalizeLoop_spec _ _ _ _ _ _ hpre
      have hmem : ∀ x, x ∈ pre → x ∈ r.garbage := fun x hx => by
        rw [hsplit]
        exact List.mem_append_left _ hx
      have hfa' : fa = pre := by
        rw [hfa, List.nil_append]
        exact List.filter_eq_self.2 (fun x hx => by simpa using hmem x hx)
      have ho : o ∈ r.garbage := by
        rw [hsplit]
        exact List.mem_append_right _ (List.mem_cons_self _ _)
      have hstep : finalizeLoop r.garbage (o :: post) (sa, fa) =
          match finalizeObject sa o with
          | none => none
          | some s' => finalizeLoop r.garbage post (s', fa ++ [o]) := by
        show (if o ∈ r.garbage then _ else _) = _
        rw [if_pos ho]
      cases hfo : finalizeObject sa o with
      | none =>
        have : finalizeLoop r.garbage (o :: post) (sa, fa) = some (s3, r.finalized) := h3'
        rw [hstep, hfo] at this
        cases this
      | some sb =>
        refine ⟨sa, sb, by rw [hfa'], hsa.1, fun g hg => ?_, hfo⟩
        rw [hsa.1]
        exact ((hgar g).1 hg).1

theorem collectGarbage_finalize_once_witness :
    collectGarbage gcHeapB = some gcHeapBCollected ∧
      gcHeapBCollected.finalized = [2, 3, 4] ∧
      gcHeapBCollected.finalized.count 3 = 1 ∧ gcHeapBCollected.finalized.count 1 = 0 ∧
      ∃ s3, finalizeLoopUnchecked [2, 3, 4] (gcHeapB, []) = some (s3, [2, 3, 4]) ∧
        s3.allObjects = [1, 2, 3, 4] ∧
        deleteLoop [2, 3, 4] (s3, []) = some (gcHeapBCollected.state, [2, 3, 4]) := by
  obtain ⟨_, _, h3, s3, _, h5, h6, h7, _, _⟩ :=
    (collectGarbage_finalize_once gcHeapB).2.2 gcHeapBCollected rfl
  exact ⟨rfl, rfl, h3 3, h3 1, s3, h5, h6, h7⟩

/-! ## The weak index `modules` across a collection -/

theorem collectGarbage_getCompartment (s : RuntimeState) (r : GCResult)
    (h : collectGarbage s = some r) (c : Ptr) :
    (∀ comp', r.state.getCompartment c = some comp' →
      c ∉ r.garbage ∧ ∃ comp, s.getCompartment c = some comp ∧
        ∀ y, y ∈ comp'.modules → y ∈ comp.modules) ∧
    (∀ comp, s.getCompartment c = some comp → c ∉ r.garbage →
      ∃ comp', r.state.getCompartment c = some comp') ∧
    (∀ m, m ∉ r.garbage → r.state.getModuleInstance m = s.getModuleInstance m) := by
  obtain ⟨st1, st2, s3, _, _, _, h3, h4⟩ := collectGarbage_stages s r h
  obtain ⟨hshr, _⟩ := finalizeLoop_shrinks _ _ _ _ _ _ h3
  obtain ⟨_, hget, _⟩ := deleteLoop_spec _ _ _ _ _ h4
  have hget' : ∀ p, r.state.get p = if p ∈ r.garbage then none else s3.get p := hget
  refine ⟨fun comp' hcomp => ?_, fun comp hcomp hc => ?_, fun m hm => ?_⟩
  · obtain ⟨n, hn⟩ := getCompartment_eq hcomp
    rw [hget' c] at hn
    by_cases hc : c ∈ r.garbage
    · rw [if_pos hc] at hn
      cases hn
    · rw [if_neg hc] at hn
      exact ⟨hc, hshr.modules c comp' (getCompartment_iff.2 ⟨n, hn⟩)⟩
  · obtain ⟨comp3, h5⟩ := finalizeLoop_getCompartment _ _ _ _ _ _ h3 c comp hcomp
    obtain ⟨n, hn⟩ := getCompartment_eq h5
    exact ⟨comp3, getCompartment_iff.2 ⟨n, by rw [hget' c, if_neg hc]; exact hn⟩⟩
  · rw [← hshr.instances m]
    unfold RuntimeState.getModuleInstance
    rw [hget' m, if_neg hm]

/-- C21: the collector does not follow the `modules` set of a compartment.  A module
instance that is a member of the `modules` of its compartment and is not reachable by traced
edges is finalized and deleted by `collectGarbage`, also when the compartment is reachable
(rooted, say), and the compartment, when it survives, no longer has it in `modules`.  Hence
on a heap in which every member of every `modules` set is a module instance of that
compartment, as it is in every heap that the runtime builds (the two stores into `modules`,
the registration in `instantiateModule` and the removal in `ModuleInstance::finalize`, act on
the compartment of the instance: `instantiateModule_modulesIndexed`), every member of the
`modules` of every surviving compartment is a registered object after the call, and the heap
is again of that kind. -/
theorem collectGarbage_modules_weak (s : RuntimeState) :
    (consistent s = true → ∃ r, collectGarbage s = some r) ∧
    ∀ r, collectGarbage s = some r →
      (∀ m c inst comp, s.getModuleInstance m = some inst → inst.compartment = some c →
        s.getCompartment c = some comp → m ∈ comp.modules → ¬ Reachable s m →
        m ∈ r.finalized ∧ m ∈ r.deleted ∧ m ∉ r.state.allObjects ∧
        (∀ comp', r.state.getCompartment c = some comp' → m ∉ comp'.modules) ∧
        (Reachable s c → ∃ comp', r.state.getCompartment c = some comp' ∧
          m ∉ comp'.modules ∧ ∀ y, y ∈ comp'.modules → y ∈ comp.modules)) ∧
      (ModulesIndexed s → ModulesIndexed r.state ∧ ModulesRegistered r.state) := by
  refine ⟨collectGarbage_total s, fun r h => ⟨?_, fun hidx => ?_⟩⟩
  · intro m c inst comp hinst hc hcomp _ hunreach
    obtain ⟨hfin, hdel, hgar, hreg, _⟩ := collectGarbage_spec s r h
    obtain ⟨n, hn⟩ := getModuleInstance_eq.1 hinst
    have hm : m ∈ r.garbage := (hgar m).2 ⟨mem_allObjects_iff.2 ⟨_, hn⟩, hunreach⟩
    have hrem := collectGarbage_removes_module s r h m c inst hm hinst hc
    refine ⟨hfin ▸ hm, hdel ▸ hm, fun hin => ((hreg m).1 hin).2 hm, hrem, fun hcr => ?_⟩
    have hcg : c ∉ r.garbage := fun hcg => ((hgar c).1 hcg).2 hcr
    obtain ⟨comp', h1⟩ := (collectGarbage_getCompartment s r h c).2.1 comp hcomp hcg
    obtain ⟨_, comp0, h2, h3⟩ := (collectGarbage_getCompartment s r h c).1 comp' h1
    rw [hcomp] at h2
    cases h2
    exact ⟨comp', h1, hrem comp' h1, h3⟩
  · have key : ModulesIndexed r.state := by
      intro c comp' hcomp' m hm
      obtain ⟨_, comp, h2, h3⟩ := (collectGarbage_getCompartment s r h c).1 comp' hcomp'
      obtain ⟨inst, hinst, hc⟩ := hidx c comp h2 m (h3 m hm)
      have hmg : m ∉ r.garbage := fun hmg =>
        collectGarbage_removes_module s r h m c inst hmg hinst hc comp' hcomp' hm
      exact ⟨inst, by rw [(collectGarbage_getCompartment s r h c).2.2 m hmg]; exact hinst, hc⟩
    refine ⟨key, fun c comp' hcomp' m hm => ?_⟩
    obtain ⟨inst, hinst, _⟩ := key c comp' hcomp' m hm
    obtain ⟨n, hn⟩ := getModuleInstance_eq.1 hinst
    exact mem_allObjects_iff.2 ⟨_, hn⟩

theorem collectGarbage_modules_weak_witness :
    collectGarbage gcHeapB = some gcHeapBCollected ∧
      gcHeapB.getCompartment 1
        = some { modules := [2], tables := [(0, 4)] } ∧
      IsRoot gcHeapB 1 ∧ ¬ Reachable gcHeapB 2 ∧
      2 ∈ gcHeapBCollected.finalized ∧ 2 ∉ gcHeapBCollected.state.allObjects ∧
      (∃ comp', gcHeapBCollected.state.getCompartment 1 = some comp' ∧
        2 ∉ comp'.modules) := by
  have hun : ¬ Reachable gcHeapB 2 := fun h => absurd (gcHeapB_reachable 2 h) (by decide)
  obtain ⟨h1, _, h3, _, h5⟩ :=
    ((collectGarbage_modules_weak gcHeapB).2 gcHeapBCollected rfl).1 2 1 _
      { modules := [2], tables := [(0, 4)] } rfl rfl rfl (List.mem_cons_self _ _) hun
  have hroot : IsRoot gcHeapB 1 := ⟨_, rfl, by decide⟩
  obtain ⟨comp', g1, g2, _⟩ := h5 (Reachable.root hroot)
  exact ⟨rfl, rfl, hroot, hun, h1, h3, comp', g1, g2⟩

/-! ## The references of an instance outside its vectors -/

theorem publishExports_values (mi : Ptr) (exports : List Export) (inst inst' : ModuleInstance)
    (s s' : RuntimeState) (h : publishExports mi exports inst s = .ok inst' s') :
    ∀ e, e ∈ inst'.exportMap →
      e ∈ inst.exportMap ∨ ∃ x, x ∈ exports ∧ exportedObject inst x = .ok e.2 := by
  induction exports generalizing inst s with
  | nil =>
    cases h
    exact fun e he => Or.inl he
  | cons x rest ih =>
    unfold publishExports at h
    cases hx : exportedObject inst x with
    | error err => simp [hx] at h
    | ok o =>
      simp only [hx] at h
      unfold exportMapAddOrFail assocAdd at h
      by_cases hk : x.name ∈ inst.exportMap.map Prod.fst
      · simp [hk] at h
      · simp only [hk, if_false] at h
        intro e he
        rcases ih _ _ h e he with h1 | ⟨y, hy, hy'⟩
        · rcases List.mem_append.1 h1 with h2 | h2
          · exact Or.inl h2
          · have : e = (x.name, o) := by simpa using h2
            subst this
            exact Or.inr ⟨x, List.mem_cons_self _ _, hx⟩
        · exact Or.inr ⟨y, List.mem_cons_of_mem _ hy, hy'⟩

theorem mem_assocAddIfAbsent {β : Type} (k : Nat) (v : β) (l : List (Nat × β))
    (e : Nat × β) (h : e ∈ assocAddIfAbsent k v l) : e ∈ l ∨ e = (k, v) := by
  unfold assocAddIfAbsent assocAdd at h
  split at h
  · rename_i l' heq
    split at heq
    · cases heq
    · cases heq
      rcases List.mem_append.1 h with h1 | h1
      · exact Or.inl h1
      · exact Or.inr (by simpa using h1)
  · exact Or.inl h

theorem retainPassiveTableSegments_values (functions : List (Option Ptr))
    (segs : List TableSegment) (k : Nat) (acc res : List (Nat × List (Option Ptr)))
    (h : retainPassiveTableSegments functions segs k acc = some res) :
    ∀ e, e ∈ res → e ∈ acc ∨
      ∃ sg, sg ∈ segs ∧ passiveTableSegmentObjects functions sg.indices = some e.2 := by
  induction segs generalizing k acc with
  | nil =>
    cases h
    exact fun e he => Or.inl he
  | cons d rest ih =>
    unfold retainPassiveTableSegments at h
    cases hda : d.isActive with
    | true =>
      simp only [hda, Bool.not_true, Bool.false_eq_true, if_false] at h
      intro e he
      rcases ih _ _ h e he with h1 | ⟨sg, h1, h2⟩
      · exact Or.inl h1
      · exact Or.inr ⟨sg, List.mem_cons_of_mem _ h1, h2⟩
    | false =>
      simp only [hda, Bool.not_false, if_true] at h
      cases ho : passiveTableSegmentObjects functions d.indices with
      | none => simp [ho] at h
      | some objs =>
        simp only [ho] at h
        intro e he
        rcases ih _ _ h e he with h1 | ⟨sg, h1, h2⟩
        · rcases mem_assocAddIfAbsent _ _ _ _ h1 with h3 | h3
          · exact Or.inl h3
          · subst h3
            exact Or.inr ⟨d, List.mem_cons_self _ _, ho⟩
        · exact Or.inr ⟨sg, List.mem_cons_of_mem _ h1, h2⟩

theorem passiveTableSegmentObjects_mem (functions : List (Option Ptr)) (indices : List Nat)
    (objs : List (Option Ptr)) (h : passiveTableSegmentObjects functions indices = some objs) :
    ∀ o, o ∈ objs → o ∈ functions := by
  have hf := passiveTableSegmentObjects_eq functions indices objs h
  induction hf with
  | nil => exact fun o ho => by cases ho
  | cons hk _ ih =>
    intro o ho
    rcases List.mem_cons.1 ho with e | e
    · subst e
      exact List.mem_iff_getElem?.2 ⟨_, hk⟩
    · exact ih (by
        unfold passiveTableSegmentObjects at h
        rw [hk] at h
        simp only [Option.map_eq_some'] at h
        obtain ⟨a, ha, hcons⟩ := h
        cases hcons
        exact ha) o e

theorem exportedObject_mem {inst : ModuleInstance} {x : Export} {o : Option Ptr}
    (h : exportedObject inst x = .ok o) : o ∈ inst.tracedVectors := by
  have hm : o ∈ instanceVector inst x.kind :=
    List.mem_iff_getElem?.2 ⟨_, exportedObject_eq_ok h⟩
  unfold ModuleInstance.tracedVectors
  cases hk : x.kind <;> rw [hk] at hm <;> simp only [instanceVector] at hm <;>
    simp only [List.mem_append]
  · exact Or.inl (Or.inl (Or.inl (Or.inl hm)))
  · exact Or.inl (Or.inl (Or.inl (Or.inr hm)))
  · exact Or.inl (Or.inl (Or.inr hm))
  · exact Or.inl (Or.inr hm)
  · exact Or.inr hm
  · cases hm

theorem instantiatePhases_exportMap (host : Host) (c mi : Ptr) (module : Module)
    (inst inst' : ModuleInstance) (s s' : RuntimeState) (hs : Sync s mi inst)
    (h : instantiatePhases host c mi module inst s = .ok inst' s') :
    ∀ e, e ∈ inst'.exportMap → e ∈ inst.exportMap ∨ e.2 ∈ inst'.tracedVectors := by
  obtain ⟨i6, s6, i7, s7, i8, s8, i9, s9, s10, s11, i12, s12, newT, newM, newG, newE, newF,
    ⟨e6, _⟩, ⟨_, e7, _⟩, ⟨_, ⟨jh, e8⟩, _⟩, ⟨h9, ⟨em, e9⟩, _⟩, _, _, ⟨_, ⟨pts, _, e12⟩, _⟩,
    ⟨_, hst, _⟩⟩ := instantiatePhases_stages host c mi module inst inst' s s' hs h
  have v12 : inst'.tracedVectors = i12.tracedVectors ∧ inst'.exportMap = i12.exportMap := by
    rcases hst with ⟨_, e⟩ | ⟨_, f, _, e⟩ <;> rw [e] <;> exact ⟨rfl, rfl⟩
  have v9 : i12.tracedVectors = i9.tracedVectors ∧ i12.exportMap = i9.exportMap := by
    rw [e12]
    exact ⟨rfl, rfl⟩
  have v8 : i9.tracedVectors = i8.tracedVectors := by
    rw [e9]
    rfl
  have x8 : i8.exportMap = i7.exportMap := by
    rw [e8]
  intro e he
  rw [v12.2, v9.2] at he
  rcases publishExports_values mi _ i8 i9 s8 s9 h9 e he with h1 | ⟨x, _, hx⟩
  · left
    have x6 : i7.exportMap = i6.exportMap := by rw [e7]
    have x0 : i6.exportMap = inst.exportMap := by rw [e6]
    rw [x8, x6, x0] at h1
    exact h1
  · right
    rw [v12.1, v9.1, v8]
    exact exportedObject_mem hx

/-- C24: in the instance returned by a successful `instantiateModule`, every entry of
`functionDefs` is an entry of `functions`, a non-null `startFunction` is an entry of
`functions`, a non-null `defaultMemory` an entry of `memories`, a non-null `defaultTable` an
entry of `tables`, every value of the export map is an entry of one of the five vectors, and
every object of a passive element segment is an entry of `functions`.  Hence every object
the instance refers to outside its five vectors is among the edges the collector follows
from the instance through the vectors: on every heap that holds the instance and on which
it is reachable, these objects are reachable and a collection keeps those that are
registered. -/
theorem instantiateModule_references_traced (host : Host) (s : RuntimeState) (c : Ptr)
    (module : Module) (imports : ImportBindings) (name : String) (mi : Ptr)
    (s' : RuntimeState) (h : instantiateModule host s c module imports name = .ok mi s') :
    ∃ inst, s'.getModuleInstance mi = some inst ∧
      (∀ f, f ∈ inst.functionDefs → f ∈ inst.functions) ∧
      (∀ p, inst.startFunction = some p → some p ∈ inst.functions) ∧
      (∀ p, inst.defaultMemory = some p → some p ∈ inst.memories) ∧
      (∀ p, inst.defaultTable = some p → some p ∈ inst.tables) ∧
      (∀ key o, (key, o) ∈ inst.exportMap → o ∈ inst.tracedVectors) ∧
      (∀ k objs o, (k, objs) ∈ inst.passiveTableSegments → o ∈ objs → o ∈ inst.functions) ∧
      (∀ p, some p ∈ inst.otherReferences → some p ∈ inst.tracedVectors) ∧
      (∀ t, t.getModuleInstance mi = some inst → Reachable t mi →
        ∀ p, some p ∈ inst.otherReferences →
          Reachable t p ∧
          ∀ r, collectGarbage t = some r → p ∈ t.allObjects → p ∈ r.state.allObjects) := by
  obtain ⟨hmi, comp, modules, inst, _, _, hph, hsync⟩ :=
    instantiateModule_phases host s c module imports name mi s' h
  subst hmi
  obtain ⟨hs', newF, newT, newM, newG, newE, I⟩ :=
    instantiatePhases_post host c s.fresh module _ inst _ s' hsync hph
  have hexp := instantiatePhases_exportMap host c s.fresh module _ inst _ s' hsync hph
  have a1 : ∀ f, f ∈ inst.functionDefs → f ∈ inst.functions := by
    intro f hf
    rw [I.functionDefs] at hf
    rw [I.functions]
    rcases List.mem_append.1 hf with e | e
    · cases e
    · exact List.mem_append_right _ e
  have a2 : ∀ p, inst.startFunction = some p → some p ∈ inst.functions := by
    intro p hp
    rcases I.startFunction with ⟨_, e⟩ | ⟨_, e⟩
    · rw [hp] at e
      cases e
    · rw [hp] at e
      exact List.mem_iff_getElem?.2 ⟨_, e⟩
  have first : ∀ (l : List (Option Ptr)) (d p : Option Ptr),
      (if l.length ≠ 0 then l.getD 0 none else none) = d → d = p → p ≠ none → p ∈ l := by
    intro l d p hd hp hne
    cases l with
    | nil =>
      simp at hd
      exact absurd (hp ▸ hd.symm) hne
    | cons a t =>
      simp at hd
      rw [← hp, ← hd]
      exact List.mem_cons_self _ _
  have a3 : ∀ p, inst.defaultMemory = some p → some p ∈ inst.memories := fun p hp =>
    first _ _ _ I.defaultMemory.symm hp (by simp)
  have a4 : ∀ p, inst.defaultTable = some p → some p ∈ inst.tables := fun p hp =>
    first _ _ _ I.defaultTable.symm hp (by simp)
  have a5 : ∀ key o, (key, o) ∈ inst.exportMap → o ∈ inst.tracedVectors := by
    intro key o hmem
    rcases hexp (key, o) hmem with e | e
    · cases e
    · exact e
  have a6 : ∀ k objs o, (k, objs) ∈ inst.passiveTableSegments → o ∈ objs →
      o ∈ inst.functions := by
    intro k objs o hmem ho
    rcases retainPassiveTableSegments_values _ _ _ _ _ I.passiveTableSegments (k, objs) hmem
      with e | ⟨sg, _, hsg⟩
    · cases e
    · exact passiveTableSegmentObjects_mem _ _ _ hsg o ho
  have inF : ∀ o, o ∈ inst.functions → o ∈ inst.tracedVectors := fun o ho => by
    unfold ModuleInstance.tracedVectors
    simp only [List.mem_append]
    exact Or.inl (Or.inl (Or.inl (Or.inl ho)))
  have a7 : ∀ p, some p ∈ inst.otherReferences → some p ∈ inst.tracedVectors := by
    intro p hp
    unfold ModuleInstance.otherReferences at hp
    simp only [List.mem_append, List.mem_cons, List.mem_singleton, List.mem_map,
      List.mem_flatten, List.not_mem_nil, or_false] at hp
    rcases hp with ((h1 | h1 | h1 | h1) | ⟨e, he, h1⟩) | ⟨l, ⟨e, he, hl⟩, h1⟩
    · exact inF _ (a1 _ h1)
    · exact inF _ (a2 p h1.symm)
    · unfold ModuleInstance.tracedVectors
      simp only [List.mem_append]
      exact Or.inl (Or.inl (Or.inr (a3 p h1.symm)))
    · unfold ModuleInstance.tracedVectors
      simp only [List.mem_append]
      exact Or.inl (Or.inl (Or.inl (Or.inr (a4 p h1.symm))))
    · obtain ⟨key, o⟩ := e
      simp only at h1
      subst h1
      exact a5 key _ he
    · obtain ⟨k, objs⟩ := e
      simp only at hl
      subst hl
      exact inF _ (a6 k _ _ he h1)
  refine ⟨inst, getModuleInstance_eq.2 hs', a1, a2, a3, a4, a5, a6, a7, fun t ht hr p hp => ?_⟩
  obtain ⟨n, hn⟩ := getModuleInstance_eq.1 ht
  have hedge : some p ∈ outgoingEdges (ObjectData.moduleInstance inst) := by
    have := a7 p hp
    unfold ModuleInstance.tracedVectors at this
    simp only [outgoingEdges, List.mem_cons, List.mem_append] at this ⊢
    exact Or.inr (Or.inl this)
  have hreach : Reachable t p := Reachable.edge hr hn hedge
  refine ⟨hreach, fun r hcol hreg => ?_⟩
  obtain ⟨_, _, hgar, hsurv, _⟩ := collectGarbage_spec t r hcol
  exact (hsurv p).2 ⟨hreg, fun hg => ((hgar p).1 hg).2 hreach⟩

theorem instantiateModule_references_traced_witness :
    instantiateModule demoHost heapB 1 moduleP {} "p" = .ok 3 heapPInstantiated ∧
      ∃ inst, heapPInstantiated.getModuleInstance 3 = some inst ∧
        inst.otherReferences = [some 6, some 6, some 5, some 4, some 6, some 6] ∧
        inst.tracedVectors = [some 6, some 4, some 5] ∧
        Reachable (addGCRoot heapPInstantiated 3) 6 ∧
        Reachable (addGCRoot heapPInstantiated 3) 5 ∧
        Reachable (addGCRoot heapPInstantiated 3) 4 := by
  obtain ⟨inst, h1, _, _, _, _, _, _, _, h9⟩ :=
    instantiateModule_references_traced demoHost heapB 1 moduleP {} "p" 3 heapPInstantiated rfl
  have h1' : heapPInstantiated.getModuleInstance 3 = some
      { instPDefined with
        passiveDataSegments := [(0, [1, 2, 3])],
        passiveTableSegments := [(1, [some 6, some 6])],
        startFunction := some 6 } := rfl
  rw [h1'] at h1
  cases h1
  have hr : Reachable (addGCRoot heapPInstantiated 3) 3 :=
    Reachable.root ⟨_, rfl, by decide⟩
  have h9' := h9 (addGCRoot heapPInstantiated 3) rfl hr
  exact ⟨rfl, _, h1', rfl, rfl, (h9' 6 (by decide)).1, (h9' 5 (by decide)).1,
    (h9' 4 (by decide)).1⟩

/-! ## The text of infinities and NaNs -/

theorem Floats.hexitChar_spec (h : Nat) (hh : h < 16) :
    Floats.hexDigitValue (Floats.hexitChar h) = h ∧
      Floats.hexitChar h ∈ "0123456789abcdef".toList := by
  interval_cases h <;> exact ⟨by decide, by decide⟩

theorem Floats.hexValue_append (l : List Char) (c : Char) :
    Floats.hexValue (l ++ [c]) = 16 * Floats.hexValue l + Floats.hexDigitValue c := by
  simp [Floats.hexValue, List.foldl_append]

/-- The hexits written for `n` digits, most significant first. -/
theorem Floats.hexits_succ (n significand : Nat) :
    ((List.range (n + 1)).map fun i =>
        Floats.hexitChar ((significand >>> ((n + 1 - i - 1) * 4)) &&& 0xf))
      = ((List.range n).map fun i =>
          Floats.hexitChar (((significand / 16) >>> ((n - i - 1) * 4)) &&& 0xf))
        ++ [Floats.hexitChar (significand % 16)] := by
  rw [List.range_succ, List.map_append]
  congr 1
  · apply List.map_congr_left
    intro i hi
    have hi' : i < n := List.mem_range.1 hi
    congr 2
    rw [Nat.shiftRight_eq_div_pow, Nat.shiftRight_eq_div_pow, Nat.div_div_eq_div_mul]
    congr 1
    have e : (n + 1 - i - 1) * 4 = (n - i - 1) * 4 + 4 := by omega
    rw [e, pow_add]
    ring
  · simp only [List.map_cons, List.map_nil]
    congr 2
    have e : (n + 1 - n - 1) * 4 = 0 := by omega
    rw [e, Nat.shiftRight_zero]
    exact Nat.and_pow_two_sub_one_eq_mod significand 4

theorem Floats.hexits_spec (n significand : Nat) :
    let digits := (List.range n).map fun i =>
      Floats.hexitChar ((significand >>> ((n - i - 1) * 4)) &&& 0xf)
    digits.length = n ∧ (∀ c, c ∈ digits → c ∈ "0123456789abcdef".toList) ∧
      Floats.hexValue digits = significand % 16 ^ n := by
  induction n generalizing significand with
  | zero =>
    intro digits
    refine ⟨rfl, fun c hc => ?_, ?_⟩
    · have hc' : c ∈ ([] : List Char) := hc
      cases hc'
    · show Floats.hexValue [] = significand % 16 ^ 0
      rw [pow_zero, Nat.mod_one]
      rfl
  | succ n ih =>
    intro digits
    obtain ⟨h1, h2, h3⟩ := ih (significand / 16)
    have hd : digits = ((List.range n).map fun i =>
          Floats.hexitChar (((significand / 16) >>> ((n - i - 1) * 4)) &&& 0xf))
        ++ [Floats.hexitChar (significand % 16)] := Floats.hexits_succ n significand
    have hlt : significand % 16 < 16 := Nat.mod_lt _ (by norm_num)
    refine ⟨by simp [digits], fun c hc => ?_, ?_⟩
    · rw [hd] at hc
      rcases List.mem_append.1 hc with e | e
      · exact h2 c e
      · have : c = Floats.hexitChar (significand % 16) := by simpa using e
        rw [this]
        exact (Floats.hexitChar_spec _ hlt).2
    · rw [hd, Floats.hexValue_append, h3, (Floats.hexitChar_spec _ hlt).1, pow_succ,
        Nat.mul_comm (16 ^ n) 16, Nat.mod_mul]
      omega

/-- C25: for a 64-bit or 32-bit float whose exponent field is all ones, `Floats::asString`
returns `+inf` or `-inf` (by the sign bit) when the significand field is zero; otherwise it
returns the sign character (`+` also for a clear sign bit), then `nan:0x`, then exactly
`numSignificandHexits` (13, respectively 6) characters among `0123456789abcdef` whose value
read as a base-16 number is the significand field. -/
theorem asString_infinity_nan (fc : FloatComponents) (sprintf : String → Nat → String)
    (bitcastInt : Nat) (hfc : fc = FloatComponents.F64 ∨ fc = FloatComponents.F32)
    (hexp : fc.exponent bitcastInt = fc.maxExponentBits) :
    (fc.significand bitcastInt = 0 →
      Floats.asString fc sprintf bitcastInt
        = some (if fc.sign bitcastInt ≠ 0 then "-inf" else "+inf")) ∧
    (fc.significand bitcastInt ≠ 0 →
      ∃ digits : List Char,
        Floats.asString fc sprintf bitcastInt
          = some ((if fc.sign bitcastInt ≠ 0 then "-" else "+") ++ "nan:0x"
              ++ String.mk digits) ∧
        digits.length = fc.numSignificandHexits ∧
        (fc = FloatComponents.F64 → digits.length = 13) ∧
        (fc = FloatComponents.F32 → digits.length = 6) ∧
        (∀ c, c ∈ digits → c ∈ "0123456789abcdef".toList) ∧
        Floats.hexValue digits = fc.significand bitcastInt) := by
  refine ⟨fun hz => ?_, fun hnz => ?_⟩
  · unfold Floats.asString
    simp only [hexp, if_true, hz]
    split <;> rfl
  · obtain ⟨h1, h2, h3⟩ := Floats.hexits_spec fc.numSignificandHexits (fc.significand bitcastInt)
    refine ⟨Floats.significandString fc (fc.significand bitcastInt), ?_, h1, fun e => ?_,
      fun e => ?_, h2, ?_⟩
    · unfold Floats.asString
      simp only [hexp, if_true, hnz, if_false, String.append_empty]
    · rw [show (Floats.significandString fc (fc.significand bitcastInt)).length
        = fc.numSignificandHexits from h1, e]
      rfl
    · rw [show (Floats.significandString fc (fc.significand bitcastInt)).length
        = fc.numSignificandHexits from h1, e]
      rfl
    · rw [show Floats.hexValue (Floats.significandString fc (fc.significand bitcastInt))
        = fc.significand bitcastInt % 16 ^ fc.numSignificandHexits from h3]
      apply Nat.mod_eq_of_lt
      unfold FloatComponents.significand
      rcases hfc with e | e <;> subst e
      · have : bitcastInt % 2 ^ 52 < 2 ^ 52 := Nat.mod_lt _ (by norm_num)
        exact lt_of_lt_of_le this (by norm_num [FloatComponents.F64])
      · have : bitcastInt % 2 ^ 23 < 2 ^ 23 := Nat.mod_lt _ (by norm_num)
        exact lt_of_lt_of_le this (by norm_num [FloatComponents.F32])

theorem asString_infinity_nan_witness :
    Floats.asString FloatComponents.F64 (fun _ _ => "") 0x7ff8000000000000
        = some "+nan:0x8000000000000" ∧
      Floats.asString FloatComponents.F64 (fun _ _ => "") 0xfff0000000000000 = some "-inf" ∧
      Floats.asString FloatComponents.F32 (fun _ _ => "") 0xffc00001 = some "-nan:0x400001" ∧
      FloatComponents.exponent FloatComponents.F64 0xfff0000000000000 = 0x7ff ∧
      FloatComponents.F64.significand 0xfff0000000000000 = 0 ∧
      Floats.asString FloatComponents.F64 (fun _ _ => "") 0xfff0000000000000
        = some (if FloatComponents.F64.sign 0xfff0000000000000 ≠ 0 then "-inf"
            else "+inf") ∧
      (∃ digits : List Char,
        Floats.asString FloatComponents.F32 (fun _ _ => "") 0xffc00001
          = some ((if FloatComponents.F32.sign 0xffc00001 ≠ 0 then "-" else "+") ++ "nan:0x"
              ++ String.mk digits) ∧
        digits.length = 6 ∧ Floats.hexValue digits = 0x400001) := by
  have h64 := asString_infinity_nan FloatComponents.F64 (fun _ _ => "") 0xfff0000000000000
    (Or.inl rfl) (by decide)
  obtain ⟨digits, g1, _, _, g4, _, g6⟩ :=
    (asString_infinity_nan FloatComponents.F32 (fun _ _ => "") 0xffc00001
      (Or.inr rfl) (by decide)).2 (by decide)
  exact ⟨by decide, by decide, by decide, by decide, by decide, h64.1 (by decide), digits, g1,
    g4 rfl, g6⟩

/-! ## The byte stores of a run of the data segments, failed or not -/

theorem applyByteWrites_append (bytes : Nat → Nat) (w1 w2 : List (Nat × Nat)) :
    applyByteWrites bytes (w1 ++ w2) = applyByteWrites (applyByteWrites bytes w1) w2 := by
  induction w1 generalizing bytes with
  | nil => rfl
  | cons w rest ih => exact ih _

theorem applyByteWrites_of_not_mem (bytes : Nat → Nat) (ws : List (Nat × Nat)) (a : Nat)
    (h : ∀ w, w ∈ ws → w.1 ≠ a) : applyByteWrites bytes ws a = bytes a := by
  induction ws generalizing bytes with
  | nil => rfl
  | cons w rest ih =>
    show applyByteWrites (fun a => if a = w.1 then w.2 else bytes a) rest a = bytes a
    rw [ih _ (fun x hx => h x (List.mem_cons_of_mem _ hx))]
    have : a ≠ w.1 := fun e => h w (List.mem_cons_self _ _) e.symm
    simp [this]

theorem getMemory_none_of_get_eq {s s' : RuntimeState} {p : Ptr} (h : s'.get p = s.get p)
    (hn : s.getMemory p = none) : s'.getMemory p = none := by
  rw [getMemory_of_get_eq h, hn]

theorem getTable_of_get_eq {s s' : RuntimeState} {p : Ptr} (h : s'.get p = s.get p) :
    s'.getTable p = s.getTable p := by
  unfold RuntimeState.getTable
  rw [h]

theorem getTable_of_getMemory {s : RuntimeState} {p : Ptr} {m : MemoryInstance}
    (h : s.getMemory p = some m) : s.getTable p = none := by
  obtain ⟨n, hn⟩ := getMemory_eq.1 h
  unfold RuntimeState.getTable
  rw [hn]

theorem WritesBytes.bytesRefl (s : RuntimeState) : WritesBytes s s (fun _ => []) :=
  ⟨fun _ _ => rfl, fun _ _ hm => hm⟩

theorem WritesBytes.bytesGlobal {s s' : RuntimeState} {writes : Ptr → List (Nat × Nat)}
    (h : WritesBytes s s' writes) (g : Ptr) : s'.getGlobal g = s.getGlobal g := by
  cases hm : s.getMemory g with
  | none => exact getGlobal_of_get_eq (h.1 g hm)
  | some m =>
    rw [getGlobal_of_getMemory (h.2 g m hm), getGlobal_of_getMemory hm]

theorem WritesBytes.bytesTable {s s' : RuntimeState} {writes : Ptr → List (Nat × Nat)}
    (h : WritesBytes s s' writes) (p : Ptr) : s'.getTable p = s.getTable p := by
  cases hm : s.getMemory p with
  | none => exact getTable_of_get_eq (h.1 p hm)
  | some m =>
    rw [getTable_of_getMemory (h.2 p m hm), getTable_of_getMemory hm]

theorem WritesBytes.getMemory_none {s s' : RuntimeState} {writes : Ptr → List (Nat × Nat)}
    (h : WritesBytes s s' writes) (p : Ptr) (hn : s.getMemory p = none) :
    s'.getMemory p = none :=
  getMemory_none_of_get_eq (h.1 p hn) hn

theorem WritesBytes.bytesTrans {s s1 s2 : RuntimeState} {w1 w2 : Ptr → List (Nat × Nat)}
    (h1 : WritesBytes s s1 w1) (h2 : WritesBytes s1 s2 w2) :
    WritesBytes s s2 (fun p => w1 p ++ w2 p) := by
  refine ⟨fun q hq => ?_, fun p m hm => ?_⟩
  · rw [h2.1 q (h1.getMemory_none q hq), h1.1 q hq]
  · have b := h2.2 p _ (h1.2 p m hm)
    beta_reduce
    rw [applyByteWrites_append]
    exact b

theorem dataSegmentWrites_congr (s s' : RuntimeState) (inst : ModuleInstance) (p : Ptr)
    (d : DataSegment) (h : ∀ g, s'.getGlobal g = s.getGlobal g) :
    dataSegmentWrites s' inst p d = dataSegmentWrites s inst p d := by
  unfold dataSegmentWrites
  rw [evaluateInitializer_congr s s' _ _ h]

theorem bytewiseMemCopy_state_none (mp : Ptr) (data : List Nat) (a : Nat) (s : RuntimeState)
    (hm : s.getMemory mp = none) : (bytewiseMemCopy mp data a s).state = s := by
  cases data with
  | nil => rfl
  | cons b rest =>
    unfold bytewiseMemCopy
    rw [hm]
    rfl

/-- A copy into a memory, failed or not, has made an initial part of its byte stores, and
all of them when it returns. -/
theorem bytewiseMemCopy_writes (mp : Ptr) (data : List Nat) (a : Nat) (s : RuntimeState)
    (m : MemoryInstance) (hm : s.getMemory mp = some m) :
    ∃ ws, (bytewiseMemCopy mp data a s).state.getMemory mp
        = some { m with bytes := applyByteWrites m.bytes ws } ∧
      ws <+: data.enumFrom a ∧
      (∀ s', bytewiseMemCopy mp data a s = .ok () s' → ws = data.enumFrom a) ∧
      ∀ q, q ≠ mp → (bytewiseMemCopy mp data a s).state.get q = s.get q := by
  induction data generalizing a s m with
  | nil => exact ⟨[], hm, List.prefix_refl _, fun _ _ => rfl, fun _ _ => rfl⟩
  | cons b rest ih =>
    unfold bytewiseMemCopy
    rw [hm]
    simp only
    by_cases hlt : a < m.numPages * numBytesPerPage
    · rw [if_pos hlt]
      obtain ⟨ws, h1, h4, h5, h6⟩ := ih (a + 1) (s.storeByte mp a b)
        { m with bytes := fun i => if i = a then b else m.bytes i }
        (getMemory_storeByte s mp m a b hm)
      refine ⟨(a, b) :: ws, h1, ?_, fun s' hs' => ?_, fun q hq => ?_⟩
      · exact List.prefix_cons_inj (a, b) |>.2 h4
      · rw [h5 s' hs']
        rfl
      · rw [h6 q hq]
        unfold RuntimeState.storeByte
        exact get_modifyData_ne _ _ _ _ hq
    · rw [if_neg hlt]
      exact ⟨[], hm, List.nil_prefix, fun _ hs' => (by cases hs'), fun _ _ => rfl⟩

theorem dataSegmentWrites_nil (s : RuntimeState) (inst : ModuleInstance) (p : Ptr)
    (d : DataSegment) (h : d.data = []) : dataSegmentWrites s inst p d = [] := by
  unfold dataSegmentWrites
  rw [h]
  split
  · split
    · split <;> rfl
    · rfl
  · rfl

/-- One step of the loop over the data segments, failed or not, has made an initial part of
the byte stores of the segment, and all of them when it returns. -/
theorem copyDataSegment_writes (inst : ModuleInstance) (d : DataSegment) (s : RuntimeState) :
    ∃ writes : Ptr → List (Nat × Nat),
      WritesBytes s (copyDataSegment inst d s).state writes ∧
      (∀ p, writes p <+: dataSegmentWrites s inst p d) ∧
      (∀ s', copyDataSegment inst d s = .ok () s' →
        ∀ p, writes p = dataSegmentWrites s inst p d) := by
  have stay : ∀ x : Outcome Unit, x.state = s →
      (∀ s', x = .ok () s' → ∀ p, dataSegmentWrites s inst p d = []) →
      ∃ writes : Ptr → List (Nat × Nat), WritesBytes s x.state writes ∧
        (∀ p, writes p <+: dataSegmentWrites s inst p d) ∧
        (∀ s', x = .ok () s' → ∀ p, writes p = dataSegmentWrites s inst p d) := by
    intro x hx hok
    refine ⟨fun _ => [], ?_, fun _ => List.nil_prefix, fun s' hs' p => (hok s' hs' p).symm⟩
    rw [hx]
    exact WritesBytes.bytesRefl s
  unfold copyDataSegment
  cases hact : d.isActive with
  | false =>
    simp only [Bool.false_eq_true, if_false]
    refine stay _ rfl (fun _ _ p => ?_)
    unfold dataSegmentWrites
    simp [hact]
  | true =>
    simp only [if_true]
    cases hmem : inst.memories[d.memoryIndex]? with
    | none => exact stay _ rfl (fun _ h => by cases h)
    | some memory =>
      simp only
      cases hv : evaluateInitializer s inst.globals d.baseOffset with
      | error e => exact stay _ rfl (fun _ h => by cases h)
      | ok v =>
        simp only
        by_cases hty : v.type = .i32
        · rw [if_pos hty]
          by_cases hlen : d.data.length = 0
          · have hnil : d.data = [] := List.length_eq_zero.1 hlen
            simp only [hlen, ne_eq, not_true_eq_false, if_false]
            refine stay _ ?_ (fun _ _ p => dataSegmentWrites_nil s inst p d hnil)
            split
            · split <;> rfl
            · rfl
          · have hne : d.data ≠ [] := fun e => hlen (by rw [e]; rfl)
            simp only [ne_eq, hlen, not_false_eq_true, if_true]
            cases memory with
            | none => exact stay _ rfl (fun _ h => by cases h)
            | some mp0 =>
              simp only
              cases hm0 : s.getMemory mp0 with
              | none =>
                exact stay _ (bytewiseMemCopy_state_none mp0 d.data v.i32 s hm0)
                  (fun s' h => (bytewiseMemCopy_none mp0 d.data v.i32 s s' hm0 hne h).elim)
              | some m0 =>
                obtain ⟨ws, h1, h4, h5, h6⟩ :=
                  bytewiseMemCopy_writes mp0 d.data v.i32 s m0 hm0
                have hW : dataSegmentWrites s inst mp0 d = d.data.enumFrom v.i32 := by
                  unfold dataSegmentWrites
                  simp only [hact, hmem, and_self, if_true, hv, hty]
                have hO : ∀ p, p ≠ mp0 → dataSegmentWrites s inst p d = [] := by
                  intro p hp
                  unfold dataSegmentWrites
                  have : ¬ (d.isActive = true ∧
                      inst.memories[d.memoryIndex]? = some (some p)) := by
                    rw [hmem]
                    intro hc
                    exact hp (Option.some.inj (Option.some.inj hc.2)).symm
                  rw [if_neg this]
                refine ⟨fun p => if p = mp0 then ws else [], ⟨fun q hq => ?_, fun p m hm => ?_⟩,
                  fun p => ?_, fun s' hs' p => ?_⟩
                · have : q ≠ mp0 := by
                    intro e
                    rw [e, hm0] at hq
                    cases hq
                  exact h6 q this
                · by_cases hp : p = mp0
                  · subst hp
                    rw [hm0] at hm
                    cases hm
                    simp only [if_true]
                    exact h1
                  · simp only [hp, if_false]
                    rw [getMemory_of_get_eq (h6 p hp)]
                    exact hm
                · by_cases hp : p = mp0
                  · simp only [hp, if_true, hW]
                    exact h4
                  · simp only [hp, if_false]
                    exact List.nil_prefix
                · by_cases hp : p = mp0
                  · simp only [hp, if_true, hW]
                    exact h5 s' hs'
                  · simp only [hp, if_false, hO p hp]
        · rw [if_neg hty]
          exact stay _ rfl (fun _ h => by cases h)

/-- A run of the loop over the data segments, failed or not: an initial part of the byte
stores of the segments has been made, in declaration order; it holds every store of every
initial run of segments that the loop processed without failing, and every store when the
loop returns. -/
theorem copyDataSegments_writes (inst : ModuleInstance) (segs : List DataSegment)
    (s : RuntimeState) :
    ∃ writes : Ptr → List (Nat × Nat),
      WritesBytes s (copyDataSegments inst segs s).state writes ∧
      (∀ p, writes p <+: segs.flatMap (dataSegmentWrites s inst p)) ∧
      (∀ s', copyDataSegments inst segs s = .ok () s' →
        ∀ p, writes p = segs.flatMap (dataSegmentWrites s inst p)) ∧
      (∀ pre s1, pre <+: segs → copyDataSegments inst pre s = .ok () s1 →
        ∀ p, pre.flatMap (dataSegmentWrites s inst p) <+: writes p) := by
  induction segs generalizing s with
  | nil =>
    refine ⟨fun _ => [], WritesBytes.bytesRefl s, fun _ => List.nil_prefix, fun _ _ _ => rfl,
      fun pre s1 hpre _ p => ?_⟩
    rw [List.prefix_nil.1 hpre]
    exact List.nil_prefix
  | cons d rest ih =>
    obtain ⟨w1, a1, a2, a3⟩ := copyDataSegment_writes inst d s
    have hstep : copyDataSegments inst (d :: rest) s
        = (copyDataSegment inst d s).bind fun _ s => copyDataSegments inst rest s := rfl
    cases hx : copyDataSegment inst d s with
    | throw e s1 =>
      rw [hx] at a1
      have hst : (copyDataSegments inst (d :: rest) s).state = s1 := by
        rw [hstep, hx]
        rfl
      refine ⟨w1, by rw [hst]; exact a1, fun p => ?_, fun s' hs' => ?_,
        fun pre s1' hpre hok p => ?_⟩
      · rw [List.flatMap_cons]
        exact (a2 p).trans (List.prefix_append _ _)
      · rw [hstep, hx] at hs'
        cases hs'
      · cases pre with
        | nil => exact List.nil_prefix
        | cons d' pre' =>
          have hd : d' = d := (List.cons_prefix_cons.1 hpre).1
          subst hd
          have : copyDataSegments inst (d' :: pre') s
              = (copyDataSegment inst d' s).bind fun _ s => copyDataSegments inst pre' s := rfl
          rw [this, hx] at hok
          cases hok
    | ok u s1 =>
      rw [hx] at a1
      have hw1 := a3 s1 hx
      obtain ⟨w2, b1, b2, b3, b4⟩ := ih s1
      have hg := a1.bytesGlobal
      have hcongr : ∀ p (l : List DataSegment), l.flatMap (dataSegmentWrites s1 inst p)
          = l.flatMap (dataSegmentWrites s inst p) := by
        intro p l
        induction l with
        | nil => rfl
        | cons x t iht =>
          rw [List.flatMap_cons, List.flatMap_cons, iht, dataSegmentWrites_congr s s1 inst p x hg]
      have hst : copyDataSegments inst (d :: rest) s = copyDataSegments inst rest s1 := by
        rw [hstep, hx]
        rfl
      refine ⟨fun p => w1 p ++ w2 p, by rw [hst]; exact a1.bytesTrans b1, fun p => ?_,
        fun s' hs' p => ?_, fun pre s1' hpre hok p => ?_⟩
      · beta_reduce
        rw [List.flatMap_cons, hw1 p]
        exact (List.prefix_append_right_inj _).2 (hcongr p rest ▸ b2 p)
      · rw [hst] at hs'
        beta_reduce
        rw [List.flatMap_cons, hw1 p, b3 s' hs' p, hcongr]
      · cases pre with
        | nil => exact List.nil_prefix
        | cons d' pre' =>
          obtain ⟨hd, hpre'⟩ := List.cons_prefix_cons.1 hpre
          subst hd
          have : copyDataSegments inst (d' :: pre') s
              = (copyDataSegment inst d' s).bind fun _ s => copyDataSegments inst pre' s := rfl
          rw [this, hx] at hok
          have hok' : copyDataSegments inst pre' s1 = .ok () s1' := hok
          beta_reduce
          rw [List.flatMap_cons, hw1 p]
          exact (List.prefix_append_right_inj _).2 (hcongr p pre' ▸ b4 pre' s1' hpre' hok' p)

/-! ## The element stores of a run of the element segments, failed or not -/

theorem applyElementWrites_append (elements : List (Option Ptr))
    (w1 w2 : List (Nat × Option Ptr)) :
    applyElementWrites elements (w1 ++ w2)
      = applyElementWrites (applyElementWrites elements w1) w2 := by
  induction w1 generalizing elements with
  | nil => rfl
  | cons w rest ih => exact ih _

theorem applyElementWrites_length (elements : List (Option Ptr))
    (ws : List (Nat × Option Ptr)) :
    (applyElementWrites elements ws).length = elements.length := by
  induction ws generalizing elements with
  | nil => rfl
  | cons w rest ih =>
    show (applyElementWrites (elements.set w.1 w.2) rest).length = elements.length
    rw [ih, List.length_set]

theorem applyElementWrites_of_not_mem (elements : List (Option Ptr))
    (ws : List (Nat × Option Ptr)) (j : Nat) (h : ∀ w, w ∈ ws → w.1 ≠ j) :
    (applyElementWrites elements ws)[j]? = elements[j]? := by
  induction ws generalizing elements with
  | nil => rfl
  | cons w rest ih =>
    show (applyElementWrites (elements.set w.1 w.2) rest)[j]? = elements[j]?
    rw [ih _ (fun x hx => h x (List.mem_cons_of_mem _ hx))]
    exact List.getElem?_set_ne (h w (List.mem_cons_self _ _))

theorem getTable_none_of_get_eq {s s' : RuntimeState} {p : Ptr} (h : s'.get p = s.get p)
    (hn : s.getTable p = none) : s'.getTable p = none := by
  rw [getTable_of_get_eq h, hn]

theorem getGlobal_of_getTable {s : RuntimeState} {p : Ptr} {t : TableInstance}
    (h : s.getTable p = some t) : s.getGlobal p = none := by
  obtain ⟨n, hn⟩ := getTable_eq.1 h
  unfold RuntimeState.getGlobal
  rw [hn]

theorem getMemory_of_getTable {s : RuntimeState} {p : Ptr} {t : TableInstance}
    (h : s.getTable p = some t) : s.getMemory p = none := by
  obtain ⟨n, hn⟩ := getTable_eq.1 h
  unfold RuntimeState.getMemory
  rw [hn]

theorem WritesElements.elementsRefl (s : RuntimeState) : WritesElements s s (fun _ => []) :=
  ⟨fun _ _ => rfl, fun _ _ ht => ht⟩

theorem WritesElements.elementsGlobal {s s' : RuntimeState}
    {writes : Ptr → List (Nat × Option Ptr)}
    (h : WritesElements s s' writes) (g : Ptr) : s'.getGlobal g = s.getGlobal g := by
  cases ht : s.getTable g with
  | none => exact getGlobal_of_get_eq (h.1 g ht)
  | some t => rw [getGlobal_of_getTable (h.2 g t ht), getGlobal_of_getTable ht]

theorem WritesElements.elementsMemory {s s' : RuntimeState}
    {writes : Ptr → List (Nat × Option Ptr)}
    (h : WritesElements s s' writes) (p : Ptr) : s'.getMemory p = s.getMemory p := by
  cases ht : s.getTable p with
  | none => exact getMemory_of_get_eq (h.1 p ht)
  | some t => rw [getMemory_of_getTable (h.2 p t ht), getMemory_of_getTable ht]

theorem WritesElements.getTable_none {s s' : RuntimeState}
    {writes : Ptr → List (Nat × Option Ptr)}
    (h : WritesElements s s' writes) (p : Ptr) (hn : s.getTable p = none) :
    s'.getTable p = none :=
  getTable_none_of_get_eq (h.1 p hn) hn

theorem WritesElements.elementsTrans {s s1 s2 : RuntimeState}
    {w1 w2 : Ptr → List (Nat × Option Ptr)}
    (h1 : WritesElements s s1 w1) (h2 : WritesElements s1 s2 w2) :
    WritesElements s s2 (fun p => w1 p ++ w2 p) := by
  refine ⟨fun q hq => ?_, fun p t ht => ?_⟩
  · rw [h2.1 q (h1.getTable_none q hq), h1.1 q hq]
  · have b := h2.2 p _ (h1.2 p t ht)
    beta_reduce
    rw [applyElementWrites_append]
    exact b

theorem tableSegmentWrites_congr (s s' : RuntimeState) (inst : ModuleInstance) (p : Ptr)
    (d : TableSegment) (h : ∀ g, s'.getGlobal g = s.getGlobal g) :
    tableSegmentWrites s' inst p d = tableSegmentWrites s inst p d := by
  unfold tableSegmentWrites
  rw [evaluateInitializer_congr s s' _ _ h]

theorem tableSegmentWrites_nil (s : RuntimeState) (inst : ModuleInstance) (p : Ptr)
    (d : TableSegment) (h : d.indices = []) : tableSegmentWrites s inst p d = [] := by
  unfold tableSegmentWrites
  rw [h]
  split
  · split
    · split <;> rfl
    · rfl
  · rfl

theorem setTableElement_none (s : RuntimeState) (t : Ptr) (i : Nat) (o : Option Ptr)
    (ht : s.getTable t = none) : setTableElement s t i o = .throw .undefined s := by
  unfold setTableElement
  rw [ht]

theorem copyTableSegmentElements_state_none (host : Host) (inst : ModuleInstance) (t : Ptr)
    (base : Nat) (indices : List Nat) (index : Nat) (s : RuntimeState)
    (ht : s.getTable t = none) :
    (copyTableSegmentElements host inst t base indices index s).state = s ∧
    (indices ≠ [] → ∀ s', copyTableSegmentElements host inst t base indices index s
      ≠ .ok () s') := by
  cases indices with
  | nil => exact ⟨rfl, fun h => (h rfl).elim⟩
  | cons k rest =>
    unfold copyTableSegmentElements
    cases ha : wavmAssert host (decide (k < inst.functions.length)) s with
    | throw e s1 =>
      have := wavmAssert_state host (decide (k < inst.functions.length)) s
      rw [ha] at this
      exact ⟨this, fun _ _ h => by cases h⟩
    | ok u s1 =>
      have hs1 : s1 = s := (wavmAssert_eq_ok.1 ha).2
      subst hs1
      simp only [Outcome.bind]
      cases inst.functions[k]? with
      | none => exact ⟨rfl, fun _ _ h => by cases h⟩
      | some f =>
        simp only
        rw [setTableElement_none _ _ _ _ ht]
        exact ⟨rfl, fun _ _ h => by cases h⟩

/-- The inner loop of an element segment, failed or not, has made an initial part of its
element stores, and all of them when it returns. -/
theorem copyTableSegmentElements_writes (host : Host) (inst : ModuleInstance) (t : Ptr)
    (base : Nat) (indices : List Nat) (index : Nat) (s : RuntimeState) (tab : TableInstance)
    (ht : s.getTable t = some tab) :
    ∃ ws, (copyTableSegmentElements host inst t base indices index s).state.getTable t
        = some { tab with elements := applyElementWrites tab.elements ws } ∧
      ws <+: elementWrites inst base indices index ∧
      (∀ s', copyTableSegmentElements host inst t base indices index s = .ok () s' →
        ws = elementWrites inst base indices index) ∧
      ∀ q, q ≠ t →
        (copyTableSegmentElements host inst t base indices index s).state.get q = s.get q := by
  induction indices generalizing index s tab with
  | nil => exact ⟨[], ht, List.prefix_refl _, fun _ _ => rfl, fun _ _ => rfl⟩
  | cons k rest ih =>
    unfold copyTableSegmentElements
    cases ha : wavmAssert host (decide (k < inst.functions.length)) s with
    | throw e s1 =>
      have hs1 := wavmAssert_state host (decide (k < inst.functions.length)) s
      rw [ha] at hs1
      have hs1' : s1 = s := hs1
      subst hs1'
      exact ⟨[], ht, List.nil_prefix, fun _ h => (by cases h), fun _ _ => rfl⟩
    | ok u s1 =>
      have hs1 : s1 = s := (wavmAssert_eq_ok.1 ha).2
      subst hs1
      simp only [Outcome.bind]
      cases hf : inst.functions[k]? with
      | none => exact ⟨[], ht, List.nil_prefix, fun _ h => (by cases h), fun _ _ => rfl⟩
      | some f =>
        simp only
        by_cases hin : (base + index) % 2 ^ 64 < tab.elements.length
        · obtain ⟨s2, h1, h2, h3⟩ :=
            setTableElement_ok s1 t tab ((base + index) % 2 ^ 64) f ht hin
          rw [h1]
          simp only
          obtain ⟨ws, g1, g2, g3, g4⟩ := ih (index + 1) s2 _ h2
          have hd : inst.functions.getD k none = f := by
            rw [List.getD_eq_getElem?_getD, hf]
            rfl
          have hw : elementWrites inst base (k :: rest) index
              = ((base + index) % 2 ^ 64, f) :: elementWrites inst base rest (index + 1) := by
            show (_, inst.functions.getD k none) :: _ = _
            rw [hd]
          refine ⟨((base + index) % 2 ^ 64, f) :: ws, g1, ?_, fun s' hs' => ?_,
            fun q hq => (g4 q hq).trans (h3 q hq)⟩
          · rw [hw]
            exact (List.prefix_cons_inj _).2 g2
          · rw [hw, g3 s' hs']
        · rw [setTableElement_oob s1 t tab _ f ht (by omega)]
          exact ⟨[], ht, List.nil_prefix, fun _ h => (by cases h), fun _ _ => rfl⟩

/-- One step of the loop over the element segments, failed or not, has made an initial part
of the element stores of the segment, and all of them when it returns. -/
theorem copyTableSegment_writes (host : Host) (inst : ModuleInstance) (d : TableSegment)
    (s : RuntimeState) :
    ∃ writes : Ptr → List (Nat × Option Ptr),
      WritesElements s (copyTableSegment host inst d s).state writes ∧
      (∀ p, writes p <+: tableSegmentWrites s inst p d) ∧
      (∀ s', copyTableSegment host inst d s = .ok () s' →
        ∀ p, writes p = tableSegmentWrites s inst p d) := by
  have stay : ∀ x : Outcome Unit, x.state = s →
      (∀ s', x = .ok () s' → ∀ p, tableSegmentWrites s inst p d = []) →
      ∃ writes : Ptr → List (Nat × Option Ptr), WritesElements s x.state writes ∧
        (∀ p, writes p <+: tableSegmentWrites s inst p d) ∧
        (∀ s', x = .ok () s' → ∀ p, writes p = tableSegmentWrites s inst p d) := by
    intro x hx hok
    refine ⟨fun _ => [], ?_, fun _ => List.nil_prefix, fun s' hs' p => (hok s' hs' p).symm⟩
    rw [hx]
    exact WritesElements.elementsRefl s
  unfold copyTableSegment
  cases hact : d.isActive with
  | false =>
    simp only [Bool.false_eq_true, if_false]
    refine stay _ rfl (fun _ _ p => ?_)
    unfold tableSegmentWrites
    simp [hact]
  | true =>
    simp only [if_true]
    cases htab : inst.tables[d.tableIndex]? with
    | none => exact stay _ rfl (fun _ h => by cases h)
    | some table =>
      simp only
      cases hv : evaluateInitializer s inst.globals d.baseOffset with
      | error e => exact stay _ rfl (fun _ h => by cases h)
      | ok v =>
        simp only
        by_cases hty : v.type = .i32
        · rw [if_pos hty]
          by_cases hlen : d.indices.length = 0
          · have hnil : d.indices = [] := List.length_eq_zero.1 hlen
            simp only [hlen, ne_eq, not_true_eq_false, if_false]
            refine stay _ ?_ (fun _ _ p => tableSegmentWrites_nil s inst p d hnil)
            split
            · split <;> rfl
            · rfl
          · have hne : d.indices ≠ [] := fun e => hlen (by rw [e]; rfl)
            simp only [ne_eq, hlen, not_false_eq_true, if_true]
            cases table with
            | none => exact stay _ rfl (fun _ h => by cases h)
            | some tp0 =>
              simp only
              cases ht0 : s.getTable tp0 with
              | none =>
                have hn := copyTableSegmentElements_state_none host inst tp0 v.i32 d.indices 0 s
                  ht0
                exact stay _ hn.1 (fun s' h => (hn.2 hne s' h).elim)
              | some t0 =>
                obtain ⟨ws, h1, h4, h5, h6⟩ :=
                  copyTableSegmentElements_writes host inst tp0 v.i32 d.indices 0 s t0 ht0
                have hW : tableSegmentWrites s inst tp0 d
                    = elementWrites inst v.i32 d.indices 0 := by
                  unfold tableSegmentWrites
                  simp only [hact, htab, and_self, if_true, hv, hty]
                have hO : ∀ p, p ≠ tp0 → tableSegmentWrites s inst p d = [] := by
                  intro p hp
                  unfold tableSegmentWrites
                  have : ¬ (d.isActive = true ∧
                      inst.tables[d.tableIndex]? = some (some p)) := by
                    rw [htab]
                    intro hc
                    exact hp (Option.some.inj (Option.some.inj hc.2)).symm
                  rw [if_neg this]
                refine ⟨fun p => if p = tp0 then ws else [], ⟨fun q hq => ?_, fun p m hm => ?_⟩,
                  fun p => ?_, fun s' hs' p => ?_⟩
                · have : q ≠ tp0 := by
                    intro e
                    rw [e, ht0] at hq
                    cases hq
                  exact h6 q this
                · by_cases hp : p = tp0
                  · subst hp
                    rw [ht0] at hm
                    cases hm
                    simp only [if_true]
                    exact h1
                  · simp only [hp, if_false]
                    rw [getTable_of_get_eq (h6 p hp)]
                    exact hm
                · by_cases hp : p = tp0
                  · simp only [hp, if_true, hW]
                    exact h4
                  · simp only [hp, if_false]
                    exact List.nil_prefix
                · by_cases hp : p = tp0
                  · simp only [hp, if_true, hW]
                    exact h5 s' hs'
                  · simp only [hp, if_false, hO p hp]
        · rw [if_neg hty]
          exact stay _ rfl (fun _ h => by cases h)

/-- A run of the loop over the element segments, failed or not: an initial part of the
element stores of the segments has been made, in declaration order; it holds every store of
every initial run of segments that the loop processed without failing, and every store when
the loop returns. -/
theorem copyTableSegments_writes (host : Host) (inst : ModuleInstance)
    (segs : List TableSegment) (s : RuntimeState) :
    ∃ writes : Ptr → List (Nat × Option Ptr),
      WritesElements s (copyTableSegments host inst segs s).state writes ∧
      (∀ p, writes p <+: segs.flatMap (tableSegmentWrites s inst p)) ∧
      (∀ s', copyTableSegments host inst segs s = .ok () s' →
        ∀ p, writes p = segs.flatMap (tableSegmentWrites s inst p)) ∧
      (∀ pre s1, pre <+: segs → copyTableSegments host inst pre s = .ok () s1 →
        ∀ p, pre.flatMap (tableSegmentWrites s inst p) <+: writes p) := by
  induction segs generalizing s with
  | nil =>
    refine ⟨fun _ => [], WritesElements.elementsRefl s, fun _ => List.nil_prefix, fun _ _ _ => rfl,
      fun pre s1 hpre _ p => ?_⟩
    rw [List.prefix_nil.1 hpre]
    exact List.nil_prefix
  | cons d rest ih =>
    obtain ⟨w1, a1, a2, a3⟩ := copyTableSegment_writes host inst d s
    have hstep : copyTableSegments host inst (d :: rest) s
        = (copyTableSegment host inst d s).bind fun _ s =>
            copyTableSegments host inst rest s := rfl
    cases hx : copyTableSegment host inst d s with
    | throw e s1 =>
      rw [hx] at a1
      have hst : (copyTableSegments host inst (d :: rest) s).state = s1 := by
        rw [hstep, hx]
        rfl
      refine ⟨w1, by rw [hst]; exact a1, fun p => ?_, fun s' hs' => ?_,
        fun pre s1' hpre hok p => ?_⟩
      · rw [List.flatMap_cons]
        exact (a2 p).trans (List.prefix_append _ _)
      · rw [hstep, hx] at hs'
        cases hs'
      · cases pre with
        | nil => exact List.nil_prefix
        | cons d' pre' =>
          have hd : d' = d := (List.cons_prefix_cons.1 hpre).1
          subst hd
          have : copyTableSegments host inst (d' :: pre') s
              = (copyTableSegment host inst d' s).bind fun _ s =>
                  copyTableSegments host inst pre' s := rfl
          rw [this, hx] at hok
          cases hok
    | ok u s1 =>
      rw [hx] at a1
      have hw1 := a3 s1 hx
      obtain ⟨w2, b1, b2, b3, b4⟩ := ih s1
      have hg := a1.elementsGlobal
      have hcongr : ∀ p (l : List TableSegment), l.flatMap (tableSegmentWrites s1 inst p)
          = l.flatMap (tableSegmentWrites s inst p) := by
        intro p l
        induction l with
        | nil => rfl
        | cons x t iht =>
          rw [List.flatMap_cons, List.flatMap_cons, iht,
            tableSegmentWrites_congr s s1 inst p x hg]
      have hst : copyTableSegments host inst (d :: rest) s
          = copyTableSegments host inst rest s1 := by
        rw [hstep, hx]
        rfl
      refine ⟨fun p => w1 p ++ w2 p, by rw [hst]; exact a1.elementsTrans b1, fun p => ?_,
        fun s' hs' p => ?_, fun pre s1' hpre hok p => ?_⟩
      · beta_reduce
        rw [List.flatMap_cons, hw1 p]
        exact (List.prefix_append_right_inj _).2 (hcongr p rest ▸ b2 p)
      · rw [hst] at hs'
        beta_reduce
        rw [List.flatMap_cons, hw1 p, b3 s' hs' p, hcongr]
      · cases pre with
        | nil => exact List.nil_prefix
        | cons d' pre' =>
          obtain ⟨hd, hpre'⟩ := List.cons_prefix_cons.1 hpre
          subst hd
          have : copyTableSegments host inst (d' :: pre') s
              = (copyTableSegment host inst d' s).bind fun _ s =>
                  copyTableSegments host inst pre' s := rfl
          rw [this, hx] at hok
          have hok' : copyTableSegments host inst pre' s1 = .ok () s1' := hok
          beta_reduce
          rw [List.flatMap_cons, hw1 p]
          exact (List.prefix_append_right_inj _).2 (hcongr p pre' ▸ b4 pre' s1' hpre' hok' p)

/-! ## The stores that a failed instantiation leaves -/

theorem Frame.getTableKept {mi : Ptr} {b : Bool} {s s' : RuntimeState}
    (h : Frame mi b false s s') {p : Ptr} {t : TableInstance} (hp : s.getTable p = some t) :
    s'.getTable p = some t := by
  obtain ⟨n, hn⟩ := getTable_eq.1 hp
  obtain ⟨⟨n', d'⟩, g1, _, g3⟩ := h.1 p _ hn
  cases d' with
  | table t' =>
    have e : t' = t := by
      cases t'
      cases t
      simpa [ObjectData.frozen] using g3
    subst e
    exact getTable_eq.2 ⟨n', g1⟩
  | moduleInstance x =>
    simp only [ObjectData.frozen] at g3
    split at g3 <;> cases g3
  | _ => simp [ObjectData.frozen] at g3

theorem registeredState_getTable (s : RuntimeState) (c : Ptr) (imports : ImportBindings)
    (name : String) (modules : List Ptr) (p : Ptr) (t : TableInstance)
    (h : s.getTable p = some t) :
    (registeredState s c imports name modules).getTable p = some t := by
  obtain ⟨n, hn⟩ := getTable_eq.1 h
  obtain ⟨⟨n0, d0⟩, h1, _, h3⟩ := registeredState_old s c imports name modules p _ hn
  rcases h3 with h3 | ⟨x, hx, _⟩
  · simp only at h3
    subst h3
    exact getTable_eq.2 ⟨n0, h1⟩
  · cases hx

/-- The phases from the active data segments on, when they fail: the memories hold an initial
part of the byte stores of the data segments, the tables an initial part of the element
stores of the element segments (none when the data segments fail), and no store of a segment
processed before the failure is missing. -/
theorem instantiateSegments_failure (host : Host) (mi : Ptr) (module : Module)
    (inst : ModuleInstance) (s9 sf : RuntimeState) (e : Exception) (hs : Sync s9 mi inst)
    (h : instantiateSegments host mi module inst s9 = .throw e sf) :
    (∀ p m, s9.getMemory p = some m → ∃ writes,
      sf.getMemory p = some { m with bytes := applyByteWrites m.bytes writes } ∧
      writes <+: module.ir.dataSegments.flatMap (dataSegmentWrites s9 inst p) ∧
      ∀ pre s1, pre <+: module.ir.dataSegments → copyDataSegments inst pre s9 = .ok () s1 →
        pre.flatMap (dataSegmentWrites s9 inst p) <+: writes) ∧
    (∀ p t, s9.getTable p = some t → ∃ writes,
      sf.getTable p = some { t with elements := applyElementWrites t.elements writes } ∧
      writes <+: module.ir.tableSegments.flatMap (tableSegmentWrites s9 inst p) ∧
      ((∀ s1, copyDataSegments inst module.ir.dataSegments s9 ≠ .ok () s1) → writes = []) ∧
      ∀ pre s1 s2, copyDataSegments inst module.ir.dataSegments s9 = .ok () s1 →
        pre <+: module.ir.tableSegments → copyTableSegments host inst pre s1 = .ok () s2 →
        pre.flatMap (tableSegmentWrites s9 inst p) <+: writes) := by
  unfold instantiateSegments at h
  obtain ⟨w, W, wp, wall, wincl⟩ := copyDataSegments_writes inst module.ir.dataSegments s9
  cases hd : copyDataSegments inst module.ir.dataSegments s9 with
  | throw e1 s1 =>
    rw [hd] at h W
    have h' : (Outcome.throw e1 s1 : Outcome ModuleInstance) = .throw e sf := h
    cases h'
    have W : WritesBytes s9 sf w := W
    refine ⟨fun p m hm => ⟨w p, W.2 p m hm, wp p, fun pre s1 hpre hok => wincl pre s1 hpre hok p⟩,
      fun p t ht => ⟨[], ?_, List.nil_prefix, fun _ => rfl, fun pre s1 s2 hd' => ?_⟩⟩
    · rw [W.bytesTable p]
      exact ht
    · cases hd'
  | ok u s10 =>
    rw [hd] at h W
    have W : WritesBytes s9 s10 w := W
    have hw := wall s10 hd
    have h1 : (copyTableSegments host inst module.ir.tableSegments s10).bind (fun _ s =>
        (retainPassiveSegments module.ir mi inst s).bind fun inst s =>
          selectStartFunction host module.ir mi inst s) = .throw e sf := h
    have hs10 : Sync s10 mi inst :=
      (copyDataSegments_spec mi inst inst module.ir.dataSegments s9 hs).2 _ _ hd
    obtain ⟨v, V, vp, vall, vincl⟩ :=
      copyTableSegments_writes host inst module.ir.tableSegments s10
    have tcongr : ∀ p (l : List TableSegment), l.flatMap (tableSegmentWrites s10 inst p)
        = l.flatMap (tableSegmentWrites s9 inst p) := by
      intro p l
      induction l with
      | nil => rfl
      | cons x t iht =>
        rw [List.flatMap_cons, List.flatMap_cons, iht,
          tableSegmentWrites_congr s9 s10 inst p x W.bytesGlobal]
    have hmem10 : ∀ p m, s9.getMemory p = some m → s10.getMemory p
        = some { m with bytes := (applyByteWrites m.bytes
            (module.ir.dataSegments.flatMap (dataSegmentWrites s9 inst p))) } := by
      intro p m hm
      rw [← hw p]
      exact W.2 p m hm
    have htab10 : ∀ p t, s9.getTable p = some t → s10.getTable p = some t := by
      intro p t ht
      have := W.bytesTable p
      rw [this]
      exact ht
    cases ht : copyTableSegments host inst module.ir.tableSegments s10 with
    | throw e2 s2 =>
      rw [ht] at h1 V
      have h' : (Outcome.throw e2 s2 : Outcome ModuleInstance) = .throw e sf := h1
      cases h'
      have V : WritesElements s10 sf v := V
      refine ⟨fun p m hm => ⟨_, ?_, List.prefix_refl _, fun pre s1 hpre hok => ?_⟩,
        fun p t htp => ⟨v p, V.2 p t (htab10 p t htp), ?_, fun hno => absurd rfl (hno s10),
          fun pre s1 s2 hd' hpre hok => ?_⟩⟩
      · rw [V.elementsMemory p]
        exact hmem10 p m hm
      · rw [← hw p]
        exact wincl pre s1 hpre hok p
      · rw [← tcongr]
        exact vp p
      · cases hd'
        rw [← tcongr]
        exact vincl pre s2 hpre hok p
    | ok u2 s11 =>
      rw [ht] at h1 V
      have V : WritesElements s10 s11 v := V
      have hv := vall s11 ht
      have hs11 : Sync s11 mi inst :=
        (copyTableSegments_spec host mi inst inst module.ir.tableSegments s10 hs10).2 _ _ ht
      have h2 : (retainPassiveSegments module.ir mi inst s11).bind (fun inst s =>
          selectStartFunction host module.ir mi inst s) = .throw e sf := h1
      have F : Frame mi false false s11 sf := by
        have := (retainPassiveSegments_spec module.ir mi inst s11 hs11).frame_bind
          (fun inst s => selectStartFunction host module.ir mi inst s)
          (fun i s _ hsi => (selectStartFunction_spec host module.ir mi i s hsi).frame)
        rw [h2] at this
        exact this
      refine ⟨fun p m hm => ⟨_, ?_, List.prefix_refl _, fun pre s1 hpre hok => ?_⟩,
        fun p t htp => ⟨_, ?_, List.prefix_refl _, fun hno => absurd rfl (hno s10),
          fun pre s1 s2 hd' hpre hok => ?_⟩⟩
      · apply F.getMemory
        rw [V.elementsMemory p]
        exact hmem10 p m hm
      · rw [← hw p]
        exact wincl pre s1 hpre hok p
      · apply F.getTableKept
        have := V.2 p t (htab10 p t htp)
        rw [hv p, tcongr] at this
        exact this
      · cases hd'
        rw [← tcongr p pre, ← tcongr p module.ir.tableSegments, ← hv p]
        exact vincl pre s2 hpre hok p

/-- C8, amended: when a call of `instantiateModule` on a compartment fails, the `modules` of
the compartment are the ones before the call together with the failed instance.  When the
call fails before it reaches the data segments, every memory and every table that existed
before the call is as it was.  When it fails later, every memory that existed before the
call is as it was except for its bytes, which are the bytes before the call with an initial
part of the byte stores of the module's active data segments applied, in the order of the
segments; every table that existed before the call is as it was except for its elements,
which are the elements before the call with an initial part of the element stores of the
module's active element segments applied, none of them when the data segments fail; and
these initial parts hold all stores of the segments that were processed before the failing
one: what they wrote stays written. -/
theorem instantiateModule_failure_visible (host : Host) (s : RuntimeState) (c : Ptr)
    (module : Module) (imports : ImportBindings) (name : String) (e : Exception)
    (sf : RuntimeState) (h : instantiateModule host s c module imports name = .throw e sf)
    (comp : Compartment) (hc : s.getCompartment c = some comp) :
    (∃ comp', sf.getCompartment c = some comp' ∧
      ∀ y, y ∈ comp'.modules ↔ y ∈ comp.modules ∨ y = s.fresh) ∧
    ((∀ modules inst s9, setAdd s.fresh comp.modules = some modules →
        instantiateDefinitions host c s.fresh module (newModuleInstance c imports name)
          (registeredState s c imports name modules) ≠ .ok inst s9) →
      (∀ p m, s.getMemory p = some m → sf.getMemory p = some m) ∧
      (∀ p t, s.getTable p = some t → sf.getTable p = some t)) ∧
    (∀ modules inst s9, setAdd s.fresh comp.modules = some modules →
      instantiateDefinitions host c s.fresh module (newModuleInstance c imports name)
        (registeredState s c imports name modules) = .ok inst s9 →
      (∀ p m, s.getMemory p = some m → ∃ writes,
        sf.getMemory p = some { m with bytes := applyByteWrites m.bytes writes } ∧
        writes <+: module.ir.dataSegments.flatMap (dataSegmentWrites s9 inst p) ∧
        ∀ pre s1, pre <+: module.ir.dataSegments → copyDataSegments inst pre s9 = .ok () s1 →
          pre.flatMap (dataSegmentWrites s9 inst p) <+: writes) ∧
      (∀ p t, s.getTable p = some t → ∃ writes,
        sf.getTable p = some { t with elements := applyElementWrites t.elements writes } ∧
        writes <+: module.ir.tableSegments.flatMap (tableSegmentWrites s9 inst p) ∧
        ((∀ s1, copyDataSegments inst module.ir.dataSegments s9 ≠ .ok () s1) → writes = []) ∧
        ∀ pre s1 s2, copyDataSegments inst module.ir.dataSegments s9 = .ok () s1 →
          pre <+: module.ir.tableSegments → copyTableSegments host inst pre s1 = .ok () s2 →
          pre.flatMap (tableSegmentWrites s9 inst p) <+: writes)) := by
  cases hm : setAdd s.fresh comp.modules with
  | none =>
    unfold instantiateModule at h
    rw [hc] at h
    simp only [hm] at h
    cases h
    have hin : s.fresh ∈ comp.modules := by
      unfold setAdd at hm
      by_contra hn
      simp [hn] at hm
    obtain ⟨n, hn⟩ := getCompartment_eq hc
    refine ⟨⟨comp, getCompartment_iff.2 ⟨n, get_construct_of_get s _ c _ hn⟩, fun y =>
      ⟨Or.inl, fun hy => hy.elim id (fun e => e ▸ hin)⟩⟩,
      fun _ => ⟨fun p m hp => ?_, fun p t hp => ?_⟩, fun modules inst s9 hm' => by cases hm'⟩
    · obtain ⟨k, hk⟩ := getMemory_eq.1 hp
      exact getMemory_eq.2 ⟨k, get_construct_of_get s _ p _ hk⟩
    · obtain ⟨k, hk⟩ := getTable_eq.1 hp
      exact getTable_eq.2 ⟨k, get_construct_of_get s _ p _ hk⟩
  | some modules =>
    rw [instantiateModule_eq host s c module imports name comp modules hc hm] at h
    have hs := registeredState_sync s c imports name modules comp hc
    have hfr := instantiatePhases_frame host c s.fresh module
      (newModuleInstance c imports name) (registeredState s c imports name modules) hs
    have hph : instantiatePhases host c s.fresh module (newModuleInstance c imports name)
        (registeredState s c imports name modules) = .throw e sf := by
      rcases Outcome.bind_eq_throw.1 h with h1 | ⟨a, s1, _, h2⟩
      · exact h1
      · cases h2
    rw [hph] at hfr
    have hfr : Frame s.fresh (hasActiveData module.ir.dataSegments)
        (hasActiveElements module.ir.tableSegments)
        (registeredState s c imports name modules) sf := hfr
    have hmod : modules = comp.modules ++ [s.fresh] := by
      unfold setAdd at hm
      by_cases hin : s.fresh ∈ comp.modules
      · simp [hin] at hm
      · simp only [hin, if_false, Option.some.injEq] at hm
        exact hm.symm
    have hdf := instantiateDefinitions_frame host c s.fresh module
      (newModuleInstance c imports name) (registeredState s c imports name modules) hs
    unfold instantiatePhases at hph
    refine ⟨?_, ?_, ?_⟩
    · obtain ⟨comp', g1, g2, _⟩ :=
        hfr.getCompartment (registeredState_getCompartment s c imports name modules comp hc)
      refine ⟨comp', g1, fun y => ?_⟩
      rw [g2]
      simp only [hmod, List.mem_append, List.mem_singleton]
    · intro hno
      cases hdef : instantiateDefinitions host c s.fresh module
          (newModuleInstance c imports name) (registeredState s c imports name modules) with
      | ok inst s9 => exact absurd hdef (hno modules inst s9 rfl)
      | throw e1 s1 =>
        rw [hdef] at hph hdf
        have h' : (Outcome.throw e1 s1 : Outcome ModuleInstance) = .throw e sf := hph
        cases h'
        have hdf : Frame s.fresh false false (registeredState s c imports name modules) sf := hdf
        exact ⟨fun p m hp => hdf.getMemory (registeredState_getMemory s c imports name modules
            p m hp),
          fun p t hp => hdf.getTableKept (registeredState_getTable s c imports name modules p t hp)⟩
    · intro modules' inst s9 hm' hdef
      cases hm'
      rw [hdef] at hph hdf
      have hdf : Frame s.fresh false false (registeredState s c imports name modules) s9 := hdf
      have hs9 := instantiateDefinitions_sync host c s.fresh module _ inst _ s9 hs hdef
      have hseg : instantiateSegments host s.fresh module inst s9 = .throw e sf := hph
      obtain ⟨hmemory, htable⟩ :=
        instantiateSegments_failure host s.fresh module inst s9 sf e hs9 hseg
      exact ⟨fun p m hp => hmemory p m
          (hdf.getMemory (registeredState_getMemory s c imports name modules p m hp)),
        fun p t hp => htable p t
          (hdf.getTableKept (registeredState_getTable s c imports name modules p t hp))⟩

theorem instantiateModule_failure_visible_witness :
    instantiateModule demoHost heapM 1 moduleE importsE "e"
        = .throw (.outOfBoundsMemoryAccess 3 65537) heapMFailed ∧
      heapM.getCompartment 1
        = some { modules := [2], memories := [(0, 3)], wavmIntrinsics := some 2 } ∧
      heapM.getMemory 3 = some memoryM ∧
      (∃ comp', heapMFailed.getCompartment 1 = some comp' ∧
        ∀ y, y ∈ comp'.modules ↔ y ∈ [2] ∨ y = 4) ∧
      (∃ writes, heapMFailed.getMemory 3
          = some { memoryM with bytes := applyByteWrites memoryM.bytes writes } ∧
        writes <+: [(0, 42)] ∧ [(0, 42)] <+: writes) ∧
      instantiateModule demoHost heapM 1 moduleE {} "e" = .throw .linkError heapMUnlinked ∧
      heapMUnlinked.getMemory 3 = some memoryM ∧
      instantiateModule demoHost heapT 1 moduleD importsD "d"
        = .throw (.outOfBoundsTableAccess 3 5) heapTFailed ∧
      heapT.getCompartment 1
        = some { modules := [2], tables := [(0, 3)], wavmIntrinsics := some 2 } ∧
      heapT.getTable 3 = some tableT ∧
      (∃ writes, heapTFailed.getTable 3
          = some { tableT with elements := applyElementWrites tableT.elements writes } ∧
        writes <+: [(0, some 5)] ∧ [(0, some 5)] <+: writes) := by
  have hE := instantiateModule_failure_visible demoHost heapM 1 moduleE importsE "e"
    (.outOfBoundsMemoryAccess 3 65537) heapMFailed rfl
    { modules := [2], memories := [(0, 3)], wavmIntrinsics := some 2 } rfl
  have hU := instantiateModule_failure_visible demoHost heapM 1 moduleE {} "e"
    .linkError heapMUnlinked rfl
    { modules := [2], memories := [(0, 3)], wavmIntrinsics := some 2 } rfl
  have hD := instantiateModule_failure_visible demoHost heapT 1 moduleD importsD "d"
    (.outOfBoundsTableAccess 3 5) heapTFailed rfl
    { modules := [2], tables := [(0, 3)], wavmIntrinsics := some 2 } rfl
  obtain ⟨w, h1, h2, h3⟩ := (hE.2.2 [2, 4] instE heapEDefined rfl rfl).1 3 memoryM rfl
  have hflat : moduleE.ir.dataSegments.flatMap (dataSegmentWrites heapEDefined instE 3)
      = [(0, 42)] := by decide
  have hfirst : (moduleE.ir.dataSegments.take 1).flatMap
      (dataSegmentWrites heapEDefined instE 3) = [(0, 42)] := by decide
  have hrun : copyDataSegments instE (moduleE.ir.dataSegments.take 1) heapEDefined
      = .ok () (copyDataSegments instE (moduleE.ir.dataSegments.take 1) heapEDefined).state :=
    rfl
  have hincl := h3 _ _ (List.take_prefix 1 _) hrun
  rw [hfirst] at hincl
  obtain ⟨v, t1, t2, _, t4⟩ := (hD.2.2 [2, 4] instD heapDDefined rfl rfl).2 3 tableT rfl
  have tflat : moduleD.ir.tableSegments.flatMap (tableSegmentWrites heapDDefined instD 3)
      = [(0, some 5)] := by decide
  have tfirst : (moduleD.ir.tableSegments.take 1).flatMap
      (tableSegmentWrites heapDDefined instD 3) = [(0, some 5)] := by decide
  have trun : copyTableSegments demoHost instD (moduleD.ir.tableSegments.take 1) heapDDefined
      = .ok () (copyTableSegments demoHost instD (moduleD.ir.tableSegments.take 1)
          heapDDefined).state := rfl
  have tincl := t4 _ heapDDefined _ rfl (List.take_prefix 1 _) trun
  rw [tfirst] at tincl
  refine ⟨rfl, rfl, rfl, hE.1, ⟨w, h1, hflat ▸ h2, hincl⟩, rfl, ?_, rfl, rfl, rfl,
    ⟨v, t1, tflat ▸ t2, tincl⟩⟩
  refine (hU.2.1 (fun modules inst s9 hm hdef => ?_)).1 3 memoryM rfl
  cases hm
  have hthrow : instantiateDefinitions demoHost 1 heapM.fresh moduleE
      (newModuleInstance 1 {} "e") (registeredState heapM 1 {} "e" ([2] ++ [heapM.fresh]))
      = .throw .linkError (instantiateDefinitions demoHost 1 heapM.fresh moduleE
        (newModuleInstance 1 {} "e")
        (registeredState heapM 1 {} "e" ([2] ++ [heapM.fresh]))).state := rfl
  rw [hthrow] at hdef
  cases hdef

/-! ## The heaps of the runtime index every module instance under its own compartment -/

/-- The empty heap has no compartment. -/
theorem modulesIndexed_empty : ModulesIndexed { objects := [] } := by
  intro c comp hc
  cases hc

/-- An extension of the heap keeps the index `modules` exact: it adds no compartment, keeps
the `modules` of every compartment and the compartment of every instance. -/
theorem Frame.modulesIndexed {mi : Ptr} {b e : Bool} {s s' : RuntimeState}
    (h : Frame mi b e s s') (hi : ModulesIndexed s) : ModulesIndexed s' := by
  intro c comp' hc' m hm
  obtain ⟨n', hn'⟩ := getCompartment_eq hc'
  cases hsc : s.get c with
  | none => exact absurd rfl ((h.2 c _ hn' hsc).2 comp')
  | some obj =>
    obtain ⟨obj', g1, _, g3⟩ := h.get_frozen hsc
    rw [hn'] at g1
    cases g1
    obtain ⟨n, d⟩ := obj
    cases d with
    | compartment comp =>
      simp only [ObjectData.frozen, ObjectData.compartment.injEq, Compartment.mk.injEq] at g3
      have hcomp : s.getCompartment c = some comp := getCompartment_iff.2 ⟨n, hsc⟩
      have hm' : m ∈ comp.modules := by
        rw [← g3.1]
        exact hm
      obtain ⟨inst, hinst, hcm⟩ := hi c comp hcomp m hm'
      obtain ⟨k, hk⟩ := getModuleInstance_eq.1 hinst
      obtain ⟨⟨k2, d2⟩, e1, _, e3⟩ := h.get_frozen hk
      cases d2 with
      | moduleInstance i2 =>
        simp only [ObjectData.frozen, if_true, ObjectData.moduleInstance.injEq,
          ModuleInstance.mk.injEq] at e3
        exact ⟨i2, getModuleInstance_eq.2 ⟨k2, e1⟩, by rw [e3.1]; exact hcm⟩
      | _ => simp [ObjectData.frozen] at e3
    | _ => simp [ObjectData.frozen] at g3

/-- The creation of an object that is no compartment keeps the index `modules` exact. -/
theorem construct_modulesIndexed (s : RuntimeState) (d : ObjectData)
    (hd : ∀ x, d ≠ .compartment x) (hi : ModulesIndexed s) : ModulesIndexed (s.construct d).2 :=
  (Frame.frameConstruct 0 false false s d hd).modulesIndexed hi

theorem registeredState_getModuleInstance (s : RuntimeState) (c : Ptr)
    (imports : ImportBindings) (name : String) (modules : List Ptr) (p : Ptr)
    (inst : ModuleInstance) (h : s.getModuleInstance p = some inst) :
    (registeredState s c imports name modules).getModuleInstance p = some inst := by
  obtain ⟨n, hn⟩ := getModuleInstance_eq.1 h
  obtain ⟨⟨n0, d0⟩, h1, _, h3⟩ := registeredState_old s c imports name modules p _ hn
  rcases h3 with h3 | ⟨x, hx, _⟩
  · simp only at h3
    subst h3
    exact getModuleInstance_eq.2 ⟨n0, h1⟩
  · cases hx

/-- The registration of the new instance (`compartment->modules.addOrFail(moduleInstance)`)
stores an instance of the compartment in the `modules` of that compartment. -/
theorem registeredState_modulesIndexed (s : RuntimeState) (c : Ptr) (imports : ImportBindings)
    (name : String) (comp : Compartment) (hc : s.getCompartment c = some comp)
    (hi : ModulesIndexed s) :
    ModulesIndexed (registeredState s c imports name (comp.modules ++ [s.fresh])) := by
  intro c' comp' hc' m hm
  by_cases hcc : c' = c
  · subst hcc
    rw [registeredState_getCompartment s c' imports name _ comp hc] at hc'
    cases hc'
    rcases List.mem_append.1 hm with h1 | h1
    · obtain ⟨inst, hinst, hcm⟩ := hi c' comp hc m h1
      exact ⟨inst, registeredState_getModuleInstance s c' imports name _ m inst hinst, hcm⟩
    · have : m = s.fresh := by simpa using h1
      subst this
      exact ⟨newModuleInstance c' imports name,
        getModuleInstance_eq.2 (registeredState_sync s c' imports name _ comp hc), rfl⟩
  · unfold registeredState at hc'
    rw [getCompartment_modifyCompartment, if_neg hcc] at hc'
    obtain ⟨n, hn⟩ := getCompartment_eq hc'
    rw [get_construct] at hn
    by_cases hf : c' = s.fresh
    · rw [if_pos hf] at hn
      cases hn
    · rw [if_neg hf] at hn
      obtain ⟨inst, hinst, hcm⟩ := hi c' comp' (getCompartment_iff.2 ⟨n, hn⟩) m hm
      exact ⟨inst, registeredState_getModuleInstance s c imports name _ m inst hinst, hcm⟩

/-- The function `instantiateModule`, failed or not, keeps the index `modules` exact: the
instance that it stores in the `modules` of the compartment is an instance of that
compartment. -/
theorem instantiateModule_modulesIndexed (host : Host) (s : RuntimeState) (c : Ptr)
    (module : Module) (imports : ImportBindings) (name : String) (hi : ModulesIndexed s) :
    ModulesIndexed (instantiateModule host s c module imports name).state := by
  have hnew : ModulesIndexed
      (s.construct (.moduleInstance (newModuleInstance c imports name))).2 :=
    construct_modulesIndexed s _ (fun _ hx => by cases hx) hi
  cases hc : s.getCompartment c with
  | none =>
    unfold instantiateModule
    rw [hc]
    exact hnew
  | some comp =>
    cases hm : setAdd s.fresh comp.modules with
    | none =>
      unfold instantiateModule
      rw [hc]
      simp only [hm]
      exact hnew
    | some modules =>
      rw [instantiateModule_eq host s c module imports name comp modules hc hm]
      have hmod : modules = comp.modules ++ [s.fresh] := by
        unfold setAdd at hm
        by_cases hin : s.fresh ∈ comp.modules
        · simp [hin] at hm
        · simp only [hin, if_false, Option.some.injEq] at hm
          exact hm.symm
      subst hmod
      have hfr := (instantiatePhases_frame host c s.fresh module
        (newModuleInstance c imports name) (registeredState s c imports name _)
        (registeredState_sync s c imports name _ comp hc)).modulesIndexed
        (registeredState_modulesIndexed s c imports name comp hc hi)
      cases hp : instantiatePhases host c s.fresh module (newModuleInstance c imports name)
          (registeredState s c imports name (comp.modules ++ [s.fresh])) with
      | ok a s1 =>
        rw [hp] at hfr
        exact hfr
      | throw e s1 =>
        rw [hp] at hfr
        exact hfr

theorem get_rootCounter (s : RuntimeState) (p q : Ptr) (f : Nat → Nat) :
    RuntimeState.get (RuntimeState.mk (assocModify p
        (fun o => { o with numRootReferences := f o.numRootReferences }) s.objects)) q
      = (s.get q).map fun o =>
          { o with numRootReferences := if q = p then f o.numRootReferences
                                        else o.numRootReferences } := by
  unfold RuntimeState.get
  rw [assocGet_modify]
  by_cases h : q = p
  · simp only [h, if_true]
  · simp only [h, if_false]
    cases assocGet q s.objects <;> rfl

theorem modulesIndexed_rootCounter (s : RuntimeState) (p : Ptr) (f : Nat → Nat)
    (hi : ModulesIndexed s) :
    ModulesIndexed (RuntimeState.mk (assocModify p
      (fun o => { o with numRootReferences := f o.numRootReferences }) s.objects)) := by
  intro c comp hc m hm
  obtain ⟨n, hn⟩ := getCompartment_eq hc
  rw [get_rootCounter] at hn
  cases hsc : s.get c with
  | none =>
    rw [hsc] at hn
    cases hn
  | some obj =>
    rw [hsc] at hn
    obtain ⟨k, d⟩ := obj
    simp only [Option.map_some', Option.some.injEq, ObjectImpl.mk.injEq] at hn
    obtain ⟨_, hd⟩ := hn
    subst hd
    obtain ⟨inst, hinst, hcm⟩ := hi c comp (getCompartment_iff.2 ⟨k, hsc⟩) m hm
    obtain ⟨j, hj⟩ := getModuleInstance_eq.1 hinst
    exact ⟨inst, getModuleInstance_eq.2 ⟨_, by rw [get_rootCounter, hj]; rfl⟩, hcm⟩

/-- The function `addGCRoot` keeps the index `modules` exact. -/
theorem addGCRoot_modulesIndexed (s : RuntimeState) (object : Ptr) (hi : ModulesIndexed s) :
    ModulesIndexed (addGCRoot s object) :=
  modulesIndexed_rootCounter s object (fun n => (n + 1) % 2 ^ 64) hi

/-- The function `removeGCRoot` keeps the index `modules` exact. -/
theorem removeGCRoot_modulesIndexed (s : RuntimeState) (object : Ptr)
    (hi : ModulesIndexed s) : ModulesIndexed (removeGCRoot s object) :=
  modulesIndexed_rootCounter s object (fun n => (n + 2 ^ 64 - 1) % 2 ^ 64) hi

end Wavix
